import Mathlib

/-!
# Multiresolution metric index: objects, Haar transform, distance and paged store

A shallow embedding of `complex_object.{h,cpp}`, `distance_calculator.h`, of the
distance function, the paged writer and reader, the range search and the query loop of
`sequential_scan.cpp`, and of the text loader `VectorFileReader.{hpp,cpp}`.

Modelling conventions.

* A `double` data value is a rational number: the arithmetic of the Haar transform and
  of the distance is exact. The range of a `double` decides a branch in one place, the
  guard on `pow(2.0, resolution)` of the distance functions; `pow2` models it.
* A byte is a natural number below 256; a buffer is a list of bytes. The eight bytes of a
  `double` are given by a `DoubleRep`, a parameter of the serialization functions.
* `size_t` is 64 bits wide and `int` 32 bits wide. Arithmetic on `size_t` values decoded
  from a byte buffer wraps modulo `2^64`; sizes of objects that exist in memory do not
  wrap. Arithmetic on `int` resolutions is exact.
* A C++ exception is an `Except.error`, one constructor of `Error` for each `throw`. An
  access outside a vector or buffer, undefined in C++, is the error `Error.outOfBounds`.
* Allocation never fails, and files are read and written without I/O errors.
* A text file is a list of lines, a line a list of bytes; extraction from a
  `std::stringstream` is modelled with its `eofbit` and `failbit`.
* Where a statement is about the objects that a call leaves behind, the objects are held
  in a memory, a list in which an address is a position.
-/

namespace MetricIndex

/-- Failures of the embedded code: one constructor for each `throw` of the source, and
`outOfBounds` for an access the source performs without a check outside a vector. -/
inductive Error where
  | insufficientFixed
  | insufficientVariable
  | insufficientDataVector
  | detailOutOfBounds
  | writeOutOfBounds
  | copyOutOfBounds
  | sizeMismatch
  | resolutionMismatch
  | invalidPower
  | indexLogic
  | lengthError
  | outOfBounds
  deriving DecidableEq, Repr

/-- The class `TComplexObject`: label bytes, resolution, data vector and the cached
serialized buffer (`none` is the null pointer). -/
structure TComplexObject where
  Label : List Nat
  Resolution : Int
  Data : List ℚ
  Serialized : Option (List Nat)
  deriving DecidableEq

namespace TComplexObject

/-- The three-argument constructor: the cache starts empty. -/
def create (label : List Nat) (resolution : Int) (data : List ℚ) : TComplexObject :=
  { Label := label, Resolution := resolution, Data := data, Serialized := none }

/-- The default constructor: resolution 0, empty label, empty data, no cache. -/
def default : TComplexObject := create [] 0 []

/-- `Clone()`: a new object built from label, resolution and data. -/
def Clone (self : TComplexObject) : TComplexObject :=
  create self.Label self.Resolution self.Data

/-- `IsEqual` on a non-null argument: same resolution and same data vector. -/
def IsEqual (self obj : TComplexObject) : Bool :=
  if self.Resolution ≠ obj.Resolution then false else decide (self.Data = obj.Data)

/-- `InvalidateSerializedBuffer()`. -/
def InvalidateSerializedBuffer (self : TComplexObject) : TComplexObject :=
  { self with Serialized := none }

end TComplexObject

/-- Checked read `v[i]`; outside the vector the C++ access is undefined. -/
def readAt (v : List ℚ) (i : Nat) : Except Error ℚ :=
  match v[i]? with
  | some x => .ok x
  | none => .error .outOfBounds

/-- Checked write `v[i] = x`; outside the vector the C++ access is undefined. -/
def writeAt (v : List ℚ) (i : Nat) (x : ℚ) : Except Error (List ℚ) :=
  if i < v.length then .ok (v.set i x) else .error .outOfBounds

/-- The value `static_cast<size_t>(static_cast<double>(n) / pow(2.0, r))` of
`DoCompression` and `DoDecompression`: the integer part of `n / 2^r`. (For a vector size
`n < 2^53` the quotient of doubles is exact wherever it is finite; where it is not, or does
not fit `size_t`, the conversion is undefined, and so are the vector accesses that the
loops of the model then attempt.) -/
def approxSizeAt (n : Nat) (r : Int) : Nat :=
  ⌊(n : ℚ) / (2 : ℚ) ^ r⌋₊

/-- One pass of the first `for` loop of `DoCompression`: averages to `[0, next)`,
half-differences to `[next, 2*next)`. -/
def compressPairs (Data : List ℚ) (nextApproxSize : Nat) (tempBuffer : List ℚ) :
    Except Error (List ℚ) :=
  (List.range nextApproxSize).foldlM
    (fun buf i => do
      let val1 ← readAt Data (2 * i)
      let val2 ← readAt Data (2 * i + 1)
      let buf ← writeAt buf i ((val1 + val2) / 2)
      writeAt buf (i + nextApproxSize) ((val1 - val2) / 2))
    tempBuffer

/-- The copy loop `for (i = start; i < Data.size(); ++i) tempBuffer[i] = Data[i]` of
`DoCompression`. -/
def copyTail (Data : List ℚ) (start : Nat) (tempBuffer : List ℚ) : Except Error (List ℚ) :=
  (List.range' start (Data.length - start)).foldlM
    (fun buf i => do
      let v ← readAt Data i
      writeAt buf i v)
    tempBuffer

/-- The `while (currentLevel < levels)` loop of `DoCompression`; the first argument is
`levels - currentLevel`. After `Data = std::move(tempBuffer)` the buffer is resized to
`Data.size()` zero-initialised elements. -/
def DoCompressionLoop : Nat → TComplexObject → List ℚ → Except Error TComplexObject
  | 0, self, _ => .ok self
  | n + 1, self, tempBuffer =>
    let approxSize := approxSizeAt self.Data.length self.Resolution
    if approxSize ≤ 1 then .ok self
    else if approxSize % 2 ≠ 0 then .ok self
    else do
      let nextApproxSize := approxSize / 2
      let tempBuffer ← compressPairs self.Data nextApproxSize tempBuffer
      let tempBuffer ← copyTail self.Data approxSize tempBuffer
      let self := { self with Resolution := self.Resolution + 1, Data := tempBuffer }
      DoCompressionLoop n self (List.replicate self.Data.length 0)

/-- `DoCompression(levels)`. -/
def DoCompression (self : TComplexObject) (levels : Int) : Except Error TComplexObject :=
  if levels ≤ 0 then .ok self
  else if self.Data.isEmpty then .ok self
  else DoCompressionLoop levels.toNat self (List.replicate self.Data.length 0)

/-- The reconstruction `for` loop of `DoDecompression`, with its two bounds checks. -/
def reconstructPairs (Data : List ℚ) (approxSize : Nat) (tempBuffer : List ℚ) :
    Except Error (List ℚ) :=
  (List.range approxSize).foldlM
    (fun buf i => do
      let approx ← readAt Data i
      if i + approxSize ≥ Data.length then throw Error.detailOutOfBounds
      let detail ← readAt Data (i + approxSize)
      if 2 * i + 1 ≥ buf.length then throw Error.writeOutOfBounds
      let buf ← writeAt buf (2 * i) (approx + detail)
      writeAt buf (2 * i + 1) (approx - detail))
    tempBuffer

/-- The copy loop of `DoDecompression`, with its bounds check. -/
def copyTailChecked (Data : List ℚ) (start : Nat) (tempBuffer : List ℚ) :
    Except Error (List ℚ) :=
  (List.range' start (Data.length - start)).foldlM
    (fun buf i => do
      if i ≥ Data.length ∨ i ≥ buf.length then throw Error.copyOutOfBounds
      let v ← readAt Data i
      writeAt buf i v)
    tempBuffer

/-- The `while (currentLevel < levels && Resolution > 0)` loop of `DoDecompression`; the
first argument is `levels - currentLevel`. -/
def DoDecompressionLoop : Nat → TComplexObject → List ℚ → Except Error TComplexObject
  | 0, self, _ => .ok self
  | n + 1, self, tempBuffer =>
    if ¬ (self.Resolution > 0) then .ok self
    else
      let approxSize := approxSizeAt self.Data.length self.Resolution
      if approxSize = 0 ∧ ¬ self.Data.isEmpty then .ok self
      else if approxSize > self.Data.length / 2 then .ok self
      else do
        let reconstructSize := approxSize * 2
        let tempBuffer ← reconstructPairs self.Data approxSize tempBuffer
        let tempBuffer ← copyTailChecked self.Data reconstructSize tempBuffer
        let self := { self with Resolution := self.Resolution - 1, Data := tempBuffer }
        DoDecompressionLoop n self (List.replicate self.Data.length 0)

/-- `DoDecompression(levels)`. -/
def DoDecompression (self : TComplexObject) (levels : Int) : Except Error TComplexObject :=
  if levels ≤ 0 then .ok self
  else if self.Data.isEmpty ∨ self.Resolution = 0 then .ok self
  else DoDecompressionLoop levels.toNat self (List.replicate self.Data.length 0)

/-- `dataCompression(lvlCompress)`: no-op at 0, otherwise the cache is dropped and the
object is compressed (positive) or decompressed (negative) by `|lvlCompress|` levels. -/
def dataCompression (self : TComplexObject) (lvlCompress : Int) : Except Error TComplexObject :=
  if lvlCompress = 0 then .ok self
  else
    let self := self.InvalidateSerializedBuffer
    if lvlCompress > 0 then DoCompression self lvlCompress
    else DoDecompression self (Int.natAbs lvlCompress)


/-- Closed form of the data vector after one compression step on approximation length
`A`: means on `[0, A/2)`, half-differences on `[A/2, A)`, the rest unchanged. -/
def haarForward (d : List ℚ) (A : Nat) : List ℚ :=
  (List.range d.length).map fun j =>
    if j < A / 2 then (d.getD (2 * j) 0 + d.getD (2 * j + 1) 0) / 2
    else if j < A then (d.getD (2 * (j - A / 2)) 0 - d.getD (2 * (j - A / 2) + 1) 0) / 2
    else d.getD j 0

/-- Closed form of the data vector after one decompression step on approximation length
`A`: sums and differences interleaved on `[0, 2A)`, the rest unchanged. -/
def haarInverse (d : List ℚ) (A : Nat) : List ℚ :=
  (List.range d.length).map fun j =>
    if j < 2 * A then
      (if j % 2 = 0 then d.getD (j / 2) 0 + d.getD (j / 2 + A) 0
       else d.getD (j / 2) 0 - d.getD (j / 2 + A) 0)
    else d.getD j 0

/-- One successful pass of the compression loop as a function on objects. -/
def compressStep (o : TComplexObject) : TComplexObject :=
  { o with Resolution := o.Resolution + 1,
           Data := haarForward o.Data (approxSizeAt o.Data.length o.Resolution) }

/-- One successful pass of the decompression loop as a function on objects. -/
def decompressStep (o : TComplexObject) : TComplexObject :=
  { o with Resolution := o.Resolution - 1,
           Data := haarInverse o.Data (approxSizeAt o.Data.length o.Resolution) }

/-- The value of `pow(2.0, static_cast<double>(r))` on IEEE-754 doubles: `2^r` is a
double exactly when `-1074 ≤ r ≤ 1023`; above that range the result is `+∞` (`none`),
below it the result is `0`. -/
def pow2 (r : Int) : Option ℚ :=
  if 1023 < r then none
  else if r < -1074 then some 0
  else some ((2 : ℚ) ^ r)

/-- The summation loop of `GetDistance2`: vector accesses without a check. -/
def sumOfDiffLoop (data1 data2 : List ℚ) (approxSize : Nat) : Except Error ℚ :=
  (List.range approxSize).foldlM
    (fun sumOfDiff i => do
      let a ← readAt data1 i
      let b ← readAt data2 i
      pure (sumOfDiff + |a - b|))
    0

/-- The summation loop of `calculateComplexObjectDistance`: each index is checked against
both sizes first. -/
def sumOfDiffLoopChecked (data1 data2 : List ℚ) (approxSize : Nat) : Except Error ℚ :=
  (List.range approxSize).foldlM
    (fun sumOfDiff i => do
      if i ≥ data1.length ∨ i ≥ data2.length then throw Error.indexLogic
      let a ← readAt data1 i
      let b ← readAt data2 i
      pure (sumOfDiff + |a - b|))
    0

/-- `TComplexObjectDistanceEvaluator::GetDistance2(obj1, obj2)`. The first argument is the
evaluator's distance counter before the call; the result pairs the returned value (or the
exception) with the counter after the call. -/
def GetDistance2 (distanceCount : Nat) (obj1 obj2 : TComplexObject) :
    Except Error ℚ × Nat :=
  let targetResolution := obj2.Resolution
  let data2_obj := obj2.Data
  let currentResolution := obj1.Resolution
  let data1_ptr : Except Error (List ℚ) :=
    if currentResolution ≠ targetResolution then
      let obj1_temp_clone := obj1.Clone
      if obj1_temp_clone.Data.length ≠ data2_obj.length then .error .sizeMismatch
      else
        let levelsToTransform := targetResolution - currentResolution
        match dataCompression obj1_temp_clone levelsToTransform with
        | .error e => .error e
        | .ok obj1_temp_clone =>
          if obj1_temp_clone.Resolution ≠ targetResolution then .error .resolutionMismatch
          else .ok obj1_temp_clone.Data
    else if obj1.Data.length ≠ data2_obj.length then .error .sizeMismatch
    else .ok obj1.Data
  match data1_ptr with
  | .error e => (.error e, distanceCount)
  | .ok data1 =>
    if data2_obj.isEmpty then (.ok 0, distanceCount + 1)
    else if data1.isEmpty then (.ok 0, distanceCount + 1)
    else
      match pow2 targetResolution with
      | none => (.error .invalidPower, distanceCount)
      | some powerOfTwo =>
        if powerOfTwo ≤ 0 then (.error .invalidPower, distanceCount)
        else
          let powerOfTwo := if powerOfTwo < 1 then 1 else powerOfTwo
          let vectorSize := data2_obj.length
          let approxSize := ⌊(vectorSize : ℚ) / powerOfTwo⌋₊
          let approxSize := min approxSize vectorSize
          if approxSize = 0 ∧ vectorSize > 0 then (.ok 0, distanceCount + 1)
          else
            match sumOfDiffLoop data1 data2_obj approxSize with
            | .error e => (.error e, distanceCount)
            | .ok sumOfDiff => (.ok sumOfDiff, distanceCount + 1)

/-- `TComplexObjectDistanceEvaluator::GetDistance`: delegates to `GetDistance2`. -/
def GetDistance (distanceCount : Nat) (obj1 obj2 : TComplexObject) : Except Error ℚ × Nat :=
  GetDistance2 distanceCount obj1 obj2

/-- `calculateComplexObjectDistance(obj1, obj2, distanceCounter)` of the sequential scan;
the result pairs the returned value (or the exception) with the counter after the call. -/
def calculateComplexObjectDistance (obj1 obj2 : TComplexObject) (distanceCounter : Nat) :
    Except Error ℚ × Nat :=
  let targetResolution := obj2.Resolution
  let data2_obj := obj2.Data
  let currentResolution := obj1.Resolution
  let data1_ptr : Except Error (List ℚ) :=
    if currentResolution ≠ targetResolution then
      let obj1_temp_clone := obj1.Clone
      if obj1_temp_clone.Data.length ≠ data2_obj.length then .error .sizeMismatch
      else
        let levelsToTransform := targetResolution - currentResolution
        match dataCompression obj1_temp_clone levelsToTransform with
        | .error e => .error e
        | .ok obj1_temp_clone =>
          if obj1_temp_clone.Resolution ≠ targetResolution then .error .resolutionMismatch
          else .ok obj1_temp_clone.Data
    else if obj1.Data.length ≠ data2_obj.length then .error .sizeMismatch
    else .ok obj1.Data
  match data1_ptr with
  | .error e => (.error e, distanceCounter)
  | .ok data1 =>
    if data2_obj.isEmpty then (.ok 0, distanceCounter + 1)
    else if data1.isEmpty then (.ok 0, distanceCounter + 1)
    else
      match pow2 targetResolution with
      | none => (.error .invalidPower, distanceCounter)
      | some powerOfTwo =>
        if powerOfTwo ≤ 0 then (.error .invalidPower, distanceCounter)
        else
          let powerOfTwo := if powerOfTwo < 1 then 1 else powerOfTwo
          let vectorSize := data2_obj.length
          let approxSize := ⌊(vectorSize : ℚ) / powerOfTwo⌋₊
          let approxSize := min approxSize vectorSize
          if approxSize = 0 ∧ vectorSize > 0 then (.ok 0, distanceCounter + 1)
          else
            match sumOfDiffLoopChecked data1 data2_obj approxSize with
            | .error e => (.error e, distanceCounter)
            | .ok sumOfDiff => (.ok sumOfDiff, distanceCounter + 1)

/-- The L1 distance of two vectors over their first `A` positions. -/
def l1Upto (a b : List ℚ) (A : Nat) : ℚ :=
  ∑ i ∈ Finset.range A, |a.getD i 0 - b.getD i 0|

/-! ### Objects of the unit test and of the scenarios -/

/-- The object `("s1", 0, [4, 2, 6, 8])` of the Haar scenario. -/
def scenarioS1 : TComplexObject := TComplexObject.create [115, 49] 0 [4, 2, 6, 8]

/-- The object `("a", 0, [1.5, 2.5, 3.5])` of the distance scenarios. -/
def scenarioA : TComplexObject := TComplexObject.create [97] 0 [1.5, 2.5, 3.5]

/-- The object `("c", 0, [1.5, 3.5, 4.5])` of the distance scenarios. -/
def scenarioC : TComplexObject := TComplexObject.create [99] 0 [1.5, 3.5, 4.5]

/-- `objA` of `testDistanceCalculator`: `("A", 1, {1.5, 2.5, 3.5})`. -/
def objA : TComplexObject := TComplexObject.create [65] 1 [1.5, 2.5, 3.5]

/-- `objC` of `testDistanceCalculator`: `("C", 1, {1.5, 3.5, 4.5})`. -/
def objC : TComplexObject := TComplexObject.create [67] 1 [1.5, 3.5, 4.5]

/-- `obj_short` of `testDistanceCalculator`: `("S", 1, {1.0})`. -/
def obj_short : TComplexObject := TComplexObject.create [83] 1 [1]

/-- The object `("q", 0, [0, 0])`. -/
def flatQ : TComplexObject := TComplexObject.create [113] 0 [0, 0]

/-- The object `("o", 1, [0, 1])`: approximation 0 and detail 1 at resolution 1, the
compressed form of `[1, -1]`. -/
def stepO : TComplexObject := TComplexObject.create [111] 1 [0, 1]

/-! ### Serialization -/

/-- The `w` little-endian bytes of the unsigned value `x` (its low `8w` bits). -/
def toBytesLE (w : Nat) (x : Nat) : List Nat :=
  (List.range w).map fun i => x / 256 ^ i % 256

/-- The unsigned value of a little-endian byte sequence. -/
def fromBytesLE (bs : List Nat) : Nat :=
  bs.foldr (fun b acc => b + 256 * acc) 0

/-- The four bytes of an `int` (two's complement). -/
def encodeInt (r : Int) : List Nat :=
  toBytesLE 4 (r % 2 ^ 32).toNat

/-- The `int` held by four bytes (two's complement). -/
def decodeInt (bs : List Nat) : Int :=
  if fromBytesLE bs < 2 ^ 31 then (fromBytesLE bs : Int) else (fromBytesLE bs : Int) - 2 ^ 32

/-- The object representation of a `double`: the 64-bit pattern of a value and the value
of a pattern. The format is the platform's (IEEE-754 binary64 in the file format of the
specification); it is a parameter of the serialization functions. -/
structure DoubleRep where
  toBits : ℚ → Nat
  ofBits : Nat → ℚ

/-- A value is a `double` of the representation when it has a 64-bit pattern that
determines it. -/
def DoubleRep.Representable (rep : DoubleRep) (x : ℚ) : Prop :=
  rep.toBits x < 2 ^ 64 ∧ rep.ofBits (rep.toBits x) = x

/-- The bytes of a vector of doubles, eight per element. -/
def encodeDoubles (rep : DoubleRep) (data : List ℚ) : List Nat :=
  data.flatMap fun x => toBytesLE 8 (rep.toBits x)

/-- The doubles held by a byte sequence, eight bytes per element. -/
def decodeDoubles (rep : DoubleRep) : Nat → List Nat → List ℚ
  | 0, _ => []
  | n + 1, bytes => rep.ofBits (fromBytesLE (bytes.take 8)) :: decodeDoubles rep n (bytes.drop 8)

/-- `memcpy` out of a buffer: the `n` bytes at offset `off`, if they lie inside the
buffer; reading past its end is undefined. -/
def readBytes (buf : List Nat) (off n : Nat) : Option (List Nat) :=
  if off + n ≤ buf.length then some ((buf.drop off).take n) else none

/-- `memcpy(dst + pos, src, n)`. -/
def memcpyAt (dst : List Nat) (pos : Nat) (src : List Nat) (n : Nat) : List Nat :=
  dst.take pos ++ src.take n ++ dst.drop (pos + n)

namespace TComplexObject

/-- `GetSerializedSize()`, with `sizeof(int) = 4`, `sizeof(size_t) = 8` and
`sizeof(double) = 8`. -/
def GetSerializedSize (self : TComplexObject) : Nat :=
  4 + (8 * 2) + self.Label.length + (self.Data.length * 8)

/-- The buffer that `Serialize()` fills when there is no cached one: resolution, data
size, label length, label bytes, data elements. -/
def serializedBytes (rep : DoubleRep) (self : TComplexObject) : List Nat :=
  encodeInt self.Resolution ++ toBytesLE 8 self.Data.length ++ toBytesLE 8 self.Label.length
    ++ self.Label ++ encodeDoubles rep self.Data

/-- `Serialize()`: returns the cached buffer, filling it first when it is null. The
result is the object after the call and the returned buffer. -/
def Serialize (rep : DoubleRep) (self : TComplexObject) : TComplexObject × List Nat :=
  match self.Serialized with
  | some buf => (self, buf)
  | none =>
    let buf := serializedBytes rep self
    ({ self with Serialized := some buf }, buf)

/-- `std::vector::resize(n)`: keeps the first `n` elements and pads with zeros. -/
def resizeData (data : List ℚ) (n : Nat) : List ℚ :=
  data.take n ++ List.replicate (n - data.length) 0

/-- `Unserialize(data, datasize)`. `data` is the buffer from the pointer on; the result
pairs the outcome with the object as the call leaves it. Fields are overwritten in the
order of the source, so a failing call may leave some of them changed. A read past the end
of the buffer, undefined in C++, is `Error.outOfBounds`; `resize` to a size whose byte
count does not fit `size_t` throws `std::length_error`, here `Error.lengthError`. -/
def Unserialize (rep : DoubleRep) (self : TComplexObject) (data : List Nat) (datasize : Nat) :
    Except Error Unit × TComplexObject :=
  let self := { self with Serialized := none }
  let minFixedSize := 4 + 8 * 2
  if datasize < minFixedSize then (.error .insufficientFixed, self)
  else
    match readBytes data 0 4, readBytes data 4 8, readBytes data 12 8 with
    | some resBytes, some sizeBytes, some lenBytes =>
      let self := { self with Resolution := decodeInt resBytes }
      let dataSize := fromBytesLE sizeBytes
      let labelLen := fromBytesLE lenBytes
      let remainingSize := datasize - minFixedSize
      let dataVecBytes := (dataSize * 8) % 2 ^ 64
      if remainingSize < (labelLen + dataVecBytes) % 2 ^ 64 then
        (.error .insufficientVariable, self)
      else
        match (if labelLen > 0 then readBytes data minFixedSize labelLen else some []) with
        | none => (.error .outOfBounds, self)
        | some label =>
          let self := { self with Label := label }
          let currentPos := if labelLen > 0 then minFixedSize + labelLen else minFixedSize
          let remainingSize :=
            if labelLen > 0 then (remainingSize + 2 ^ 64 - labelLen) % 2 ^ 64 else remainingSize
          if dataSize * 8 ≥ 2 ^ 64 then (.error .lengthError, self)
          else
            let self := { self with Data := resizeData self.Data dataSize }
            if dataSize > 0 then
              if remainingSize < dataVecBytes then (.error .insufficientDataVector, self)
              else
                match readBytes data currentPos dataVecBytes with
                | none => (.error .outOfBounds, self)
                | some bytes => (.ok (), { self with Data := decodeDoubles rep dataSize bytes })
            else (.ok (), self)
    | _, _, _ => (.error .outOfBounds, self)

end TComplexObject

/-! ### Paged store -/

/-- The `for` loop of `writeComplexObjectsToPagedFile` over the loaded objects. The state
is the page buffer, the cursor `bufferIdx` and the bytes written to the file so far; the
result is `none` when an object is larger than a page (the function aborts and removes the
file). -/
def writeLoop (rep : DoubleRep) (pageSize : Nat) :
    List TComplexObject → List Nat → Nat → List Nat → Option (List Nat × Nat × List Nat)
  | [], pageBuffer, bufferIdx, outFile => some (pageBuffer, bufferIdx, outFile)
  | obj :: rest, pageBuffer, bufferIdx, outFile =>
    let serialized_obj := (obj.Serialize rep).2
    let obj_size := obj.GetSerializedSize
    if obj_size > pageSize then none
    else if bufferIdx + obj_size ≤ pageSize then
      writeLoop rep pageSize rest (memcpyAt pageBuffer bufferIdx serialized_obj obj_size)
        (bufferIdx + obj_size) outFile
    else
      let outFile := outFile ++ pageBuffer
      let pageBuffer := List.replicate pageSize 0
      writeLoop rep pageSize rest (memcpyAt pageBuffer 0 serialized_obj obj_size)
        obj_size outFile

/-- `writeComplexObjectsToPagedFile`, from the loaded objects on: the content of the
output file, or `none` when no file is left (no object was loaded, or an object does not
fit a page). -/
def writeComplexObjectsToPagedFile (rep : DoubleRep) (objects : List TComplexObject)
    (pageSize : Nat) : Option (List Nat) :=
  if objects.isEmpty then none
  else
    match writeLoop rep pageSize objects (List.replicate pageSize 0) 0 [] with
    | none => none
    | some (pageBuffer, bufferIdx, outFile) =>
      if bufferIdx > 0 then some (outFile ++ pageBuffer) else some outFile

/-- The inner `while (pageBufferIdx < pageSize)` loop of `readComplexObjectsFromPagedFile`
on one page; the first argument bounds the number of iterations. The result is the
objects loaded so far and the cursor. Every failure of `Unserialize` is taken for the
exception that the loop catches; a read past the page buffer, which a header whose sizes
wrap can ask for, is undefined in the source and is not told apart here. -/
def readPageLoop (rep : DoubleRep) (pageBuffer : List Nat) (pageSize : Nat) :
    Nat → Nat → List TComplexObject → List TComplexObject × Nat
  | 0, pageBufferIdx, loadedObjects => (loadedObjects, pageBufferIdx)
  | fuel + 1, pageBufferIdx, loadedObjects =>
    if ¬ (pageBufferIdx < pageSize) then (loadedObjects, pageBufferIdx)
    else
      let HEADER_SIZE := 4 + 2 * 8
      if pageBufferIdx + HEADER_SIZE > pageSize then (loadedObjects, pageSize)
      else
        let tempResolution := decodeInt ((pageBuffer.drop pageBufferIdx).take 4)
        let dataSize := fromBytesLE ((pageBuffer.drop (pageBufferIdx + 4)).take 8)
        let labelLen := fromBytesLE ((pageBuffer.drop (pageBufferIdx + 4 + 8)).take 8)
        let expectedObjSize := (HEADER_SIZE + labelLen + (dataSize * 8) % 2 ^ 64) % 2 ^ 64
        if tempResolution = 0 ∧ expectedObjSize = HEADER_SIZE then (loadedObjects, pageSize)
        else if (pageBufferIdx + expectedObjSize) % 2 ^ 64 ≤ pageSize then
          match TComplexObject.Unserialize rep TComplexObject.default
              (pageBuffer.drop pageBufferIdx) expectedObjSize with
          | (.ok _, obj) =>
            readPageLoop rep pageBuffer pageSize fuel
              ((pageBufferIdx + expectedObjSize) % 2 ^ 64) (loadedObjects ++ [obj])
          | (.error _, _) => (loadedObjects, pageSize)
        else (loadedObjects, pageSize)

/-- The outer `while (true)` loop of `readComplexObjectsFromPagedFile`; the first argument
bounds the number of iterations. The state is the unread rest of the file, the page
buffer, the cursor, the page count and the objects loaded so far. -/
def readLoop (rep : DoubleRep) (pageSize : Nat) :
    Nat → List Nat → List Nat → Nat → Nat → List TComplexObject → List TComplexObject × Nat
  | 0, _, _, _, pageAccessCount, loadedObjects => (loadedObjects, pageAccessCount)
  | fuel + 1, inFile, pageBuffer, pageBufferIdx, pageAccessCount, loadedObjects =>
    if pageBufferIdx ≥ pageSize then
      let chunk := inFile.take pageSize
      if chunk.length = 0 then (loadedObjects, pageAccessCount)
      else
        let pageBuffer := chunk ++ pageBuffer.drop chunk.length
        let res := readPageLoop rep pageBuffer pageSize (pageSize + 1) 0 loadedObjects
        readLoop rep pageSize fuel (inFile.drop pageSize) pageBuffer res.2
          (pageAccessCount + 1) res.1
    else
      let res := readPageLoop rep pageBuffer pageSize (pageSize + 1) pageBufferIdx loadedObjects
      readLoop rep pageSize fuel inFile pageBuffer res.2 pageAccessCount res.1

/-- `readComplexObjectsFromPagedFile`: the objects read and the page count. `none` is a
file that cannot be opened. Each pass of the outer loop that reads a page consumes at
least one byte of the file, which bounds the number of passes. -/
def readComplexObjectsFromPagedFile (rep : DoubleRep) (inputFile : Option (List Nat))
    (pageSize : Nat) : List TComplexObject × Nat :=
  match inputFile with
  | none => ([], 0)
  | some inFile =>
    readLoop rep pageSize (inFile.length + 1) inFile (List.replicate pageSize 0) pageSize 0 []

/-- A representation for examples: a non-negative whole number is stored as itself. -/
def wholeRep : DoubleRep :=
  { toBits := fun x => x.num.toNat, ofBits := fun n => (n : ℚ) }

/-- `obj_orig` of `testComplexObject`, with whole data values: `("SerializeMe", 55, ...)`. -/
def obj_orig : TComplexObject :=
  TComplexObject.create [83, 101, 114, 105, 97, 108, 105, 122, 101, 77, 101] 55 [7, 8, 9, 10]

/-- What the C++ types guarantee of an object in memory, as far as serialization goes:
the resolution is an `int`, the serialized size is a `size_t`, and every data value is a
`double` of the representation. -/
def TComplexObject.Storable (rep : DoubleRep) (o : TComplexObject) : Prop :=
  -2 ^ 31 ≤ o.Resolution ∧ o.Resolution < 2 ^ 31 ∧ o.GetSerializedSize < 2 ^ 64 ∧
    ∀ x ∈ o.Data, rep.Representable x

/-- The cached buffer, when there is one, is the encoding of the current fields. -/
def TComplexObject.CacheCoherent (rep : DoubleRep) (o : TComplexObject) : Prop :=
  ∀ buf, o.Serialized = some buf → buf = o.serializedBytes rep

/-- The concatenated records of a group of objects. -/
def recordBytes (rep : DoubleRep) (g : List TComplexObject) : List Nat :=
  g.flatMap fun o => o.serializedBytes rep

/-- A page holding the records of a group of objects, zero-padded to the page size. -/
def pageOf (rep : DoubleRep) (pageSize : Nat) (g : List TComplexObject) : List Nat :=
  recordBytes rep g ++ List.replicate (pageSize - (recordBytes rep g).length) 0

/-- The object whose record is twenty zero bytes, which the reader takes for padding:
resolution 0, empty label, empty data. -/
def TComplexObject.LooksLikePadding (o : TComplexObject) : Prop :=
  o.Resolution = 0 ∧ o.Label = [] ∧ o.Data = []

/-- The fields of an object that the file format stores. -/
def TComplexObject.fields (o : TComplexObject) : List Nat × Int × List ℚ :=
  (o.Label, o.Resolution, o.Data)

/-- The three objects of the paged round-trip scenario: labels of three bytes, two data
values each, so that every record has 39 bytes. -/
def scenarioDataset : List TComplexObject :=
  [TComplexObject.create [111, 98, 49] 0 [1, 2],
   TComplexObject.create [111, 98, 50] 0 [3, 4],
   TComplexObject.create [111, 98, 51] 0 [5, 6]]

/-! ### Distance calls on objects in memory -/

/-- Section 2 of `GetDistance2` and of `calculateComplexObjectDistance`, the same text in
both up to the summation loop `sumLoop`: the distance of the approximation prefixes of
`data1` and `data2_obj` at `targetResolution`, and the counter after it. -/
def approximationDistance (sumLoop : List ℚ → List ℚ → Nat → Except Error ℚ)
    (distanceCount : Nat) (targetResolution : Int) (data1 data2_obj : List ℚ) :
    Except Error ℚ × Nat :=
  if data2_obj.isEmpty then (.ok 0, distanceCount + 1)
  else if data1.isEmpty then (.ok 0, distanceCount + 1)
  else
    match pow2 targetResolution with
    | none => (.error .invalidPower, distanceCount)
    | some powerOfTwo =>
      if powerOfTwo ≤ 0 then (.error .invalidPower, distanceCount)
      else
        let powerOfTwo := if powerOfTwo < 1 then 1 else powerOfTwo
        let vectorSize := data2_obj.length
        let approxSize := ⌊(vectorSize : ℚ) / powerOfTwo⌋₊
        let approxSize := min approxSize vectorSize
        if approxSize = 0 ∧ vectorSize > 0 then (.ok 0, distanceCount + 1)
        else
          match sumLoop data1 data2_obj approxSize with
          | .error e => (.error e, distanceCount)
          | .ok sumOfDiff => (.ok sumOfDiff, distanceCount + 1)

/-- The object at an address of the memory; the memory is the list of the objects that
exist, an address is a position in it. -/
def objectAt (store : List TComplexObject) (p : Nat) : TComplexObject :=
  store.getD p TComplexObject.default

/-- The end of a distance call: the outcome and the memory it leaves. An access outside a
vector leaves nothing defined. -/
def endOfCall (outcome : Except Error ℚ × Nat) (store : List TComplexObject) :
    Option ((Except Error ℚ × Nat) × List TComplexObject) :=
  match outcome.1 with
  | .error .outOfBounds => none
  | _ => some (outcome, store)

/-- A distance call on two objects in memory, `obj1` at address `p1` and `obj2` at address
`p2` (the reference parameters of `GetDistance2` and `calculateComplexObjectDistance`; the
two addresses may be the same). The temporary clone is a new object at a fresh address,
`dataCompression` is called on that address, every read goes to the memory as it is at
that point, and the clone is released on every way out (its `unique_ptr`). The result is
the outcome with the counter and the memory after the call; `none` is a call that is
undefined. -/
def distanceCallAt (sumLoop : List ℚ → List ℚ → Nat → Except Error ℚ)
    (store : List TComplexObject) (distanceCount p1 p2 : Nat) :
    Option ((Except Error ℚ × Nat) × List TComplexObject) :=
  if p1 < store.length ∧ p2 < store.length then
    let targetResolution := (objectAt store p2).Resolution
    let currentResolution := (objectAt store p1).Resolution
    if currentResolution ≠ targetResolution then
      let clonePtr := store.length
      let store := store ++ [(objectAt store p1).Clone]
      if (objectAt store clonePtr).Data.length ≠ (objectAt store p2).Data.length then
        some ((.error .sizeMismatch, distanceCount), store.eraseIdx clonePtr)
      else
        let levelsToTransform := targetResolution - currentResolution
        match dataCompression (objectAt store clonePtr) levelsToTransform with
        | .error .outOfBounds => none
        | .error e => some ((.error e, distanceCount), store.eraseIdx clonePtr)
        | .ok transformed =>
          let store := store.set clonePtr transformed
          if (objectAt store clonePtr).Resolution ≠ targetResolution then
            some ((.error .resolutionMismatch, distanceCount), store.eraseIdx clonePtr)
          else
            endOfCall
              (approximationDistance sumLoop distanceCount targetResolution
                (objectAt store clonePtr).Data (objectAt store p2).Data)
              (store.eraseIdx clonePtr)
    else if (objectAt store p1).Data.length ≠ (objectAt store p2).Data.length then
      some ((.error .sizeMismatch, distanceCount), store)
    else
      endOfCall
        (approximationDistance sumLoop distanceCount targetResolution
          (objectAt store p1).Data (objectAt store p2).Data)
        store
  else none

/-- `GetDistance2(obj1, obj2)` on objects in memory. -/
def GetDistance2At (store : List TComplexObject) (distanceCount p1 p2 : Nat) :
    Option ((Except Error ℚ × Nat) × List TComplexObject) :=
  distanceCallAt sumOfDiffLoop store distanceCount p1 p2

/-- `calculateComplexObjectDistance(obj1, obj2, distanceCounter)` on objects in memory. -/
def calculateComplexObjectDistanceAt (store : List TComplexObject) (p1 p2 : Nat)
    (distanceCounter : Nat) : Option ((Except Error ℚ × Nat) × List TComplexObject) :=
  distanceCallAt sumOfDiffLoopChecked store distanceCounter p1 p2

/-! ### Buffers and operations for the object state -/

/-- A header of 20 bytes that declares one data element and holds none: resolution 7,
data length 1, label length 0. -/
def headerWithoutData : List Nat :=
  [7, 0, 0, 0] ++ [1, 0, 0, 0, 0, 0, 0, 0] ++ List.replicate 8 0

namespace TComplexObject

/-- `operator=` from another object: label, resolution and data are copied and the cache
is dropped. -/
def assign (_self other : TComplexObject) : TComplexObject :=
  { Label := other.Label, Resolution := other.Resolution, Data := other.Data,
    Serialized := none }

/-- `GetResolutionSerial(data, datasize)`: drops the cache and returns the `int` at the
start of the buffer; `none` when the buffer has fewer than four bytes, a read past its
end. -/
def GetResolutionSerial (self : TComplexObject) (data : List Nat) :
    Option (Int × TComplexObject) :=
  match readBytes data 0 4 with
  | some resBytes => some (decodeInt resBytes, { self with Serialized := none })
  | none => none

end TComplexObject

/-- The public operations on an object that exists: assignment from another object,
assignment of the object to itself (which does nothing), `Serialize`,
`GetResolutionSerial`, `Unserialize` and `dataCompression`. -/
inductive ObjectOp where
  | assign (other : TComplexObject)
  | assignSelf
  | serialize
  | getResolutionSerial (data : List Nat)
  | unserialize (data : List Nat) (datasize : Nat)
  | dataCompression (lvlCompress : Int)

/-- The object after one operation; `none` when the operation is undefined (an access
outside a buffer or a vector). An exception thrown by `Unserialize` leaves the object as
the call left it. -/
def applyOp (rep : DoubleRep) (self : TComplexObject) : ObjectOp → Option TComplexObject
  | .assign other => some (self.assign other)
  | .assignSelf => some self
  | .serialize => some (self.Serialize rep).1
  | .getResolutionSerial data =>
    match self.GetResolutionSerial data with
    | some (_, self) => some self
    | none => none
  | .unserialize data datasize =>
    match self.Unserialize rep data datasize with
    | (.error .outOfBounds, _) => none
    | (_, self) => some self
  | .dataCompression lvlCompress =>
    match dataCompression self lvlCompress with
    | .ok self => some self
    | .error _ => none

/-- The object after a sequence of operations, from left to right. -/
def applyOps (rep : DoubleRep) (self : TComplexObject) : List ObjectOp → Option TComplexObject
  | [] => some self
  | op :: ops =>
    match applyOp rep self op with
    | some self => applyOps rep self ops
    | none => none

/-! ### Pages of an arbitrary file -/

/-- The page number `k` of a file read in pages of `pageSize` bytes; the last page of a
file whose length is not a multiple of `pageSize` is shorter. -/
def filePage (file : List Nat) (pageSize k : Nat) : List Nat :=
  (file.drop (k * pageSize)).take pageSize

/-- An object is decoded from a record that lies inside a page: `Unserialize`, on a new
object, succeeds on `n` bytes at an offset `off` of the page with `off + n` inside it. -/
def DecodedIn (rep : DoubleRep) (page : List Nat) (o : TComplexObject) : Prop :=
  ∃ off n, off + n ≤ page.length ∧
    TComplexObject.Unserialize rep TComplexObject.default (page.drop off) n = (.ok (), o)

/-- A file of 22 bytes: the record of `("a", 1, {})`, which has 21 bytes, and one more
byte, 2. -/
def fileWithShortLastPage : List Nat :=
  ([1, 0, 0, 0] ++ List.replicate 8 0 ++ [1, 0, 0, 0, 0, 0, 0, 0] ++ [97]) ++ [2]

/-! ### Doubles with their range

The definitions above take a `double` for a rational number. The ones below follow the
same source text with the range of a `double` kept: an operation whose exact result is
too large gives an infinity, and operations on infinities give infinities or NaN. They
serve to evaluate the compression and the distance where a sum overflows. -/

/-- A `double` as far as its range goes: a finite value, an infinity with its sign, or a
NaN. Finite values are kept exact (rounding inside the range is left out) and the two
zeros are not told apart. -/
inductive IEEEDouble where
  | finite (x : ℚ)
  | infinite (negative : Bool)
  | nan
  deriving DecidableEq

namespace IEEEDouble

/-- The `double` given by an operation on finite values whose exact result is `x`: an
infinity of the sign of `x` once `|x|` reaches `2^1024 - 2^970`, from where on rounding to
nearest overflows. -/
def ofExact (x : ℚ) : IEEEDouble :=
  if (2 : ℚ) ^ 1024 - 2 ^ 970 ≤ |x| then infinite (decide (x < 0)) else finite x

/-- The sum `a + b`. -/
def add : IEEEDouble → IEEEDouble → IEEEDouble
  | finite x, finite y => ofExact (x + y)
  | finite _, infinite s => infinite s
  | infinite s, finite _ => infinite s
  | infinite s, infinite t => if s = t then infinite s else nan
  | _, _ => nan

/-- The difference `a - b`. -/
def sub : IEEEDouble → IEEEDouble → IEEEDouble
  | finite x, finite y => ofExact (x - y)
  | finite _, infinite s => infinite (!s)
  | infinite s, finite _ => infinite s
  | infinite s, infinite t => if s = t then nan else infinite s
  | _, _ => nan

/-- The quotient `a / 2.0`. -/
def half : IEEEDouble → IEEEDouble
  | finite x => finite (x / 2)
  | infinite s => infinite s
  | nan => nan

/-- The value `std::abs(a)`. -/
def abs : IEEEDouble → IEEEDouble
  | finite x => finite |x|
  | infinite _ => infinite false
  | nan => nan

end IEEEDouble

/-- The class `TComplexObject` with data values of type `IEEEDouble`. -/
structure IEEEObject where
  Label : List Nat
  Resolution : Int
  Data : List IEEEDouble
  Serialized : Option (List Nat)
  deriving DecidableEq

/-- `Clone()` on an `IEEEObject`. -/
def IEEEObject.Clone (self : IEEEObject) : IEEEObject :=
  { Label := self.Label, Resolution := self.Resolution, Data := self.Data,
    Serialized := none }

/-- Checked read `v[i]` of a vector of `IEEEDouble`. -/
def readAtIEEE (v : List IEEEDouble) (i : Nat) : Except Error IEEEDouble :=
  match v[i]? with
  | some x => .ok x
  | none => .error .outOfBounds

/-- Checked write `v[i] = x` to a vector of `IEEEDouble`. -/
def writeAtIEEE (v : List IEEEDouble) (i : Nat) (x : IEEEDouble) :
    Except Error (List IEEEDouble) :=
  if i < v.length then .ok (v.set i x) else .error .outOfBounds

/-- The first `for` loop of `DoCompression`, as `compressPairs`, on `IEEEDouble` values:
`(val1 + val2) / 2.0` and `(val1 - val2) / 2.0`. -/
def compressPairsIEEE (Data : List IEEEDouble) (nextApproxSize : Nat)
    (tempBuffer : List IEEEDouble) : Except Error (List IEEEDouble) :=
  (List.range nextApproxSize).foldlM
    (fun buf i => do
      let val1 ← readAtIEEE Data (2 * i)
      let val2 ← readAtIEEE Data (2 * i + 1)
      let buf ← writeAtIEEE buf i (IEEEDouble.half (IEEEDouble.add val1 val2))
      writeAtIEEE buf (i + nextApproxSize) (IEEEDouble.half (IEEEDouble.sub val1 val2)))
    tempBuffer

/-- The copy loop of `DoCompression`, as `copyTail`. -/
def copyTailIEEE (Data : List IEEEDouble) (start : Nat) (tempBuffer : List IEEEDouble) :
    Except Error (List IEEEDouble) :=
  (List.range' start (Data.length - start)).foldlM
    (fun buf i => do
      let v ← readAtIEEE Data i
      writeAtIEEE buf i v)
    tempBuffer

/-- The `while` loop of `DoCompression`, as `DoCompressionLoop`. -/
def DoCompressionLoopIEEE : Nat → IEEEObject → List IEEEDouble → Except Error IEEEObject
  | 0, self, _ => .ok self
  | n + 1, self, tempBuffer =>
    let approxSize := approxSizeAt self.Data.length self.Resolution
    if approxSize ≤ 1 then .ok self
    else if approxSize % 2 ≠ 0 then .ok self
    else do
      let nextApproxSize := approxSize / 2
      let tempBuffer ← compressPairsIEEE self.Data nextApproxSize tempBuffer
      let tempBuffer ← copyTailIEEE self.Data approxSize tempBuffer
      let self := { self with Resolution := self.Resolution + 1, Data := tempBuffer }
      DoCompressionLoopIEEE n self (List.replicate self.Data.length (IEEEDouble.finite 0))

/-- `DoCompression(levels)` on an `IEEEObject`. -/
def DoCompressionIEEE (self : IEEEObject) (levels : Int) : Except Error IEEEObject :=
  if levels ≤ 0 then .ok self
  else if self.Data.isEmpty then .ok self
  else
    DoCompressionLoopIEEE levels.toNat self
      (List.replicate self.Data.length (IEEEDouble.finite 0))

/-- The reconstruction loop of `DoDecompression`, as `reconstructPairs`:
`approx + detail` and `approx - detail`. -/
def reconstructPairsIEEE (Data : List IEEEDouble) (approxSize : Nat)
    (tempBuffer : List IEEEDouble) : Except Error (List IEEEDouble) :=
  (List.range approxSize).foldlM
    (fun buf i => do
      let approx ← readAtIEEE Data i
      if i + approxSize ≥ Data.length then throw Error.detailOutOfBounds
      let detail ← readAtIEEE Data (i + approxSize)
      if 2 * i + 1 ≥ buf.length then throw Error.writeOutOfBounds
      let buf ← writeAtIEEE buf (2 * i) (IEEEDouble.add approx detail)
      writeAtIEEE buf (2 * i + 1) (IEEEDouble.sub approx detail))
    tempBuffer

/-- The copy loop of `DoDecompression`, as `copyTailChecked`. -/
def copyTailCheckedIEEE (Data : List IEEEDouble) (start : Nat)
    (tempBuffer : List IEEEDouble) : Except Error (List IEEEDouble) :=
  (List.range' start (Data.length - start)).foldlM
    (fun buf i => do
      if i ≥ Data.length ∨ i ≥ buf.length then throw Error.copyOutOfBounds
      let v ← readAtIEEE Data i
      writeAtIEEE buf i v)
    tempBuffer

/-- The `while` loop of `DoDecompression`, as `DoDecompressionLoop`. -/
def DoDecompressionLoopIEEE : Nat → IEEEObject → List IEEEDouble → Except Error IEEEObject
  | 0, self, _ => .ok self
  | n + 1, self, tempBuffer =>
    if ¬ (self.Resolution > 0) then .ok self
    else
      let approxSize := approxSizeAt self.Data.length self.Resolution
      if approxSize = 0 ∧ ¬ self.Data.isEmpty then .ok self
      else if approxSize > self.Data.length / 2 then .ok self
      else do
        let reconstructSize := approxSize * 2
        let tempBuffer ← reconstructPairsIEEE self.Data approxSize tempBuffer
        let tempBuffer ← copyTailCheckedIEEE self.Data reconstructSize tempBuffer
        let self := { self with Resolution := self.Resolution - 1, Data := tempBuffer }
        DoDecompressionLoopIEEE n self
          (List.replicate self.Data.length (IEEEDouble.finite 0))

/-- `DoDecompression(levels)` on an `IEEEObject`. -/
def DoDecompressionIEEE (self : IEEEObject) (levels : Int) : Except Error IEEEObject :=
  if levels ≤ 0 then .ok self
  else if self.Data.isEmpty ∨ self.Resolution = 0 then .ok self
  else
    DoDecompressionLoopIEEE levels.toNat self
      (List.replicate self.Data.length (IEEEDouble.finite 0))

/-- `dataCompression(lvlCompress)` on an `IEEEObject`. -/
def dataCompressionIEEE (self : IEEEObject) (lvlCompress : Int) : Except Error IEEEObject :=
  if lvlCompress = 0 then .ok self
  else
    let self := { self with Serialized := none }
    if lvlCompress > 0 then DoCompressionIEEE self lvlCompress
    else DoDecompressionIEEE self (Int.natAbs lvlCompress)

/-- The summation loop of `GetDistance2`, as `sumOfDiffLoop`:
`sumOfDiff += std::abs((*data1_ptr)[i] - data2_obj[i])`. -/
def sumOfDiffLoopIEEE (data1 data2 : List IEEEDouble) (approxSize : Nat) :
    Except Error IEEEDouble :=
  (List.range approxSize).foldlM
    (fun sumOfDiff i => do
      let a ← readAtIEEE data1 i
      let b ← readAtIEEE data2 i
      pure (IEEEDouble.add sumOfDiff (IEEEDouble.abs (IEEEDouble.sub a b))))
    (IEEEDouble.finite 0)

/-- `GetDistance2(obj1, obj2)` on `IEEEObject`s, as `GetDistance2`: the returned `double`
(or the exception) and the counter after the call. -/
def GetDistance2IEEE (distanceCount : Nat) (obj1 obj2 : IEEEObject) :
    Except Error IEEEDouble × Nat :=
  let targetResolution := obj2.Resolution
  let data2_obj := obj2.Data
  let currentResolution := obj1.Resolution
  let data1_ptr : Except Error (List IEEEDouble) :=
    if currentResolution ≠ targetResolution then
      let obj1_temp_clone := obj1.Clone
      if obj1_temp_clone.Data.length ≠ data2_obj.length then .error .sizeMismatch
      else
        let levelsToTransform := targetResolution - currentResolution
        match dataCompressionIEEE obj1_temp_clone levelsToTransform with
        | .error e => .error e
        | .ok obj1_temp_clone =>
          if obj1_temp_clone.Resolution ≠ targetResolution then .error .resolutionMismatch
          else .ok obj1_temp_clone.Data
    else if obj1.Data.length ≠ data2_obj.length then .error .sizeMismatch
    else .ok obj1.Data
  match data1_ptr with
  | .error e => (.error e, distanceCount)
  | .ok data1 =>
    if data2_obj.isEmpty then (.ok (IEEEDouble.finite 0), distanceCount + 1)
    else if data1.isEmpty then (.ok (IEEEDouble.finite 0), distanceCount + 1)
    else
      match pow2 targetResolution with
      | none => (.error .invalidPower, distanceCount)
      | some powerOfTwo =>
        if powerOfTwo ≤ 0 then (.error .invalidPower, distanceCount)
        else
          let powerOfTwo := if powerOfTwo < 1 then 1 else powerOfTwo
          let vectorSize := data2_obj.length
          let approxSize := ⌊(vectorSize : ℚ) / powerOfTwo⌋₊
          let approxSize := min approxSize vectorSize
          if approxSize = 0 ∧ vectorSize > 0 then
            (.ok (IEEEDouble.finite 0), distanceCount + 1)
          else
            match sumOfDiffLoopIEEE data1 data2_obj approxSize with
            | .error e => (.error e, distanceCount)
            | .ok sumOfDiff => (.ok sumOfDiff, distanceCount + 1)

/-- The object `("q", 0, {2^1023, 2^1023})`: two finite doubles (about `8.99e307`) whose
sum is `2^1024`, outside the range. -/
def hugePair : IEEEObject :=
  { Label := [113], Resolution := 0,
    Data := [IEEEDouble.finite (2 ^ 1023), IEEEDouble.finite (2 ^ 1023)],
    Serialized := none }

/-- `obj_empty1` of `testDistanceCalculator`: `("E1", 2, {})`. -/
def obj_empty1 : TComplexObject := TComplexObject.create [69, 49] 2 []

/-- `obj_empty2` of `testDistanceCalculator`: `("E2", 2, {})`. -/
def obj_empty2 : TComplexObject := TComplexObject.create [69, 50] 2 []

/-- An empty object at resolution 0: `("E0", 0, {})`. -/
def emptyAtZero : TComplexObject := TComplexObject.create [69, 48] 0 []

/-- An empty object at resolution 1: `("E3", 1, {})`. -/
def emptyAtOne : TComplexObject := TComplexObject.create [69, 51] 1 []

/-- A buffer of 24 bytes whose header declares more than it holds: resolution 0, data
length `2^61 - 12`, label length 100, and four more bytes. -/
def overflowingHeader : List Nat :=
  [0, 0, 0, 0] ++ [244, 255, 255, 255, 255, 255, 255, 31] ++ [100, 0, 0, 0, 0, 0, 0, 0]
    ++ [1, 2, 3, 4]

/-- A labelled object without data, `("a", 1, {})`, followed by the default-constructed
object. -/
def datasetWithDefault : List TComplexObject :=
  [TComplexObject.create [97] 1 [], TComplexObject.default]

/-- Three labelled objects without data, of 21, 22 and 21 bytes: `("a", 1, {})`,
`("bc", 2, {})` and `("d", 3, {})`. -/
def datasetNoData : List TComplexObject :=
  [TComplexObject.create [97] 1 [], TComplexObject.create [98, 99] 2 [],
   TComplexObject.create [100] 3 []]

/-- The two pages of 48 bytes that hold `datasetNoData`: the first two records and five
zero bytes, then the third record and 27 zero bytes. -/
def datasetNoDataPages : List Nat :=
  ([1, 0, 0, 0] ++ List.replicate 8 0 ++ [1, 0, 0, 0, 0, 0, 0, 0] ++ [97])
    ++ ([2, 0, 0, 0] ++ List.replicate 8 0 ++ [2, 0, 0, 0, 0, 0, 0, 0] ++ [98, 99])
    ++ List.replicate 5 0
    ++ ([3, 0, 0, 0] ++ List.replicate 8 0 ++ [1, 0, 0, 0, 0, 0, 0, 0] ++ [100])
    ++ List.replicate 27 0

/-- A query at a negative resolution: `("q", -2, [1, 2])`. -/
def queryBelowZero : TComplexObject := TComplexObject.create [113] (-2) [1, 2]

/-- An object at resolution `-1` with two elements: `("o", -1, [1, 2])`. -/
def objectBelowZero : TComplexObject := TComplexObject.create [111] (-1) [1, 2]

/-! ### Text loader -/

/-- `std::isspace` in the "C" locale, on a byte: space, `\t`, `\n`, `\v`, `\f`, `\r`. These
are also the characters that `parseLine` passes to `find_first_not_of`. -/
def isSpaceByte (b : Nat) : Bool := b == 32 || (9 ≤ b && b ≤ 13)

/-- A decimal digit. -/
def isDigitByte (b : Nat) : Bool := 48 ≤ b && b ≤ 57

/-- The number written by a run of decimal digits. -/
def digitsValue (ds : List Nat) : Nat := ds.foldl (fun acc d => 10 * acc + (d - 48)) 0

/-- `static_cast<int>` of a `size_t`: reduction modulo `2^32` into the range of `int`. -/
def toInt32 (n : Nat) : Int :=
  if n % 2 ^ 32 < 2 ^ 31 then ((n % 2 ^ 32 : Nat) : Int) else ((n % 2 ^ 32 : Nat) : Int) - 2 ^ 32

/-- The `std::stringstream` of `parseLine` while it is read: the unread bytes and the two
state bits that `parseLine` tests. -/
structure LineStream where
  rest : List Nat
  eofbit : Bool
  failbit : Bool
  deriving DecidableEq

/-- The text accumulated for a floating-point extraction, as numbers: sign, the digits of
the integer and fraction parts read as one number, the count of fraction digits, and the
exponent with its sign. -/
structure RawDouble where
  negative : Bool
  mantissa : Nat
  fracDigits : Nat
  expNegative : Bool
  exponent : Nat
  deriving DecidableEq, Repr

namespace RawDouble

/-- The decimal exponent of the last mantissa digit. -/
def scale (r : RawDouble) : Int :=
  (if r.expNegative then -(r.exponent : Int) else (r.exponent : Int)) - (r.fracDigits : Int)

/-- The number written, exactly. -/
def value (r : RawDouble) : ℚ :=
  (if r.negative then -1 else 1) * (r.mantissa : ℚ) * (10 : ℚ) ^ r.scale

/-- The magnitude is out of the range of `double` (`strtod` gives `HUGE_VAL`): it is at
least `2^1024 - 2^970`, the least magnitude that rounds to infinity. -/
def overflows (r : RawDouble) : Bool :=
  if 0 ≤ r.scale then decide (2 ^ 1024 - 2 ^ 970 ≤ r.mantissa * 10 ^ r.scale.toNat)
  else decide ((2 ^ 1024 - 2 ^ 970) * 10 ^ (-r.scale).toNat ≤ r.mantissa)

end RawDouble

namespace LineStream

/-- The sentry of a formatted extraction with `skipws`: on a stream that is not `good()`
it sets `failbit`; otherwise it skips white space and, at the end of the input, sets
`eofbit` and `failbit`. The result is the input from the first byte that is not white
space on. -/
def sentry (ss : LineStream) : Option (List Nat) × LineStream :=
  if ss.eofbit || ss.failbit then (none, { ss with failbit := true })
  else
    match ss.rest.dropWhile isSpaceByte with
    | [] => (none, { rest := [], eofbit := true, failbit := true })
    | b :: bs => (some (b :: bs), { ss with rest := b :: bs })

/-- `ss >> std::string`: the bytes up to the next white space or the end of the input;
`eofbit` is set when the end is reached. -/
def extractString (ss : LineStream) : Option (List Nat) × LineStream :=
  match ss.sentry with
  | (none, ss) => (none, ss)
  | (some bytes, _) =>
    let rest := bytes.dropWhile fun b => !isSpaceByte b
    (some (bytes.takeWhile fun b => !isSpaceByte b),
      { rest := rest, eofbit := rest.isEmpty, failbit := false })

/-- `ss >> int` (base 10): an optional sign and the longest run of digits. Without a digit,
or with a value outside `int`, the extraction fails; `eofbit` is set when the scan reaches
the end of the input. -/
def extractInt (ss : LineStream) : Option Int × LineStream :=
  match ss.sentry with
  | (none, ss) => (none, ss)
  | (some bytes, _) =>
    let negative := bytes.head? == some 45
    let afterSign := if bytes.head? == some 43 || bytes.head? == some 45 then bytes.tail else bytes
    let digits := afterSign.takeWhile isDigitByte
    let rest := afterSign.dropWhile isDigitByte
    let value : Int := if negative then -(digitsValue digits : Int) else (digitsValue digits : Int)
    let st : LineStream := { rest := rest, eofbit := rest.isEmpty, failbit := false }
    if digits.isEmpty then (none, { st with failbit := true })
    else if value < -2 ^ 31 ∨ 2 ^ 31 ≤ value then (none, { st with failbit := true })
    else (some value, st)

/-- `ss >> double`: the scan accumulates an optional sign, digits, one decimal point,
and, once a digit was seen, one `e` or `E` with an optional sign and digits; it stops at
the first byte that does not continue this form. The text converts when it has a mantissa
digit and, if it has an exponent mark, an exponent digit, and is in range; otherwise the
extraction fails. `eofbit` is set when the scan reaches the end of the input. -/
def extractDouble (ss : LineStream) : Option RawDouble × LineStream :=
  match ss.sentry with
  | (none, ss) => (none, ss)
  | (some bytes, _) =>
    let negative := bytes.head? == some 45
    let s1 := if bytes.head? == some 43 || bytes.head? == some 45 then bytes.tail else bytes
    let intDigits := s1.takeWhile isDigitByte
    let s2 := s1.dropWhile isDigitByte
    let hasPoint := s2.head? == some 46
    let s3 := if hasPoint then s2.tail else s2
    let fracDigits := if hasPoint then s3.takeWhile isDigitByte else []
    let s4 := if hasPoint then s3.dropWhile isDigitByte else s3
    let foundMantissa := !intDigits.isEmpty || !fracDigits.isEmpty
    let hasExp := foundMantissa && (s4.head? == some 101 || s4.head? == some 69)
    let s5 := if hasExp then s4.tail else s4
    let expSign := hasExp && (s5.head? == some 43 || s5.head? == some 45)
    let expNegative := hasExp && s5.head? == some 45
    let s6 := if expSign then s5.tail else s5
    let expDigits := if hasExp then s6.takeWhile isDigitByte else []
    let rest := if hasExp then s6.dropWhile isDigitByte else s6
    let st : LineStream := { rest := rest, eofbit := rest.isEmpty, failbit := false }
    let raw : RawDouble :=
      { negative := negative, mantissa := digitsValue (intDigits ++ fracDigits),
        fracDigits := fracDigits.length, expNegative := expNegative,
        exponent := digitsValue expDigits }
    if !foundMantissa || (hasExp && expDigits.isEmpty) then (none, { st with failbit := true })
    else if raw.overflows then (none, { st with failbit := true })
    else (some raw, st)

/-- The loop `while (ss >> dataValue) entry.data.push_back(dataValue)`; the first argument
bounds the number of passes. -/
def readDoubles : Nat → LineStream → List RawDouble → List RawDouble × LineStream
  | 0, ss, data => (data, ss)
  | fuel + 1, ss, data =>
    match ss.extractDouble with
    | (none, ss) => (data, ss)
    | (some dataValue, ss) => readDoubles fuel ss (data ++ [dataValue])

end LineStream

/-- The struct `VectorEntry`; the label is the content of the `char[200]` up to its
terminator. -/
structure VectorEntry where
  label : List Nat
  resolution : Int
  data : List ℚ
  deriving DecidableEq

/-- What `snprintf(buf, 200, "%s", s.c_str())` leaves in the buffer: the bytes of the
string up to its first zero byte, at most 199 of them. -/
def labelBytes (s : List Nat) : List Nat := (s.takeWhile fun b => b != 0).take 199

/-- The parsing of `parseLine`, before the data values are converted: label, resolution
and the texts of the data values. Each pass of the loop over the data values consumes at
least one byte, which bounds the number of passes. -/
def parseLineRaw (line : List Nat) : Option (List Nat × Int × List RawDouble) :=
  if line.isEmpty || line.all isSpaceByte then none
  else
    let ss : LineStream := { rest := line, eofbit := false, failbit := false }
    match ss.extractString with
    | (none, _) => none
    | (some tempLabel, ss) =>
      match ss.extractInt with
      | (none, _) => none
      | (some tempResolution, ss) =>
        let res := LineStream.readDoubles (line.length + 1) ss []
        if !res.2.eofbit && res.2.failbit then none
        else some (labelBytes tempLabel, tempResolution, res.1)

/-- `VectorFileReader::parseLine(line, line_number)`: the entry of an accepted line, or
`none` (`std::nullopt`) for a line that is skipped. -/
def parseLine (line : List Nat) : Option VectorEntry :=
  (parseLineRaw line).map fun p =>
    { label := p.1, resolution := p.2.1, data := p.2.2.map RawDouble.value }

/-- The class `VectorFileReader`. -/
structure VectorFileReader where
  numLines : Int
  numElements : Int
  vectors : List VectorEntry
  deriving DecidableEq

namespace VectorFileReader

/-- The constructor: no lines, and `numElements = -1` for a size not yet set. -/
def new : VectorFileReader := { numLines := 0, numElements := -1, vectors := [] }

/-- `checkSizeAndAdd(entry, line, line_number)`: the flag returned and the reader after
the call. -/
def checkSizeAndAdd (self : VectorFileReader) (entry : VectorEntry) :
    Bool × VectorFileReader :=
  let current_data_size := entry.data.length
  if self.numElements = -1 then
    (true, { self with numElements := toInt32 current_data_size,
                       vectors := self.vectors ++ [entry] })
  else if toInt32 current_data_size ≠ self.numElements then (false, self)
  else (true, { self with vectors := self.vectors ++ [entry] })

/-- The `while (std::getline(inputFile, line))` loop of `loadFromFile` over the lines of
the file: `false` with a cleared reader at the first inconsistent line, `true` at the end
of the file. -/
def loadLoop : List (List Nat) → VectorFileReader → Bool × VectorFileReader
  | [], self => (true, self)
  | line :: rest, self =>
    match parseLine line with
    | some entry =>
      match checkSizeAndAdd self entry with
      | (false, _) => (false, { numLines := 0, numElements := -1, vectors := [] })
      | (true, self) => loadLoop rest self
    | none => loadLoop rest self

/-- `loadFromFile(filename)`; the file is given by its lines, `none` being a file that
cannot be opened. The result is the flag returned and the reader after the call. -/
def loadFromFile (self : VectorFileReader) (file : Option (List (List Nat))) :
    Bool × VectorFileReader :=
  match file with
  | none => (false, self)
  | some lines =>
    let self : VectorFileReader := { numLines := 0, numElements := -1, vectors := [] }
    match loadLoop lines self with
    | (false, self) => (false, self)
    | (true, self) =>
      let self := { self with numLines := toInt32 self.vectors.length }
      let self := if self.numLines = 0 then { self with numElements := 0 } else self
      (true, self)

/-- `getVectors()`. -/
def getVectors (self : VectorFileReader) : List VectorEntry := self.vectors

/-- `getNumLines()`. -/
def getNumLines (self : VectorFileReader) : Int := self.numLines

/-- `getNumElements()`. -/
def getNumElements (self : VectorFileReader) : Int :=
  if self.numElements = -1 then 0 else self.numElements

/-- `createVectorTComplexObject()`: one object for each stored entry, in order. -/
def createVectorTComplexObject (self : VectorFileReader) : List TComplexObject :=
  self.vectors.map fun entry =>
    TComplexObject.create (entry.label.takeWhile fun b => b != 0) entry.resolution entry.data

end VectorFileReader

/-- The bytes of a text, for examples. -/
def bytesOf (s : String) : List Nat := s.toList.map Char.toNat

/-! ### Sequential scan and tree query -/

/-- The copy constructor: label, resolution and data are copied, the cache is not. -/
def TComplexObject.copy (other : TComplexObject) : TComplexObject :=
  { Label := other.Label, Resolution := other.Resolution, Data := other.Data,
    Serialized := none }

/-- One pass of the loop of `sequentialRangeSearch`, on the objects found so far and the
counter. An exception thrown by the distance function is caught and the loop goes on with
the next object; an access outside a vector in the distance function is undefined
behaviour, not an exception, and makes the call undefined. -/
def rangeSearchStep (queryObject : TComplexObject) (radius : ℚ)
    (st : List TComplexObject × Nat) (dataObject : TComplexObject) :
    Except Error (List TComplexObject × Nat) :=
  match calculateComplexObjectDistance queryObject dataObject st.2 with
  | (.ok distance, counter) =>
    if distance ≤ radius then .ok (st.1 ++ [dataObject.copy], counter)
    else .ok (st.1, counter)
  | (.error .outOfBounds, _) => .error .outOfBounds
  | (.error _, counter) => .ok (st.1, counter)

/-- `sequentialRangeSearch(dataset, queryObject, radius, distanceCounter)`: the copies of
the objects found and the counter after the call. -/
def sequentialRangeSearch (dataset : List TComplexObject) (queryObject : TComplexObject)
    (radius : ℚ) (distanceCounter : Nat) : Except Error (List TComplexObject × Nat) :=
  dataset.foldlM (rangeSearchStep queryObject radius) ([], distanceCounter)

/-- The totals of the query loop of `main` in the sequential scan. -/
structure ScanTotals where
  totalDistanceCalculations : Nat
  totalFoundObjects : Nat
  pagesReadTotal : Nat
  deriving DecidableEq

/-- One pass of the loop `for (TComplexObject& queryObj : queryData)` of `main` in the
sequential scan: the paged file is read again and searched, and the totals are raised. -/
def scanStep (rep : DoubleRep) (dataOutputFile : Option (List Nat)) (pageSize : Nat)
    (searchRadius : ℚ) (st : ScanTotals) (queryObj : TComplexObject) :
    Except Error ScanTotals :=
  let loaded := readComplexObjectsFromPagedFile rep dataOutputFile pageSize
  match sequentialRangeSearch loaded.1 queryObj searchRadius st.totalDistanceCalculations with
  | .error e => .error e
  | .ok found =>
    .ok { totalDistanceCalculations := found.2,
          totalFoundObjects := st.totalFoundObjects + found.1.length,
          pagesReadTotal := st.pagesReadTotal + loaded.2 }

/-- The query loop of `main` in the sequential scan, from totals of zero. -/
def scanQueries (rep : DoubleRep) (dataOutputFile : Option (List Nat)) (pageSize : Nat)
    (queryData : List TComplexObject) (searchRadius : ℚ) : Except Error ScanTotals :=
  queryData.foldlM (scanStep rep dataOutputFile pageSize searchRadius)
    { totalDistanceCalculations := 0, totalFoundObjects := 0, pagesReadTotal := 0 }

/-- The figure `avg_dist_calc` printed by `main`:
`double(totalDistanceCalculations) / queryData.size()`. -/
def avgDistCalc (totals : ScanTotals) (queryData : List TComplexObject) : ℚ :=
  (totals.totalDistanceCalculations : ℚ) / (queryData.length : ℚ)

/-- Modelled from the spec: the range query of the Slim-Tree, whose code (the library
class `stSlimTree`, used by `TApp::PerformRangeQuery`) is not among the sources. The spec
has "Inserts clone the object into tree-owned storage" and "Range query returns all
objects `o` stored in the tree with `distance(q, o) ≤ r`; order unspecified". The
distance is that of the evaluator the tree is built with, `GetDistance`; an object for
which it gives no value does not satisfy the condition. -/
def treeRangeQuery (inserted : List TComplexObject) (q : TComplexObject) (r : ℚ) :
    List TComplexObject :=
  (inserted.map TComplexObject.Clone).filter fun o =>
    match (GetDistance 0 q o).1 with
    | .ok distance => decide (distance ≤ r)
    | .error _ => false

/-- Three lines in the format of the dataset files, with five values each, two skipped
lines, and a fourth data line. -/
def testLoadLines : List (List Nat) :=
  [bytesOf "img1 0 1 2 3 4 5", bytesOf "", bytesOf "img2 0 2.5 0 1e1 4 5",
   bytesOf "bad line", bytesOf "img3 0 5 4 3 2 1", bytesOf "img4 0 0 0 0 0 0"]

/-- A line whose last token is a lone minus sign. -/
def lineWithDash : List Nat := bytesOf "a 0 1.0 -"

/-- A line whose second token is not an integer. -/
def lineWithFraction : List Nat := bytesOf "a 1.5 2.0"

/-- A line with three values after a line with two. -/
def mismatchedLines : List (List Nat) := [bytesOf "a 0 1 2", bytesOf "b 0 1 2 3"]

/-- A data line whose resolution field is 3. -/
def lineAtResolutionThree : List Nat := bytesOf "img 3 1 2"

/-- The text of a whole number without sign, point or exponent, as the scan of a data
value accumulates it. -/
def wholeRaw (n : Nat) : RawDouble :=
  { negative := false, mantissa := n, fracDigits := 0, expNegative := false, exponent := 0 }

/-! # Theorems -/

/-! ## Loop rules -/

theorem readAt_of_lt (v : List ℚ) (i : Nat) (h : i < v.length) :
    readAt v i = .ok (v.getD i 0) := by
  simp [readAt, List.getD, List.getElem?_eq_getElem h]

theorem writeAt_of_lt (v : List ℚ) (i : Nat) (x : ℚ) (h : i < v.length) :
    writeAt v i x = .ok (v.set i x) := by
  simp [writeAt, h]

theorem except_ok_bind {α β : Type} (a : α) (f : α → Except Error β) :
    (Except.ok a >>= f) = f a := rfl

/-- Invariant rule for a counted loop in the `Except` monad. -/
theorem foldlM_range_inv {β : Type} (f : β → Nat → Except Error β) (P : Nat → β → Prop)
    (m : Nat) (b0 : β) (h0 : P 0 b0)
    (hstep : ∀ i b, i < m → P i b → ∃ b', f b i = .ok b' ∧ P (i + 1) b') :
    ∃ b', (List.range m).foldlM f b0 = .ok b' ∧ P m b' := by
  induction m with
  | zero => exact ⟨b0, rfl, h0⟩
  | succ k ih =>
    obtain ⟨b1, hb1, hP1⟩ := ih (fun i b hi hP => hstep i b (Nat.lt_succ_of_lt hi) hP)
    obtain ⟨b2, hb2, hP2⟩ := hstep k b1 (Nat.lt_succ_self k) hP1
    refine ⟨b2, ?_, hP2⟩
    rw [List.range_succ, List.foldlM_append, hb1, except_ok_bind]
    simp [List.foldlM_cons, hb2, except_ok_bind]

/-- Invariant rule for a loop `for (i = s; i < s + m; ++i)` in the `Except` monad. -/
theorem foldlM_range'_inv {β : Type} (f : β → Nat → Except Error β) (P : Nat → β → Prop)
    (s m : Nat) (b0 : β) (h0 : P 0 b0)
    (hstep : ∀ i b, i < m → P i b → ∃ b', f b (s + i) = .ok b' ∧ P (i + 1) b') :
    ∃ b', (List.range' s m).foldlM f b0 = .ok b' ∧ P m b' := by
  induction m with
  | zero => exact ⟨b0, rfl, h0⟩
  | succ k ih =>
    obtain ⟨b1, hb1, hP1⟩ := ih (fun i b hi hP => hstep i b (Nat.lt_succ_of_lt hi) hP)
    obtain ⟨b2, hb2, hP2⟩ := hstep k b1 (Nat.lt_succ_self k) hP1
    refine ⟨b2, ?_, hP2⟩
    rw [List.range'_1_concat, List.foldlM_append, hb1, except_ok_bind]
    simp [List.foldlM_cons, hb2, except_ok_bind]

theorem getElem?_eq_some_getD (d : List ℚ) (j : Nat) (h : j < d.length) :
    d[j]? = some (d.getD j 0) := by
  simp [List.getD, List.getElem?_eq_getElem h]

/-! ## The loops of the Haar transform -/

theorem compressPairs_spec (d buf : List ℚ) (h : Nat) (hd : 2 * h ≤ d.length)
    (hb : 2 * h ≤ buf.length) :
    ∃ b', compressPairs d h buf = .ok b' ∧ b'.length = buf.length ∧
      ∀ j, b'[j]? = if j < h then some ((d.getD (2 * j) 0 + d.getD (2 * j + 1) 0) / 2)
        else if j < 2 * h then
          some ((d.getD (2 * (j - h)) 0 - d.getD (2 * (j - h) + 1) 0) / 2)
        else buf[j]? := by
  have key := foldlM_range_inv
    (fun buf i => do
      let val1 ← readAt d (2 * i)
      let val2 ← readAt d (2 * i + 1)
      let buf ← writeAt buf i ((val1 + val2) / 2)
      writeAt buf (i + h) ((val1 - val2) / 2))
    (fun m b => b.length = buf.length ∧
      ∀ j, b[j]? = if j < m then some ((d.getD (2 * j) 0 + d.getD (2 * j + 1) 0) / 2)
        else if h ≤ j ∧ j < h + m then
          some ((d.getD (2 * (j - h)) 0 - d.getD (2 * (j - h) + 1) 0) / 2)
        else buf[j]?)
    h buf ⟨rfl, fun j => by rw [if_neg (by omega), if_neg (by omega)]⟩
    (by
      intro i b hi ⟨hlen, hpt⟩
      refine ⟨(b.set i ((d.getD (2 * i) 0 + d.getD (2 * i + 1) 0) / 2)).set (i + h)
        ((d.getD (2 * i) 0 - d.getD (2 * i + 1) 0) / 2), ?_, ?_, ?_⟩
      · show (readAt d (2 * i) >>= fun val1 => readAt d (2 * i + 1) >>= fun val2 =>
          writeAt b i ((val1 + val2) / 2) >>= fun buf =>
          writeAt buf (i + h) ((val1 - val2) / 2)) = _
        rw [readAt_of_lt d (2 * i) (by omega), except_ok_bind,
          readAt_of_lt d (2 * i + 1) (by omega), except_ok_bind,
          writeAt_of_lt b i _ (by omega), except_ok_bind,
          writeAt_of_lt _ (i + h) _ (by simp; omega)]
      · simp [hlen]
      · intro j
        rw [List.getElem?_set, List.getElem?_set, hpt j]
        simp only [List.length_set]
        split_ifs <;> first | rfl | omega | (subst_vars; simp))
  obtain ⟨b', hb', hlen, hpt⟩ := key
  refine ⟨b', hb', hlen, fun j => ?_⟩
  rw [hpt j]
  split_ifs <;> first | rfl | omega

theorem copyTail_spec (d buf : List ℚ) (s : Nat) (hlen : buf.length = d.length) :
    ∃ b', copyTail d s buf = .ok b' ∧ b'.length = buf.length ∧
      ∀ j, b'[j]? = if s ≤ j then d[j]? else buf[j]? := by
  have key := foldlM_range'_inv
    (fun buf i => do
      let v ← readAt d i
      writeAt buf i v)
    (fun m b => b.length = buf.length ∧
      ∀ j, b[j]? = if s ≤ j ∧ j < s + m then d[j]? else buf[j]?)
    s (d.length - s) buf ⟨rfl, fun j => by rw [if_neg (by omega)]⟩
    (by
      intro i b hi ⟨hl, hpt⟩
      refine ⟨b.set (s + i) (d.getD (s + i) 0), ?_, ?_, ?_⟩
      · show (readAt d (s + i) >>= fun v => writeAt b (s + i) v) = _
        rw [readAt_of_lt d (s + i) (by omega), except_ok_bind,
          writeAt_of_lt b (s + i) _ (by omega)]
      · simp [hl]
      · intro j
        rw [List.getElem?_set, hpt j]
        by_cases e1 : s + i = j
        · subst e1
          rw [if_pos rfl, if_pos (by omega), if_pos (by omega),
            getElem?_eq_some_getD d (s + i) (by omega)]
        · rw [if_neg e1]
          split_ifs <;> first | rfl | omega)
  obtain ⟨b', hb', hl, hpt⟩ := key
  refine ⟨b', hb', hl, fun j => ?_⟩
  rw [hpt j]
  by_cases h1 : s ≤ j
  · by_cases h2 : j < s + (d.length - s)
    · rw [if_pos ⟨h1, h2⟩, if_pos h1]
    · rw [if_neg (by omega), if_pos h1, List.getElem?_eq_none (by omega),
        List.getElem?_eq_none (by omega)]
  · rw [if_neg (by omega), if_neg h1]

theorem reconstructPairs_spec (d buf : List ℚ) (A : Nat) (hd : 2 * A ≤ d.length)
    (hb : 2 * A ≤ buf.length) :
    ∃ b', reconstructPairs d A buf = .ok b' ∧ b'.length = buf.length ∧
      ∀ j, b'[j]? = if j < 2 * A then
          some (if j % 2 = 0 then d.getD (j / 2) 0 + d.getD (j / 2 + A) 0
            else d.getD (j / 2) 0 - d.getD (j / 2 + A) 0)
        else buf[j]? := by
  have key := foldlM_range_inv
    (fun buf i => do
      let approx ← readAt d i
      if i + A ≥ d.length then throw Error.detailOutOfBounds
      let detail ← readAt d (i + A)
      if 2 * i + 1 ≥ buf.length then throw Error.writeOutOfBounds
      let buf ← writeAt buf (2 * i) (approx + detail)
      writeAt buf (2 * i + 1) (approx - detail))
    (fun m b => b.length = buf.length ∧
      ∀ j, b[j]? = if j < 2 * m then
          some (if j % 2 = 0 then d.getD (j / 2) 0 + d.getD (j / 2 + A) 0
            else d.getD (j / 2) 0 - d.getD (j / 2 + A) 0)
        else buf[j]?)
    A buf ⟨rfl, fun j => by rw [if_neg (by omega)]⟩
    (by
      intro i b hi ⟨hl, hpt⟩
      refine ⟨(b.set (2 * i) (d.getD i 0 + d.getD (i + A) 0)).set (2 * i + 1)
        (d.getD i 0 - d.getD (i + A) 0), ?_, ?_, ?_⟩
      · have h1 : ¬ (i + A ≥ d.length) := by omega
        have h2 : ¬ (2 * i + 1 ≥ b.length) := by omega
        simp only [h1, h2, if_false]
        show (readAt d i >>= fun approx => (pure PUnit.unit : Except Error PUnit) >>= fun _ =>
          readAt d (i + A) >>= fun detail =>
          (pure PUnit.unit : Except Error PUnit) >>= fun _ =>
          writeAt b (2 * i) (approx + detail) >>= fun buf =>
          writeAt buf (2 * i + 1) (approx - detail)) = _
        rw [readAt_of_lt d i (by omega), except_ok_bind]
        show (readAt d (i + A) >>= fun detail =>
          (pure PUnit.unit : Except Error PUnit) >>= fun _ =>
          writeAt b (2 * i) (d.getD i 0 + detail) >>= fun buf =>
          writeAt buf (2 * i + 1) (d.getD i 0 - detail)) = _
        rw [readAt_of_lt d (i + A) (by omega), except_ok_bind]
        show (writeAt b (2 * i) (d.getD i 0 + d.getD (i + A) 0) >>= fun buf =>
          writeAt buf (2 * i + 1) (d.getD i 0 - d.getD (i + A) 0)) = _
        rw [writeAt_of_lt b (2 * i) _ (by omega), except_ok_bind,
          writeAt_of_lt _ (2 * i + 1) _ (by simp; omega)]
      · simp [hl]
      · intro j
        rw [List.getElem?_set, List.getElem?_set, hpt j]
        simp only [List.length_set]
        by_cases e1 : 2 * i + 1 = j
        · subst e1
          have a1 : (2 * i + 1) % 2 ≠ 0 := by omega
          have a2 : (2 * i + 1) / 2 = i := by omega
          rw [if_pos rfl, if_pos (by omega), if_pos (by omega), if_neg a1, a2]
        · rw [if_neg e1]
          by_cases e2 : 2 * i = j
          · subst e2
            have a1 : (2 * i) % 2 = 0 := by omega
            have a2 : (2 * i) / 2 = i := by omega
            rw [if_pos rfl, if_pos (by omega), if_pos (by omega), if_pos a1, a2]
          · rw [if_neg e2]
            split_ifs <;> first | rfl | omega)
  exact key

theorem copyTailChecked_spec (d buf : List ℚ) (s : Nat) (hlen : buf.length = d.length) :
    ∃ b', copyTailChecked d s buf = .ok b' ∧ b'.length = buf.length ∧
      ∀ j, b'[j]? = if s ≤ j then d[j]? else buf[j]? := by
  have key := foldlM_range'_inv
    (fun buf i => do
      if i ≥ d.length ∨ i ≥ buf.length then throw Error.copyOutOfBounds
      let v ← readAt d i
      writeAt buf i v)
    (fun m b => b.length = buf.length ∧
      ∀ j, b[j]? = if s ≤ j ∧ j < s + m then d[j]? else buf[j]?)
    s (d.length - s) buf ⟨rfl, fun j => by rw [if_neg (by omega)]⟩
    (by
      intro i b hi ⟨hl, hpt⟩
      refine ⟨b.set (s + i) (d.getD (s + i) 0), ?_, ?_, ?_⟩
      · have h1 : ¬ (s + i ≥ d.length ∨ s + i ≥ b.length) := by omega
        simp only [h1, if_false]
        show ((pure PUnit.unit : Except Error PUnit) >>= fun _ =>
          readAt d (s + i) >>= fun v => writeAt b (s + i) v) = _
        rw [readAt_of_lt d (s + i) (by omega)]
        show writeAt b (s + i) _ = _
        rw [writeAt_of_lt b (s + i) _ (by omega)]
      · simp [hl]
      · intro j
        rw [List.getElem?_set, hpt j]
        by_cases e1 : s + i = j
        · subst e1
          rw [if_pos rfl, if_pos (by omega), if_pos (by omega),
            getElem?_eq_some_getD d (s + i) (by omega)]
        · rw [if_neg e1]
          split_ifs <;> first | rfl | omega)
  obtain ⟨b', hb', hl, hpt⟩ := key
  refine ⟨b', hb', hl, fun j => ?_⟩
  rw [hpt j]
  by_cases h1 : s ≤ j
  · by_cases h2 : j < s + (d.length - s)
    · rw [if_pos ⟨h1, h2⟩, if_pos h1]
    · rw [if_neg (by omega), if_pos h1, List.getElem?_eq_none (by omega),
        List.getElem?_eq_none (by omega)]
  · rw [if_neg (by omega), if_neg h1]

theorem getElem?_haarForward (d : List ℚ) (A j : Nat) :
    (haarForward d A)[j]? = if j < d.length then
        some (if j < A / 2 then (d.getD (2 * j) 0 + d.getD (2 * j + 1) 0) / 2
          else if j < A then
            (d.getD (2 * (j - A / 2)) 0 - d.getD (2 * (j - A / 2) + 1) 0) / 2
          else d.getD j 0)
      else none := by
  unfold haarForward
  rw [List.getElem?_map]
  by_cases h : j < d.length
  · rw [List.getElem?_range h, if_pos h]; rfl
  · rw [List.getElem?_eq_none (by simpa using h), if_neg h]; rfl

theorem getElem?_haarInverse (d : List ℚ) (A j : Nat) :
    (haarInverse d A)[j]? = if j < d.length then
        some (if j < 2 * A then
          (if j % 2 = 0 then d.getD (j / 2) 0 + d.getD (j / 2 + A) 0
            else d.getD (j / 2) 0 - d.getD (j / 2 + A) 0)
          else d.getD j 0)
      else none := by
  unfold haarInverse
  rw [List.getElem?_map]
  by_cases h : j < d.length
  · rw [List.getElem?_range h, if_pos h]; rfl
  · rw [List.getElem?_eq_none (by simpa using h), if_neg h]; rfl

theorem length_haarForward (d : List ℚ) (A : Nat) : (haarForward d A).length = d.length := by
  simp [haarForward]

theorem length_haarInverse (d : List ℚ) (A : Nat) : (haarInverse d A).length = d.length := by
  simp [haarInverse]

/-- The two inner loops of one compression step compute `haarForward`. -/
theorem compress_body (d buf : List ℚ) (A : Nat) (hA : A % 2 = 0) (hd : A ≤ d.length)
    (hb : buf.length = d.length) :
    (compressPairs d (A / 2) buf >>= fun t => copyTail d A t) = .ok (haarForward d A) := by
  obtain ⟨b1, e1, l1, p1⟩ := compressPairs_spec d buf (A / 2) (by omega) (by omega)
  obtain ⟨b2, e2, l2, p2⟩ := copyTail_spec d b1 A (by omega)
  rw [e1, except_ok_bind, e2]
  congr 1
  apply List.ext_getElem?
  intro j
  rw [p2 j, p1 j, getElem?_haarForward]
  by_cases hj : j < d.length
  · rw [if_pos hj]
    by_cases h1 : A ≤ j
    · rw [if_pos h1, if_neg (by omega), if_neg (by omega),
        getElem?_eq_some_getD d j hj]
    · rw [if_neg h1]
      by_cases h2 : j < A / 2
      · rw [if_pos h2, if_pos h2]
      · rw [if_neg h2, if_neg h2, if_pos (by omega), if_pos (by omega)]
  · rw [if_neg hj, if_pos (by omega), List.getElem?_eq_none (by omega)]

/-- The two inner loops of one decompression step compute `haarInverse`. -/
theorem decompress_body (d buf : List ℚ) (A : Nat) (hd : 2 * A ≤ d.length)
    (hb : buf.length = d.length) :
    (reconstructPairs d A buf >>= fun t => copyTailChecked d (A * 2) t)
      = .ok (haarInverse d A) := by
  obtain ⟨b1, e1, l1, p1⟩ := reconstructPairs_spec d buf A hd (by omega)
  obtain ⟨b2, e2, l2, p2⟩ := copyTailChecked_spec d b1 (A * 2) (by omega)
  rw [e1, except_ok_bind, e2]
  congr 1
  apply List.ext_getElem?
  intro j
  rw [p2 j, p1 j, getElem?_haarInverse]
  by_cases hj : j < d.length
  · rw [if_pos hj]
    by_cases h1 : A * 2 ≤ j
    · rw [if_pos h1, if_neg (by omega), getElem?_eq_some_getD d j hj]
    · have h3 : j < 2 * A := by omega
      rw [if_neg h1, if_pos h3, if_pos h3]
  · rw [if_neg hj, if_pos (by omega), List.getElem?_eq_none (by omega)]

/-- At a non-negative resolution the approximation length is the integer quotient. -/
theorem approxSizeAt_of_nonneg (n : Nat) (r : Int) (hr : 0 ≤ r) :
    approxSizeAt n r = n / 2 ^ r.toNat := by
  obtain ⟨k, rfl⟩ := Int.eq_ofNat_of_zero_le hr
  unfold approxSizeAt
  rw [zpow_natCast, Int.toNat_ofNat]
  have h : ((2 : ℚ) ^ k) = (((2 ^ k : ℕ)) : ℚ) := by push_cast; rfl
  rw [h, Nat.floor_div_eq_div]

theorem approxSizeAt_le (n : Nat) (r : Int) (hr : 0 ≤ r) : approxSizeAt n r ≤ n := by
  rw [approxSizeAt_of_nonneg n r hr]
  exact Nat.div_le_self _ _

/-- One iteration of the compression loop, when the approximation length allows it. -/
theorem DoCompressionLoop_succ (n : Nat) (o : TComplexObject) (buf : List ℚ)
    (hr : 0 ≤ o.Resolution) (hb : buf.length = o.Data.length)
    (h2 : 2 ≤ approxSizeAt o.Data.length o.Resolution)
    (he : approxSizeAt o.Data.length o.Resolution % 2 = 0) :
    DoCompressionLoop (n + 1) o buf =
      DoCompressionLoop n
        { o with Resolution := o.Resolution + 1,
                 Data := haarForward o.Data (approxSizeAt o.Data.length o.Resolution) }
        (List.replicate o.Data.length 0) := by
  have hle := approxSizeAt_le o.Data.length o.Resolution hr
  have body := compress_body o.Data buf _ he hle hb
  rw [DoCompressionLoop]
  simp only []
  rw [if_neg (by omega), if_neg (by omega)]
  obtain ⟨b1, e1, l1, p1⟩ := compressPairs_spec o.Data buf
    (approxSizeAt o.Data.length o.Resolution / 2) (by omega) (by omega)
  rw [e1, except_ok_bind] at body
  show (compressPairs o.Data (approxSizeAt o.Data.length o.Resolution / 2) buf >>= fun t =>
    copyTail o.Data (approxSizeAt o.Data.length o.Resolution) t >>= fun t2 =>
      DoCompressionLoop n { o with Resolution := o.Resolution + 1, Data := t2 }
        (List.replicate t2.length 0)) = _
  rw [e1, except_ok_bind, body, except_ok_bind, length_haarForward]

/-- One iteration of the decompression loop, when the approximation length allows it. -/
theorem DoDecompressionLoop_succ (n : Nat) (o : TComplexObject) (buf : List ℚ)
    (hr : 0 < o.Resolution) (hb : buf.length = o.Data.length)
    (h1 : 1 ≤ approxSizeAt o.Data.length o.Resolution)
    (h2 : approxSizeAt o.Data.length o.Resolution ≤ o.Data.length / 2) :
    DoDecompressionLoop (n + 1) o buf =
      DoDecompressionLoop n
        { o with Resolution := o.Resolution - 1,
                 Data := haarInverse o.Data (approxSizeAt o.Data.length o.Resolution) }
        (List.replicate o.Data.length 0) := by
  have body := decompress_body o.Data buf (approxSizeAt o.Data.length o.Resolution)
    (by omega) hb
  rw [DoDecompressionLoop]
  simp only []
  rw [if_neg (by simpa using hr), if_neg (by omega), if_neg (by omega)]
  obtain ⟨b1, e1, l1, p1⟩ := reconstructPairs_spec o.Data buf
    (approxSizeAt o.Data.length o.Resolution) (by omega) (by omega)
  rw [e1, except_ok_bind] at body
  show (reconstructPairs o.Data (approxSizeAt o.Data.length o.Resolution) buf >>= fun t =>
    copyTailChecked o.Data (approxSizeAt o.Data.length o.Resolution * 2) t >>= fun t2 =>
      DoDecompressionLoop n { o with Resolution := o.Resolution - 1, Data := t2 }
        (List.replicate t2.length 0)) = _
  rw [e1, except_ok_bind, body, except_ok_bind, length_haarInverse]

theorem dataCompression_one (o : TComplexObject) (hne : o.Data ≠ []) :
    dataCompression o 1 =
      DoCompressionLoop 1 o.InvalidateSerializedBuffer (List.replicate o.Data.length 0) := by
  have h : o.Data.isEmpty = false := by
    cases hd : o.Data with
    | nil => exact absurd hd hne
    | cons a t => rfl
  simp [dataCompression, DoCompression, TComplexObject.InvalidateSerializedBuffer, h]

theorem dataCompression_neg_one (o : TComplexObject) (hne : o.Data ≠ [])
    (hr : o.Resolution ≠ 0) :
    dataCompression o (-1) =
      DoDecompressionLoop 1 o.InvalidateSerializedBuffer (List.replicate o.Data.length 0) := by
  have h : o.Data.isEmpty = false := by
    cases hd : o.Data with
    | nil => exact absurd hd hne
    | cons a t => rfl
  simp [dataCompression, DoDecompression, TComplexObject.InvalidateSerializedBuffer, h, hr]

/-- C4: one compression step. For an object at resolution `R ≥ 0` whose approximation
length `A = ⌊N / 2^R⌋` is even and at least 2, `dataCompression(1)` returns an object at
resolution `R + 1` whose data has the same length, holds the mean of the pair
`(data[2i], data[2i+1])` at `i` and its half-difference at `i + A/2` for every `i < A/2`,
and is unchanged on `[A, N)`. -/
theorem compression_step_layout (o : TComplexObject) (hR : 0 ≤ o.Resolution)
    (hA2 : 2 ≤ o.Data.length / 2 ^ o.Resolution.toNat)
    (hAe : (o.Data.length / 2 ^ o.Resolution.toNat) % 2 = 0) :
    ∃ o', dataCompression o 1 = .ok o' ∧
      o'.Resolution = o.Resolution + 1 ∧
      o'.Data.length = o.Data.length ∧
      (∀ i, i < (o.Data.length / 2 ^ o.Resolution.toNat) / 2 →
        ∃ x y, o.Data[2 * i]? = some x ∧ o.Data[2 * i + 1]? = some y ∧
          o'.Data[i]? = some ((x + y) / 2) ∧
          o'.Data[i + (o.Data.length / 2 ^ o.Resolution.toNat) / 2]? = some ((x - y) / 2)) ∧
      (∀ j, o.Data.length / 2 ^ o.Resolution.toNat ≤ j → j < o.Data.length →
        o'.Data[j]? = o.Data[j]?) := by
  have hA := approxSizeAt_of_nonneg o.Data.length o.Resolution hR
  have hle : o.Data.length / 2 ^ o.Resolution.toNat ≤ o.Data.length := Nat.div_le_self _ _
  have hne : o.Data ≠ [] := by
    intro h
    rw [h] at hA2
    simp at hA2
  rw [dataCompression_one o hne,
    DoCompressionLoop_succ 0 o.InvalidateSerializedBuffer _ hR
      (by simp [TComplexObject.InvalidateSerializedBuffer])
      (by rw [show o.InvalidateSerializedBuffer.Data = o.Data from rfl,
            show o.InvalidateSerializedBuffer.Resolution = o.Resolution from rfl, hA]
          exact hA2)
      (by rw [show o.InvalidateSerializedBuffer.Data = o.Data from rfl,
            show o.InvalidateSerializedBuffer.Resolution = o.Resolution from rfl, hA]
          exact hAe)]
  refine ⟨_, rfl, rfl, ?_, ?_, ?_⟩
  · exact length_haarForward _ _
  · intro i hi
    refine ⟨o.Data.getD (2 * i) 0, o.Data.getD (2 * i + 1) 0,
      getElem?_eq_some_getD _ _ (by omega), getElem?_eq_some_getD _ _ (by omega), ?_, ?_⟩
    · show (haarForward o.Data (approxSizeAt o.Data.length o.Resolution))[i]? = _
      rw [getElem?_haarForward, hA, if_pos (by omega), if_pos hi]
    · show (haarForward o.Data (approxSizeAt o.Data.length o.Resolution))[_]? = _
      rw [getElem?_haarForward, hA, if_pos (by omega), if_neg (by omega), if_pos (by omega),
        Nat.add_sub_cancel]
  · intro j hj hjN
    show (haarForward o.Data (approxSizeAt o.Data.length o.Resolution))[j]? = _
    rw [getElem?_haarForward, hA, if_pos hjN, if_neg (by omega), if_neg (by omega),
      getElem?_eq_some_getD _ _ hjN]

/-- C4 at the scenario object: `[4, 2, 6, 8]` at resolution 0 becomes `[3, 7, 1, -1]` at
resolution 1. -/
theorem compression_step_layout_witness :
    (0 : Int) ≤ scenarioS1.Resolution ∧
    2 ≤ scenarioS1.Data.length / 2 ^ scenarioS1.Resolution.toNat ∧
    (scenarioS1.Data.length / 2 ^ scenarioS1.Resolution.toNat) % 2 = 0 ∧
    ∃ o', dataCompression scenarioS1 1 = .ok o' ∧
      o'.Resolution = 1 ∧ o'.Data = [3, 7, 1, -1] := by
  refine ⟨by decide, by decide, by decide, ?_⟩
  obtain ⟨o', h, hres, hlen, hpairs, _⟩ :=
    compression_step_layout scenarioS1 (by decide) (by decide) (by decide)
  refine ⟨o', h, by simpa [scenarioS1, TComplexObject.create] using hres, ?_⟩
  obtain ⟨x0, y0, hx0, hy0, a0, d0⟩ := hpairs 0 (by decide)
  obtain ⟨x1, y1, hx1, hy1, a1, d1⟩ := hpairs 1 (by decide)
  simp [scenarioS1, TComplexObject.create] at hx0 hy0 hx1 hy1 a0 d0 a1 d1 hlen
  subst hx0 hy0 hx1 hy1
  apply List.ext_getElem?
  intro n
  match n with
  | 0 => rw [a0]; norm_num
  | 1 => rw [a1]; norm_num
  | 2 => rw [d0]; norm_num
  | 3 => rw [d1]; norm_num
  | n + 4 =>
    rw [List.getElem?_eq_none (by omega)]
    simp

/-- C5, as the code has it: one decompression step. For an object at resolution `R ≥ 1`
whose approximation length `A = ⌊N / 2^R⌋` is at least 1, `dataCompression(-1)` returns an
object at resolution `R - 1` whose data has the same length, holds
`data[i] + data[i + A]` at `2i` and `data[i] - data[i + A]` at `2i + 1` for every `i < A`,
and is unchanged on `[2A, N)`. -/
theorem decompression_step_layout (o : TComplexObject) (hR : 1 ≤ o.Resolution)
    (hA1 : 1 ≤ o.Data.length / 2 ^ o.Resolution.toNat) :
    ∃ o', dataCompression o (-1) = .ok o' ∧
      o'.Resolution = o.Resolution - 1 ∧
      o'.Data.length = o.Data.length ∧
      (∀ i, i < o.Data.length / 2 ^ o.Resolution.toNat →
        ∃ a b, o.Data[i]? = some a ∧
          o.Data[i + o.Data.length / 2 ^ o.Resolution.toNat]? = some b ∧
          o'.Data[2 * i]? = some (a + b) ∧ o'.Data[2 * i + 1]? = some (a - b)) ∧
      (∀ j, 2 * (o.Data.length / 2 ^ o.Resolution.toNat) ≤ j → j < o.Data.length →
        o'.Data[j]? = o.Data[j]?) := by
  have hA := approxSizeAt_of_nonneg o.Data.length o.Resolution (by omega)
  have hne : o.Data ≠ [] := by
    intro h
    rw [h] at hA1
    simp at hA1
  have hhalf : o.Data.length / 2 ^ o.Resolution.toNat ≤ o.Data.length / 2 := by
    apply Nat.div_le_div_left _ (by norm_num)
    obtain ⟨k, hk⟩ : ∃ k, o.Resolution.toNat = k + 1 := ⟨o.Resolution.toNat - 1, by omega⟩
    rw [hk, pow_succ]
    have : 1 ≤ 2 ^ k := Nat.one_le_two_pow
    omega
  rw [dataCompression_neg_one o hne (by omega),
    DoDecompressionLoop_succ 0 o.InvalidateSerializedBuffer _
      (by show 0 < o.Resolution; omega)
      (by simp [TComplexObject.InvalidateSerializedBuffer])
      (by rw [show o.InvalidateSerializedBuffer.Data = o.Data from rfl,
            show o.InvalidateSerializedBuffer.Resolution = o.Resolution from rfl, hA]
          exact hA1)
      (by rw [show o.InvalidateSerializedBuffer.Data = o.Data from rfl,
            show o.InvalidateSerializedBuffer.Resolution = o.Resolution from rfl, hA]
          exact hhalf)]
  refine ⟨_, rfl, rfl, ?_, ?_, ?_⟩
  · exact length_haarInverse _ _
  · intro i hi
    refine ⟨o.Data.getD i 0, o.Data.getD (i + o.Data.length / 2 ^ o.Resolution.toNat) 0,
      getElem?_eq_some_getD _ _ (by omega), getElem?_eq_some_getD _ _ (by omega), ?_, ?_⟩
    · show (haarInverse o.Data (approxSizeAt o.Data.length o.Resolution))[2 * i]? = _
      have e1 : (2 * i) % 2 = 0 := by omega
      have e2 : (2 * i) / 2 = i := by omega
      have e3 : 2 * i < 2 * (o.Data.length / 2 ^ o.Resolution.toNat) := by omega
      rw [getElem?_haarInverse, hA, if_pos (by omega), if_pos e3, if_pos e1, e2]
    · show (haarInverse o.Data (approxSizeAt o.Data.length o.Resolution))[2 * i + 1]? = _
      have e1 : ¬ (2 * i + 1) % 2 = 0 := by omega
      have e2 : (2 * i + 1) / 2 = i := by omega
      have e3 : 2 * i + 1 < 2 * (o.Data.length / 2 ^ o.Resolution.toNat) := by omega
      rw [getElem?_haarInverse, hA, if_pos (by omega), if_pos e3, if_neg e1, e2]
  · intro j hj hjN
    show (haarInverse o.Data (approxSizeAt o.Data.length o.Resolution))[j]? = _
    have e3 : ¬ j < 2 * (o.Data.length / 2 ^ o.Resolution.toNat) := by omega
    rw [getElem?_haarInverse, hA, if_pos hjN, if_neg e3, getElem?_eq_some_getD _ _ hjN]

/-- C5 at the scenario object: `[3, 7, 1, -1]` at resolution 1 goes back to `[4, 2, 6, 8]`
at resolution 0. -/
theorem decompression_step_layout_witness :
    (1 : Int) ≤ (TComplexObject.create [115, 49] 1 [3, 7, 1, -1]).Resolution ∧
    1 ≤ (TComplexObject.create [115, 49] 1 [3, 7, 1, -1]).Data.length /
      2 ^ (TComplexObject.create [115, 49] 1 [3, 7, 1, -1]).Resolution.toNat ∧
    ∃ o', dataCompression (TComplexObject.create [115, 49] 1 [3, 7, 1, -1]) (-1) = .ok o' ∧
      o'.Resolution = 0 ∧ o'.Data = [4, 2, 6, 8] := by
  refine ⟨by decide, by decide, ?_⟩
  obtain ⟨o', h, hres, hlen, hpairs, _⟩ :=
    decompression_step_layout (TComplexObject.create [115, 49] 1 [3, 7, 1, -1])
      (by decide) (by decide)
  refine ⟨o', h, by simpa [TComplexObject.create] using hres, ?_⟩
  obtain ⟨x0, y0, hx0, hy0, a0, d0⟩ := hpairs 0 (by decide)
  obtain ⟨x1, y1, hx1, hy1, a1, d1⟩ := hpairs 1 (by decide)
  simp [TComplexObject.create] at hx0 hy0 hx1 hy1 a0 d0 a1 d1 hlen
  subst hx0 hy0 hx1 hy1
  apply List.ext_getElem?
  intro n
  match n with
  | 0 => rw [a0]; norm_num
  | 1 => rw [d0]; norm_num
  | 2 => rw [a1]; norm_num
  | 3 => rw [d1]; norm_num
  | n + 4 =>
    rw [List.getElem?_eq_none (by omega)]
    simp

/-- C5 as stated fails when the approximation length is 0: on the one-element object
`[5]` at resolution 1 the loop stops before the step, and `dataCompression(-1)` returns
the object still at resolution 1, not at resolution 0. -/
theorem decompression_stops_at_zero_approx :
    dataCompression (TComplexObject.create [120] 1 [5]) (-1)
      = .ok (TComplexObject.create [120] 1 [5]) ∧
    ¬ ∃ o', dataCompression (TComplexObject.create [120] 1 [5]) (-1) = .ok o' ∧
      o'.Resolution = (TComplexObject.create [120] 1 [5]).Resolution - 1 := by
  have h : dataCompression (TComplexObject.create [120] 1 [5]) (-1)
      = .ok (TComplexObject.create [120] 1 [5]) := by
    rw [dataCompression_neg_one _ (by simp [TComplexObject.create])
      (by simp [TComplexObject.create])]
    rw [DoDecompressionLoop]
    have hA : approxSizeAt 1 1 = 0 := by
      rw [approxSizeAt_of_nonneg 1 1 (by decide)]; decide
    simp [TComplexObject.create, TComplexObject.InvalidateSerializedBuffer, hA]
  refine ⟨h, ?_⟩
  rintro ⟨o', h', hres⟩
  rw [h] at h'
  injection h' with h'
  subst h'
  simp [TComplexObject.create] at hres

/-! ## Iterated steps -/

theorem compressStep_iterate_facts (m : Nat) (o : TComplexObject) :
    (compressStep^[m] o).Resolution = o.Resolution + m ∧
    (compressStep^[m] o).Data.length = o.Data.length ∧
    (compressStep^[m] o).Label = o.Label ∧
    (compressStep^[m] o).Serialized = o.Serialized := by
  induction m with
  | zero => simp
  | succ n ih =>
    rw [Function.iterate_succ_apply']
    obtain ⟨h1, h2, h3, h4⟩ := ih
    refine ⟨?_, ?_, ?_, ?_⟩
    · show (compressStep^[n] o).Resolution + 1 = _
      rw [h1]; push_cast; ring
    · show (haarForward _ _).length = _
      rw [length_haarForward, h2]
    · exact h3
    · exact h4

theorem div_pow_even (N r : Nat) (hN : 0 < N) (hdiv : 2 ^ (r + 1) ∣ N) :
    2 ≤ N / 2 ^ r ∧ (N / 2 ^ r) % 2 = 0 := by
  obtain ⟨c, hc⟩ := hdiv
  have hpos : 0 < 2 ^ r := Nat.two_pow_pos _
  have e : N / 2 ^ r = 2 * c := by
    rw [hc, pow_succ, Nat.mul_assoc, Nat.mul_div_cancel_left _ hpos]
  have hc0 : 0 < c := by
    rcases Nat.eq_zero_or_pos c with h | h
    · rw [h] at hc; omega
    · exact h
  omega

theorem div_pow_pos (N r : Nat) (hN : 0 < N) (hdiv : 2 ^ r ∣ N) : 1 ≤ N / 2 ^ r := by
  have hpos : 0 < 2 ^ r := Nat.two_pow_pos _
  exact Nat.div_pos (Nat.le_of_dvd hN hdiv) hpos

theorem div_pow_le_half (N r : Nat) (hr : 1 ≤ r) : N / 2 ^ r ≤ N / 2 := by
  apply Nat.div_le_div_left _ (by norm_num)
  obtain ⟨k, hk⟩ : ∃ k, r = k + 1 := ⟨r - 1, by omega⟩
  rw [hk, pow_succ]
  have : 1 ≤ 2 ^ k := Nat.one_le_two_pow
  omega

/-- With `2^(r+m)` dividing the length, `m` passes of the compression loop starting at
resolution `r` all go through. -/
theorem DoCompressionLoop_iterate (m : Nat) :
    ∀ (o : TComplexObject) (buf : List ℚ) (r : Nat), o.Resolution = r →
      buf.length = o.Data.length → 0 < o.Data.length → 2 ^ (r + m) ∣ o.Data.length →
      DoCompressionLoop m o buf = .ok (compressStep^[m] o) := by
  induction m with
  | zero => intro o buf r _ _ _ _; rfl
  | succ n ih =>
    intro o buf r hr hb hN hdiv
    have hdiv1 : 2 ^ (r + 1) ∣ o.Data.length :=
      Dvd.dvd.trans (pow_dvd_pow 2 (by omega)) hdiv
    have hA := approxSizeAt_of_nonneg o.Data.length o.Resolution (by omega)
    have hfacts := div_pow_even o.Data.length r hN hdiv1
    have hr' : o.Resolution.toNat = r := by omega
    rw [DoCompressionLoop_succ n o buf (by omega) hb (by rw [hA, hr']; exact hfacts.1)
      (by rw [hA, hr']; exact hfacts.2)]
    rw [Function.iterate_succ_apply]
    have hlen : (compressStep o).Data.length = o.Data.length := length_haarForward _ _
    exact ih (compressStep o) _ (r + 1) (by show o.Resolution + 1 = _; rw [hr]; push_cast; ring)
      (by rw [hlen]; simp) (by rw [hlen]; exact hN)
      (by rw [hlen]; rw [show r + 1 + n = r + (n + 1) by omega]; exact hdiv)

theorem decompressStep_facts (o : TComplexObject) :
    (decompressStep o).Resolution = o.Resolution - 1 ∧
    (decompressStep o).Data.length = o.Data.length :=
  ⟨rfl, length_haarInverse _ _⟩

/-- With `2^r` dividing the length, `m ≤ r` passes of the decompression loop starting at
resolution `r` all go through. -/
theorem DoDecompressionLoop_iterate (m : Nat) :
    ∀ (o : TComplexObject) (buf : List ℚ) (r : Nat), o.Resolution = r → m ≤ r →
      buf.length = o.Data.length → 0 < o.Data.length → 2 ^ r ∣ o.Data.length →
      DoDecompressionLoop m o buf = .ok (decompressStep^[m] o) := by
  induction m with
  | zero => intro o buf r _ _ _ _ _; rfl
  | succ n ih =>
    intro o buf r hr hm hb hN hdiv
    have hA := approxSizeAt_of_nonneg o.Data.length o.Resolution (by omega)
    have hr' : o.Resolution.toNat = r := by omega
    rw [DoDecompressionLoop_succ n o buf (by omega) hb
      (by rw [hA, hr']; exact div_pow_pos _ _ hN hdiv)
      (by rw [hA, hr']; exact div_pow_le_half _ _ (by omega))]
    rw [Function.iterate_succ_apply]
    have hlen : (decompressStep o).Data.length = o.Data.length := length_haarInverse _ _
    exact ih (decompressStep o) _ (r - 1)
      (by show o.Resolution - 1 = _; rw [hr]; omega) (by omega)
      (by rw [hlen]; simp) (by rw [hlen]; exact hN)
      (by rw [hlen]; exact Dvd.dvd.trans (pow_dvd_pow 2 (by omega)) hdiv)

/-- The inverse step undoes the forward step on the data. -/
theorem haarInverse_haarForward (d : List ℚ) (A : Nat) (hA : A % 2 = 0) (hle : A ≤ d.length) :
    haarInverse (haarForward d A) (A / 2) = d := by
  apply List.ext_getElem?
  intro j
  rw [getElem?_haarInverse, length_haarForward]
  by_cases hj : j < d.length
  · rw [if_pos hj, getElem?_eq_some_getD d j hj]
    congr 1
    have get : ∀ i, i < d.length → (haarForward d A).getD i 0 =
        (if i < A / 2 then (d.getD (2 * i) 0 + d.getD (2 * i + 1) 0) / 2
          else if i < A then
            (d.getD (2 * (i - A / 2)) 0 - d.getD (2 * (i - A / 2) + 1) 0) / 2
          else d.getD i 0) := by
      intro i hi
      rw [List.getD_eq_getElem?_getD, getElem?_haarForward, if_pos hi]
      rfl
    by_cases h1 : j < 2 * (A / 2)
    · rw [if_pos h1, get (j / 2) (by omega), get (j / 2 + A / 2) (by omega)]
      have c1 : j / 2 < A / 2 := by omega
      have c2 : ¬ (j / 2 + A / 2 < A / 2) := by omega
      have c3 : j / 2 + A / 2 < A := by omega
      rw [if_pos c1, if_neg c2, if_pos c3, Nat.add_sub_cancel]
      by_cases h2 : j % 2 = 0
      · rw [if_pos h2]
        have e : 2 * (j / 2) = j := by omega
        rw [e]; ring
      · rw [if_neg h2]
        have e : 2 * (j / 2) + 1 = j := by omega
        rw [e]; ring
    · rw [if_neg h1, get j hj, if_neg (by omega), if_neg (by omega)]
  · rw [if_neg hj, List.getElem?_eq_none (by omega)]

theorem decompressStep_compressStep (o : TComplexObject) (r : Nat) (hr : o.Resolution = r)
    (hN : 0 < o.Data.length) (hdiv : 2 ^ (r + 1) ∣ o.Data.length) :
    decompressStep (compressStep o) = o := by
  have hA := approxSizeAt_of_nonneg o.Data.length o.Resolution (by omega)
  have hA' := approxSizeAt_of_nonneg o.Data.length (o.Resolution + 1) (by omega)
  have hr' : o.Resolution.toNat = r := by omega
  have hr'' : (o.Resolution + 1).toNat = r + 1 := by omega
  have hfacts := div_pow_even o.Data.length r hN hdiv
  have hhalf : o.Data.length / 2 ^ (r + 1) = o.Data.length / 2 ^ r / 2 := by
    rw [pow_succ, Nat.div_div_eq_div_mul]
  cases o with
  | mk L R D S =>
    simp only [compressStep, decompressStep, length_haarForward] at *
    rw [hA', hA, hr', hr'', hhalf,
      haarInverse_haarForward D _ hfacts.2 (Nat.div_le_self _ _)]
    simp

theorem decompress_compress_iterate (m : Nat) :
    ∀ (o : TComplexObject) (r : Nat), o.Resolution = r → 0 < o.Data.length →
      2 ^ (r + m) ∣ o.Data.length →
      decompressStep^[m] (compressStep^[m] o) = o := by
  induction m with
  | zero => intro o r _ _ _; rfl
  | succ n ih =>
    intro o r hr hN hdiv
    obtain ⟨f1, f2, _, _⟩ := compressStep_iterate_facts n o
    rw [Function.iterate_succ_apply' compressStep, Function.iterate_succ_apply decompressStep,
      decompressStep_compressStep (compressStep^[n] o) (r + n)
        (by rw [f1, hr]; push_cast; rfl) (by rw [f2]; exact hN)
        (by rw [f2]; rw [show r + n + 1 = r + (n + 1) by omega]; exact hdiv)]
    exact ih o r hr hN (Dvd.dvd.trans (pow_dvd_pow 2 (by omega)) hdiv)

theorem isEmpty_eq_false_of_ne_nil (d : List ℚ) (hne : d ≠ []) : d.isEmpty = false := by
  cases d with
  | nil => exact absurd rfl hne
  | cons a t => rfl

theorem dataCompression_pos (o : TComplexObject) (k : Nat) (hk : 0 < k) (hne : o.Data ≠ []) :
    dataCompression o (k : Int) =
      DoCompressionLoop k o.InvalidateSerializedBuffer (List.replicate o.Data.length 0) := by
  have h := isEmpty_eq_false_of_ne_nil _ hne
  have h1 : (k : Int) ≠ 0 := by omega
  have h2 : (k : Int) > 0 := by omega
  have h3 : ¬ ((k : Int) ≤ 0) := by omega
  simp only [dataCompression, DoCompression, TComplexObject.InvalidateSerializedBuffer, h,
    h1, h2, h3, if_true, if_false, Int.toNat_ofNat]
  rfl

theorem dataCompression_neg (o : TComplexObject) (k : Nat) (hk : 0 < k) (hne : o.Data ≠ [])
    (hr : o.Resolution ≠ 0) :
    dataCompression o (-(k : Int)) =
      DoDecompressionLoop k o.InvalidateSerializedBuffer (List.replicate o.Data.length 0) := by
  have h := isEmpty_eq_false_of_ne_nil _ hne
  have h1 : -(k : Int) ≠ 0 := by omega
  have h2 : ¬ (-(k : Int) > 0) := by omega
  have h3 : ¬ (((-(k : Int)).natAbs : Int) ≤ 0) := by omega
  have h4 : ((-(k : Int)).natAbs : Int).toNat = k := by omega
  simp only [dataCompression, DoDecompression, TComplexObject.InvalidateSerializedBuffer, h,
    h1, h2, h3, h4, hr, if_true, if_false, or_self]
  rfl

theorem dataCompression_empty (o : TComplexObject) (l : Int) (he : o.Data = []) :
    ∃ o', dataCompression o l = .ok o' ∧ o'.Resolution = o.Resolution ∧ o'.Data = o.Data ∧
      o'.Label = o.Label := by
  unfold dataCompression DoCompression DoDecompression
  simp only [TComplexObject.InvalidateSerializedBuffer, he, List.isEmpty_nil, true_or, if_true,
    ite_self]
  split_ifs <;> exact ⟨_, rfl, rfl, he.symm ▸ rfl, rfl⟩

/-- C3: Haar inverse. For an object at resolution 0 whose data length is divisible by
`2^k`, `dataCompression(+k)` succeeds and `dataCompression(-k)` on its result succeeds and
gives back resolution 0 and exactly the original data. -/
theorem haar_inverse_roundtrip (o : TComplexObject) (k : Nat) (h0 : o.Resolution = 0)
    (hdiv : 2 ^ k ∣ o.Data.length) :
    ∃ o1 o2, dataCompression o (k : Int) = .ok o1 ∧
      dataCompression o1 (-(k : Int)) = .ok o2 ∧
      o2.Resolution = 0 ∧ o2.Data = o.Data ∧ o2.Label = o.Label := by
  rcases Nat.eq_zero_or_pos k with hk | hk
  · subst hk
    exact ⟨o, o, rfl, rfl, h0, rfl, rfl⟩
  · by_cases he : o.Data = []
    · obtain ⟨o1, e1, r1, d1, l1⟩ := dataCompression_empty o (k : Int) he
      obtain ⟨o2, e2, r2, d2, l2⟩ := dataCompression_empty o1 (-(k : Int)) (by rw [d1, he])
      exact ⟨o1, o2, e1, e2, by rw [r2, r1, h0], by rw [d2, d1], by rw [l2, l1]⟩
    · have hN : 0 < o.Data.length := List.length_pos.mpr he
      have hc := DoCompressionLoop_iterate k o.InvalidateSerializedBuffer
        (List.replicate o.Data.length 0) 0 h0
        (by simp [TComplexObject.InvalidateSerializedBuffer]) hN (by simpa using hdiv)
      obtain ⟨f1, f2, f3, f4⟩ := compressStep_iterate_facts k o.InvalidateSerializedBuffer
      have g1 : (compressStep^[k] o.InvalidateSerializedBuffer).Resolution = (k : Int) := by
        rw [f1]; show o.Resolution + k = k; rw [h0]; simp
      have g2 : (compressStep^[k] o.InvalidateSerializedBuffer).Data.length = o.Data.length :=
        f2
      have hne1 : (compressStep^[k] o.InvalidateSerializedBuffer).Data ≠ [] := by
        intro h; rw [h] at g2; simp at g2; omega
      have hd := DoDecompressionLoop_iterate k
        (compressStep^[k] o.InvalidateSerializedBuffer).InvalidateSerializedBuffer
        (List.replicate (compressStep^[k] o.InvalidateSerializedBuffer).Data.length 0) k g1
        (le_refl k) (by simp [TComplexObject.InvalidateSerializedBuffer])
        (by show 0 < (compressStep^[k] o.InvalidateSerializedBuffer).Data.length
            rw [g2]; exact hN)
        (by show 2 ^ k ∣ (compressStep^[k] o.InvalidateSerializedBuffer).Data.length
            rw [g2]; exact hdiv)
      have hinv : (compressStep^[k] o.InvalidateSerializedBuffer).InvalidateSerializedBuffer
          = compressStep^[k] o.InvalidateSerializedBuffer := by
        cases hx : compressStep^[k] o.InvalidateSerializedBuffer with
        | mk L R D S =>
          rw [hx] at f4
          simp only [TComplexObject.InvalidateSerializedBuffer] at f4 ⊢
          rw [f4]
      rw [hinv, decompress_compress_iterate k o.InvalidateSerializedBuffer 0 h0 hN
        (by simpa using hdiv)] at hd
      refine ⟨compressStep^[k] o.InvalidateSerializedBuffer, o.InvalidateSerializedBuffer,
        ?_, ?_, h0, rfl, rfl⟩
      · rw [dataCompression_pos o k hk he]; exact hc
      · rw [dataCompression_neg _ k hk hne1 (by rw [g1]; omega), hinv]; exact hd

/-- C3 at the scenario object: two levels down and two levels up on `[4, 2, 6, 8]`. -/
theorem haar_inverse_roundtrip_witness :
    scenarioS1.Resolution = 0 ∧ 2 ^ 2 ∣ scenarioS1.Data.length ∧
    ∃ o1 o2, dataCompression scenarioS1 ((2 : Nat) : Int) = .ok o1 ∧
      dataCompression o1 (-((2 : Nat) : Int)) = .ok o2 ∧
      o2.Resolution = 0 ∧ o2.Data = scenarioS1.Data ∧ o2.Label = scenarioS1.Label :=
  ⟨rfl, by decide, haar_inverse_roundtrip scenarioS1 2 rfl (by decide)⟩

/-! ## The distance functions -/

theorem sumOfDiffLoop_spec (a b : List ℚ) (A : Nat) (ha : A ≤ a.length) (hb : A ≤ b.length) :
    sumOfDiffLoop a b A = .ok (l1Upto a b A) := by
  obtain ⟨s, hs, hP⟩ := foldlM_range_inv
    (fun sumOfDiff i => do
      let x ← readAt a i
      let y ← readAt b i
      pure (sumOfDiff + |x - y|))
    (fun m s => s = l1Upto a b m) A 0 (by simp [l1Upto])
    (by
      intro i s hi hs
      refine ⟨s + |a.getD i 0 - b.getD i 0|, ?_, ?_⟩
      · show (readAt a i >>= fun x => readAt b i >>= fun y =>
          (pure (s + |x - y|) : Except Error ℚ)) = _
        rw [readAt_of_lt a i (by omega), except_ok_bind, readAt_of_lt b i (by omega),
          except_ok_bind]
        rfl
      · show s + _ = l1Upto a b (i + 1)
        rw [hs]; unfold l1Upto; rw [Finset.sum_range_succ])
  rw [← hP]
  exact hs

theorem sumOfDiffLoopChecked_spec (a b : List ℚ) (A : Nat) (ha : A ≤ a.length)
    (hb : A ≤ b.length) :
    sumOfDiffLoopChecked a b A = .ok (l1Upto a b A) := by
  obtain ⟨s, hs, hP⟩ := foldlM_range_inv
    (fun sumOfDiff i => do
      if i ≥ a.length ∨ i ≥ b.length then throw Error.indexLogic
      let x ← readAt a i
      let y ← readAt b i
      pure (sumOfDiff + |x - y|))
    (fun m s => s = l1Upto a b m) A 0 (by simp [l1Upto])
    (by
      intro i s hi hs
      refine ⟨s + |a.getD i 0 - b.getD i 0|, ?_, ?_⟩
      · have h1 : ¬ (i ≥ a.length ∨ i ≥ b.length) := by omega
        simp only [h1, if_false]
        show ((pure PUnit.unit : Except Error PUnit) >>= fun _ =>
          readAt a i >>= fun x => readAt b i >>= fun y =>
          (pure (s + |x - y|) : Except Error ℚ)) = _
        rw [readAt_of_lt a i (by omega), readAt_of_lt b i (by omega)]
        rfl
      · show s + _ = l1Upto a b (i + 1)
        rw [hs]; unfold l1Upto; rw [Finset.sum_range_succ])
  rw [← hP]
  exact hs

theorem pow2_of_range (r : Int) (h1 : -1074 ≤ r) (h2 : r ≤ 1023) :
    pow2 r = some ((2 : ℚ) ^ r) := by
  unfold pow2
  rw [if_neg (by omega), if_neg (by omega)]

/-- The approximation length computed by the distance functions, with the power clipped
below at 1, is `min N ⌊N / 2^r⌋`. -/
theorem clipped_approx (N : Nat) (r : Int) :
    min ⌊(N : ℚ) / (if (2 : ℚ) ^ r < 1 then 1 else (2 : ℚ) ^ r)⌋₊ N
      = min N ⌊(N : ℚ) / (2 : ℚ) ^ r⌋₊ := by
  have hpos : (0 : ℚ) < 2 ^ r := zpow_pos (by norm_num) r
  by_cases h : (2 : ℚ) ^ r < 1
  · rw [if_pos h, div_one, Nat.floor_natCast, min_self]
    symm
    apply min_eq_left
    apply Nat.le_floor
    rw [le_div_iff₀ hpos]
    calc (N : ℚ) * 2 ^ r ≤ (N : ℚ) * 1 :=
          mul_le_mul_of_nonneg_left (le_of_lt h) (Nat.cast_nonneg N)
      _ = N := mul_one _
  · rw [if_neg h, min_comm]

theorem l1Upto_zero (a b : List ℚ) : l1Upto a b 0 = 0 := by
  simp [l1Upto]


/-- Same resolution and same length: the result of `GetDistance2`. -/
theorem GetDistance2_same_resolution (c : Nat) (q o : TComplexObject)
    (hres : q.Resolution = o.Resolution) (hlen : q.Data.length = o.Data.length) :
    GetDistance2 c q o =
      if o.Data.length = 0 then (.ok 0, c + 1)
      else if 1023 < o.Resolution ∨ o.Resolution < -1074 then (.error .invalidPower, c)
      else (.ok (l1Upto q.Data o.Data
        (min o.Data.length ⌊(o.Data.length : ℚ) / (2 : ℚ) ^ o.Resolution⌋₊)), c + 1) := by
  unfold GetDistance2
  simp only [hres, hlen, ne_eq, not_true_eq_false, if_false]
  by_cases he : o.Data = []
  · simp [he]
  · have hN : 0 < o.Data.length := List.length_pos.mpr he
    have he' : o.Data.isEmpty = false := isEmpty_eq_false_of_ne_nil _ he
    have hq : q.Data.isEmpty = false := by
      apply isEmpty_eq_false_of_ne_nil
      intro h; rw [h] at hlen; simp at hlen; omega
    rw [if_neg (show ¬ o.Data.length = 0 by omega)]
    simp only [he', hq, if_false, Bool.false_eq_true]
    by_cases h1 : 1023 < o.Resolution
    · rw [if_pos (Or.inl h1)]
      simp [pow2, h1]
    · by_cases h2 : o.Resolution < -1074
      · rw [if_pos (Or.inr h2)]
        simp [pow2, h1, h2]
      · rw [if_neg (show ¬ (1023 < o.Resolution ∨ o.Resolution < -1074) by omega)]
        have hpos : (0 : ℚ) < 2 ^ o.Resolution := zpow_pos (by norm_num) _
        simp only [pow2_of_range o.Resolution (by omega) (by omega), not_le.mpr hpos, if_false,
          clipped_approx]
        by_cases hz : min o.Data.length ⌊(o.Data.length : ℚ) / (2 : ℚ) ^ o.Resolution⌋₊ = 0
        · simp [hz, hN, l1Upto_zero]
        · rw [if_neg (by tauto),
            sumOfDiffLoop_spec _ _ _ (by rw [hlen]; exact min_le_left _ _) (min_le_left _ _)]

/-- Different resolutions, same length, the clone reaches the target resolution: the
result of `GetDistance2`. -/
theorem GetDistance2_clone_path (c : Nat) (q o o' : TComplexObject)
    (hres : q.Resolution ≠ o.Resolution) (hlen : q.Data.length = o.Data.length)
    (hcomp : dataCompression q.Clone (o.Resolution - q.Resolution) = .ok o')
    (hres' : o'.Resolution = o.Resolution) (hlen' : o'.Data.length = o.Data.length) :
    GetDistance2 c q o =
      if o.Data.length = 0 then (.ok 0, c + 1)
      else if 1023 < o.Resolution ∨ o.Resolution < -1074 then (.error .invalidPower, c)
      else (.ok (l1Upto o'.Data o.Data
        (min o.Data.length ⌊(o.Data.length : ℚ) / (2 : ℚ) ^ o.Resolution⌋₊)), c + 1) := by
  unfold GetDistance2
  have hcl : q.Clone.Data.length = o.Data.length := hlen
  simp only [hres, hcl, hcomp, hres', ne_eq, not_true_eq_false, not_false_eq_true, if_false,
    if_true]
  by_cases he : o.Data = []
  · simp [he]
  · have hN : 0 < o.Data.length := List.length_pos.mpr he
    have he' : o.Data.isEmpty = false := isEmpty_eq_false_of_ne_nil _ he
    have hq : o'.Data.isEmpty = false := by
      apply isEmpty_eq_false_of_ne_nil
      intro h; rw [h] at hlen'; simp at hlen'; omega
    rw [if_neg (show ¬ o.Data.length = 0 by omega)]
    simp only [he', hq, if_false, Bool.false_eq_true]
    by_cases h1 : 1023 < o.Resolution
    · rw [if_pos (Or.inl h1)]
      simp [pow2, h1]
    · by_cases h2 : o.Resolution < -1074
      · rw [if_pos (Or.inr h2)]
        simp [pow2, h1, h2]
      · rw [if_neg (show ¬ (1023 < o.Resolution ∨ o.Resolution < -1074) by omega)]
        have hpos : (0 : ℚ) < 2 ^ o.Resolution := zpow_pos (by norm_num) _
        simp only [pow2_of_range o.Resolution (by omega) (by omega), not_le.mpr hpos, if_false,
          clipped_approx]
        by_cases hz : min o.Data.length ⌊(o.Data.length : ℚ) / (2 : ℚ) ^ o.Resolution⌋₊ = 0
        · simp [hz, hN, l1Upto_zero]
        · rw [if_neg (by tauto),
            sumOfDiffLoop_spec _ _ _ (by rw [hlen']; exact min_le_left _ _) (min_le_left _ _)]

/-- Different lengths: `GetDistance2` throws and leaves the counter alone. -/
theorem GetDistance2_size_mismatch (c : Nat) (q o : TComplexObject)
    (hlen : q.Data.length ≠ o.Data.length) :
    GetDistance2 c q o = (.error .sizeMismatch, c) := by
  unfold GetDistance2
  have hcl : q.Clone.Data.length ≠ o.Data.length := hlen
  by_cases hres : q.Resolution = o.Resolution
  · simp [hres, hlen]
  · simp [hres, hcl]

/-- Same resolution and same length: the result of `calculateComplexObjectDistance`. -/
theorem calculateComplexObjectDistance_same_resolution (c : Nat) (q o : TComplexObject)
    (hres : q.Resolution = o.Resolution) (hlen : q.Data.length = o.Data.length) :
    calculateComplexObjectDistance q o c =
      if o.Data.length = 0 then (.ok 0, c + 1)
      else if 1023 < o.Resolution ∨ o.Resolution < -1074 then (.error .invalidPower, c)
      else (.ok (l1Upto q.Data o.Data
        (min o.Data.length ⌊(o.Data.length : ℚ) / (2 : ℚ) ^ o.Resolution⌋₊)), c + 1) := by
  unfold calculateComplexObjectDistance
  simp only [hres, hlen, ne_eq, not_true_eq_false, if_false]
  by_cases he : o.Data = []
  · simp [he]
  · have hN : 0 < o.Data.length := List.length_pos.mpr he
    have he' : o.Data.isEmpty = false := isEmpty_eq_false_of_ne_nil _ he
    have hq : q.Data.isEmpty = false := by
      apply isEmpty_eq_false_of_ne_nil
      intro h; rw [h] at hlen; simp at hlen; omega
    rw [if_neg (show ¬ o.Data.length = 0 by omega)]
    simp only [he', hq, if_false, Bool.false_eq_true]
    by_cases h1 : 1023 < o.Resolution
    · rw [if_pos (Or.inl h1)]
      simp [pow2, h1]
    · by_cases h2 : o.Resolution < -1074
      · rw [if_pos (Or.inr h2)]
        simp [pow2, h1, h2]
      · rw [if_neg (show ¬ (1023 < o.Resolution ∨ o.Resolution < -1074) by omega)]
        have hpos : (0 : ℚ) < 2 ^ o.Resolution := zpow_pos (by norm_num) _
        simp only [pow2_of_range o.Resolution (by omega) (by omega), not_le.mpr hpos, if_false,
          clipped_approx]
        by_cases hz : min o.Data.length ⌊(o.Data.length : ℚ) / (2 : ℚ) ^ o.Resolution⌋₊ = 0
        · simp [hz, hN, l1Upto_zero]
        · rw [if_neg (by tauto),
            sumOfDiffLoopChecked_spec _ _ _ (by rw [hlen]; exact min_le_left _ _) (min_le_left _ _)]

/-- Different resolutions, same length, the clone reaches the target resolution: the
result of `calculateComplexObjectDistance`. -/
theorem calculateComplexObjectDistance_clone_path (c : Nat) (q o o' : TComplexObject)
    (hres : q.Resolution ≠ o.Resolution) (hlen : q.Data.length = o.Data.length)
    (hcomp : dataCompression q.Clone (o.Resolution - q.Resolution) = .ok o')
    (hres' : o'.Resolution = o.Resolution) (hlen' : o'.Data.length = o.Data.length) :
    calculateComplexObjectDistance q o c =
      if o.Data.length = 0 then (.ok 0, c + 1)
      else if 1023 < o.Resolution ∨ o.Resolution < -1074 then (.error .invalidPower, c)
      else (.ok (l1Upto o'.Data o.Data
        (min o.Data.length ⌊(o.Data.length : ℚ) / (2 : ℚ) ^ o.Resolution⌋₊)), c + 1) := by
  unfold calculateComplexObjectDistance
  have hcl : q.Clone.Data.length = o.Data.length := hlen
  simp only [hres, hcl, hcomp, hres', ne_eq, not_true_eq_false, not_false_eq_true, if_false,
    if_true]
  by_cases he : o.Data = []
  · simp [he]
  · have hN : 0 < o.Data.length := List.length_pos.mpr he
    have he' : o.Data.isEmpty = false := isEmpty_eq_false_of_ne_nil _ he
    have hq : o'.Data.isEmpty = false := by
      apply isEmpty_eq_false_of_ne_nil
      intro h; rw [h] at hlen'; simp at hlen'; omega
    rw [if_neg (show ¬ o.Data.length = 0 by omega)]
    simp only [he', hq, if_false, Bool.false_eq_true]
    by_cases h1 : 1023 < o.Resolution
    · rw [if_pos (Or.inl h1)]
      simp [pow2, h1]
    · by_cases h2 : o.Resolution < -1074
      · rw [if_pos (Or.inr h2)]
        simp [pow2, h1, h2]
      · rw [if_neg (show ¬ (1023 < o.Resolution ∨ o.Resolution < -1074) by omega)]
        have hpos : (0 : ℚ) < 2 ^ o.Resolution := zpow_pos (by norm_num) _
        simp only [pow2_of_range o.Resolution (by omega) (by omega), not_le.mpr hpos, if_false,
          clipped_approx]
        by_cases hz : min o.Data.length ⌊(o.Data.length : ℚ) / (2 : ℚ) ^ o.Resolution⌋₊ = 0
        · simp [hz, hN, l1Upto_zero]
        · rw [if_neg (by tauto),
            sumOfDiffLoopChecked_spec _ _ _ (by rw [hlen']; exact min_le_left _ _) (min_le_left _ _)]

/-- Different lengths: `calculateComplexObjectDistance` throws and leaves the counter alone. -/
theorem calculateComplexObjectDistance_size_mismatch (c : Nat) (q o : TComplexObject)
    (hlen : q.Data.length ≠ o.Data.length) :
    calculateComplexObjectDistance q o c = (.error .sizeMismatch, c) := by
  unfold calculateComplexObjectDistance
  have hcl : q.Clone.Data.length ≠ o.Data.length := hlen
  by_cases hres : q.Resolution = o.Resolution
  · simp [hres, hlen]
  · simp [hres, hcl]

theorem dataCompression_one_eq (o : TComplexObject) (hR : 0 ≤ o.Resolution)
    (hA2 : 2 ≤ o.Data.length / 2 ^ o.Resolution.toNat)
    (hAe : (o.Data.length / 2 ^ o.Resolution.toNat) % 2 = 0) :
    dataCompression o 1 = .ok
      { Label := o.Label, Resolution := o.Resolution + 1,
        Data := haarForward o.Data (o.Data.length / 2 ^ o.Resolution.toNat),
        Serialized := none } := by
  have hA := approxSizeAt_of_nonneg o.Data.length o.Resolution hR
  have hne : o.Data ≠ [] := by
    intro h
    rw [h] at hA2
    simp at hA2
  rw [dataCompression_one o hne,
    DoCompressionLoop_succ 0 o.InvalidateSerializedBuffer _ hR
      (by simp [TComplexObject.InvalidateSerializedBuffer])
      (by rw [show o.InvalidateSerializedBuffer.Data = o.Data from rfl,
            show o.InvalidateSerializedBuffer.Resolution = o.Resolution from rfl, hA]
          exact hA2)
      (by rw [show o.InvalidateSerializedBuffer.Data = o.Data from rfl,
            show o.InvalidateSerializedBuffer.Resolution = o.Resolution from rfl, hA]
          exact hAe)]
  show Except.ok _ = Except.ok _
  rw [show o.InvalidateSerializedBuffer.Data = o.Data from rfl,
    show o.InvalidateSerializedBuffer.Resolution = o.Resolution from rfl, hA]
  rfl

theorem dataCompression_neg_one_eq (o : TComplexObject) (hR : 1 ≤ o.Resolution)
    (hA1 : 1 ≤ o.Data.length / 2 ^ o.Resolution.toNat) :
    dataCompression o (-1) = .ok
      { Label := o.Label, Resolution := o.Resolution - 1,
        Data := haarInverse o.Data (o.Data.length / 2 ^ o.Resolution.toNat),
        Serialized := none } := by
  have hA := approxSizeAt_of_nonneg o.Data.length o.Resolution (by omega)
  have hne : o.Data ≠ [] := by
    intro h
    rw [h] at hA1
    simp at hA1
  rw [dataCompression_neg_one o hne (by omega),
    DoDecompressionLoop_succ 0 o.InvalidateSerializedBuffer _
      (by show 0 < o.Resolution; omega)
      (by simp [TComplexObject.InvalidateSerializedBuffer])
      (by rw [show o.InvalidateSerializedBuffer.Data = o.Data from rfl,
            show o.InvalidateSerializedBuffer.Resolution = o.Resolution from rfl, hA]
          exact hA1)
      (by rw [show o.InvalidateSerializedBuffer.Data = o.Data from rfl,
            show o.InvalidateSerializedBuffer.Resolution = o.Resolution from rfl, hA]
          exact div_pow_le_half _ _ (by omega))]
  show Except.ok _ = Except.ok _
  rw [show o.InvalidateSerializedBuffer.Data = o.Data from rfl,
    show o.InvalidateSerializedBuffer.Resolution = o.Resolution from rfl, hA]
  rfl

theorem l1Upto_comm (a b : List ℚ) (A : Nat) : l1Upto a b A = l1Upto b a A := by
  unfold l1Upto
  apply Finset.sum_congr rfl
  intro i _
  exact abs_sub_comm _ _

theorem l1Upto_self (a : List ℚ) (A : Nat) : l1Upto a a A = 0 := by
  unfold l1Upto
  simp

/-- C6, as the code has it: for two objects of the same resolution `tr` and the same data
length `N`, with `N = 0` or `-1074 ≤ tr ≤ 1023` (so that `pow(2.0, tr)` is a positive
finite double), both distance functions return the sum of `|q.data[i] - o.data[i]|` over
`i < A`, `A = min(N, ⌊N / 2^tr⌋)`, and count one evaluation. -/
theorem l1_distance_at_common_resolution (c : Nat) (q o : TComplexObject)
    (hres : q.Resolution = o.Resolution) (hlen : q.Data.length = o.Data.length)
    (hrange : o.Data.length = 0 ∨ (-1074 ≤ o.Resolution ∧ o.Resolution ≤ 1023)) :
    GetDistance2 c q o =
      (.ok (∑ i ∈ Finset.range
          (min o.Data.length ⌊(o.Data.length : ℚ) / (2 : ℚ) ^ o.Resolution⌋₊),
        |q.Data.getD i 0 - o.Data.getD i 0|), c + 1) ∧
    calculateComplexObjectDistance q o c =
      (.ok (∑ i ∈ Finset.range
          (min o.Data.length ⌊(o.Data.length : ℚ) / (2 : ℚ) ^ o.Resolution⌋₊),
        |q.Data.getD i 0 - o.Data.getD i 0|), c + 1) := by
  rw [GetDistance2_same_resolution c q o hres hlen,
    calculateComplexObjectDistance_same_resolution c q o hres hlen]
  by_cases hN : o.Data.length = 0
  · rw [if_pos hN, hN]
    simp
  · rw [if_neg hN, if_neg (show ¬ (1023 < o.Resolution ∨ o.Resolution < -1074) by omega)]
    exact ⟨rfl, rfl⟩

/-- C6 at the scenario objects: `[1.5, 2.5, 3.5]` against `[1.5, 3.5, 4.5]`, both at
resolution 0, gives 2. -/
theorem l1_distance_at_common_resolution_witness :
    scenarioA.Resolution = scenarioC.Resolution ∧
    scenarioA.Data.length = scenarioC.Data.length ∧
    GetDistance2 0 scenarioA scenarioC = (.ok 2, 1) ∧
    calculateComplexObjectDistance scenarioA scenarioC 0 = (.ok 2, 1) := by
  have h := l1_distance_at_common_resolution 0 scenarioA scenarioC rfl rfl
    (Or.inr ⟨by simp [scenarioC, TComplexObject.create],
      by simp [scenarioC, TComplexObject.create]⟩)
  have hA : min 3 ⌊((3 : ℕ) : ℚ) / (2 : ℚ) ^ (0 : ℤ)⌋₊ = 3 := by
    rw [zpow_zero, div_one, Nat.floor_natCast, min_self]
  refine ⟨rfl, rfl, ?_, ?_⟩
  · rw [h.1]
    simp only [scenarioA, scenarioC, TComplexObject.create, List.length_cons, List.length_nil,
      Nat.reduceAdd, hA, Finset.sum_range_succ, Finset.sum_range_zero]
    norm_num
  · rw [h.2]
    simp only [scenarioA, scenarioC, TComplexObject.create, List.length_cons, List.length_nil,
      Nat.reduceAdd, hA, Finset.sum_range_succ, Finset.sum_range_zero]
    norm_num

/-- C6 as stated fails outside the range of a double: at resolution 1024 the approximation
length of a one-element vector is 0, yet both functions throw instead of returning 0. -/
theorem distance_resolution_1024_fails :
    GetDistance2 0 (TComplexObject.create [113] 1024 [1]) (TComplexObject.create [111] 1024 [1])
      = (.error .invalidPower, 0) ∧
    calculateComplexObjectDistance (TComplexObject.create [113] 1024 [1])
      (TComplexObject.create [111] 1024 [1]) 0 = (.error .invalidPower, 0) ∧
    min 1 ⌊((1 : ℕ) : ℚ) / (2 : ℚ) ^ (1024 : ℤ)⌋₊ = 0 := by
  refine ⟨?_, ?_, ?_⟩
  · rw [GetDistance2_same_resolution 0 (TComplexObject.create [113] 1024 [1])
      (TComplexObject.create [111] 1024 [1]) rfl rfl]
    simp [TComplexObject.create]
  · rw [calculateComplexObjectDistance_same_resolution 0 (TComplexObject.create [113] 1024 [1])
      (TComplexObject.create [111] 1024 [1]) rfl rfl]
    simp [TComplexObject.create]
  · have h : ⌊((1 : ℕ) : ℚ) / (2 : ℚ) ^ (1024 : ℤ)⌋₊ = 0 := by
      rw [Nat.floor_eq_zero]
      have h2 : (1 : ℚ) < (2 : ℚ) ^ (1024 : ℤ) := by
        have : (1024 : ℤ) = ((1024 : ℕ) : ℤ) := rfl
        rw [this, zpow_natCast]
        exact one_lt_pow₀ (by norm_num) (by norm_num)
      have hpos : (0 : ℚ) < (2 : ℚ) ^ (1024 : ℤ) := by linarith
      rw [Nat.cast_one, div_lt_one hpos]
      exact h2
    rw [h]; rfl

/-- C7 on the objects of the unit test: at resolution 1 only the first of the three
positions is an approximation coefficient, so `GetDistance2` and `GetDistance` return 0 for
`objA = [1.5, 2.5, 3.5]` against `objC = [1.5, 3.5, 4.5]`, whose Manhattan distance, the
value the test expects, is 2. -/
theorem getDistance_unit_test_objects :
    GetDistance2 0 objA objC = (.ok 0, 1) ∧
    GetDistance 0 objA objC = (.ok 0, 1) ∧
    objA.Resolution = objC.Resolution ∧ objA.Data.length = objC.Data.length ∧
    (∑ i ∈ Finset.range objA.Data.length, |objA.Data.getD i 0 - objC.Data.getD i 0|) = 2 := by
  have h : GetDistance2 0 objA objC = (.ok 0, 1) := by
    rw [GetDistance2_same_resolution 0 objA objC rfl rfl]
    have hA : min 3 ⌊((3 : ℕ) : ℚ) / (2 : ℚ) ^ (1 : ℤ)⌋₊ = 1 := by
      have : ⌊((3 : ℕ) : ℚ) / (2 : ℚ) ^ (1 : ℤ)⌋₊ = 1 := by
        rw [Nat.floor_eq_iff (by positivity)]
        norm_num
      rw [this]; rfl
    simp only [objA, objC, TComplexObject.create, List.length_cons, List.length_nil,
      Nat.reduceAdd, hA, l1Upto, Finset.sum_range_succ, Finset.sum_range_zero]
    norm_num
  refine ⟨h, h, rfl, rfl, ?_⟩
  simp only [objA, objC, TComplexObject.create, List.length_cons, List.length_nil,
    Nat.reduceAdd, Finset.sum_range_succ, Finset.sum_range_zero]
  norm_num

/-- C8, as the code has it: for two objects of the same resolution the two orders of the
operands give the same result with both distance functions, so whenever both calls return
a value the two values are equal. -/
theorem distance_symmetric_at_common_resolution (c : Nat) (q o : TComplexObject)
    (hres : q.Resolution = o.Resolution) :
    (GetDistance2 c q o).1 = (GetDistance2 c o q).1 ∧
    (calculateComplexObjectDistance q o c).1 = (calculateComplexObjectDistance o q c).1 := by
  by_cases hlen : q.Data.length = o.Data.length
  · rw [GetDistance2_same_resolution c q o hres hlen,
      GetDistance2_same_resolution c o q hres.symm hlen.symm,
      calculateComplexObjectDistance_same_resolution c q o hres hlen,
      calculateComplexObjectDistance_same_resolution c o q hres.symm hlen.symm,
      hres, hlen, l1Upto_comm q.Data o.Data]
    exact ⟨rfl, rfl⟩
  · rw [GetDistance2_size_mismatch c q o hlen,
      GetDistance2_size_mismatch c o q (fun h => hlen h.symm),
      calculateComplexObjectDistance_size_mismatch c q o hlen,
      calculateComplexObjectDistance_size_mismatch c o q (fun h => hlen h.symm)]
    exact ⟨rfl, rfl⟩

/-- C8 at the scenario objects, both at resolution 0. -/
theorem distance_symmetric_at_common_resolution_witness :
    scenarioA.Resolution = scenarioC.Resolution ∧
    (GetDistance2 0 scenarioA scenarioC).1 = (GetDistance2 0 scenarioC scenarioA).1 ∧
    (calculateComplexObjectDistance scenarioA scenarioC 0).1
      = (calculateComplexObjectDistance scenarioC scenarioA 0).1 :=
  ⟨rfl, distance_symmetric_at_common_resolution 0 scenarioA scenarioC rfl⟩

theorem haarForward_zero_zero : haarForward [0, 0] 2 = [0, 0] := by
  simp [haarForward, List.range_succ]

theorem haarInverse_zero_one : haarInverse [0, 1] 1 = [1, -1] := by
  simp [haarInverse, List.range_succ]

/-- C8 as stated fails across resolutions: with `flatQ = [0, 0]` at resolution 0 and
`stepO = [0, 1]` at resolution 1 both orders return a value, 0 for `(flatQ, stepO)` and 2
for `(stepO, flatQ)`, with both distance functions. -/
theorem distance_not_comm_across_resolutions :
    GetDistance2 0 flatQ stepO = (.ok 0, 1) ∧
    GetDistance2 0 stepO flatQ = (.ok 2, 1) ∧
    calculateComplexObjectDistance flatQ stepO 0 = (.ok 0, 1) ∧
    calculateComplexObjectDistance stepO flatQ 0 = (.ok 2, 1) := by
  have hc : dataCompression flatQ.Clone (stepO.Resolution - flatQ.Resolution)
      = .ok { Label := [113], Resolution := 1, Data := [0, 0], Serialized := none } := by
    have h := dataCompression_one_eq flatQ.Clone (by decide) (by decide) (by decide)
    simp only [flatQ, TComplexObject.create, TComplexObject.Clone, List.length_cons,
      List.length_nil, Int.toNat_zero, pow_zero, Nat.div_one, Nat.reduceAdd,
      haarForward_zero_zero] at h
    exact h
  have hd : dataCompression stepO.Clone (flatQ.Resolution - stepO.Resolution)
      = .ok { Label := [111], Resolution := 0, Data := [1, -1], Serialized := none } := by
    have h := dataCompression_neg_one_eq stepO.Clone (by decide) (by decide)
    have e : (2 : ℕ) / 2 ^ (1 : ℤ).toNat = 1 := by decide
    simp only [stepO, TComplexObject.create, TComplexObject.Clone, List.length_cons,
      List.length_nil, Nat.reduceAdd, e, haarInverse_zero_one] at h
    exact h
  have hA1 : min 2 ⌊((2 : ℕ) : ℚ) / (2 : ℚ) ^ (1 : ℤ)⌋₊ = 1 := by
    have : ⌊((2 : ℕ) : ℚ) / (2 : ℚ) ^ (1 : ℤ)⌋₊ = 1 := by
      rw [Nat.floor_eq_iff (by positivity)]
      norm_num
    rw [this]; rfl
  have hA0 : min 2 ⌊((2 : ℕ) : ℚ) / (2 : ℚ) ^ (0 : ℤ)⌋₊ = 2 := by
    rw [zpow_zero, div_one, Nat.floor_natCast, min_self]
  refine ⟨?_, ?_, ?_, ?_⟩
  · rw [GetDistance2_clone_path 0 flatQ stepO _ (by decide) rfl hc rfl rfl]
    simp only [flatQ, stepO, TComplexObject.create, List.length_cons, List.length_nil,
      Nat.reduceAdd, hA1, l1Upto, Finset.sum_range_succ, Finset.sum_range_zero]
    norm_num
  · rw [GetDistance2_clone_path 0 stepO flatQ _ (by decide) rfl hd rfl rfl]
    simp only [flatQ, stepO, TComplexObject.create, List.length_cons, List.length_nil,
      Nat.reduceAdd, hA0, l1Upto, Finset.sum_range_succ, Finset.sum_range_zero]
    norm_num
  · rw [calculateComplexObjectDistance_clone_path 0 flatQ stepO _ (by decide) rfl hc rfl rfl]
    simp only [flatQ, stepO, TComplexObject.create, List.length_cons, List.length_nil,
      Nat.reduceAdd, hA1, l1Upto, Finset.sum_range_succ, Finset.sum_range_zero]
    norm_num
  · rw [calculateComplexObjectDistance_clone_path 0 stepO flatQ _ (by decide) rfl hd rfl rfl]
    simp only [flatQ, stepO, TComplexObject.create, List.length_cons, List.length_nil,
      Nat.reduceAdd, hA0, l1Upto, Finset.sum_range_succ, Finset.sum_range_zero]
    norm_num

/-- C10: for two objects whose data vectors have different lengths both distance functions
throw the size-mismatch error, at equal and at different resolutions alike, and the
counter is left unchanged. -/
theorem distance_rejects_length_mismatch (c : Nat) (q o : TComplexObject)
    (hlen : q.Data.length ≠ o.Data.length) :
    GetDistance2 c q o = (.error .sizeMismatch, c) ∧
    GetDistance c q o = (.error .sizeMismatch, c) ∧
    calculateComplexObjectDistance q o c = (.error .sizeMismatch, c) :=
  ⟨GetDistance2_size_mismatch c q o hlen, GetDistance2_size_mismatch c q o hlen,
    calculateComplexObjectDistance_size_mismatch c q o hlen⟩

/-- C10 on the objects of the unit test: `objA` has three elements, `obj_short` one. -/
theorem distance_rejects_length_mismatch_witness :
    objA.Data.length ≠ obj_short.Data.length ∧
    GetDistance2 0 objA obj_short = (.error .sizeMismatch, 0) ∧
    GetDistance 0 objA obj_short = (.error .sizeMismatch, 0) ∧
    calculateComplexObjectDistance objA obj_short 0 = (.error .sizeMismatch, 0) :=
  ⟨by decide, distance_rejects_length_mismatch 0 objA obj_short (by decide)⟩

/-- C9, over exact arithmetic: resolution normalization. The data values are rational
numbers, so no sum or difference of a pair leaves the range of a `double`. For an object
`q` at resolution 0 whose data length (a `size_t` value) is divisible by `2^k`, `k ≥ 1`,
and `o` obtained from a copy of `q` by `dataCompression(k)`, both distance functions
return 0 for `(q, o)` and count one evaluation. -/
theorem distance_to_own_compression (c : Nat) (q : TComplexObject) (k : Nat) (hk : 1 ≤ k)
    (h0 : q.Resolution = 0) (hdiv : 2 ^ k ∣ q.Data.length) (hsize : q.Data.length < 2 ^ 64) :
    ∃ o, dataCompression q.Clone (k : Int) = .ok o ∧
      GetDistance2 c q o = (.ok 0, c + 1) ∧
      calculateComplexObjectDistance q o c = (.ok 0, c + 1) := by
  by_cases he : q.Data = []
  · obtain ⟨o, e1, r1, d1, _⟩ := dataCompression_empty q.Clone (k : Int) he
    have hres : q.Resolution = o.Resolution := by rw [r1]; rfl
    have hlen : q.Data.length = o.Data.length := by rw [d1]; rfl
    have hz : o.Data.length = 0 := by rw [← hlen, he]; rfl
    refine ⟨o, e1, ?_, ?_⟩
    · rw [GetDistance2_same_resolution c q o hres hlen, if_pos hz]
    · rw [calculateComplexObjectDistance_same_resolution c q o hres hlen, if_pos hz]
  · have hN : 0 < q.Data.length := List.length_pos.mpr he
    have hc := DoCompressionLoop_iterate k q.Clone.InvalidateSerializedBuffer
      (List.replicate q.Clone.Data.length 0) 0 h0
      (by simp [TComplexObject.InvalidateSerializedBuffer]) hN (by simpa using hdiv)
    obtain ⟨f1, f2, _, _⟩ := compressStep_iterate_facts k q.Clone.InvalidateSerializedBuffer
    have g1 : (compressStep^[k] q.Clone.InvalidateSerializedBuffer).Resolution = (k : Int) := by
      rw [f1]; show q.Resolution + k = k; rw [h0]; simp
    have g2 : (compressStep^[k] q.Clone.InvalidateSerializedBuffer).Data.length
        = q.Data.length := f2
    have hcomp : dataCompression q.Clone (k : Int)
        = .ok (compressStep^[k] q.Clone.InvalidateSerializedBuffer) := by
      rw [dataCompression_pos q.Clone k hk he]; exact hc
    have hk64 : k < 64 := by
      by_contra hge
      have h1 : 2 ^ 64 ≤ 2 ^ k := Nat.pow_le_pow_right (by norm_num) (by omega)
      have h2 : 2 ^ k ≤ q.Data.length := Nat.le_of_dvd hN hdiv
      omega
    have hne : q.Resolution ≠ (compressStep^[k] q.Clone.InvalidateSerializedBuffer).Resolution := by
      rw [g1, h0]; omega
    have hcomp' : dataCompression q.Clone
        ((compressStep^[k] q.Clone.InvalidateSerializedBuffer).Resolution - q.Resolution)
        = .ok (compressStep^[k] q.Clone.InvalidateSerializedBuffer) := by
      rw [g1, h0, sub_zero]; exact hcomp
    have hnz : ¬ (compressStep^[k] q.Clone.InvalidateSerializedBuffer).Data.length = 0 := by
      rw [g2]; omega
    have hrange : ¬ (1023 < (compressStep^[k] q.Clone.InvalidateSerializedBuffer).Resolution ∨
        (compressStep^[k] q.Clone.InvalidateSerializedBuffer).Resolution < -1074) := by
      rw [g1]; omega
    refine ⟨_, hcomp, ?_, ?_⟩
    · rw [GetDistance2_clone_path c q _ _ hne g2.symm hcomp' rfl rfl, if_neg hnz,
        if_neg hrange, l1Upto_self]
    · rw [calculateComplexObjectDistance_clone_path c q _ _ hne g2.symm hcomp' rfl rfl,
        if_neg hnz, if_neg hrange, l1Upto_self]

/-- C9 at the scenario object: `q = [4, 2, 6, 8]` at resolution 0 against its own
compression by one level. -/
theorem distance_to_own_compression_witness :
    (1 : Nat) ≤ 1 ∧ scenarioS1.Resolution = 0 ∧ 2 ^ 1 ∣ scenarioS1.Data.length ∧
    scenarioS1.Data.length < 2 ^ 64 ∧
    ∃ o, dataCompression scenarioS1.Clone ((1 : Nat) : Int) = .ok o ∧
      GetDistance2 0 scenarioS1 o = (.ok 0, 0 + 1) ∧
      calculateComplexObjectDistance scenarioS1 o 0 = (.ok 0, 0 + 1) :=
  ⟨le_refl 1, rfl, by decide, by decide,
    distance_to_own_compression 0 scenarioS1 1 (le_refl 1) rfl (by decide) (by decide)⟩

/-! ## Serialization -/

theorem toBytesLE_succ (w x : Nat) :
    toBytesLE (w + 1) x = (x % 256) :: toBytesLE w (x / 256) := by
  unfold toBytesLE
  rw [List.range_succ_eq_map, List.map_cons, List.map_map]
  congr 1
  · simp
  · apply List.map_congr_left
    intro i _
    show x / 256 ^ (i + 1) % 256 = x / 256 / 256 ^ i % 256
    rw [Nat.div_div_eq_div_mul, pow_succ, Nat.mul_comm]

theorem length_toBytesLE (w x : Nat) : (toBytesLE w x).length = w := by
  simp [toBytesLE]

theorem fromBytesLE_toBytesLE (w : Nat) : ∀ x, fromBytesLE (toBytesLE w x) = x % 256 ^ w := by
  induction w with
  | zero => intro x; simp [toBytesLE, fromBytesLE, Nat.mod_one]
  | succ n ih =>
    intro x
    rw [toBytesLE_succ]
    show x % 256 + 256 * fromBytesLE (toBytesLE n (x / 256)) = _
    rw [ih, pow_succ, Nat.mul_comm (256 ^ n) 256, Nat.mod_mul]

theorem fromBytesLE_toBytesLE_of_lt (w x : Nat) (h : x < 256 ^ w) :
    fromBytesLE (toBytesLE w x) = x := by
  rw [fromBytesLE_toBytesLE, Nat.mod_eq_of_lt h]

theorem length_encodeInt (r : Int) : (encodeInt r).length = 4 := length_toBytesLE _ _

theorem decodeInt_encodeInt (r : Int) (h1 : -2 ^ 31 ≤ r) (h2 : r < 2 ^ 31) :
    decodeInt (encodeInt r) = r := by
  unfold decodeInt encodeInt
  have hlt : (r % 2 ^ 32).toNat < 256 ^ 4 := by
    have : r % 2 ^ 32 < 2 ^ 32 := Int.emod_lt_of_pos _ (by norm_num)
    have h0 : 0 ≤ r % 2 ^ 32 := Int.emod_nonneg _ (by norm_num)
    omega
  rw [fromBytesLE_toBytesLE_of_lt 4 _ hlt]
  split_ifs with h <;> omega

theorem length_encodeDoubles (rep : DoubleRep) (data : List ℚ) :
    (encodeDoubles rep data).length = data.length * 8 := by
  induction data with
  | nil => rfl
  | cons x t ih =>
    show (toBytesLE 8 (rep.toBits x) ++ encodeDoubles rep t).length = _
    rw [List.length_append, length_toBytesLE, ih, List.length_cons]
    ring

theorem decodeDoubles_encodeDoubles (rep : DoubleRep) (data : List ℚ) (tail : List Nat)
    (h : ∀ x ∈ data, rep.Representable x) :
    decodeDoubles rep data.length (encodeDoubles rep data ++ tail) = data := by
  induction data with
  | nil => rfl
  | cons x t ih =>
    have hx := h x (List.mem_cons_self _ _)
    show decodeDoubles rep (t.length + 1)
      ((toBytesLE 8 (rep.toBits x) ++ encodeDoubles rep t) ++ tail) = _
    rw [decodeDoubles, List.append_assoc,
      List.take_left' (length_toBytesLE 8 _), List.drop_left' (length_toBytesLE 8 _),
      fromBytesLE_toBytesLE_of_lt 8 _ (by have := hx.1; norm_num at this ⊢; exact this),
      hx.2, ih (fun y hy => h y (List.mem_cons_of_mem _ hy))]

theorem readBytes_zero_append (a b : List Nat) : readBytes (a ++ b) 0 a.length = some a := by
  unfold readBytes
  rw [if_pos (by simp), List.drop_zero, List.take_left]

theorem readBytes_skip (a b : List Nat) (off n : Nat) :
    readBytes (a ++ b) (a.length + off) n = readBytes b off n := by
  unfold readBytes
  rw [List.length_append, List.drop_append]
  by_cases h : off + n ≤ b.length
  · rw [if_pos (by omega), if_pos h]
  · rw [if_neg (by omega), if_neg h]

theorem readBytes_mid (pre mid post : List Nat) (off n : Nat) (hoff : off = pre.length)
    (hn : n = mid.length) : readBytes (pre ++ (mid ++ post)) off n = some mid := by
  subst hoff hn
  have h := readBytes_skip pre (mid ++ post) 0 mid.length
  rw [Nat.add_zero] at h
  rw [h, readBytes_zero_append]

theorem serializedBytes_append (rep : DoubleRep) (o : TComplexObject) (tail : List Nat) :
    o.serializedBytes rep ++ tail =
      encodeInt o.Resolution ++ (toBytesLE 8 o.Data.length ++ (toBytesLE 8 o.Label.length ++
        (o.Label ++ (encodeDoubles rep o.Data ++ tail)))) := by
  simp [TComplexObject.serializedBytes, List.append_assoc]

theorem length_serializedBytes (rep : DoubleRep) (o : TComplexObject) :
    (o.serializedBytes rep).length = o.GetSerializedSize := by
  simp only [TComplexObject.serializedBytes, TComplexObject.GetSerializedSize,
    List.length_append, length_encodeInt, length_toBytesLE, length_encodeDoubles]

/-- Reading the three header fields of a record back from a buffer that starts with it. -/
theorem header_of_serializedBytes (rep : DoubleRep) (o : TComplexObject) (tail : List Nat) :
    readBytes (o.serializedBytes rep ++ tail) 0 4 = some (encodeInt o.Resolution) ∧
    readBytes (o.serializedBytes rep ++ tail) 4 8 = some (toBytesLE 8 o.Data.length) ∧
    readBytes (o.serializedBytes rep ++ tail) 12 8 = some (toBytesLE 8 o.Label.length) ∧
    readBytes (o.serializedBytes rep ++ tail) 20 o.Label.length = some o.Label ∧
    readBytes (o.serializedBytes rep ++ tail) (20 + o.Label.length) (o.Data.length * 8)
      = some (encodeDoubles rep o.Data) := by
  rw [serializedBytes_append]
  refine ⟨?_, ?_, ?_, ?_, ?_⟩
  · exact readBytes_mid [] _ _ 0 4 rfl (length_encodeInt _).symm
  · exact readBytes_mid _ _ _ 4 8 (length_encodeInt _).symm (length_toBytesLE _ _).symm
  · rw [← List.append_assoc]
    exact readBytes_mid _ _ _ 12 8
      (by rw [List.length_append, length_encodeInt, length_toBytesLE])
      (length_toBytesLE _ _).symm
  · rw [← List.append_assoc, ← List.append_assoc]
    exact readBytes_mid _ _ _ 20 _
      (by rw [List.length_append, List.length_append, length_encodeInt, length_toBytesLE,
        length_toBytesLE]) rfl
  · rw [← List.append_assoc, ← List.append_assoc, ← List.append_assoc]
    exact readBytes_mid _ _ _ _ _
      (by rw [List.length_append, List.length_append, List.length_append, length_encodeInt,
        length_toBytesLE, length_toBytesLE])
      (length_encodeDoubles _ _).symm

/-- `Unserialize` on a buffer that starts with the record of a storable object, told the
record's size, rebuilds the object. -/
theorem Unserialize_serializedBytes (rep : DoubleRep) (o dest : TComplexObject)
    (tail : List Nat) (hs : o.Storable rep) :
    TComplexObject.Unserialize rep dest (o.serializedBytes rep ++ tail) o.GetSerializedSize
      = (.ok (), o.Clone) := by
  obtain ⟨hr1, hr2, hsz, hrep⟩ := hs
  obtain ⟨e1, e2, e3, e4, e5⟩ := header_of_serializedBytes rep o tail
  have hsz' : 4 + 8 * 2 + o.Label.length + o.Data.length * 8 < 2 ^ 64 := hsz
  have hD : o.Data.length < 256 ^ 8 := by norm_num at hsz' ⊢; omega
  have hL : o.Label.length < 256 ^ 8 := by norm_num at hsz' ⊢; omega
  have hDm : o.Data.length * 8 % 2 ^ 64 = o.Data.length * 8 :=
    Nat.mod_eq_of_lt (by norm_num at hsz' ⊢; omega)
  have hLDm : (o.Label.length + o.Data.length * 8) % 2 ^ 64
      = o.Label.length + o.Data.length * 8 :=
    Nat.mod_eq_of_lt (by norm_num at hsz' ⊢; omega)
  have hrem : (4 + 8 * 2 + o.Label.length + o.Data.length * 8 - (4 + 8 * 2) + 2 ^ 64
      - o.Label.length) % 2 ^ 64 = o.Data.length * 8 := by
    have : 4 + 8 * 2 + o.Label.length + o.Data.length * 8 - (4 + 8 * 2) + 2 ^ 64
        - o.Label.length = o.Data.length * 8 + 2 ^ 64 := by omega
    rw [this, Nat.add_mod_right, hDm]
  unfold TComplexObject.Unserialize
  simp only [TComplexObject.GetSerializedSize]
  rw [if_neg (by omega)]
  simp only [e1, e2, e3, fromBytesLE_toBytesLE_of_lt 8 _ hD, fromBytesLE_toBytesLE_of_lt 8 _ hL,
    decodeInt_encodeInt _ hr1 hr2, hDm, hLDm]
  rw [if_neg (by omega)]
  have hlabel : (if o.Label.length > 0 then
      readBytes (o.serializedBytes rep ++ tail) (4 + 8 * 2) o.Label.length else some [])
      = some o.Label := by
    by_cases h : o.Label.length > 0
    · rw [if_pos h]; exact e4
    · rw [if_neg h]
      have : o.Label = [] := List.length_eq_zero.mp (by omega)
      rw [this]
  have hpos : (if o.Label.length > 0 then 4 + 8 * 2 + o.Label.length else 4 + 8 * 2)
      = 20 + o.Label.length := by
    by_cases h : o.Label.length > 0
    · rw [if_pos h]
    · rw [if_neg h]; omega
  have hrem2 : (if o.Label.length > 0 then
      (4 + 8 * 2 + o.Label.length + o.Data.length * 8 - (4 + 8 * 2) + 2 ^ 64
        - o.Label.length) % 2 ^ 64
      else 4 + 8 * 2 + o.Label.length + o.Data.length * 8 - (4 + 8 * 2))
      = o.Data.length * 8 := by
    by_cases h : o.Label.length > 0
    · rw [if_pos h, hrem]
    · rw [if_neg h]; omega
  simp only [hlabel, hpos, hrem2]
  rw [if_neg (by norm_num at hsz' ⊢; omega)]
  by_cases hd : o.Data.length > 0
  · rw [if_pos hd, if_neg (by omega)]
    simp only [e5]
    have := decodeDoubles_encodeDoubles rep o.Data [] hrep
    rw [List.append_nil] at this
    rw [this]
    rfl
  · rw [if_neg hd]
    have h0 : o.Data = [] := List.length_eq_zero.mp (by omega)
    simp [h0, TComplexObject.resizeData, TComplexObject.Clone, TComplexObject.create]

theorem Serialize_snd (rep : DoubleRep) (o : TComplexObject) (hc : o.CacheCoherent rep) :
    (o.Serialize rep).2 = o.serializedBytes rep := by
  unfold TComplexObject.Serialize
  cases h : o.Serialized with
  | none => rfl
  | some buf => exact hc buf h

/-- C1: serialize/unserialize round trip. For an object whose fields fit their C++ types
(`Storable`) and whose cache, if any, is current (`CacheCoherent`), `Unserialize` applied
by any destination object to the buffer returned by `Serialize()` with length
`GetSerializedSize()` succeeds and leaves the destination with the same resolution, the
same data and the same label. -/
theorem serialize_unserialize_roundtrip (rep : DoubleRep) (o dest : TComplexObject)
    (hs : o.Storable rep) (hc : o.CacheCoherent rep) :
    ∃ dest', TComplexObject.Unserialize rep dest (o.Serialize rep).2 o.GetSerializedSize
        = (.ok (), dest') ∧
      dest'.Resolution = o.Resolution ∧ dest'.Data = o.Data ∧ dest'.Label = o.Label := by
  refine ⟨o.Clone, ?_, rfl, rfl, rfl⟩
  have h := Unserialize_serializedBytes rep o dest [] hs
  rw [List.append_nil] at h
  rw [Serialize_snd rep o hc]
  exact h

theorem wholeRep_representable (n : Nat) (h : n < 2 ^ 64) :
    wholeRep.Representable (n : ℚ) := by
  unfold DoubleRep.Representable wholeRep
  simp only [Rat.num_natCast, Int.toNat_ofNat]
  exact ⟨h, trivial⟩

theorem obj_orig_storable : obj_orig.Storable wholeRep := by
  refine ⟨by decide, by decide, by decide, ?_⟩
  intro x hx
  simp only [obj_orig, TComplexObject.create, List.mem_cons, List.mem_singleton,
    List.not_mem_nil, or_false] at hx
  rcases hx with h | h | h | h
  · rw [h]; exact wholeRep_representable 7 (by norm_num)
  · rw [h]; exact wholeRep_representable 8 (by norm_num)
  · rw [h]; exact wholeRep_representable 9 (by norm_num)
  · rw [h]; exact wholeRep_representable 10 (by norm_num)

theorem obj_orig_coherent : obj_orig.CacheCoherent wholeRep := by
  intro buf h
  cases h

/-- C1 on the object of the unit test, unserialized into a default-constructed object. -/
theorem serialize_unserialize_roundtrip_witness :
    obj_orig.Storable wholeRep ∧ obj_orig.CacheCoherent wholeRep ∧
    ∃ dest', TComplexObject.Unserialize wholeRep TComplexObject.default
        (obj_orig.Serialize wholeRep).2 obj_orig.GetSerializedSize = (.ok (), dest') ∧
      dest'.Resolution = 55 ∧ dest'.Data = [7, 8, 9, 10] ∧
      dest'.Label = [83, 101, 114, 105, 97, 108, 105, 122, 101, 77, 101] :=
  ⟨obj_orig_storable, obj_orig_coherent,
    serialize_unserialize_roundtrip wholeRep obj_orig TComplexObject.default obj_orig_storable
      obj_orig_coherent⟩

/-! ## Paged store -/

theorem take_drop_of_readBytes (buf : List Nat) (off n : Nat) (x : List Nat)
    (h : readBytes buf off n = some x) : (buf.drop off).take n = x := by
  unfold readBytes at h
  split_ifs at h
  exact Option.some.inj h

theorem fromBytesLE_replicate_zero (n : Nat) : fromBytesLE (List.replicate n 0) = 0 := by
  induction n with
  | zero => rfl
  | succ k ih =>
    show 0 + 256 * fromBytesLE (List.replicate k 0) = 0
    rw [ih]

theorem take_replicate_zero (n m : Nat) (h : n ≤ m) :
    (List.replicate m (0 : Nat)).take n = List.replicate n 0 := by
  rw [List.take_replicate, Nat.min_eq_left h]

theorem drop_replicate_zero (n m : Nat) :
    (List.replicate m (0 : Nat)).drop n = List.replicate (m - n) 0 := by
  rw [List.drop_replicate]

theorem size_ge_header (o : TComplexObject) : 20 ≤ o.GetSerializedSize := by
  unfold TComplexObject.GetSerializedSize
  omega

theorem recordBytes_cons (rep : DoubleRep) (o : TComplexObject) (g : List TComplexObject) :
    recordBytes rep (o :: g) = o.serializedBytes rep ++ recordBytes rep g := rfl

theorem recordBytes_append (rep : DoubleRep) (g1 g2 : List TComplexObject) :
    recordBytes rep (g1 ++ g2) = recordBytes rep g1 ++ recordBytes rep g2 := by
  simp [recordBytes]

theorem length_le_recordBytes (rep : DoubleRep) (g : List TComplexObject) :
    g.length ≤ (recordBytes rep g).length := by
  induction g with
  | nil => exact Nat.le_refl _
  | cons o t ih =>
    rw [recordBytes_cons, List.length_append, length_serializedBytes, List.length_cons]
    have := size_ge_header o
    omega

/-- The inner loop of the reader on a page made of records followed by zero padding,
started at the first of the records `g`: it appends the objects of `g` and leaves the
cursor at or past the page end. -/
theorem readPageLoop_records (rep : DoubleRep) (P : Nat) (hP : P < 2 ^ 64) :
    ∀ (g : List TComplexObject) (pre : List Nat) (z fuel : Nat)
      (loaded : List TComplexObject),
      (∀ o ∈ g, o.Storable rep ∧ ¬ o.LooksLikePadding) →
      (pre ++ (recordBytes rep g ++ List.replicate z 0)).length = P →
      g.length < fuel →
      ∃ idx', P ≤ idx' ∧
        readPageLoop rep (pre ++ (recordBytes rep g ++ List.replicate z 0)) P fuel
          pre.length loaded = (loaded ++ g.map TComplexObject.Clone, idx') := by
  intro g
  induction g with
  | nil =>
    intro pre z fuel loaded _ hlen hfuel
    obtain ⟨f, rfl⟩ : ∃ f, fuel = f + 1 := ⟨fuel - 1, by simp at hfuel; omega⟩
    simp only [recordBytes, List.flatMap_nil, List.nil_append, List.length_append,
      List.length_replicate] at hlen ⊢
    rw [readPageLoop]
    by_cases h1 : pre.length < P
    · rw [if_neg (by simpa using h1)]
      simp only []
      by_cases h2 : pre.length + (4 + 2 * 8) > P
      · rw [if_pos h2]
        exact ⟨P, Nat.le_refl _, by simp⟩
      · rw [if_neg h2]
        have hz : 20 ≤ z := by omega
        have d0 : (pre ++ List.replicate z 0).drop pre.length = List.replicate z 0 :=
          List.drop_left' rfl
        have d4 : (pre ++ List.replicate z 0).drop (pre.length + 4)
            = List.replicate (z - 4) 0 := by
          rw [← List.drop_drop, d0, drop_replicate_zero]
        have d12 : (pre ++ List.replicate z 0).drop (pre.length + 4 + 8)
            = List.replicate (z - 12) 0 := by
          rw [Nat.add_assoc, ← List.drop_drop, d0, drop_replicate_zero]
        rw [d0, d4, d12, take_replicate_zero 4 z (by omega),
          take_replicate_zero 8 (z - 4) (by omega), take_replicate_zero 8 (z - 12) (by omega)]
        have r0 : decodeInt (List.replicate 4 0) = 0 := by
          unfold decodeInt
          rw [fromBytesLE_replicate_zero]
          simp
        rw [r0, fromBytesLE_replicate_zero]
        rw [if_pos (by constructor <;> norm_num)]
        exact ⟨P, Nat.le_refl _, by simp⟩
    · rw [if_pos (by simpa using h1)]
      exact ⟨pre.length, by omega, by simp⟩
  | cons o t ih =>
    intro pre z fuel loaded hgood hlen hfuel
    obtain ⟨f, rfl⟩ : ∃ f, fuel = f + 1 := ⟨fuel - 1, by simp at hfuel; omega⟩
    obtain ⟨hst, hnp⟩ := hgood o (List.mem_cons_self _ _)
    have hsz := hst.2.2.1
    have hsz20 := size_ge_header o
    rw [recordBytes_cons, List.append_assoc] at hlen ⊢
    have hlen' : pre.length + (o.GetSerializedSize
        + (recordBytes rep t ++ List.replicate z 0).length) = P := by
      simp only [List.length_append, length_serializedBytes] at hlen ⊢
      omega
    obtain ⟨e1, e2, e3, _, _⟩ := header_of_serializedBytes rep o
      (recordBytes rep t ++ List.replicate z 0)
    have d0 : (pre ++ (o.serializedBytes rep ++ (recordBytes rep t ++ List.replicate z 0))).drop
        pre.length = o.serializedBytes rep ++ (recordBytes rep t ++ List.replicate z 0) :=
      List.drop_left' rfl
    have t0 := take_drop_of_readBytes _ _ _ _ e1
    have t4 := take_drop_of_readBytes _ _ _ _ e2
    have t12 := take_drop_of_readBytes _ _ _ _ e3
    rw [List.drop_zero] at t0
    have hsz' : 4 + 8 * 2 + o.Label.length + o.Data.length * 8 < 2 ^ 64 := hsz
    have hD : o.Data.length < 256 ^ 8 := by norm_num at hsz' ⊢; omega
    have hL : o.Label.length < 256 ^ 8 := by norm_num at hsz' ⊢; omega
    have hDm : o.Data.length * 8 % 2 ^ 64 = o.Data.length * 8 :=
      Nat.mod_eq_of_lt (by norm_num at hsz' ⊢; omega)
    have hexp : (4 + 2 * 8 + o.Label.length + o.Data.length * 8) % 2 ^ 64
        = o.GetSerializedSize := by
      rw [Nat.mod_eq_of_lt (by norm_num at hsz' ⊢; omega)]
      unfold TComplexObject.GetSerializedSize
      omega
    rw [readPageLoop]
    rw [if_neg (by simp only [not_not]; omega)]
    simp only []
    rw [if_neg (by omega)]
    have d4 : (pre ++ (o.serializedBytes rep ++ (recordBytes rep t ++ List.replicate z 0))).drop
        (pre.length + 4)
        = (o.serializedBytes rep ++ (recordBytes rep t ++ List.replicate z 0)).drop 4 := by
      rw [← List.drop_drop, d0]
    have d12 : (pre ++ (o.serializedBytes rep ++ (recordBytes rep t ++ List.replicate z 0))).drop
        (pre.length + 4 + 8)
        = (o.serializedBytes rep ++ (recordBytes rep t ++ List.replicate z 0)).drop 12 := by
      rw [Nat.add_assoc, ← List.drop_drop, d0]
    rw [d12, d4, d0, t0, t4, t12,
      decodeInt_encodeInt _ hst.1 hst.2.1, fromBytesLE_toBytesLE_of_lt 8 _ hD,
      fromBytesLE_toBytesLE_of_lt 8 _ hL, hDm, hexp]
    have hnotpad : ¬ (o.Resolution = 0 ∧ o.GetSerializedSize = 4 + 2 * 8) := by
      rintro ⟨hr, hs⟩
      apply hnp
      unfold TComplexObject.GetSerializedSize at hs
      refine ⟨hr, List.length_eq_zero.mp (by omega), List.length_eq_zero.mp (by omega)⟩
    rw [if_neg hnotpad]
    have hfit : (pre.length + o.GetSerializedSize) % 2 ^ 64 = pre.length + o.GetSerializedSize :=
      Nat.mod_eq_of_lt (by omega)
    rw [hfit, if_pos (by omega), Unserialize_serializedBytes rep o _ _ hst]
    simp only []
    have hpre : (pre ++ o.serializedBytes rep).length = pre.length + o.GetSerializedSize := by
      rw [List.length_append, length_serializedBytes]
    obtain ⟨idx', hidx, hrun⟩ := ih (pre ++ o.serializedBytes rep) z f
      (loaded ++ [o.Clone])
      (fun x hx => hgood x (List.mem_cons_of_mem _ hx))
      (by rw [List.append_assoc]; exact hlen)
      (by simp at hfuel; omega)
    rw [List.append_assoc, hpre] at hrun
    refine ⟨idx', hidx, ?_⟩
    rw [hrun]
    simp

theorem length_pageOf (rep : DoubleRep) (P : Nat) (g : List TComplexObject)
    (h : (recordBytes rep g).length ≤ P) : (pageOf rep P g).length = P := by
  unfold pageOf
  rw [List.length_append, List.length_replicate]
  omega

theorem length_flatten_pages (rep : DoubleRep) (P : Nat) (pgs : List (List TComplexObject))
    (h : ∀ g ∈ pgs, (recordBytes rep g).length ≤ P) :
    ((pgs.map (pageOf rep P)).flatten).length = pgs.length * P := by
  induction pgs with
  | nil => simp
  | cons g t ih =>
    rw [List.map_cons, List.flatten_cons, List.length_append,
      length_pageOf rep P g (h g (List.mem_cons_self _ _)),
      ih (fun x hx => h x (List.mem_cons_of_mem _ hx)), List.length_cons]
    ring

/-- The outer loop of the reader on a file made of whole pages, each holding the records
of a group of objects and zero padding: it returns the objects of all groups in order
and counts one read per page. -/
theorem readLoop_pages (rep : DoubleRep) (P : Nat) (hP : P < 2 ^ 64) (hP0 : 0 < P) :
    ∀ (pgs : List (List TComplexObject)) (pb0 : List Nat) (idx count fuel : Nat)
      (loaded : List TComplexObject),
      (∀ g ∈ pgs, (recordBytes rep g).length ≤ P ∧
        ∀ o ∈ g, o.Storable rep ∧ ¬ o.LooksLikePadding) →
      pb0.length = P → P ≤ idx → pgs.length < fuel →
      readLoop rep P fuel ((pgs.map (pageOf rep P)).flatten) pb0 idx count loaded
        = (loaded ++ pgs.flatten.map TComplexObject.Clone, count + pgs.length) := by
  intro pgs
  induction pgs with
  | nil =>
    intro pb0 idx count fuel loaded _ _ hidx hfuel
    obtain ⟨f, rfl⟩ : ∃ f, fuel = f + 1 := ⟨fuel - 1, by simp at hfuel; omega⟩
    rw [readLoop, if_pos hidx]
    simp
  | cons g t ih =>
    intro pb0 idx count fuel loaded hgood hpb hidx hfuel
    obtain ⟨f, rfl⟩ : ∃ f, fuel = f + 1 := ⟨fuel - 1, by simp at hfuel; omega⟩
    obtain ⟨hg, hgo⟩ := hgood g (List.mem_cons_self _ _)
    have hlen := length_pageOf rep P g hg
    rw [readLoop, if_pos hidx, List.map_cons, List.flatten_cons]
    simp only []
    rw [List.take_left' hlen, hlen, if_neg (by omega), List.drop_left' hlen,
      List.drop_of_length_le (by omega), List.append_nil]
    have hz : ([] ++ (recordBytes rep g ++ List.replicate (P - (recordBytes rep g).length) 0)
        : List Nat).length = P := by
      rw [List.nil_append]; exact hlen
    obtain ⟨idx', hidx', hrun⟩ := readPageLoop_records rep P hP g []
      (P - (recordBytes rep g).length) (P + 1) loaded hgo hz
      (by have := length_le_recordBytes rep g; omega)
    rw [List.nil_append] at hrun
    have hrun' : readPageLoop rep (pageOf rep P g) P (P + 1) 0 loaded
        = (loaded ++ g.map TComplexObject.Clone, idx') := hrun
    rw [hrun']
    simp only []
    rw [ih (pageOf rep P g) idx' (count + 1) f (loaded ++ g.map TComplexObject.Clone)
      (fun x hx => hgood x (List.mem_cons_of_mem _ hx)) hlen hidx'
      (by simp at hfuel; omega)]
    rw [List.flatten_cons, List.map_append, List.append_assoc, List.length_cons]
    congr 1
    omega

theorem memcpyAt_pageOf (rep : DoubleRep) (P : Nat) (cur : List TComplexObject)
    (o : TComplexObject) :
    memcpyAt (pageOf rep P cur) (recordBytes rep cur).length (o.serializedBytes rep)
      o.GetSerializedSize = pageOf rep P (cur ++ [o]) := by
  unfold memcpyAt pageOf
  have hsb := length_serializedBytes rep o
  rw [List.take_left, List.take_of_length_le (by omega), List.drop_append,
    List.drop_replicate, recordBytes_append]
  have h1 : recordBytes rep [o] = o.serializedBytes rep := by
    simp [recordBytes]
  rw [h1, List.length_append, hsb]
  congr 2
  omega

/-- The loop of the writer, started from a page holding the records of `cur` after the
pages of `groups` were written, ends with the objects laid out in pages in order. -/
theorem writeLoop_pages (rep : DoubleRep) (P : Nat) :
    ∀ (objs : List TComplexObject) (groups : List (List TComplexObject))
      (cur : List TComplexObject),
      (∀ o ∈ objs, o.GetSerializedSize ≤ P ∧ o.CacheCoherent rep) →
      (recordBytes rep cur).length ≤ P →
      (∀ g ∈ groups, (recordBytes rep g).length ≤ P) →
      ∃ (groups' : List (List TComplexObject)) (cur' : List TComplexObject),
        writeLoop rep P objs (pageOf rep P cur) (recordBytes rep cur).length
          ((groups.map (pageOf rep P)).flatten)
          = some (pageOf rep P cur', (recordBytes rep cur').length,
              (groups'.map (pageOf rep P)).flatten) ∧
        groups'.flatten ++ cur' = groups.flatten ++ cur ++ objs ∧
        (recordBytes rep cur').length ≤ P ∧
        (∀ g ∈ groups', (recordBytes rep g).length ≤ P) := by
  intro objs
  induction objs with
  | nil =>
    intro groups cur _ hcur hgr
    exact ⟨groups, cur, rfl, by simp, hcur, hgr⟩
  | cons o t ih =>
    intro groups cur hobjs hcur hgr
    obtain ⟨hsize, hcache⟩ := hobjs o (List.mem_cons_self _ _)
    have ht : ∀ x ∈ t, x.GetSerializedSize ≤ P ∧ x.CacheCoherent rep :=
      fun x hx => hobjs x (List.mem_cons_of_mem _ hx)
    rw [writeLoop]
    simp only [Serialize_snd rep o hcache]
    rw [if_neg (by omega)]
    by_cases hfit : (recordBytes rep cur).length + o.GetSerializedSize ≤ P
    · rw [if_pos hfit, memcpyAt_pageOf rep P cur o]
      have hlen : (recordBytes rep (cur ++ [o])).length
          = (recordBytes rep cur).length + o.GetSerializedSize := by
        rw [recordBytes_append, List.length_append]
        simp [recordBytes, length_serializedBytes]
      rw [← hlen]
      obtain ⟨groups', cur', hrun, hcat, hcur', hgr'⟩ := ih groups (cur ++ [o]) ht
        (by rw [hlen]; exact hfit) hgr
      refine ⟨groups', cur', hrun, ?_, hcur', hgr'⟩
      rw [hcat]
      simp
    · rw [if_neg hfit]
      have hpage : (List.map (pageOf rep P) groups).flatten ++ pageOf rep P cur
          = (List.map (pageOf rep P) (groups ++ [cur])).flatten := by
        simp
      have hzero : List.replicate P 0 = pageOf rep P [] := by
        simp [pageOf, recordBytes]
      have hmem := memcpyAt_pageOf rep P [] o
      have hlen : (recordBytes rep [o]).length = o.GetSerializedSize := by
        simp [recordBytes, length_serializedBytes]
      have h0 : (recordBytes rep ([] : List TComplexObject)).length = 0 := rfl
      rw [h0, List.nil_append] at hmem
      rw [hpage, hzero, hmem, ← hlen]
      obtain ⟨groups', cur', hrun, hcat, hcur', hgr'⟩ := ih (groups ++ [cur]) [o] ht
        (by rw [hlen]; exact hsize)
        (by
          intro g hg
          rcases List.mem_append.mp hg with h | h
          · exact hgr g h
          · rw [List.mem_singleton.mp h]; exact hcur)
      refine ⟨groups', cur', hrun, ?_, hcur', hgr'⟩
      rw [hcat]
      simp

theorem map_fields_clone (l : List TComplexObject) :
    (l.map TComplexObject.Clone).map TComplexObject.fields = l.map TComplexObject.fields := by
  rw [List.map_map]
  rfl

/-- Writing then reading, for objects that fit a page and are not taken for padding. -/
theorem read_write_pages (rep : DoubleRep) (P : Nat) (objs : List TComplexObject)
    (hP : P < 2 ^ 64)
    (hobjs : ∀ o ∈ objs, o.GetSerializedSize ≤ P ∧ o.Storable rep ∧ o.CacheCoherent rep ∧
      ¬ o.LooksLikePadding) :
    ∃ pgs : List (List TComplexObject), pgs.flatten = objs ∧
      (objs ≠ [] → writeComplexObjectsToPagedFile rep objs P
        = some ((pgs.map (pageOf rep P)).flatten)) ∧
      readComplexObjectsFromPagedFile rep (writeComplexObjectsToPagedFile rep objs P) P
        = (objs.map TComplexObject.Clone, pgs.length) := by
  cases hob : objs with
  | nil =>
    refine ⟨[], rfl, fun h => absurd rfl h, ?_⟩
    simp [writeComplexObjectsToPagedFile, readComplexObjectsFromPagedFile]
  | cons o t =>
    rw [← hob]
    have hne : objs ≠ [] := by rw [hob]; exact List.cons_ne_nil _ _
    have hP0 : 0 < P := by
      have h1 := (hobjs o (by rw [hob]; exact List.mem_cons_self _ _)).1
      have h2 := size_ge_header o
      omega
    obtain ⟨groups', cur', hrun, hcat, hcur', hgr'⟩ := writeLoop_pages rep P objs [] []
      (fun x hx => ⟨(hobjs x hx).1, (hobjs x hx).2.2.1⟩) (by simp [recordBytes])
      (by intro g hg; cases hg)
    have hinit : pageOf rep P [] = List.replicate P 0 := by simp [pageOf, recordBytes]
    have h0 : (recordBytes rep ([] : List TComplexObject)).length = 0 := rfl
    simp only [List.map_nil, List.flatten_nil, List.nil_append, hinit, h0] at hrun hcat
    have hgood : ∀ g : List (List TComplexObject), g.flatten = objs → ∀ p ∈ g, ∀ x ∈ p,
        x.Storable rep ∧ ¬ x.LooksLikePadding := by
      intro g hg p hp x hx
      have hmem : x ∈ objs := by
        rw [← hg]
        exact List.mem_flatten.mpr ⟨p, hp, hx⟩
      exact ⟨(hobjs x hmem).2.1, (hobjs x hmem).2.2.2⟩
    have hwrite : ∃ pgs : List (List TComplexObject), pgs.flatten = objs ∧
        (∀ g ∈ pgs, (recordBytes rep g).length ≤ P) ∧
        writeComplexObjectsToPagedFile rep objs P = some ((pgs.map (pageOf rep P)).flatten) := by
      unfold writeComplexObjectsToPagedFile
      have hemp : objs.isEmpty = false := by rw [hob]; rfl
      simp only [hemp, hrun, Bool.false_eq_true, if_false]
      by_cases hidx : (recordBytes rep cur').length > 0
      · rw [if_pos hidx]
        refine ⟨groups' ++ [cur'], ?_, ?_, ?_⟩
        · rw [List.flatten_append, ← hcat]; simp
        · intro g hg
          rcases List.mem_append.mp hg with h | h
          · exact hgr' g h
          · rw [List.mem_singleton.mp h]; exact hcur'
        · simp
      · rw [if_neg hidx]
        have hc : cur' = [] := by
          have := length_le_recordBytes rep cur'
          exact List.length_eq_zero.mp (by omega)
        refine ⟨groups', ?_, hgr', rfl⟩
        rw [← hcat, hc, List.append_nil]
    obtain ⟨pgs, hflat, hsizes, hfile⟩ := hwrite
    refine ⟨pgs, hflat, fun _ => hfile, ?_⟩
    rw [hfile]
    unfold readComplexObjectsFromPagedFile
    simp only []
    rw [readLoop_pages rep P hP hP0 pgs (List.replicate P 0) P 0 _ []
      (fun g hg => ⟨hsizes g hg, hgood pgs hflat g hg⟩) (by simp) (Nat.le_refl _)
      (by
        rw [length_flatten_pages rep P pgs hsizes]
        have : pgs.length ≤ pgs.length * P := Nat.le_mul_of_pos_right _ hP0
        omega)]
    rw [hflat]
    simp

/-- C2, as the code has it: paged round trip. For a page size `P` (a `size_t`) and a
sequence of objects whose serialized sizes are all at most `P`, whose fields fit their C++
types, whose caches are current, and none of which is the object with resolution 0, empty
label and empty data, reading with the same `P` the file produced by the writer returns
the same objects (label, resolution and data) in the same order. -/
theorem paged_roundtrip (rep : DoubleRep) (P : Nat) (objs : List TComplexObject)
    (hP : P < 2 ^ 64)
    (hobjs : ∀ o ∈ objs, o.GetSerializedSize ≤ P ∧ o.Storable rep ∧ o.CacheCoherent rep ∧
      ¬ o.LooksLikePadding) :
    (readComplexObjectsFromPagedFile rep (writeComplexObjectsToPagedFile rep objs P) P).1.map
        TComplexObject.fields
      = objs.map TComplexObject.fields := by
  obtain ⟨pgs, _, _, hread⟩ := read_write_pages rep P objs hP hobjs
  rw [hread]
  exact map_fields_clone objs

theorem create_coherent (rep : DoubleRep) (l : List Nat) (r : Int) (d : List ℚ) :
    (TComplexObject.create l r d).CacheCoherent rep := by
  intro buf h
  cases h

theorem scenarioDataset_ok : ∀ o ∈ scenarioDataset,
    o.GetSerializedSize ≤ 64 ∧ o.Storable wholeRep ∧ o.CacheCoherent wholeRep ∧
      ¬ o.LooksLikePadding := by
  intro o ho
  simp only [scenarioDataset, List.mem_cons, List.mem_singleton, List.not_mem_nil,
    or_false] at ho
  have hrep : ∀ n : Nat, n < 2 ^ 64 → wholeRep.Representable (n : ℚ) := wholeRep_representable
  rcases ho with h | h | h <;> subst h
  · refine ⟨by decide, ⟨by decide, by decide, by decide, ?_⟩, create_coherent _ _ _ _, ?_⟩
    · intro x hx
      simp only [TComplexObject.create, List.mem_cons, List.mem_singleton, List.not_mem_nil,
        or_false] at hx
      rcases hx with h | h
      · rw [h]; exact hrep 1 (by norm_num)
      · rw [h]; exact hrep 2 (by norm_num)
    · intro hpad; exact absurd hpad.2.1 (by simp [TComplexObject.create])
  · refine ⟨by decide, ⟨by decide, by decide, by decide, ?_⟩, create_coherent _ _ _ _, ?_⟩
    · intro x hx
      simp only [TComplexObject.create, List.mem_cons, List.mem_singleton, List.not_mem_nil,
        or_false] at hx
      rcases hx with h | h
      · rw [h]; exact hrep 3 (by norm_num)
      · rw [h]; exact hrep 4 (by norm_num)
    · intro hpad; exact absurd hpad.2.1 (by simp [TComplexObject.create])
  · refine ⟨by decide, ⟨by decide, by decide, by decide, ?_⟩, create_coherent _ _ _ _, ?_⟩
    · intro x hx
      simp only [TComplexObject.create, List.mem_cons, List.mem_singleton, List.not_mem_nil,
        or_false] at hx
      rcases hx with h | h
      · rw [h]; exact hrep 5 (by norm_num)
      · rw [h]; exact hrep 6 (by norm_num)
    · intro hpad; exact absurd hpad.2.1 (by simp [TComplexObject.create])

/-- C2 at the scenario: page size 64 and three objects of 39 bytes each. -/
theorem paged_roundtrip_witness :
    (64 : Nat) < 2 ^ 64 ∧
    (∀ o ∈ scenarioDataset, o.GetSerializedSize ≤ 64 ∧ o.Storable wholeRep ∧
      o.CacheCoherent wholeRep ∧ ¬ o.LooksLikePadding) ∧
    (readComplexObjectsFromPagedFile wholeRep
        (writeComplexObjectsToPagedFile wholeRep scenarioDataset 64) 64).1.map
        TComplexObject.fields
      = scenarioDataset.map TComplexObject.fields :=
  ⟨by norm_num, scenarioDataset_ok,
    paged_roundtrip wholeRep 64 scenarioDataset (by norm_num) scenarioDataset_ok⟩

/-- C2 as stated fails on the default-constructed object (resolution 0, empty label, empty
data): its record is twenty zero bytes and fits a page of 64 bytes, the writer writes it,
and the reader takes it for padding and returns no object. -/
theorem paged_roundtrip_drops_default_object :
    TComplexObject.default.GetSerializedSize ≤ 64 ∧
    writeComplexObjectsToPagedFile wholeRep [TComplexObject.default] 64
      = some (List.replicate 64 0) ∧
    (readComplexObjectsFromPagedFile wholeRep
      (writeComplexObjectsToPagedFile wholeRep [TComplexObject.default] 64) 64).1 = [] ∧
    (readComplexObjectsFromPagedFile wholeRep
        (writeComplexObjectsToPagedFile wholeRep [TComplexObject.default] 64) 64).1.map
        TComplexObject.fields
      ≠ [TComplexObject.default].map TComplexObject.fields := by
  have hw : writeComplexObjectsToPagedFile wholeRep [TComplexObject.default] 64
      = some (List.replicate 64 0) := by decide
  have hr : (readComplexObjectsFromPagedFile wholeRep (some (List.replicate 64 0)) 64).1
      = [] := by decide
  refine ⟨by decide, hw, ?_, ?_⟩
  · rw [hw]; exact hr
  · rw [hw, hr]; simp

/-! ## Counter and failure paths of the distance functions -/

/-- The counter goes up by one exactly when `GetDistance2` returns a value. -/
theorem GetDistance2_counter (c : Nat) (q o : TComplexObject) :
    (∃ v, GetDistance2 c q o = (.ok v, c + 1)) ∨ (∃ e, GetDistance2 c q o = (.error e, c)) := by
  unfold GetDistance2
  simp only []
  repeat' split
  all_goals first
    | exact Or.inl ⟨_, rfl⟩
    | exact Or.inr ⟨_, rfl⟩

/-- The counter goes up by one exactly when `calculateComplexObjectDistance` returns a
value. -/
theorem calculateComplexObjectDistance_counter (c : Nat) (q o : TComplexObject) :
    (∃ v, calculateComplexObjectDistance q o c = (.ok v, c + 1)) ∨
      (∃ e, calculateComplexObjectDistance q o c = (.error e, c)) := by
  unfold calculateComplexObjectDistance
  simp only []
  repeat' split
  all_goals first
    | exact Or.inl ⟨_, rfl⟩
    | exact Or.inr ⟨_, rfl⟩

/-- Different resolutions, same length, the clone ends at another resolution than the
target: `GetDistance2` throws the resolution error. -/
theorem GetDistance2_unreached (c : Nat) (q o o' : TComplexObject)
    (hres : q.Resolution ≠ o.Resolution) (hlen : q.Data.length = o.Data.length)
    (hcomp : dataCompression q.Clone (o.Resolution - q.Resolution) = .ok o')
    (hres' : o'.Resolution ≠ o.Resolution) :
    GetDistance2 c q o = (.error .resolutionMismatch, c) := by
  unfold GetDistance2
  have hcl : q.Clone.Data.length = o.Data.length := hlen
  simp only [hres, hcl, hcomp, hres', ne_eq, not_true_eq_false, not_false_eq_true, if_false,
    if_true]

/-- Different resolutions, same length, the transformation of the clone fails: so does
`GetDistance2`, with the same error. -/
theorem GetDistance2_transform_error (c : Nat) (q o : TComplexObject) (e : Error)
    (hres : q.Resolution ≠ o.Resolution) (hlen : q.Data.length = o.Data.length)
    (hcomp : dataCompression q.Clone (o.Resolution - q.Resolution) = .error e) :
    GetDistance2 c q o = (.error e, c) := by
  unfold GetDistance2
  have hcl : q.Clone.Data.length = o.Data.length := hlen
  simp only [hres, hcl, hcomp, ne_eq, not_true_eq_false, not_false_eq_true, if_false, if_true]

theorem calculateComplexObjectDistance_unreached (c : Nat) (q o o' : TComplexObject)
    (hres : q.Resolution ≠ o.Resolution) (hlen : q.Data.length = o.Data.length)
    (hcomp : dataCompression q.Clone (o.Resolution - q.Resolution) = .ok o')
    (hres' : o'.Resolution ≠ o.Resolution) :
    calculateComplexObjectDistance q o c = (.error .resolutionMismatch, c) := by
  unfold calculateComplexObjectDistance
  have hcl : q.Clone.Data.length = o.Data.length := hlen
  simp only [hres, hcl, hcomp, hres', ne_eq, not_true_eq_false, not_false_eq_true, if_false,
    if_true]

theorem calculateComplexObjectDistance_transform_error (c : Nat) (q o : TComplexObject)
    (e : Error) (hres : q.Resolution ≠ o.Resolution) (hlen : q.Data.length = o.Data.length)
    (hcomp : dataCompression q.Clone (o.Resolution - q.Resolution) = .error e) :
    calculateComplexObjectDistance q o c = (.error e, c) := by
  unfold calculateComplexObjectDistance
  have hcl : q.Clone.Data.length = o.Data.length := hlen
  simp only [hres, hcl, hcomp, ne_eq, not_true_eq_false, not_false_eq_true, if_false, if_true]

/-! ### Compression below resolution zero -/

theorem approxSizeAt_of_neg (n : Nat) (r : Int) (hr : r < 0) :
    approxSizeAt n r = n * 2 ^ (-r).toNat := by
  obtain ⟨k, hk⟩ : ∃ k : ℕ, r = -(k : ℤ) := ⟨(-r).toNat, by omega⟩
  subst hk
  unfold approxSizeAt
  rw [zpow_neg, zpow_natCast, div_inv_eq_mul, neg_neg, Int.toNat_ofNat]
  have h : (n : ℚ) * (2 : ℚ) ^ k = ((n * 2 ^ k : ℕ) : ℚ) := by push_cast; rfl
  rw [h, Nat.floor_natCast]

/-- The pair loop of `DoCompression` on a half length that is not inside the buffer:
already its first pass reads or writes outside a vector. -/
theorem compressPairs_outside (d buf : List ℚ) (h : Nat) (hh : 0 < h)
    (hbuf : buf.length ≤ h) : compressPairs d h buf = .error .outOfBounds := by
  obtain ⟨k, rfl⟩ : ∃ k, h = k + 1 := ⟨h - 1, by omega⟩
  unfold compressPairs
  rw [List.range_succ_eq_map, List.foldlM_cons]
  have hw : ∀ (b : List ℚ) (x : ℚ), b.length = buf.length →
      writeAt b (0 + (k + 1)) x = .error .outOfBounds := by
    intro b x hb
    unfold writeAt
    rw [if_neg (by omega)]
  unfold readAt
  cases h0 : d[2 * 0]? with
  | none => rfl
  | some v0 =>
    cases h1 : d[2 * 0 + 1]? with
    | none => rfl
    | some v1 =>
      simp only []
      by_cases hb0 : 0 < buf.length
      · have hw0 : writeAt buf 0 ((v0 + v1) / 2) = .ok (buf.set 0 ((v0 + v1) / 2)) := by
          unfold writeAt
          rw [if_pos hb0]
        have hw1 := hw (buf.set 0 ((v0 + v1) / 2)) ((v0 - v1) / 2) (List.length_set _ _ _)
        show ((Except.ok v0 >>= fun val1 => Except.ok v1 >>= fun val2 =>
          writeAt buf 0 ((val1 + val2) / 2) >>= fun b =>
            writeAt b (0 + (k + 1)) ((val1 - val2) / 2)) >>= _) = _
        rw [except_ok_bind, except_ok_bind, hw0, except_ok_bind, hw1]
        rfl
      · have hw0 : writeAt buf 0 ((v0 + v1) / 2) = .error .outOfBounds := by
          unfold writeAt
          rw [if_neg hb0]
        show ((Except.ok v0 >>= fun val1 => Except.ok v1 >>= fun val2 =>
          writeAt buf 0 ((val1 + val2) / 2) >>= fun b =>
            writeAt b (0 + (k + 1)) ((val1 - val2) / 2)) >>= _) = _
        rw [except_ok_bind, except_ok_bind, hw0]
        rfl

/-- A pass of the compression loop at a negative resolution on non-empty data leaves the
vectors. -/
theorem DoCompressionLoop_below_zero (n : Nat) (o : TComplexObject) (buf : List ℚ)
    (hr : o.Resolution < 0) (hne : 0 < o.Data.length) (hb : buf.length = o.Data.length) :
    DoCompressionLoop (n + 1) o buf = .error .outOfBounds := by
  have happ := approxSizeAt_of_neg o.Data.length o.Resolution hr
  obtain ⟨k, hk⟩ : ∃ k : ℕ, (-o.Resolution).toNat = k + 1 :=
    ⟨(-o.Resolution).toNat - 1, by omega⟩
  rw [hk, pow_succ] at happ
  have hpos : 0 < 2 ^ k := Nat.two_pow_pos k
  have hge : o.Data.length ≤ o.Data.length * 2 ^ k := Nat.le_mul_of_pos_right _ hpos
  have hA : approxSizeAt o.Data.length o.Resolution = 2 * (o.Data.length * 2 ^ k) := by
    rw [happ]; ring
  rw [DoCompressionLoop]
  simp only []
  rw [if_neg (by omega), if_neg (by omega)]
  have hhalf : approxSizeAt o.Data.length o.Resolution / 2 = o.Data.length * 2 ^ k := by
    omega
  have hfail := compressPairs_outside o.Data buf
    (approxSizeAt o.Data.length o.Resolution / 2) (by omega) (by omega)
  show (compressPairs o.Data (approxSizeAt o.Data.length o.Resolution / 2) buf >>= _) = _
  rw [hfail]
  rfl

/-- Compressing, by any positive number of levels, an object at a negative resolution with
non-empty data leaves the vectors. -/
theorem dataCompression_below_zero (o : TComplexObject) (l : Int) (hl : 0 < l)
    (hr : o.Resolution < 0) (hne : o.Data ≠ []) :
    dataCompression o l = .error .outOfBounds := by
  obtain ⟨k, hk⟩ : ∃ k : ℕ, l = ((k + 1 : ℕ) : ℤ) := ⟨l.toNat - 1, by omega⟩
  rw [hk, dataCompression_pos o (k + 1) (by omega) hne]
  exact DoCompressionLoop_below_zero k _ _ hr (List.length_pos.mpr hne)
    (List.length_replicate _ _)

/-- Both distance functions on a query at a negative resolution, with non-empty data, and
an object of the same length at a higher resolution: the transformation of the clone
leaves the vectors. -/
theorem distance_below_zero (c : Nat) (q o : TComplexObject) (hr : q.Resolution < 0)
    (hup : q.Resolution < o.Resolution) (hlen : q.Data.length = o.Data.length)
    (hne : q.Data ≠ []) :
    dataCompression q.Clone (o.Resolution - q.Resolution) = .error .outOfBounds ∧
    GetDistance2 c q o = (.error .outOfBounds, c) ∧
    calculateComplexObjectDistance q o c = (.error .outOfBounds, c) := by
  have hcomp : dataCompression q.Clone (o.Resolution - q.Resolution) = .error .outOfBounds :=
    dataCompression_below_zero q.Clone _ (by omega) hr hne
  exact ⟨hcomp, GetDistance2_transform_error c q o _ (by omega) hlen hcomp,
    calculateComplexObjectDistance_transform_error c q o _ (by omega) hlen hcomp⟩

/-! ### The transformation of the clone, in general -/

theorem decompressStep_iterate_facts (m : Nat) (o : TComplexObject) :
    (decompressStep^[m] o).Resolution = o.Resolution - m ∧
    (decompressStep^[m] o).Data.length = o.Data.length := by
  induction m generalizing o with
  | zero => exact ⟨by simp, rfl⟩
  | succ n ih =>
    rw [Function.iterate_succ_apply]
    obtain ⟨h1, h2⟩ := ih (decompressStep o)
    obtain ⟨f1, f2⟩ := decompressStep_facts o
    refine ⟨?_, by rw [h2, f2]⟩
    rw [h1, f1]
    push_cast
    ring

/-- The compression loop from a resolution that is not negative never fails: it makes
`m ≤ n` steps, each on an approximation length that is even and at least 2, and if it
stops early the approximation length it stops at is odd or at most 1. -/
theorem DoCompressionLoop_total (n : Nat) :
    ∀ (o : TComplexObject) (buf : List ℚ), 0 ≤ o.Resolution → buf.length = o.Data.length →
      ∃ m, m ≤ n ∧ DoCompressionLoop n o buf = .ok (compressStep^[m] o) ∧
        (∀ j : Nat, j < m → 2 ≤ approxSizeAt o.Data.length (o.Resolution + j) ∧
          approxSizeAt o.Data.length (o.Resolution + j) % 2 = 0) ∧
        (m < n → ¬ (2 ≤ approxSizeAt o.Data.length (o.Resolution + m) ∧
          approxSizeAt o.Data.length (o.Resolution + m) % 2 = 0)) := by
  induction n with
  | zero =>
    intro o buf _ _
    exact ⟨0, Nat.le_refl _, rfl, fun j hj => absurd hj (Nat.not_lt_zero j),
      fun h => absurd h (Nat.lt_irrefl 0)⟩
  | succ k ih =>
    intro o buf hr hb
    by_cases hstep : 2 ≤ approxSizeAt o.Data.length o.Resolution ∧
        approxSizeAt o.Data.length o.Resolution % 2 = 0
    · have hlen : (compressStep o).Data.length = o.Data.length := length_haarForward _ _
      have hres : (compressStep o).Resolution = o.Resolution + 1 := rfl
      obtain ⟨m, hm, hrun, hsteps, hstop⟩ := ih (compressStep o)
        (List.replicate o.Data.length 0) (by rw [hres]; omega)
        (by rw [hlen, List.length_replicate])
      refine ⟨m + 1, by omega, ?_, ?_, ?_⟩
      · rw [DoCompressionLoop_succ k o buf hr hb hstep.1 hstep.2, Function.iterate_succ_apply]
        exact hrun
      · intro j hj
        cases j with
        | zero =>
          rw [Nat.cast_zero, add_zero]
          exact hstep
        | succ i =>
          have h := hsteps i (by omega)
          rw [hlen, hres] at h
          have e : o.Resolution + ((i + 1 : ℕ) : ℤ) = o.Resolution + 1 + (i : ℤ) := by
            push_cast; ring
          rw [e]
          exact h
      · intro hlt
        have h := hstop (by omega)
        rw [hlen, hres] at h
        have e : o.Resolution + ((m + 1 : ℕ) : ℤ) = o.Resolution + 1 + (m : ℤ) := by
          push_cast; ring
        rw [e]
        exact h
    · refine ⟨0, Nat.zero_le _, ?_, fun j hj => absurd hj (Nat.not_lt_zero j), ?_⟩
      · rw [DoCompressionLoop]
        simp only []
        by_cases h1 : approxSizeAt o.Data.length o.Resolution ≤ 1
        · rw [if_pos h1]
          rfl
        · rw [if_neg h1]
          have h2 : approxSizeAt o.Data.length o.Resolution % 2 ≠ 0 := by
            intro h
            exact hstep ⟨by omega, h⟩
          rw [if_pos h2]
          rfl
      · intro _
        rw [Nat.cast_zero, add_zero]
        exact hstep

/-- The decompression loop on non-empty data never fails: it makes `m ≤ n` steps, each
from a positive resolution with an approximation length between 1 and half the length,
and if it stops early one of these conditions fails where it stops. -/
theorem DoDecompressionLoop_total (n : Nat) :
    ∀ (o : TComplexObject) (buf : List ℚ), 0 < o.Data.length → buf.length = o.Data.length →
      ∃ m, m ≤ n ∧ DoDecompressionLoop n o buf = .ok (decompressStep^[m] o) ∧
        (∀ j : Nat, j < m → 0 < o.Resolution - j ∧
          1 ≤ approxSizeAt o.Data.length (o.Resolution - j) ∧
          approxSizeAt o.Data.length (o.Resolution - j) ≤ o.Data.length / 2) ∧
        (m < n → ¬ (0 < o.Resolution - m ∧
          1 ≤ approxSizeAt o.Data.length (o.Resolution - m) ∧
          approxSizeAt o.Data.length (o.Resolution - m) ≤ o.Data.length / 2)) := by
  induction n with
  | zero =>
    intro o buf _ _
    exact ⟨0, Nat.le_refl _, rfl, fun j hj => absurd hj (Nat.not_lt_zero j),
      fun h => absurd h (Nat.lt_irrefl 0)⟩
  | succ k ih =>
    intro o buf hN hb
    by_cases hstep : 0 < o.Resolution ∧ 1 ≤ approxSizeAt o.Data.length o.Resolution ∧
        approxSizeAt o.Data.length o.Resolution ≤ o.Data.length / 2
    · obtain ⟨hlen, hres⟩ : (decompressStep o).Data.length = o.Data.length ∧
          (decompressStep o).Resolution = o.Resolution - 1 :=
        ⟨length_haarInverse _ _, rfl⟩
      obtain ⟨m, hm, hrun, hsteps, hstop⟩ := ih (decompressStep o)
        (List.replicate o.Data.length 0) (by rw [hlen]; exact hN)
        (by rw [hlen, List.length_replicate])
      refine ⟨m + 1, by omega, ?_, ?_, ?_⟩
      · rw [DoDecompressionLoop_succ k o buf hstep.1 hb hstep.2.1 hstep.2.2,
          Function.iterate_succ_apply]
        exact hrun
      · intro j hj
        cases j with
        | zero =>
          rw [Nat.cast_zero, sub_zero]
          exact hstep
        | succ i =>
          have h := hsteps i (by omega)
          rw [hlen, hres] at h
          have e : o.Resolution - ((i + 1 : ℕ) : ℤ) = o.Resolution - 1 - (i : ℤ) := by
            push_cast; ring
          rw [e]
          exact h
      · intro hlt
        have h := hstop (by omega)
        rw [hlen, hres] at h
        have e : o.Resolution - ((m + 1 : ℕ) : ℤ) = o.Resolution - 1 - (m : ℤ) := by
          push_cast; ring
        rw [e]
        exact h
    · refine ⟨0, Nat.zero_le _, ?_, fun j hj => absurd hj (Nat.not_lt_zero j), ?_⟩
      · rw [DoDecompressionLoop]
        by_cases h0 : o.Resolution > 0
        · rw [if_neg (not_not.mpr h0)]
          simp only []
          have hemp : o.Data.isEmpty = false :=
            isEmpty_eq_false_of_ne_nil _ (List.length_pos.mp hN)
          by_cases h1 : approxSizeAt o.Data.length o.Resolution = 0
          · rw [if_pos ⟨h1, by rw [hemp]; simp⟩]
            rfl
          · rw [if_neg (fun h => h1 h.1)]
            have h2 : approxSizeAt o.Data.length o.Resolution > o.Data.length / 2 := by
              by_contra hle
              exact hstep ⟨h0, by omega, by omega⟩
            rw [if_pos h2]
            rfl
        · rw [if_pos h0]
          rfl
      · intro _
        rw [Nat.cast_zero, sub_zero]
        exact hstep

theorem pow_le_size_bound (N e : Nat) (hN : N < 2 ^ 64) (h : 2 ^ e ≤ N) : e < 64 := by
  by_contra hge
  have h2 : 2 ^ 64 ≤ 2 ^ e := Nat.pow_le_pow_right (by norm_num) (by omega)
  omega

theorem dataCompression_neg_at_zero (o : TComplexObject) (l : Int) (hl : l < 0)
    (h0 : o.Resolution = 0) : dataCompression o l = .ok o.InvalidateSerializedBuffer := by
  have h1 : l ≠ 0 := by omega
  have h2 : ¬ l > 0 := by omega
  have h3 : o.InvalidateSerializedBuffer.Resolution = 0 := h0
  unfold dataCompression DoDecompression
  simp only [h1, h2, h3, if_false, or_true, if_true]
  split <;> rfl

/-- The transformation that the distance functions apply to the clone, wherever it stays
inside the vectors (a start resolution that is not negative, or a decompression, or empty
data), for a vector length that is a `size_t`: it succeeds and keeps the length, and if it
ends at the requested resolution, that resolution is between 0 and 63 and the data is not
empty. -/
theorem dataCompression_defined (q : TComplexObject) (l : Int)
    (hsize : q.Data.length < 2 ^ 64) (hl : l ≠ 0)
    (hdef : 0 ≤ q.Resolution ∨ l < 0 ∨ q.Data = []) :
    ∃ q', dataCompression q l = .ok q' ∧ q'.Data.length = q.Data.length ∧
      (q'.Resolution = q.Resolution + l →
        q.Data ≠ [] ∧ 0 ≤ q'.Resolution ∧ q'.Resolution ≤ 63) := by
  by_cases he : q.Data = []
  · obtain ⟨o', h1, h2, h3, _⟩ := dataCompression_empty q l he
    refine ⟨o', h1, by rw [h3], ?_⟩
    intro h
    rw [h2] at h
    omega
  · have hN : 0 < q.Data.length := List.length_pos.mpr he
    rcases lt_or_gt_of_ne hl with hneg | hpos
    · by_cases h0 : q.Resolution = 0
      · refine ⟨q.InvalidateSerializedBuffer, dataCompression_neg_at_zero q l hneg h0, rfl, ?_⟩
        intro h
        have h' : q.Resolution = q.Resolution + l := h
        omega
      · obtain ⟨k, hk⟩ : ∃ k : ℕ, l = -((k + 1 : ℕ) : ℤ) := ⟨(-l).toNat - 1, by omega⟩
        rw [hk, dataCompression_neg q (k + 1) (by omega) he h0]
        obtain ⟨m, hm, hrun, hsteps, _⟩ := DoDecompressionLoop_total (k + 1)
          q.InvalidateSerializedBuffer (List.replicate q.Data.length 0) hN
          (List.length_replicate _ _)
        obtain ⟨f1, f2⟩ := decompressStep_iterate_facts m q.InvalidateSerializedBuffer
        have f1' : (decompressStep^[m] q.InvalidateSerializedBuffer).Resolution
            = q.Resolution - m := f1
        refine ⟨_, hrun, f2, ?_⟩
        intro hreach
        rw [f1'] at hreach ⊢
        have hmk : m = k + 1 := by
          push_cast at hreach
          omega
        obtain ⟨hfirst, hfirst1, _⟩ := hsteps 0 (by omega)
        obtain ⟨hlast, _, _⟩ := hsteps k (by omega)
        have hfirst' : 0 < q.Resolution := by
          have h : 0 < q.Resolution - ((0 : ℕ) : ℤ) := hfirst
          rw [Nat.cast_zero, sub_zero] at h
          exact h
        have hfirst1' : 1 ≤ approxSizeAt q.Data.length q.Resolution := by
          have h : 1 ≤ approxSizeAt q.Data.length (q.Resolution - ((0 : ℕ) : ℤ)) := hfirst1
          rw [Nat.cast_zero, sub_zero] at h
          exact h
        have hlast' : 0 < q.Resolution - (k : ℤ) := hlast
        rw [approxSizeAt_of_nonneg _ _ (by omega),
          Nat.le_div_iff_mul_le (Nat.two_pow_pos _), Nat.one_mul] at hfirst1'
        have hb := pow_le_size_bound _ _ hsize hfirst1'
        refine ⟨he, ?_, ?_⟩
        · rw [hmk]; push_cast; omega
        · omega
    · have hq : 0 ≤ q.Resolution := by
        rcases hdef with h | h | h
        · exact h
        · omega
        · exact absurd h he
      obtain ⟨k, hk⟩ : ∃ k : ℕ, l = ((k + 1 : ℕ) : ℤ) := ⟨l.toNat - 1, by omega⟩
      rw [hk, dataCompression_pos q (k + 1) (by omega) he]
      obtain ⟨m, hm, hrun, hsteps, _⟩ := DoCompressionLoop_total (k + 1)
        q.InvalidateSerializedBuffer (List.replicate q.Data.length 0) hq
        (List.length_replicate _ _)
      obtain ⟨f1, f2, _, _⟩ := compressStep_iterate_facts m q.InvalidateSerializedBuffer
      have f1' : (compressStep^[m] q.InvalidateSerializedBuffer).Resolution
          = q.Resolution + m := f1
      refine ⟨_, hrun, f2, ?_⟩
      intro hreach
      rw [f1'] at hreach ⊢
      have hmk : m = k + 1 := by
        push_cast at hreach
        omega
      obtain ⟨hlast, _⟩ := hsteps k (by omega)
      have hlast' : 2 ≤ approxSizeAt q.Data.length (q.Resolution + (k : ℤ)) := hlast
      rw [approxSizeAt_of_nonneg _ _ (by omega),
        Nat.le_div_iff_mul_le (Nat.two_pow_pos _), Nat.mul_comm, ← Nat.pow_succ] at hlast'
      have hb := pow_le_size_bound _ _ hsize hlast'
      refine ⟨he, by omega, ?_⟩
      rw [hmk]
      push_cast
      omega

/-- Both distance functions on objects of different resolutions and the same length (a
`size_t`), wherever the transformation of the clone stays inside the vectors: the
transformation succeeds; if it ends at another resolution than the target the call throws
the resolution error, and otherwise it returns the L1 distance of the two approximation
prefixes and counts one evaluation. -/
theorem distance_across_resolutions (c : Nat) (q o : TComplexObject)
    (hsize : q.Data.length < 2 ^ 64) (hres : q.Resolution ≠ o.Resolution)
    (hlen : q.Data.length = o.Data.length)
    (hdef : 0 ≤ q.Resolution ∨ o.Resolution < q.Resolution ∨ q.Data = []) :
    ∃ q', dataCompression q.Clone (o.Resolution - q.Resolution) = .ok q' ∧
      q'.Data.length = q.Data.length ∧
      (q'.Resolution ≠ o.Resolution →
        GetDistance2 c q o = (.error .resolutionMismatch, c) ∧
        calculateComplexObjectDistance q o c = (.error .resolutionMismatch, c)) ∧
      (q'.Resolution = o.Resolution →
        GetDistance2 c q o = (.ok (l1Upto q'.Data o.Data
          (approxSizeAt o.Data.length o.Resolution)), c + 1) ∧
        calculateComplexObjectDistance q o c = (.ok (l1Upto q'.Data o.Data
          (approxSizeAt o.Data.length o.Resolution)), c + 1)) := by
  obtain ⟨q', hcomp, hlen', hreach⟩ := dataCompression_defined q.Clone
    (o.Resolution - q.Resolution) hsize (by omega)
    (by
      rcases hdef with h | h | h
      · exact Or.inl h
      · exact Or.inr (Or.inl (by omega))
      · exact Or.inr (Or.inr h))
  have hlen'' : q'.Data.length = q.Data.length := hlen'
  refine ⟨q', hcomp, hlen'', ?_, ?_⟩
  · intro hne
    exact ⟨GetDistance2_unreached c q o q' hres hlen hcomp hne,
      calculateComplexObjectDistance_unreached c q o q' hres hlen hcomp hne⟩
  · intro heq
    obtain ⟨hne, hlo, hhi⟩ := hreach (by
      rw [heq]
      show o.Resolution = q.Resolution + (o.Resolution - q.Resolution)
      omega)
    have hne' : q.Data ≠ [] := hne
    have hN : ¬ o.Data.length = 0 := by
      rw [← hlen]
      exact Nat.ne_of_gt (List.length_pos.mpr hne')
    have hrange : ¬ (1023 < o.Resolution ∨ o.Resolution < -1074) := by omega
    have hmin : min o.Data.length ⌊(o.Data.length : ℚ) / (2 : ℚ) ^ o.Resolution⌋₊
        = approxSizeAt o.Data.length o.Resolution :=
      Nat.min_eq_right (approxSizeAt_le _ _ (by omega))
    constructor
    · rw [GetDistance2_clone_path c q o q' hres hlen hcomp heq (by rw [hlen'', hlen]),
        if_neg hN, if_neg hrange, hmin]
    · rw [calculateComplexObjectDistance_clone_path c q o q' hres hlen hcomp heq
        (by rw [hlen'', hlen]), if_neg hN, if_neg hrange, hmin]

/-- C11 at a query below resolution zero. For `q = ("q", -2, [1, 2])` and
`o = ("o", -1, [1, 2])`, of the same length and different resolutions, the compression of
the clone by one level works on an approximation length of `2 / 2^(-2) = 8` for a vector
of two elements: its first pass writes `tempBuffer[4]`, outside the vector. The
transformation does not end at any resolution, and both distance functions neither throw
the resolution error nor return a distance. -/
theorem distance_below_zero_at_two_elements :
    queryBelowZero.Data.length = objectBelowZero.Data.length ∧
    queryBelowZero.Resolution ≠ objectBelowZero.Resolution ∧
    approxSizeAt queryBelowZero.Data.length queryBelowZero.Resolution = 8 ∧
    dataCompression queryBelowZero.Clone
        (objectBelowZero.Resolution - queryBelowZero.Resolution) = .error .outOfBounds ∧
    GetDistance2 0 queryBelowZero objectBelowZero = (.error .outOfBounds, 0) ∧
    calculateComplexObjectDistance queryBelowZero objectBelowZero 0
      = (.error .outOfBounds, 0) := by
  have hneg : queryBelowZero.Resolution < 0 := by decide
  have hup : queryBelowZero.Resolution < objectBelowZero.Resolution := by decide
  have hne : queryBelowZero.Data ≠ [] := by
    intro h
    cases h
  have hA : approxSizeAt queryBelowZero.Data.length queryBelowZero.Resolution = 8 := by
    rw [approxSizeAt_of_neg _ _ hneg]
    rfl
  exact ⟨rfl, by decide, hA,
    distance_below_zero 0 queryBelowZero objectBelowZero hneg hup rfl hne⟩

/-- C12, as the code has it: a call of a distance function that returns a value raises
the distance counter by exactly one, and a call that throws leaves the counter as it
was. Every call does one or the other. -/
theorem counter_counts_returned_values (c : Nat) (q o : TComplexObject) :
    ((∃ v, GetDistance2 c q o = (.ok v, c + 1)) ∨ (∃ e, GetDistance2 c q o = (.error e, c))) ∧
    ((∃ v, GetDistance c q o = (.ok v, c + 1)) ∨ (∃ e, GetDistance c q o = (.error e, c))) ∧
    ((∃ v, calculateComplexObjectDistance q o c = (.ok v, c + 1)) ∨
      (∃ e, calculateComplexObjectDistance q o c = (.error e, c))) :=
  ⟨GetDistance2_counter c q o, GetDistance2_counter c q o,
    calculateComplexObjectDistance_counter c q o⟩

/-- C12 as stated fails on a call that throws: for `objA` (three elements) against
`obj_short` (one element) the counter stays at 5 with both distance functions. -/
theorem counter_unchanged_on_failure :
    (GetDistance2 5 objA obj_short).2 = 5 ∧
    (calculateComplexObjectDistance objA obj_short 5).2 = 5 ∧
    (GetDistance2 5 objA obj_short).2 ≠ 5 + 1 := by
  have h1 := GetDistance2_size_mismatch 5 objA obj_short (by decide)
  have h2 := calculateComplexObjectDistance_size_mismatch 5 objA obj_short (by decide)
  rw [h1, h2]
  exact ⟨rfl, rfl, by decide⟩

/-- C13, as the code has it: for two objects with empty data vectors and the same
resolution both distance functions return 0 and count one evaluation. -/
theorem distance_of_empty_vectors (c : Nat) (q o : TComplexObject)
    (hq : q.Data = []) (ho : o.Data = []) (hres : q.Resolution = o.Resolution) :
    GetDistance2 c q o = (.ok 0, c + 1) ∧
    GetDistance c q o = (.ok 0, c + 1) ∧
    calculateComplexObjectDistance q o c = (.ok 0, c + 1) := by
  have hlen : q.Data.length = o.Data.length := by rw [hq, ho]
  have hz : o.Data.length = 0 := by rw [ho]; rfl
  have h1 : GetDistance2 c q o = (.ok 0, c + 1) := by
    rw [GetDistance2_same_resolution c q o hres hlen, if_pos hz]
  refine ⟨h1, h1, ?_⟩
  rw [calculateComplexObjectDistance_same_resolution c q o hres hlen, if_pos hz]

/-- C13 on the objects of the unit test: two empty vectors at resolution 2. -/
theorem distance_of_empty_vectors_witness :
    obj_empty1.Data = [] ∧ obj_empty2.Data = [] ∧
    obj_empty1.Resolution = obj_empty2.Resolution ∧
    GetDistance2 0 obj_empty1 obj_empty2 = (.ok 0, 0 + 1) ∧
    GetDistance 0 obj_empty1 obj_empty2 = (.ok 0, 0 + 1) ∧
    calculateComplexObjectDistance obj_empty1 obj_empty2 0 = (.ok 0, 0 + 1) :=
  ⟨rfl, rfl, rfl, distance_of_empty_vectors 0 obj_empty1 obj_empty2 rfl rfl rfl⟩

/-- C13 as stated fails across resolutions: for an empty object at resolution 0 against
an empty object at resolution 1 the clone cannot be compressed, and both distance
functions throw the resolution error without counting. -/
theorem distance_of_empty_vectors_across_resolutions :
    emptyAtZero.Data = [] ∧ emptyAtOne.Data = [] ∧
    GetDistance2 0 emptyAtZero emptyAtOne = (.error .resolutionMismatch, 0) ∧
    calculateComplexObjectDistance emptyAtZero emptyAtOne 0
      = (.error .resolutionMismatch, 0) := by
  have hc : dataCompression emptyAtZero.Clone (emptyAtOne.Resolution - emptyAtZero.Resolution)
      = .ok { Label := [69, 48], Resolution := 0, Data := [], Serialized := none } := by
    simp [dataCompression, DoCompression, emptyAtZero, emptyAtOne, TComplexObject.create,
      TComplexObject.Clone, TComplexObject.InvalidateSerializedBuffer]
  refine ⟨rfl, rfl, ?_, ?_⟩
  · exact GetDistance2_unreached 0 emptyAtZero emptyAtOne _ (by decide) rfl hc (by decide)
  · exact calculateComplexObjectDistance_unreached 0 emptyAtZero emptyAtOne _ (by decide) rfl hc
      (by decide)

/-- C14: `IsEqual` is true exactly when the two objects have the same resolution and data
vectors of the same length with equal elements at every index; replacing the label of
either object does not change the result. -/
theorem isEqual_iff (a b : TComplexObject) :
    (a.IsEqual b = true ↔
      a.Resolution = b.Resolution ∧ a.Data.length = b.Data.length ∧
        ∀ i, i < a.Data.length → a.Data[i]? = b.Data[i]?) ∧
    (∀ l1 l2 : List Nat,
      TComplexObject.IsEqual { a with Label := l1 } { b with Label := l2 } = a.IsEqual b) := by
  constructor
  · unfold TComplexObject.IsEqual
    by_cases hr : a.Resolution = b.Resolution
    · simp only [hr, ne_eq, not_true_eq_false, if_false, decide_eq_true_eq, true_and]
      constructor
      · intro h
        rw [h]
        exact ⟨rfl, fun _ _ => rfl⟩
      · rintro ⟨hlen, hpt⟩
        apply List.ext_getElem?
        intro i
        by_cases hi : i < a.Data.length
        · exact hpt i hi
        · rw [List.getElem?_eq_none (by omega), List.getElem?_eq_none (by omega)]
    · simp [hr]
  · intro l1 l2
    rfl

/-! ## Record layout -/

theorem readBytes_encodeDoubles (rep : DoubleRep) :
    ∀ (d : List ℚ) (tail : List Nat) (i : Nat) (x : ℚ), d[i]? = some x →
      readBytes (encodeDoubles rep d ++ tail) (8 * i) 8 = some (toBytesLE 8 (rep.toBits x)) := by
  intro d
  induction d with
  | nil => intro tail i x h; simp at h
  | cons y t ih =>
    intro tail i x h
    have hcons : encodeDoubles rep (y :: t) ++ tail
        = toBytesLE 8 (rep.toBits y) ++ (encodeDoubles rep t ++ tail) := by
      show (toBytesLE 8 (rep.toBits y) ++ encodeDoubles rep t) ++ tail = _
      rw [List.append_assoc]
    rw [hcons]
    cases i with
    | zero =>
      simp only [List.getElem?_cons_zero, Option.some.injEq] at h
      subst h
      have := readBytes_zero_append (toBytesLE 8 (rep.toBits y)) (encodeDoubles rep t ++ tail)
      rw [length_toBytesLE] at this
      exact this
    | succ j =>
      simp only [List.getElem?_cons_succ] at h
      have hskip := readBytes_skip (toBytesLE 8 (rep.toBits y)) (encodeDoubles rep t ++ tail)
        (8 * j) 8
      rw [length_toBytesLE] at hskip
      rw [show 8 * (j + 1) = 8 + 8 * j by ring, hskip]
      exact ih tail j x h

theorem readBytes_data_of_serializedBytes (rep : DoubleRep) (o : TComplexObject)
    (tail : List Nat) (i : Nat) (x : ℚ) (h : o.Data[i]? = some x) :
    readBytes (o.serializedBytes rep ++ tail) (20 + o.Label.length + 8 * i) 8
      = some (toBytesLE 8 (rep.toBits x)) := by
  rw [serializedBytes_append, ← List.append_assoc, ← List.append_assoc, ← List.append_assoc]
  have hlen : (((encodeInt o.Resolution ++ toBytesLE 8 o.Data.length)
      ++ toBytesLE 8 o.Label.length) ++ o.Label).length = 20 + o.Label.length := by
    rw [List.length_append, List.length_append, List.length_append, length_encodeInt,
      length_toBytesLE, length_toBytesLE]
  have hskip := readBytes_skip (((encodeInt o.Resolution ++ toBytesLE 8 o.Data.length)
      ++ toBytesLE 8 o.Label.length) ++ o.Label) (encodeDoubles rep o.Data ++ tail) (8 * i) 8
  rw [hlen] at hskip
  rw [hskip]
  exact readBytes_encodeDoubles rep o.Data tail i x h

/-- C15: record layout. For an object whose cache, if any, is current, the buffer
returned by `Serialize()` has exactly `GetSerializedSize() = 20 + L + 8 D` bytes, `L` the
label length and `D` the number of data values: the four bytes of the resolution at
offset 0, `D` in eight bytes at offset 4, `L` in eight bytes at offset 12, the label
bytes at offset 20, and the eight bytes of the `i`-th data value at offset
`20 + L + 8 i`. The two length fields read back as `D` and `L` when these fit 64 bits. -/
theorem serialize_layout (rep : DoubleRep) (o : TComplexObject) (hc : o.CacheCoherent rep) :
    (o.Serialize rep).2.length = o.GetSerializedSize ∧
    o.GetSerializedSize = 20 + o.Label.length + 8 * o.Data.length ∧
    readBytes (o.Serialize rep).2 0 4 = some (encodeInt o.Resolution) ∧
    readBytes (o.Serialize rep).2 4 8 = some (toBytesLE 8 o.Data.length) ∧
    readBytes (o.Serialize rep).2 12 8 = some (toBytesLE 8 o.Label.length) ∧
    readBytes (o.Serialize rep).2 20 o.Label.length = some o.Label ∧
    (∀ i x, o.Data[i]? = some x →
      readBytes (o.Serialize rep).2 (20 + o.Label.length + 8 * i) 8
        = some (toBytesLE 8 (rep.toBits x))) ∧
    (o.Data.length < 2 ^ 64 → fromBytesLE (toBytesLE 8 o.Data.length) = o.Data.length) ∧
    (o.Label.length < 2 ^ 64 → fromBytesLE (toBytesLE 8 o.Label.length) = o.Label.length) := by
  rw [Serialize_snd rep o hc]
  obtain ⟨e1, e2, e3, e4, _⟩ := header_of_serializedBytes rep o []
  rw [List.append_nil] at e1 e2 e3 e4
  refine ⟨length_serializedBytes rep o, ?_, e1, e2, e3, e4, ?_, ?_, ?_⟩
  · unfold TComplexObject.GetSerializedSize
    omega
  · intro i x h
    have := readBytes_data_of_serializedBytes rep o [] i x h
    rw [List.append_nil] at this
    exact this
  · intro h
    exact fromBytesLE_toBytesLE_of_lt 8 _ (by norm_num at h ⊢; exact h)
  · intro h
    exact fromBytesLE_toBytesLE_of_lt 8 _ (by norm_num at h ⊢; exact h)

/-- C15 on the object of the unit test: label of 11 bytes and four data values, 63 bytes
in all, with the resolution 55 in the first four. -/
theorem serialize_layout_witness :
    obj_orig.CacheCoherent wholeRep ∧
    (obj_orig.Serialize wholeRep).2.length = 63 ∧
    readBytes (obj_orig.Serialize wholeRep).2 0 4 = some [55, 0, 0, 0] ∧
    readBytes (obj_orig.Serialize wholeRep).2 4 8 = some [4, 0, 0, 0, 0, 0, 0, 0] ∧
    readBytes (obj_orig.Serialize wholeRep).2 12 8 = some [11, 0, 0, 0, 0, 0, 0, 0] ∧
    readBytes (obj_orig.Serialize wholeRep).2 20 11
      = some [83, 101, 114, 105, 97, 108, 105, 122, 101, 77, 101] := by
  obtain ⟨h1, _, h3, h4, h5, h6, _⟩ := serialize_layout wholeRep obj_orig obj_orig_coherent
  refine ⟨obj_orig_coherent, ?_, ?_, ?_, ?_, ?_⟩
  · rw [h1]; decide
  · rw [h3]; decide
  · rw [h4]; decide
  · rw [h5]; decide
  · exact h6

/-! ## Unserialize on arbitrary buffers -/

/-- C16 at a header whose sizes overflow: the buffer has 24 bytes and declares a label of
100 bytes and `2^61 - 12` data values, so it is shorter than the record, `20 + 100 +
8 (2^61 - 12)` bytes. The sum `100 + 8 (2^61 - 12)` wraps to 4 modulo `2^64`, the size
check passes, and the label is read past the end of the buffer. -/
theorem unserialize_overflowing_header :
    overflowingHeader.length = 24 ∧
    fromBytesLE ((overflowingHeader.drop 4).take 8) = 2 ^ 61 - 12 ∧
    fromBytesLE ((overflowingHeader.drop 12).take 8) = 100 ∧
    (100 + (2 ^ 61 - 12) * 8 % 2 ^ 64) % 2 ^ 64 = 4 ∧
    (TComplexObject.Unserialize wholeRep TComplexObject.default overflowingHeader 24).1
      = .error .outOfBounds := by
  refine ⟨by decide, by decide, by decide, by decide, ?_⟩
  rfl

/-- When `Unserialize` succeeds, the record that the header declares lies inside the
buffer: with `D` and `L` the length fields at offsets 4 and 12, `20 + L + 8 D` is at most
the length of the buffer, whatever size the caller announced. -/
theorem Unserialize_ok_bounds (rep : DoubleRep) (self : TComplexObject) (data : List Nat)
    (datasize : Nat)
    (h : (TComplexObject.Unserialize rep self data datasize).1 = .ok ()) :
    20 ≤ datasize ∧
    20 + fromBytesLE ((data.drop 12).take 8) + fromBytesLE ((data.drop 4).take 8) * 8
      ≤ data.length := by
  unfold TComplexObject.Unserialize at h
  simp only [] at h
  by_cases h20 : datasize < 4 + 8 * 2
  · rw [if_pos h20] at h
    cases h
  · rw [if_neg h20] at h
    by_cases hb : 20 ≤ data.length
    · have r0 : readBytes data 0 4 = some ((data.drop 0).take 4) := by
        unfold readBytes; rw [if_pos (by omega)]
      have r4 : readBytes data 4 8 = some ((data.drop 4).take 8) := by
        unfold readBytes; rw [if_pos (by omega)]
      have r12 : readBytes data 12 8 = some ((data.drop 12).take 8) := by
        unfold readBytes; rw [if_pos (by omega)]
      rw [r0, r4, r12] at h
      simp only [] at h
      generalize fromBytesLE ((data.drop 12).take 8) = L at h ⊢
      generalize fromBytesLE ((data.drop 4).take 8) = D at h ⊢
      refine ⟨by omega, ?_⟩
      split_ifs at h with c1 c2 c3 c4 c5 c6 c7 c8
      all_goals first
        | cases h
        | skip
      all_goals (try unfold readBytes at h)
      all_goals (try split at h)
      all_goals (try split_ifs at h)
      all_goals (try cases h)
      all_goals first
        | omega
        | (split_ifs at *; omega)
    · have r0 : readBytes data 12 8 = none := by
        unfold readBytes; rw [if_neg (by omega)]
      rw [r0] at h
      split at h
      · rename_i heq1 heq2 heq3
        cases heq3
      · cases h

/-- A buffer of `n < 2^64` bytes, announced with its length, that holds at least the
record its header declares is accepted by `Unserialize`. -/
theorem Unserialize_ok_of_fits (rep : DoubleRep) (self : TComplexObject) (data : List Nat)
    (hn : data.length < 2 ^ 64)
    (hfit : 20 + fromBytesLE ((data.drop 12).take 8) + fromBytesLE ((data.drop 4).take 8) * 8
      ≤ data.length) :
    (TComplexObject.Unserialize rep self data data.length).1 = .ok () := by
  unfold TComplexObject.Unserialize
  simp only []
  have r0 : readBytes data 0 4 = some ((data.drop 0).take 4) := by
    unfold readBytes; rw [if_pos (by omega)]
  have r4 : readBytes data 4 8 = some ((data.drop 4).take 8) := by
    unfold readBytes; rw [if_pos (by omega)]
  have r12 : readBytes data 12 8 = some ((data.drop 12).take 8) := by
    unfold readBytes; rw [if_pos (by omega)]
  rw [if_neg (by omega), r0, r4, r12]
  simp only []
  generalize fromBytesLE ((data.drop 12).take 8) = L at hfit ⊢
  generalize fromBytesLE ((data.drop 4).take 8) = D at hfit ⊢
  have hD : D * 8 % 2 ^ 64 = D * 8 := Nat.mod_eq_of_lt (by omega)
  have hLD : (L + D * 8) % 2 ^ 64 = L + D * 8 := Nat.mod_eq_of_lt (by omega)
  rw [hD, hLD, if_neg (by omega)]
  have hlab : ∃ label, (if L > 0 then readBytes data (4 + 8 * 2) L else some []) = some label := by
    by_cases hl : L > 0
    · rw [if_pos hl]
      unfold readBytes
      rw [if_pos (by omega)]
      exact ⟨_, rfl⟩
    · rw [if_neg hl]
      exact ⟨_, rfl⟩
  obtain ⟨label, hlabel⟩ := hlab
  rw [hlabel]
  simp only []
  rw [if_neg (by omega)]
  by_cases hd : D > 0
  · rw [if_pos hd]
    have hrem : ¬ ((if L > 0 then (data.length - (4 + 8 * 2) + 2 ^ 64 - L) % 2 ^ 64
        else data.length - (4 + 8 * 2)) < D * 8) := by
      by_cases hl : L > 0
      · rw [if_pos hl]
        have : data.length - (4 + 8 * 2) + 2 ^ 64 - L
            = (data.length - 20 - L) + 2 ^ 64 := by omega
        rw [this, Nat.add_mod_right, Nat.mod_eq_of_lt (by omega)]
        omega
      · rw [if_neg hl]
        omega
    rw [if_neg hrem]
    have hread : ∃ bytes, readBytes data (if L > 0 then 4 + 8 * 2 + L else 4 + 8 * 2) (D * 8)
        = some bytes := by
      unfold readBytes
      by_cases hl : L > 0
      · rw [if_pos hl, if_pos (by omega)]
        exact ⟨_, rfl⟩
      · rw [if_neg hl, if_pos (by omega)]
        exact ⟨_, rfl⟩
    obtain ⟨bytes, hbytes⟩ := hread
    rw [hbytes]
  · rw [if_neg hd]

/-! ### The paged writer: failure and page layout -/

/-- The loop of the writer ends without a result exactly when some object is larger than a
page, whatever the state it starts from. -/
theorem writeLoop_none_iff (rep : DoubleRep) (P : Nat) :
    ∀ (objs : List TComplexObject) (pb : List Nat) (idx : Nat) (out : List Nat),
      writeLoop rep P objs pb idx out = none ↔ ∃ o ∈ objs, o.GetSerializedSize > P := by
  intro objs
  induction objs with
  | nil =>
    intro pb idx out
    simp [writeLoop]
  | cons o t ih =>
    intro pb idx out
    rw [writeLoop]
    simp only []
    by_cases hbig : o.GetSerializedSize > P
    · rw [if_pos hbig]
      exact ⟨fun _ => ⟨o, List.mem_cons_self _ _, hbig⟩, fun _ => rfl⟩
    · rw [if_neg hbig]
      have hex : (∃ x ∈ o :: t, x.GetSerializedSize > P) ↔ ∃ x ∈ t, x.GetSerializedSize > P := by
        constructor
        · rintro ⟨x, hx, hxs⟩
          rcases List.mem_cons.mp hx with h | h
          · rw [h] at hxs; exact absurd hxs hbig
          · exact ⟨x, h, hxs⟩
        · rintro ⟨x, hx, hxs⟩
          exact ⟨x, List.mem_cons_of_mem _ hx, hxs⟩
      by_cases hfit : idx + o.GetSerializedSize ≤ P
      · rw [if_pos hfit, ih, hex]
      · rw [if_neg hfit, ih, hex]

/-- The writer on a non-empty sequence of objects that fit the page: the file is the
pages of a grouping of the sequence, in order, each page holding whole records. -/
theorem writer_layout (rep : DoubleRep) (P : Nat) (objs : List TComplexObject)
    (hne : objs ≠ [])
    (hobjs : ∀ o ∈ objs, o.GetSerializedSize ≤ P ∧ o.CacheCoherent rep) :
    ∃ pgs : List (List TComplexObject), pgs.flatten = objs ∧
      (∀ g ∈ pgs, (recordBytes rep g).length ≤ P) ∧
      writeComplexObjectsToPagedFile rep objs P = some ((pgs.map (pageOf rep P)).flatten) := by
  obtain ⟨groups', cur', hrun, hcat, hcur', hgr'⟩ := writeLoop_pages rep P objs [] []
    hobjs (by simp [recordBytes]) (by intro g hg; cases hg)
  have hinit : pageOf rep P [] = List.replicate P 0 := by simp [pageOf, recordBytes]
  have h0 : (recordBytes rep ([] : List TComplexObject)).length = 0 := rfl
  simp only [List.map_nil, List.flatten_nil, List.nil_append, hinit, h0] at hrun hcat
  unfold writeComplexObjectsToPagedFile
  have hemp : objs.isEmpty = false := by
    cases objs with
    | nil => exact absurd rfl hne
    | cons a t => rfl
  simp only [hemp, hrun, Bool.false_eq_true, if_false]
  by_cases hidx : (recordBytes rep cur').length > 0
  · rw [if_pos hidx]
    refine ⟨groups' ++ [cur'], ?_, ?_, ?_⟩
    · rw [List.flatten_append, ← hcat]; simp
    · intro g hg
      rcases List.mem_append.mp hg with h | h
      · exact hgr' g h
      · rw [List.mem_singleton.mp h]; exact hcur'
    · simp
  · rw [if_neg hidx]
    have hc : cur' = [] := by
      have := length_le_recordBytes rep cur'
      exact List.length_eq_zero.mp (by omega)
    refine ⟨groups', ?_, hgr', rfl⟩
    rw [← hcat, hc, List.append_nil]

/-- A file left by the writer comes from a non-empty sequence all of whose objects fit the
page. -/
theorem writer_some_fits (rep : DoubleRep) (P : Nat) (objs : List TComplexObject)
    (file : List Nat) (hw : writeComplexObjectsToPagedFile rep objs P = some file) :
    objs ≠ [] ∧ ∀ o ∈ objs, o.GetSerializedSize ≤ P := by
  unfold writeComplexObjectsToPagedFile at hw
  constructor
  · intro h
    rw [h] at hw
    simp at hw
  · intro o ho
    by_contra hbig
    have hnone := (writeLoop_none_iff rep P objs (List.replicate P 0) 0 []).mpr
      ⟨o, ho, by omega⟩
    rw [hnone] at hw
    split at hw <;> cases hw

/-- The record of an object inside the file of a grouping: page `before.length`, offset
the length of the records that precede it in its page. -/
theorem record_in_page (rep : DoubleRep) (P : Nat) (before after : List (List TComplexObject))
    (g1 g2 : List TComplexObject) (o : TComplexObject)
    (hsizes : ∀ g ∈ before, (recordBytes rep g).length ≤ P)
    (hg : (recordBytes rep (g1 ++ o :: g2)).length ≤ P) :
    (recordBytes rep g1).length + o.GetSerializedSize ≤ P ∧
    readBytes (((before ++ (g1 ++ o :: g2) :: after).map (pageOf rep P)).flatten)
      (before.length * P + (recordBytes rep g1).length) o.GetSerializedSize
      = some (o.serializedBytes rep) := by
  have hlen : (recordBytes rep (g1 ++ o :: g2)).length
      = (recordBytes rep g1).length + o.GetSerializedSize + (recordBytes rep g2).length := by
    rw [recordBytes_append, recordBytes_cons, List.length_append, List.length_append,
      length_serializedBytes]
    omega
  refine ⟨by omega, ?_⟩
  rw [List.map_append, List.flatten_append, List.map_cons, List.flatten_cons,
    ← length_flatten_pages rep P before hsizes, readBytes_skip]
  unfold pageOf
  rw [recordBytes_append, recordBytes_cons]
  simp only [List.append_assoc]
  exact readBytes_mid _ _ _ _ _ rfl (length_serializedBytes rep o).symm

/-- The record of an object with resolution 0, empty label and empty data is twenty zero
bytes, in every representation of doubles. -/
theorem serializedBytes_of_padding_like (rep : DoubleRep) (o : TComplexObject)
    (h : o.LooksLikePadding) : o.serializedBytes rep = List.replicate 20 0 := by
  obtain ⟨hr, hl, hd⟩ := h
  unfold TComplexObject.serializedBytes
  rw [hr, hl, hd]
  rfl

/-- C17: whole pages and whole records. For a page size `P` and a sequence of objects
(with current caches) on which the paged writer leaves a file, the size of the file is a
multiple of `P`, and the file is the concatenation of pages of `P` bytes that hold the
records of consecutive groups of the sequence: the record of every object starts at an
offset `off` of one page `k` with `off + size ≤ P`, so it lies in that page and crosses no
page boundary. -/
theorem writer_pages_hold_whole_records (rep : DoubleRep) (P : Nat)
    (objs : List TComplexObject) (file : List Nat)
    (hc : ∀ o ∈ objs, o.CacheCoherent rep)
    (hw : writeComplexObjectsToPagedFile rep objs P = some file) :
    P ∣ file.length ∧
    (∃ pgs : List (List TComplexObject), pgs.flatten = objs ∧
      file = (pgs.map (pageOf rep P)).flatten ∧ file.length = pgs.length * P ∧
      (∀ g ∈ pgs, (pageOf rep P g).length = P) ∧
      ∀ (before after : List (List TComplexObject)) (g1 g2 : List TComplexObject)
        (o : TComplexObject), pgs = before ++ (g1 ++ o :: g2) :: after →
        (recordBytes rep g1).length + o.GetSerializedSize ≤ P ∧
        readBytes file (before.length * P + (recordBytes rep g1).length) o.GetSerializedSize
          = some (o.serializedBytes rep)) ∧
    (∀ o ∈ objs, ∃ k off : Nat, k * P + P ≤ file.length ∧ off + o.GetSerializedSize ≤ P ∧
      readBytes file (k * P + off) o.GetSerializedSize = some (o.serializedBytes rep)) := by
  obtain ⟨hne, hfit⟩ := writer_some_fits rep P objs file hw
  obtain ⟨pgs, hflat, hsizes, hfile⟩ := writer_layout rep P objs hne
    (fun o ho => ⟨hfit o ho, hc o ho⟩)
  rw [hw] at hfile
  have hfile2 : file = (pgs.map (pageOf rep P)).flatten := Option.some.inj hfile
  have hlen : file.length = pgs.length * P := by
    rw [hfile2]
    exact length_flatten_pages rep P pgs hsizes
  have hpos : ∀ (before after : List (List TComplexObject)) (g1 g2 : List TComplexObject)
      (o : TComplexObject), pgs = before ++ (g1 ++ o :: g2) :: after →
      (recordBytes rep g1).length + o.GetSerializedSize ≤ P ∧
      readBytes file (before.length * P + (recordBytes rep g1).length) o.GetSerializedSize
        = some (o.serializedBytes rep) := by
    intro before after g1 g2 o hdec
    have h1 : ∀ g ∈ before, (recordBytes rep g).length ≤ P := by
      intro g hg
      exact hsizes g (by rw [hdec]; exact List.mem_append_left _ hg)
    have h2 : (recordBytes rep (g1 ++ o :: g2)).length ≤ P :=
      hsizes _ (by rw [hdec]; exact List.mem_append_right _ (List.mem_cons_self _ _))
    have h := record_in_page rep P before after g1 g2 o h1 h2
    rw [hfile2, hdec]
    exact h
  refine ⟨⟨pgs.length, by rw [hlen]; exact Nat.mul_comm _ _⟩,
    ⟨pgs, hflat, hfile2, hlen, fun g hg => length_pageOf rep P g (hsizes g hg), hpos⟩, ?_⟩
  intro o ho
  rw [← hflat] at ho
  obtain ⟨g, hg, hog⟩ := List.mem_flatten.mp ho
  obtain ⟨before, after, hdec⟩ := List.append_of_mem hg
  obtain ⟨g1, g2, hgdec⟩ := List.append_of_mem hog
  rw [hgdec] at hdec
  obtain ⟨hin, hread⟩ := hpos before after g1 g2 o hdec
  refine ⟨before.length, (recordBytes rep g1).length, ?_, hin, hread⟩
  rw [hlen, hdec, List.length_append, List.length_cons]
  have : (before.length + (after.length + 1)) * P
      = before.length * P + P + after.length * P := by ring
  omega

/-- C17 at three objects of 21, 22 and 21 bytes and pages of 48 bytes: the file has two
pages, 96 bytes. -/
theorem writer_pages_hold_whole_records_witness :
    (∀ o ∈ datasetNoData, o.CacheCoherent wholeRep) ∧
    writeComplexObjectsToPagedFile wholeRep datasetNoData 48 = some datasetNoDataPages ∧
    48 ∣ datasetNoDataPages.length ∧
    (∀ o ∈ datasetNoData, ∃ k off : Nat, k * 48 + 48 ≤ datasetNoDataPages.length ∧
      off + o.GetSerializedSize ≤ 48 ∧
      readBytes datasetNoDataPages (k * 48 + off) o.GetSerializedSize
        = some (o.serializedBytes wholeRep)) :=
  have hc : ∀ o ∈ datasetNoData, o.CacheCoherent wholeRep := by
    intro o ho buf hbuf
    simp only [datasetNoData, List.mem_cons, List.mem_singleton, List.not_mem_nil,
      or_false] at ho
    rcases ho with h | h | h <;> subst h <;> cases hbuf
  have hw : writeComplexObjectsToPagedFile wholeRep datasetNoData 48
      = some datasetNoDataPages := by decide
  ⟨hc, hw,
    (writer_pages_hold_whole_records wholeRep 48 datasetNoData datasetNoDataPages hc hw).1,
    (writer_pages_hold_whole_records wholeRep 48 datasetNoData datasetNoDataPages hc hw).2.2⟩

/-- C18: the writer and objects larger than a page. The loop over the objects aborts (the
file is removed) exactly when some object of the sequence has a serialized size greater
than the page size `P`. For a non-empty sequence the writer therefore leaves no file
exactly in that case, and when every object fits it leaves a file. (For an empty sequence
no file is created either, before the loop is entered.) -/
theorem writer_fails_iff_object_too_large (rep : DoubleRep) (P : Nat)
    (objs : List TComplexObject) :
    (writeLoop rep P objs (List.replicate P 0) 0 [] = none
      ↔ ∃ o ∈ objs, o.GetSerializedSize > P) ∧
    (objs ≠ [] → (writeComplexObjectsToPagedFile rep objs P = none
      ↔ ∃ o ∈ objs, o.GetSerializedSize > P)) ∧
    (objs ≠ [] → (∀ o ∈ objs, o.GetSerializedSize ≤ P) →
      ∃ file, writeComplexObjectsToPagedFile rep objs P = some file) := by
  have hloop := writeLoop_none_iff rep P objs (List.replicate P 0) 0 []
  have hemp : objs ≠ [] → objs.isEmpty = false := by
    intro hne
    cases objs with
    | nil => exact absurd rfl hne
    | cons a t => rfl
  have hiff : objs ≠ [] → (writeComplexObjectsToPagedFile rep objs P = none
      ↔ ∃ o ∈ objs, o.GetSerializedSize > P) := by
    intro hne
    unfold writeComplexObjectsToPagedFile
    rw [hemp hne]
    simp only [Bool.false_eq_true, if_false]
    rw [← hloop]
    cases hrun : writeLoop rep P objs (List.replicate P 0) 0 [] with
    | none => simp
    | some st =>
      obtain ⟨pb, idx, out⟩ := st
      simp only []
      split <;> simp
  refine ⟨hloop, hiff, ?_⟩
  intro hne hfit
  cases hres : writeComplexObjectsToPagedFile rep objs P with
  | some file => exact ⟨file, rfl⟩
  | none =>
    obtain ⟨o, ho, hbig⟩ := (hiff hne).mp hres
    have := hfit o ho
    omega

/-- C18 at three objects of 21, 22 and 21 bytes: with pages of 21 bytes the second object
is too large and no file is left; with pages of 48 bytes the file is written. -/
theorem writer_fails_iff_object_too_large_witness :
    (∃ o ∈ datasetNoData, o.GetSerializedSize > 21) ∧
    writeComplexObjectsToPagedFile wholeRep datasetNoData 21 = none ∧
    (∀ o ∈ datasetNoData, o.GetSerializedSize ≤ 48) ∧
    (∃ file, writeComplexObjectsToPagedFile wholeRep datasetNoData 48 = some file) :=
  have hbig : ∃ o ∈ datasetNoData, o.GetSerializedSize > 21 :=
    ⟨TComplexObject.create [98, 99] 2 [], by simp [datasetNoData], by decide⟩
  have hfit : ∀ o ∈ datasetNoData, o.GetSerializedSize ≤ 48 := by decide
  have hne : datasetNoData ≠ [] := by decide
  ⟨hbig,
    ((writer_fails_iff_object_too_large wholeRep 21 datasetNoData).2.1 hne).mpr hbig,
    hfit,
    (writer_fails_iff_object_too_large wholeRep 48 datasetNoData).2.2 hne hfit⟩

/-- C19 as stated fails: the writer has no check for the object with resolution 0, empty
label and empty data. The sequence `("a", 1, {})`, default-constructed object is written
to one page of 64 bytes: the record of the first object, the twenty zero bytes of the
second, and 23 bytes of padding. -/
theorem writer_emits_default_object :
    TComplexObject.default ∈ datasetWithDefault ∧
    TComplexObject.default.LooksLikePadding ∧
    writeComplexObjectsToPagedFile wholeRep datasetWithDefault 64
      = some (([1, 0, 0, 0] ++ List.replicate 8 0 ++ [1, 0, 0, 0, 0, 0, 0, 0] ++ [97])
          ++ List.replicate 20 0 ++ List.replicate 23 0) :=
  ⟨by simp [datasetWithDefault], ⟨rfl, rfl, rfl⟩, by decide⟩

/-- C19, as the code has it: the writer does not reject the object with resolution 0,
empty label and empty data. A sequence that contains such an object, all of whose objects
fit the page (and have current caches), is written: the file is the pages of a grouping of
the whole sequence, and the record of every such object is twenty zero bytes. -/
theorem writer_accepts_padding_like (rep : DoubleRep) (P : Nat) (objs : List TComplexObject)
    (hfit : ∀ o ∈ objs, o.GetSerializedSize ≤ P)
    (hc : ∀ o ∈ objs, o.CacheCoherent rep)
    (hpad : ∃ o ∈ objs, o.LooksLikePadding) :
    ∃ (file : List Nat) (pgs : List (List TComplexObject)),
      writeComplexObjectsToPagedFile rep objs P = some file ∧
      pgs.flatten = objs ∧ file = (pgs.map (pageOf rep P)).flatten ∧
      ∀ o ∈ objs, o.LooksLikePadding →
        o.serializedBytes rep = List.replicate 20 0 ∧
        ∃ k off : Nat, off + 20 ≤ P ∧
          readBytes file (k * P + off) 20 = some (List.replicate 20 0) := by
  obtain ⟨p, hp, _⟩ := hpad
  have hne : objs ≠ [] := List.ne_nil_of_mem hp
  obtain ⟨pgs, hflat, hsizes, hfile⟩ := writer_layout rep P objs hne
    (fun o ho => ⟨hfit o ho, hc o ho⟩)
  refine ⟨_, pgs, hfile, hflat, rfl, ?_⟩
  intro o ho hlooks
  have hser := serializedBytes_of_padding_like rep o hlooks
  refine ⟨hser, ?_⟩
  have hsize : o.GetSerializedSize = 20 := by
    rw [← length_serializedBytes rep o, hser, List.length_replicate]
  rw [← hflat] at ho
  obtain ⟨g, hg, hog⟩ := List.mem_flatten.mp ho
  obtain ⟨before, after, hdec⟩ := List.append_of_mem hg
  obtain ⟨g1, g2, hgdec⟩ := List.append_of_mem hog
  rw [hgdec] at hdec
  have h1 : ∀ x ∈ before, (recordBytes rep x).length ≤ P := by
    intro x hx
    exact hsizes x (by rw [hdec]; exact List.mem_append_left _ hx)
  have h2 : (recordBytes rep (g1 ++ o :: g2)).length ≤ P :=
    hsizes _ (by rw [hdec]; exact List.mem_append_right _ (List.mem_cons_self _ _))
  obtain ⟨hin, hread⟩ := record_in_page rep P before after g1 g2 o h1 h2
  rw [hsize, hser] at hread
  rw [hsize] at hin
  refine ⟨before.length, (recordBytes rep g1).length, hin, ?_⟩
  rw [hdec]
  exact hread

/-- C19 at the sequence `("a", 1, {})`, default-constructed object and pages of 64
bytes. -/
theorem writer_accepts_padding_like_witness :
    (∀ o ∈ datasetWithDefault, o.GetSerializedSize ≤ 64) ∧
    (∀ o ∈ datasetWithDefault, o.CacheCoherent wholeRep) ∧
    (∃ o ∈ datasetWithDefault, o.LooksLikePadding) ∧
    ∃ (file : List Nat) (pgs : List (List TComplexObject)),
      writeComplexObjectsToPagedFile wholeRep datasetWithDefault 64 = some file ∧
      pgs.flatten = datasetWithDefault ∧ file = (pgs.map (pageOf wholeRep 64)).flatten ∧
      ∀ o ∈ datasetWithDefault, o.LooksLikePadding →
        o.serializedBytes wholeRep = List.replicate 20 0 ∧
        ∃ k off : Nat, off + 20 ≤ 64 ∧
          readBytes file (k * 64 + off) 20 = some (List.replicate 20 0) :=
  have hfit : ∀ o ∈ datasetWithDefault, o.GetSerializedSize ≤ 64 := by decide
  have hc : ∀ o ∈ datasetWithDefault, o.CacheCoherent wholeRep := by
    intro o ho buf hbuf
    simp only [datasetWithDefault, List.mem_cons, List.mem_singleton, List.not_mem_nil,
      or_false] at ho
    rcases ho with h | h <;> subst h <;> cases hbuf
  have hpad : ∃ o ∈ datasetWithDefault, o.LooksLikePadding :=
    ⟨TComplexObject.default, by simp [datasetWithDefault], ⟨rfl, rfl, rfl⟩⟩
  ⟨hfit, hc, hpad, writer_accepts_padding_like wholeRep 64 datasetWithDefault hfit hc hpad⟩

/-! ### The paged reader on zero padding -/

/-- The three header fields read at a cursor where the next twenty bytes are zero. -/
theorem zero_header_fields (pb : List Nat) (idx : Nat)
    (hz : (pb.drop idx).take 20 = List.replicate 20 0) :
    (pb.drop idx).take 4 = List.replicate 4 0 ∧
    (pb.drop (idx + 4)).take 8 = List.replicate 8 0 ∧
    (pb.drop (idx + 4 + 8)).take 8 = List.replicate 8 0 := by
  have e1 : (pb.drop idx).take 4 = ((pb.drop idx).take 20).take 4 := by
    rw [List.take_take]
    rfl
  have e2 : (pb.drop (idx + 4)).take 8 = (((pb.drop idx).take 20).drop 4).take 8 := by
    rw [List.drop_take, List.take_take, List.drop_drop]
    rfl
  have e3 : (pb.drop (idx + 4 + 8)).take 8 = (((pb.drop idx).take 20).drop 12).take 8 := by
    rw [List.drop_take, List.take_take, List.drop_drop]
    rfl
  rw [e1, e2, e3, hz]
  exact ⟨rfl, rfl, rfl⟩

/-- One pass of the inner loop of the reader at a cursor where a whole header fits and
its twenty bytes are zero: no object is added and the cursor goes to the page end. -/
theorem readPageLoop_zero_header (rep : DoubleRep) (pb : List Nat) (P fuel idx : Nat)
    (loaded : List TComplexObject) (hfit : idx + 20 ≤ P)
    (hz : (pb.drop idx).take 20 = List.replicate 20 0) :
    readPageLoop rep pb P (fuel + 1) idx loaded = (loaded, P) := by
  obtain ⟨h1, h2, h3⟩ := zero_header_fields pb idx hz
  rw [readPageLoop]
  simp only []
  rw [if_neg (show ¬ ¬ idx < P by omega), if_neg (show ¬ idx + (4 + 2 * 8) > P by omega),
    h1, h2, h3, fromBytesLE_replicate_zero]
  rw [if_pos ⟨by rfl, by rfl⟩]

/-- The inner loop of the reader on a page of zero bytes adds no object, and from a cursor
inside the page it goes to the page end. -/
theorem readPageLoop_zero_page (rep : DoubleRep) (P fuel idx : Nat)
    (loaded : List TComplexObject) :
    (readPageLoop rep (List.replicate P 0) P fuel idx loaded).1 = loaded ∧
    (0 < fuel → idx < P →
      (readPageLoop rep (List.replicate P 0) P fuel idx loaded).2 = P) := by
  cases fuel with
  | zero => exact ⟨rfl, fun h => absurd h (Nat.lt_irrefl 0)⟩
  | succ f =>
    by_cases hidx : idx < P
    · by_cases hfit : idx + 20 ≤ P
      · have hz : ((List.replicate P 0).drop idx).take 20 = List.replicate 20 0 := by
          rw [List.drop_replicate, List.take_replicate, Nat.min_eq_left (by omega)]
        rw [readPageLoop_zero_header rep _ P f idx loaded hfit hz]
        exact ⟨rfl, fun _ _ => rfl⟩
      · rw [readPageLoop]
        simp only []
        rw [if_neg (show ¬ ¬ idx < P by omega), if_pos (show idx + (4 + 2 * 8) > P by omega)]
        exact ⟨rfl, fun _ _ => rfl⟩
    · rw [readPageLoop]
      simp only []
      rw [if_pos hidx]
      exact ⟨rfl, fun _ h => absurd h hidx⟩

/-- The outer loop of the reader on a file of `m` zero bytes, started at a page end with
a page buffer of zeros: no object, and one read for each page begun. -/
theorem readLoop_zero_file (rep : DoubleRep) (P : Nat) (hP : 0 < P) :
    ∀ (fuel m cnt : Nat), m < fuel →
      readLoop rep P fuel (List.replicate m 0) (List.replicate P 0) P cnt []
        = ([], cnt + (m + P - 1) / P) := by
  intro fuel
  induction fuel with
  | zero => intro m cnt h; omega
  | succ f ih =>
    intro m cnt hm
    rw [readLoop]
    simp only []
    rw [if_pos (Nat.le_refl P)]
    have hchunk : (List.replicate m (0 : Nat)).take P = List.replicate (min P m) 0 :=
      List.take_replicate _ _ _
    rw [hchunk, List.length_replicate]
    by_cases hm0 : m = 0
    · subst hm0
      rw [if_pos (by simp)]
      have : (0 + P - 1) / P = 0 := Nat.div_eq_of_lt (by omega)
      rw [this, Nat.add_zero]
    · rw [if_neg (by omega)]
      have hbuf : List.replicate (min P m) (0 : Nat) ++ (List.replicate P 0).drop (min P m)
          = List.replicate P 0 := by
        rw [List.drop_replicate, List.append_replicate_replicate]
        congr 1
        omega
      rw [hbuf]
      obtain ⟨hobj, hcur⟩ := readPageLoop_zero_page rep P (P + 1) 0 []
      have hres : readPageLoop rep (List.replicate P 0) P (P + 1) 0 [] = ([], P) :=
        Prod.ext hobj (hcur (by omega) hP)
      rw [hres]
      simp only []
      rw [List.drop_replicate, ih (m - P) (cnt + 1) (by omega)]
      congr 1
      by_cases hle : P ≤ m
      · have e1 : m + P - 1 = (m - 1) + P := by omega
        have e2 : m - P + P - 1 = m - 1 := by omega
        rw [e1, e2, Nat.add_div_right _ hP]
        omega
      · have e1 : m - P + P - 1 = P - 1 := by omega
        have e2 : (P - 1) / P = 0 := Nat.div_eq_of_lt (by omega)
        have e3 : (m + P - 1) / P = 1 := by
          have : m + P - 1 = (m - 1) + P := by omega
          rw [this, Nat.add_div_right _ hP, Nat.div_eq_of_lt (by omega)]
        rw [e1, e2, e3]

/-- C20: the reader and zero padding. At a cursor inside a page, with any page content,
where the next twenty bytes are all zero, a pass of the reader's inner loop adds no object
to those already loaded and puts the cursor at the page end, so that the next page is
read. In particular a file of `n` zero bytes, for any page
size, yields no object, after one read for each page begun. -/
theorem reader_skips_zero_padding (rep : DoubleRep) :
    (∀ (pb : List Nat) (P fuel idx : Nat) (loaded : List TComplexObject),
      idx < P → (pb.drop idx).take 20 = List.replicate 20 0 →
      readPageLoop rep pb P (fuel + 1) idx loaded = (loaded, P)) ∧
    (∀ n P : Nat, readComplexObjectsFromPagedFile rep (some (List.replicate n 0)) P
      = ([], if P = 0 then 0 else (n + P - 1) / P)) := by
  refine ⟨?_, ?_⟩
  · intro pb P fuel idx loaded hidx hz
    by_cases hfit : idx + 20 ≤ P
    · exact readPageLoop_zero_header rep pb P fuel idx loaded hfit hz
    · rw [readPageLoop]
      simp only []
      rw [if_neg (show ¬ ¬ idx < P by omega), if_pos (show idx + (4 + 2 * 8) > P by omega)]
  intro n P
  unfold readComplexObjectsFromPagedFile
  simp only [List.length_replicate]
  by_cases hP : P = 0
  · subst hP
    rw [if_pos rfl, readLoop]
    simp
  · rw [if_neg hP, readLoop_zero_file rep P (by omega) (n + 1) n 0 (by omega), Nat.zero_add]

/-- C20 at a page of 64 bytes holding one record of 21 bytes and zeros: at cursor 21 no
object is added to the one loaded and the cursor goes to 64; and a file of 100 zero bytes
read with pages of 64 bytes yields no object after two reads. -/
theorem reader_skips_zero_padding_witness :
    readPageLoop wholeRep
        (([1, 0, 0, 0] ++ List.replicate 8 0 ++ [1, 0, 0, 0, 0, 0, 0, 0] ++ [97])
          ++ List.replicate 43 0) 64 (64 + 1) 21 [TComplexObject.create [97] 1 []]
      = ([TComplexObject.create [97] 1 []], 64) ∧
    readComplexObjectsFromPagedFile wholeRep (some (List.replicate 100 0)) 64 = ([], 2) :=
  ⟨(reader_skips_zero_padding wholeRep).1 _ 64 64 21 _ (by decide) (by decide),
    (reader_skips_zero_padding wholeRep).2 100 64⟩

/-! ## Length and resolution under `dataCompression` -/

theorem dataCompression_of_empty (o : TComplexObject) (l : Int) (hl : l ≠ 0)
    (he : o.Data = []) : dataCompression o l = .ok o.InvalidateSerializedBuffer := by
  have h : o.InvalidateSerializedBuffer.Data = [] := he
  unfold dataCompression DoCompression DoDecompression
  simp only [hl, h, List.isEmpty_nil, true_or, if_true, if_false, ite_self]

/-- What `dataCompression` does for a level count other than 0, wherever it stays inside
the vectors (a start resolution that is not negative, or a decompression, or empty data):
the cache is dropped and `m` steps are applied, `m` at most the number of levels asked for
and, in a decompression, at most the resolution. -/
theorem dataCompression_steps (o : TComplexObject) (l : Int) (hl : l ≠ 0)
    (hdef : 0 ≤ o.Resolution ∨ l < 0 ∨ o.Data = []) :
    ∃ m : Nat,
      (0 < l → (m : Int) ≤ l ∧
        dataCompression o l = .ok (compressStep^[m] o.InvalidateSerializedBuffer)) ∧
      (l < 0 → (m : Int) ≤ -l ∧ (0 < m → (m : Int) ≤ o.Resolution) ∧
        dataCompression o l = .ok (decompressStep^[m] o.InvalidateSerializedBuffer)) := by
  by_cases he : o.Data = []
  · refine ⟨0, fun h => ⟨by omega, ?_⟩, fun h => ⟨by omega, fun h0 => absurd h0 (by omega), ?_⟩⟩
    · exact dataCompression_of_empty o l hl he
    · exact dataCompression_of_empty o l hl he
  · have hN : 0 < o.Data.length := List.length_pos.mpr he
    rcases lt_or_gt_of_ne hl with hneg | hpos
    · by_cases h0 : o.Resolution = 0
      · refine ⟨0, fun h => absurd h (by omega),
          fun _ => ⟨by omega, fun h => absurd h (by omega), ?_⟩⟩
        exact dataCompression_neg_at_zero o l hneg h0
      · obtain ⟨k, hk⟩ : ∃ k : ℕ, l = -((k + 1 : ℕ) : ℤ) := ⟨(-l).toNat - 1, by omega⟩
        obtain ⟨m, hm, hrun, hsteps, _⟩ := DoDecompressionLoop_total (k + 1)
          o.InvalidateSerializedBuffer (List.replicate o.Data.length 0) hN
          (List.length_replicate _ _)
        refine ⟨m, fun h => absurd h (by omega), fun _ => ⟨by omega, ?_, ?_⟩⟩
        · intro hpos
          obtain ⟨h1, _, _⟩ := hsteps (m - 1) (by omega)
          have h1' : 0 < o.Resolution - ((m - 1 : ℕ) : ℤ) := h1
          omega
        · rw [hk, dataCompression_neg o (k + 1) (by omega) he h0]
          exact hrun
    · have hq : 0 ≤ o.Resolution := by
        rcases hdef with h | h | h
        · exact h
        · omega
        · exact absurd h he
      obtain ⟨k, hk⟩ : ∃ k : ℕ, l = ((k + 1 : ℕ) : ℤ) := ⟨l.toNat - 1, by omega⟩
      obtain ⟨m, hm, hrun, _, _⟩ := DoCompressionLoop_total (k + 1)
        o.InvalidateSerializedBuffer (List.replicate o.Data.length 0) hq
        (List.length_replicate _ _)
      refine ⟨m, fun _ => ⟨by omega, ?_⟩, fun h => absurd h (by omega)⟩
      rw [hk, dataCompression_pos o (k + 1) (by omega) he]
      exact hrun

/-- Wherever `dataCompression` stays inside the vectors it returns, and the data vector
has the length it had. -/
theorem dataCompression_length (o : TComplexObject) (l : Int)
    (hdef : 0 ≤ o.Resolution ∨ l ≤ 0 ∨ o.Data = []) :
    ∃ o', dataCompression o l = .ok o' ∧ o'.Data.length = o.Data.length := by
  by_cases hl : l = 0
  · subst hl
    exact ⟨o, rfl, rfl⟩
  · obtain ⟨m, hup, hdown⟩ := dataCompression_steps o l hl (by
      rcases hdef with h | h | h
      · exact Or.inl h
      · exact Or.inr (Or.inl (by omega))
      · exact Or.inr (Or.inr h))
    rcases lt_or_gt_of_ne hl with hneg | hpos
    · obtain ⟨_, _, hrun⟩ := hdown hneg
      exact ⟨_, hrun, (decompressStep_iterate_facts m _).2⟩
    · obtain ⟨_, hrun⟩ := hup hpos
      exact ⟨_, hrun, (compressStep_iterate_facts m _).2.1⟩

/-- A call of `dataCompression` that returns leaves the data vector at its length. -/
theorem dataCompression_length_of_ok (o o' : TComplexObject) (l : Int)
    (h : dataCompression o l = .ok o') : o'.Data.length = o.Data.length := by
  by_cases hdef : 0 ≤ o.Resolution ∨ l ≤ 0 ∨ o.Data = []
  · obtain ⟨o'', hrun, hlen⟩ := dataCompression_length o l hdef
    rw [hrun] at h
    cases h
    exact hlen
  · have hfail := dataCompression_below_zero o l (by omega) (by omega)
      (fun he => hdef (Or.inr (Or.inr he)))
    rw [hfail] at h
    cases h

/-- C28 at an object below resolution zero. For `("q", -2, [1, 2])` one level of
compression works on an approximation length of `2 / 2^(-2) = 8`: the pair loop is run
for a half length of 4 on vectors of two elements and leaves them at its first pass. The
call does not return an object, so the length is not kept by it. -/
theorem compression_below_zero_at_two_elements :
    queryBelowZero.Data.length = 2 ∧
    approxSizeAt queryBelowZero.Data.length queryBelowZero.Resolution = 8 ∧
    compressPairs queryBelowZero.Data 4 (List.replicate 2 0) = .error .outOfBounds ∧
    dataCompression queryBelowZero 1 = .error .outOfBounds := by
  have hneg : queryBelowZero.Resolution < 0 := by decide
  have hne : queryBelowZero.Data ≠ [] := by
    intro h
    cases h
  refine ⟨rfl, ?_, ?_, ?_⟩
  · rw [approxSizeAt_of_neg _ _ hneg]
    rfl
  · exact compressPairs_outside _ _ 4 (by decide) (by decide)
  · exact dataCompression_below_zero queryBelowZero 1 (by decide) hneg hne

/-- C29: the resolution never goes negative. For an object whose resolution is not
negative and any signed level count, `dataCompression` returns, and the resolution of the
result is not negative. A positive count applies `m` compression steps, at most the count,
and leaves the resolution `m` higher; a negative count applies `m` decompression steps, at
most the count, and leaves it `m` lower; the count 0 changes nothing. One compression step
raises the resolution by exactly 1 and one decompression step lowers it by exactly 1. -/
theorem resolution_stays_nonnegative (o : TComplexObject) (l : Int)
    (hr : 0 ≤ o.Resolution) :
    (∃ (o' : TComplexObject) (m : Nat), dataCompression o l = .ok o' ∧ 0 ≤ o'.Resolution ∧
      (0 < l → (m : Int) ≤ l ∧ o' = compressStep^[m] o.InvalidateSerializedBuffer ∧
        o'.Resolution = o.Resolution + m) ∧
      (l < 0 → (m : Int) ≤ -l ∧ o' = decompressStep^[m] o.InvalidateSerializedBuffer ∧
        o'.Resolution = o.Resolution - m) ∧
      (l = 0 → o' = o)) ∧
    (∀ x : TComplexObject, (compressStep x).Resolution = x.Resolution + 1) ∧
    (∀ x : TComplexObject, (decompressStep x).Resolution = x.Resolution - 1) := by
  refine ⟨?_, fun _ => rfl, fun _ => rfl⟩
  by_cases hl : l = 0
  · subst hl
    exact ⟨o, 0, rfl, hr, fun h => absurd h (by omega), fun h => absurd h (by omega),
      fun _ => rfl⟩
  · obtain ⟨m, hup, hdown⟩ := dataCompression_steps o l hl (Or.inl hr)
    rcases lt_or_gt_of_ne hl with hneg | hpos
    · obtain ⟨hm, hle, hrun⟩ := hdown hneg
      have hres : (decompressStep^[m] o.InvalidateSerializedBuffer).Resolution
          = o.Resolution - m := (decompressStep_iterate_facts m _).1
      refine ⟨_, m, hrun, ?_, fun h => absurd h (by omega), fun _ => ⟨hm, rfl, hres⟩,
        fun h => absurd h hl⟩
      rw [hres]
      rcases Nat.eq_zero_or_pos m with h0 | h0
      · subst h0
        simpa using hr
      · have := hle h0
        omega
    · obtain ⟨hm, hrun⟩ := hup hpos
      have hres : (compressStep^[m] o.InvalidateSerializedBuffer).Resolution
          = o.Resolution + m := (compressStep_iterate_facts m _).1
      refine ⟨_, m, hrun, ?_, fun _ => ⟨hm, rfl, hres⟩, fun h => absurd h (by omega),
        fun h => absurd h hl⟩
      rw [hres]
      omega

/-- C29 at the object `("s1", 0, [4, 2, 6, 8])` and three levels of decompression. -/
theorem resolution_stays_nonnegative_witness :
    0 ≤ scenarioS1.Resolution ∧
    ∃ (o' : TComplexObject) (m : Nat), dataCompression scenarioS1 (-3) = .ok o' ∧
      0 ≤ o'.Resolution ∧
      (0 < (-3 : Int) → (m : Int) ≤ -3 ∧
        o' = compressStep^[m] scenarioS1.InvalidateSerializedBuffer ∧
        o'.Resolution = scenarioS1.Resolution + m) ∧
      ((-3 : Int) < 0 → (m : Int) ≤ -(-3) ∧
        o' = decompressStep^[m] scenarioS1.InvalidateSerializedBuffer ∧
        o'.Resolution = scenarioS1.Resolution - m) ∧
      ((-3 : Int) = 0 → o' = scenarioS1) :=
  ⟨by decide, (resolution_stays_nonnegative scenarioS1 (-3) (by decide)).1⟩

/-! ## Page counts -/

/-- The inner loop of the reader, on a page buffer of `P` bytes and with enough passes
allowed, ends with the cursor at or past the page end: a pass either stops the page or
steps over a record of at least twenty bytes that lies inside the page. -/
theorem readPageLoop_reaches_end (rep : DoubleRep) (pb : List Nat) (P : Nat)
    (hP : P < 2 ^ 64) (hpb : pb.length = P) :
    ∀ (fuel idx : Nat) (loaded : List TComplexObject), P ≤ idx + 20 * fuel →
      P ≤ (readPageLoop rep pb P fuel idx loaded).2 := by
  intro fuel
  induction fuel with
  | zero =>
    intro idx loaded h
    show P ≤ idx
    omega
  | succ f ih =>
    intro idx loaded h
    rw [readPageLoop]
    simp only []
    by_cases hidx : idx < P
    · rw [if_neg (not_not.mpr hidx)]
      by_cases hfit : idx + (4 + 2 * 8) > P
      · rw [if_pos hfit]
      · rw [if_neg hfit]
        split
        · exact Nat.le_refl P
        · split
          · next hin =>
            split
            · next u obj hU =>
              have hok : (TComplexObject.Unserialize rep TComplexObject.default
                  (pb.drop idx) ((4 + 2 * 8 + fromBytesLE ((pb.drop (idx + 4 + 8)).take 8)
                    + fromBytesLE ((pb.drop (idx + 4)).take 8) * 8 % 2 ^ 64) % 2 ^ 64)).1
                  = .ok () := by
                rw [hU]
              obtain ⟨h20, hlen⟩ := Unserialize_ok_bounds rep _ _ _ hok
              rw [List.drop_drop, List.drop_drop, List.length_drop, hpb] at hlen
              have e1 : idx + 12 = idx + 4 + 8 := by omega
              rw [e1] at hlen
              generalize fromBytesLE ((pb.drop (idx + 4 + 8)).take 8) = L at *
              generalize fromBytesLE ((pb.drop (idx + 4)).take 8) = D at *
              have hD : D * 8 % 2 ^ 64 = D * 8 := Nat.mod_eq_of_lt (by omega)
              have hE : (4 + 2 * 8 + L + D * 8) % 2 ^ 64 = 4 + 2 * 8 + L + D * 8 :=
                Nat.mod_eq_of_lt (by omega)
              rw [hD, hE] at h20 ⊢
              have hI : (idx + (4 + 2 * 8 + L + D * 8)) % 2 ^ 64
                  = idx + (4 + 2 * 8 + L + D * 8) := Nat.mod_eq_of_lt (by omega)
              rw [hI]
              exact ih _ _ (by omega)
            · exact Nat.le_refl P
          · exact Nat.le_refl P
    · rw [if_pos hidx]
      show P ≤ idx
      omega

/-- The outer loop of the reader, started at a page end on any file: the count goes up by
one for each page begun, `⌈length / P⌉` in all. -/
theorem readLoop_count (rep : DoubleRep) (P : Nat) (hP0 : 0 < P) (hP : P < 2 ^ 64) :
    ∀ (fuel : Nat) (inFile pb : List Nat) (idx cnt : Nat) (loaded : List TComplexObject),
      pb.length = P → P ≤ idx → inFile.length < fuel →
      (readLoop rep P fuel inFile pb idx cnt loaded).2 = cnt + (inFile.length + P - 1) / P := by
  intro fuel
  induction fuel with
  | zero => intro inFile pb idx cnt loaded _ _ h; omega
  | succ f ih =>
    intro inFile pb idx cnt loaded hpb hidx hlen
    rw [readLoop]
    simp only []
    rw [if_pos hidx, List.length_take]
    by_cases hemp : inFile.length = 0
    · rw [if_pos (by omega), hemp]
      have : (0 + P - 1) / P = 0 := Nat.div_eq_of_lt (by omega)
      rw [this, Nat.add_zero]
    · rw [if_neg (by omega)]
      have hbuf : (inFile.take P ++ pb.drop (min P inFile.length)).length = P := by
        rw [List.length_append, List.length_take, List.length_drop, hpb]
        omega
      have hend := readPageLoop_reaches_end rep _ P hP hbuf (P + 1) 0 loaded (by omega)
      rw [ih _ _ _ _ _ hbuf hend (by rw [List.length_drop]; omega), List.length_drop]
      have harith : 1 + (inFile.length - P + P - 1) / P = (inFile.length + P - 1) / P := by
        by_cases hle : P ≤ inFile.length
        · have e1 : inFile.length + P - 1 = (inFile.length - 1) + P := by omega
          have e2 : inFile.length - P + P - 1 = inFile.length - 1 := by omega
          rw [e1, e2, Nat.add_div_right _ hP0]
          omega
        · have e1 : inFile.length - P + P - 1 = P - 1 := by omega
          have e2 : (P - 1) / P = 0 := Nat.div_eq_of_lt (by omega)
          have e3 : inFile.length + P - 1 = (inFile.length - 1) + P := by omega
          rw [e1, e2, e3, Nat.add_div_right _ hP0, Nat.div_eq_of_lt (by omega)]
      omega

/-- The page count reported by the reader on any file: one for each page begun. -/
theorem reader_page_count (rep : DoubleRep) (P : Nat) (hP0 : 0 < P) (hP : P < 2 ^ 64)
    (file : List Nat) :
    (readComplexObjectsFromPagedFile rep (some file) P).2 = (file.length + P - 1) / P := by
  unfold readComplexObjectsFromPagedFile
  simp only []
  rw [readLoop_count rep P hP0 hP _ _ _ _ _ _ (List.length_replicate _ _) (Nat.le_refl _)
    (by omega), Nat.zero_add]

theorem length_memcpyAt (dst src : List Nat) (pos n : Nat) (hsrc : src.length = n)
    (hfit : pos + n ≤ dst.length) : (memcpyAt dst pos src n).length = dst.length := by
  unfold memcpyAt
  rw [List.length_append, List.length_append, List.length_take, List.length_take,
    List.length_drop]
  omega

/-- The loop of the writer on objects that all serialize to `s` bytes, started with `j`
records in the page buffer after `g` pages were written: every page written is full, so
the number of records placed is `g * ⌊P / s⌋ + j` throughout. -/
theorem writeLoop_uniform (rep : DoubleRep) (P s : Nat) (hs0 : 0 < s) :
    ∀ (objs : List TComplexObject) (pb : List Nat) (j g : Nat) (out : List Nat),
      (∀ o ∈ objs, o.GetSerializedSize = s ∧ o.CacheCoherent rep) →
      pb.length = P → out.length = g * P → j ≤ P / s → 1 ≤ P / s →
      ∃ (pb' : List Nat) (j' g' : Nat) (out' : List Nat),
        writeLoop rep P objs pb (j * s) out = some (pb', j' * s, out') ∧
        pb'.length = P ∧ out'.length = g' * P ∧ j' ≤ P / s ∧
        (0 < j ∨ objs ≠ [] → 1 ≤ j') ∧
        g' * (P / s) + j' = g * (P / s) + j + objs.length := by
  intro objs
  induction objs with
  | nil =>
    intro pb j g out _ hpb hout hj _
    refine ⟨pb, j, g, out, rfl, hpb, hout, hj, fun h => ?_, by simp⟩
    rcases h with h | h
    · exact h
    · exact absurd rfl h
  | cons o t ih =>
    intro pb j g out hobjs hpb hout hj hk
    obtain ⟨hsize, hcache⟩ := hobjs o (List.mem_cons_self _ _)
    have ht : ∀ x ∈ t, x.GetSerializedSize = s ∧ x.CacheCoherent rep :=
      fun x hx => hobjs x (List.mem_cons_of_mem _ hx)
    have hsP : s ≤ P := by
      have := (Nat.le_div_iff_mul_le hs0).mp hk
      omega
    have hser : (o.serializedBytes rep).length = s := by
      rw [length_serializedBytes, hsize]
    rw [writeLoop]
    simp only [Serialize_snd rep o hcache, hsize]
    rw [if_neg (by omega)]
    by_cases hfit : j + 1 ≤ P / s
    · have hfit' : j * s + s ≤ P := by
        have := (Nat.le_div_iff_mul_le hs0).mp hfit
        rw [Nat.add_mul, Nat.one_mul] at this
        exact this
      rw [if_pos hfit']
      have hidx : j * s + s = (j + 1) * s := by rw [Nat.add_mul, Nat.one_mul]
      rw [hidx]
      obtain ⟨pb', j', g', out', hrun, h1, h2, h3, h4, h5⟩ := ih
        (memcpyAt pb (j * s) (o.serializedBytes rep) s) (j + 1) g out ht
        (by rw [length_memcpyAt _ _ _ _ hser (by omega)]; exact hpb) hout hfit hk
      refine ⟨pb', j', g', out', hrun, h1, h2, h3, fun _ => h4 (Or.inl (by omega)), ?_⟩
      · rw [List.length_cons]
        omega
    · have hfit' : ¬ j * s + s ≤ P := by
        intro h
        apply hfit
        apply (Nat.le_div_iff_mul_le hs0).mpr
        rw [Nat.add_mul, Nat.one_mul]
        exact h
      rw [if_neg hfit']
      have hjk : j = P / s := by omega
      have hidx : s = 1 * s := (Nat.one_mul s).symm
      obtain ⟨pb', j', g', out', hrun, h1, h2, h3, h4, h5⟩ := ih
        (memcpyAt (List.replicate P 0) 0 (o.serializedBytes rep) s) 1 (g + 1) (out ++ pb) ht
        (by
          rw [length_memcpyAt _ _ _ _ hser (by rw [List.length_replicate]; omega),
            List.length_replicate])
        (by rw [List.length_append, hout, hpb, Nat.add_mul, Nat.one_mul]) hk hk
      rw [Nat.one_mul] at hrun
      refine ⟨pb', j', g', out', hrun, h1, h2, h3, fun _ => h4 (Or.inl (by omega)), ?_⟩
      · rw [List.length_cons, Nat.add_mul, Nat.one_mul] at *
        omega

/-- C21: page counts for records of one size. For a page size `P` (a `size_t`) and `n ≥ 1`
objects (with current caches) that each serialize to `s ≤ P` bytes, the writer leaves a
file of exactly `⌈n / ⌊P / s⌋⌉` pages of `P` bytes, and the reader, on that file, reports
that number as its page count. The number `pages` is written `(n + k - 1) / k` with
`k = ⌊P / s⌋`; it is the least one with `n ≤ pages * k`. -/
theorem uniform_records_page_count (rep : DoubleRep) (P s : Nat) (objs : List TComplexObject)
    (hP : P < 2 ^ 64) (hs : s ≤ P) (hne : objs ≠ [])
    (hobjs : ∀ o ∈ objs, o.GetSerializedSize = s ∧ o.CacheCoherent rep) :
    ∃ file, writeComplexObjectsToPagedFile rep objs P = some file ∧
      file.length = (objs.length + P / s - 1) / (P / s) * P ∧
      (readComplexObjectsFromPagedFile rep (some file) P).2
        = (objs.length + P / s - 1) / (P / s) ∧
      objs.length ≤ (objs.length + P / s - 1) / (P / s) * (P / s) ∧
      ((objs.length + P / s - 1) / (P / s) - 1) * (P / s) < objs.length := by
  obtain ⟨o, ho⟩ := List.exists_mem_of_ne_nil objs hne
  have hs20 : 20 ≤ s := by
    rw [← (hobjs o ho).1]
    exact size_ge_header o
  have hs0 : 0 < s := by omega
  have hP0 : 0 < P := by omega
  have hk : 1 ≤ P / s := (Nat.le_div_iff_mul_le hs0).mpr (by omega)
  obtain ⟨pb', j', g', out', hrun, h1, h2, h3, h4, h5⟩ := writeLoop_uniform rep P s hs0 objs
    (List.replicate P 0) 0 0 [] hobjs (List.length_replicate _ _) (by simp) (Nat.zero_le _) hk
  rw [Nat.zero_mul] at hrun
  have hj : 1 ≤ j' := h4 (Or.inr hne)
  have hn : objs.length = g' * (P / s) + j' := by omega
  have hpages : (objs.length + P / s - 1) / (P / s) = g' + 1 := by
    have e : objs.length + P / s - 1 = (j' - 1) + (g' + 1) * (P / s) := by
      rw [hn, Nat.add_mul, Nat.one_mul]
      omega
    rw [e, Nat.add_mul_div_right _ _ (by omega), Nat.div_eq_of_lt (by omega)]
    omega
  have hemp : objs.isEmpty = false := by
    cases objs with
    | nil => exact absurd rfl hne
    | cons a t => rfl
  have hidx : j' * s > 0 := Nat.mul_pos (by omega) hs0
  have hfile : writeComplexObjectsToPagedFile rep objs P = some (out' ++ pb') := by
    unfold writeComplexObjectsToPagedFile
    simp only [hemp, hrun, Bool.false_eq_true, if_false]
    rw [if_pos hidx]
  have hlen : (out' ++ pb').length = (g' + 1) * P := by
    rw [List.length_append, h1, h2, Nat.add_mul, Nat.one_mul]
  refine ⟨_, hfile, by rw [hpages, hlen], ?_, ?_, ?_⟩
  · rw [reader_page_count rep P hP0 hP, hlen, hpages]
    have e : (g' + 1) * P + P - 1 = (P - 1) + (g' + 1) * P := by omega
    rw [e, Nat.add_mul_div_right _ _ hP0, Nat.div_eq_of_lt (by omega)]
    omega
  · rw [hpages, hn, Nat.add_mul, Nat.one_mul]
    omega
  · rw [hpages, hn, Nat.add_sub_cancel]
    omega

/-- C21 at the scenario: three objects of 39 bytes and pages of 64 bytes give three pages,
192 bytes, and a page count of 3. -/
theorem uniform_records_page_count_witness :
    (64 : Nat) < 2 ^ 64 ∧ 39 ≤ 64 ∧ scenarioDataset ≠ [] ∧
    (∀ o ∈ scenarioDataset, o.GetSerializedSize = 39 ∧ o.CacheCoherent wholeRep) ∧
    ∃ file, writeComplexObjectsToPagedFile wholeRep scenarioDataset 64 = some file ∧
      file.length = 3 * 64 ∧
      (readComplexObjectsFromPagedFile wholeRep (some file) 64).2 = 3 :=
  have hobjs : ∀ o ∈ scenarioDataset, o.GetSerializedSize = 39 ∧ o.CacheCoherent wholeRep := by
    intro o ho
    refine ⟨?_, (scenarioDataset_ok o ho).2.2.1⟩
    simp only [scenarioDataset, List.mem_cons, List.mem_singleton, List.not_mem_nil,
      or_false] at ho
    rcases ho with h | h | h <;> subst h <;> rfl
  have hne : scenarioDataset ≠ [] := by
    intro h
    cases h
  ⟨by norm_num, by norm_num, hne, hobjs,
    (uniform_records_page_count wholeRep 64 39 scenarioDataset (by norm_num) (by norm_num)
      hne hobjs).imp fun _ h => ⟨h.1, h.2.1, h.2.2.1⟩⟩

/-! ## Text loader -/

theorem toInt32_of_lt (n : Nat) (h : n < 2 ^ 31) : toInt32 n = (n : Int) := by
  unfold toInt32
  have h1 : n % 2 ^ 32 = n := Nat.mod_eq_of_lt (by omega)
  rw [h1, if_pos h]

/-- A line that `parseLine` skips leaves the loop of the loader as it was. -/
theorem loadLoop_skip (line : List Nat) (rest : List (List Nat)) (self : VectorFileReader)
    (h : parseLine line = none) :
    VectorFileReader.loadLoop (line :: rest) self = VectorFileReader.loadLoop rest self := by
  rw [VectorFileReader.loadLoop, h]

/-- When the loop of the loader ends well, the reader has gained the accepted lines, in
file order. -/
theorem loadLoop_vectors :
    ∀ (lines : List (List Nat)) (self r : VectorFileReader),
      VectorFileReader.loadLoop lines self = (true, r) →
      r.vectors = self.vectors ++ lines.filterMap parseLine := by
  intro lines
  induction lines with
  | nil =>
    intro self r h
    cases h
    simp
  | cons line rest ih =>
    intro self r h
    rw [VectorFileReader.loadLoop] at h
    cases hp : parseLine line with
    | none =>
      rw [hp] at h
      simp only [] at h
      rw [List.filterMap_cons, hp]
      exact ih self r h
    | some entry =>
      rw [hp] at h
      simp only [] at h
      rw [List.filterMap_cons, hp]
      simp only []
      unfold VectorFileReader.checkSizeAndAdd at h
      simp only [] at h
      split_ifs at h with c1 c2
      · have := ih _ r h
        rw [this]
        simp
      · simp only [] at h
        cases h
      · have := ih _ r h
        rw [this]
        simp

/-- When the loop of the loader fails, the reader is cleared. -/
theorem loadLoop_cleared :
    ∀ (lines : List (List Nat)) (self r : VectorFileReader),
      VectorFileReader.loadLoop lines self = (false, r) →
      r = { numLines := 0, numElements := -1, vectors := [] } := by
  intro lines
  induction lines with
  | nil =>
    intro self r h
    cases h
  | cons line rest ih =>
    intro self r h
    rw [VectorFileReader.loadLoop] at h
    cases hp : parseLine line with
    | none =>
      rw [hp] at h
      exact ih self r h
    | some entry =>
      rw [hp] at h
      simp only [] at h
      unfold VectorFileReader.checkSizeAndAdd at h
      simp only [] at h
      split_ifs at h with c1 c2
      · exact ih _ r h
      · simp only [] at h
        cases h
        rfl
      · exact ih _ r h

/-- The loop of the loader from a reader whose expected size is set to `k`: it ends well
exactly when every accepted line has `k` values. -/
theorem loadLoop_sized (k : Nat) (hk : k < 2 ^ 31) :
    ∀ (lines : List (List Nat)) (self : VectorFileReader), self.numElements = (k : Int) →
      (∀ e ∈ lines.filterMap parseLine, e.data.length < 2 ^ 31) →
      ((VectorFileReader.loadLoop lines self).1 = true ↔
        ∀ e ∈ lines.filterMap parseLine, e.data.length = k) ∧
      ((VectorFileReader.loadLoop lines self).1 = true →
        (VectorFileReader.loadLoop lines self).2.numElements = (k : Int)) := by
  intro lines
  induction lines with
  | nil =>
    intro self hself _
    exact ⟨⟨fun _ e he => by simp at he, fun _ => rfl⟩, fun _ => hself⟩
  | cons line rest ih =>
    intro self hself hsizes
    rw [VectorFileReader.loadLoop]
    cases hp : parseLine line with
    | none =>
      rw [List.filterMap_cons, hp] at hsizes ⊢
      exact ih self hself hsizes
    | some entry =>
      rw [List.filterMap_cons, hp] at hsizes ⊢
      simp only [] at hsizes ⊢
      have he := hsizes entry (List.mem_cons_self _ _)
      have hrest : ∀ e ∈ rest.filterMap parseLine, e.data.length < 2 ^ 31 :=
        fun e h => hsizes e (List.mem_cons_of_mem _ h)
      unfold VectorFileReader.checkSizeAndAdd
      simp only []
      have hne : self.numElements ≠ -1 := by omega
      have hcast : toInt32 entry.data.length = (entry.data.length : Int) := toInt32_of_lt _ he
      rw [if_neg hne]
      by_cases hsize : entry.data.length = k
      · rw [if_neg (show ¬ toInt32 entry.data.length ≠ self.numElements by
          rw [hcast, hself]; omega)]
        simp only []
        obtain ⟨h1, h2⟩ := ih { self with vectors := self.vectors ++ [entry] } hself hrest
        refine ⟨?_, h2⟩
        rw [h1]
        constructor
        · intro h e hmem
          rcases List.mem_cons.mp hmem with rfl | hmem
          · exact hsize
          · exact h e hmem
        · intro h e hmem
          exact h e (List.mem_cons_of_mem _ hmem)
      · rw [if_pos (show toInt32 entry.data.length ≠ self.numElements by
          rw [hcast, hself]; omega)]
        simp only []
        refine ⟨⟨fun h => (by cases h), fun h => absurd (h entry (List.mem_cons_self _ _)) hsize⟩,
          fun h => (by cases h)⟩

theorem loadFromFile_flag (self : VectorFileReader) (lines : List (List Nat)) :
    (self.loadFromFile (some lines)).1
      = (VectorFileReader.loadLoop lines
          { numLines := 0, numElements := -1, vectors := [] }).1 := by
  unfold VectorFileReader.loadFromFile
  simp only []
  split <;> next h => rw [h]

/-- The reader after a load that failed on a file that could be opened. -/
theorem loadFromFile_failed (self : VectorFileReader) (lines : List (List Nat))
    (h : (self.loadFromFile (some lines)).1 = false) :
    (self.loadFromFile (some lines)).2 = { numLines := 0, numElements := -1, vectors := [] } := by
  unfold VectorFileReader.loadFromFile at h ⊢
  simp only [] at h ⊢
  split at h
  · next r hr => exact loadLoop_cleared _ _ _ hr
  · cases h

/-- The reader after a load that succeeded: the entries are the accepted lines, in order,
and the line count is their number cast to `int`. -/
theorem loadFromFile_succeeded (self : VectorFileReader) (lines : List (List Nat))
    (h : (self.loadFromFile (some lines)).1 = true) :
    (self.loadFromFile (some lines)).2.vectors = lines.filterMap parseLine ∧
    (self.loadFromFile (some lines)).2.numLines
      = toInt32 (lines.filterMap parseLine).length ∧
    (self.loadFromFile (some lines)).2.numElements
      = if toInt32 (lines.filterMap parseLine).length = 0 then 0
        else (VectorFileReader.loadLoop lines
          { numLines := 0, numElements := -1, vectors := [] }).2.numElements := by
  unfold VectorFileReader.loadFromFile at h ⊢
  simp only [] at h ⊢
  split at h
  · cases h
  · next r hr =>
    rw [hr]
    have hv := loadLoop_vectors _ _ _ hr
    rw [List.nil_append] at hv
    simp only [hv]
    refine ⟨?_, ?_, ?_⟩
    · split <;> rfl
    · split <;> rfl
    · split <;> rfl

/-- The loop of the loader from the cleared reader: it ends well exactly when every
accepted line has as many values as the first accepted line, and then the expected size is
that number. -/
theorem loadLoop_init :
    ∀ (lines : List (List Nat)),
      (∀ e ∈ lines.filterMap parseLine, e.data.length < 2 ^ 31) →
      ((VectorFileReader.loadLoop lines { numLines := 0, numElements := -1, vectors := [] }).1
          = true ↔
        ∀ e0 ∈ (lines.filterMap parseLine).head?, ∀ e ∈ lines.filterMap parseLine,
          e.data.length = e0.data.length) ∧
      ((VectorFileReader.loadLoop lines { numLines := 0, numElements := -1, vectors := [] }).1
          = true →
        ∀ e0 ∈ (lines.filterMap parseLine).head?,
          (VectorFileReader.loadLoop lines
            { numLines := 0, numElements := -1, vectors := [] }).2.numElements
            = (e0.data.length : Int)) := by
  intro lines
  induction lines with
  | nil =>
    intro _
    exact ⟨⟨fun _ e0 h0 => by simp at h0, fun _ => rfl⟩, fun _ e0 h0 => by simp at h0⟩
  | cons line rest ih =>
    intro hsizes
    rw [VectorFileReader.loadLoop]
    cases hp : parseLine line with
    | none =>
      rw [List.filterMap_cons, hp] at hsizes ⊢
      exact ih hsizes
    | some entry =>
      rw [List.filterMap_cons, hp] at hsizes ⊢
      simp only [List.head?_cons, Option.mem_def, Option.some.injEq, forall_eq'] at hsizes ⊢
      have he := hsizes entry (List.mem_cons_self _ _)
      have hrest : ∀ e ∈ rest.filterMap parseLine, e.data.length < 2 ^ 31 :=
        fun e h => hsizes e (List.mem_cons_of_mem _ h)
      unfold VectorFileReader.checkSizeAndAdd
      simp only [if_true]
      obtain ⟨h1, h2⟩ := loadLoop_sized entry.data.length he rest
        { numLines := 0, numElements := toInt32 entry.data.length, vectors := [] ++ [entry] }
        (toInt32_of_lt _ he) hrest
      refine ⟨?_, h2⟩
      rw [h1]
      constructor
      · intro h e hmem
        rcases List.mem_cons.mp hmem with rfl | hmem
        · rfl
        · exact h e hmem
      · intro h e hmem
        exact h e (List.mem_cons_of_mem _ hmem)

/-- C22: a load fails exactly on a length mismatch. For a file that can be opened, whose
accepted lines have fewer than `2^31` values each (the sizes that fit the `int` in which
the loader keeps them), `loadFromFile` returns `false` if and only if some accepted line
has a number of values different from that of the first accepted line. Whenever it returns
`false` on such a file the reader is empty: `getNumLines()` and `getNumElements()` are 0
and `getVectors()` is empty, whatever the reader held and whatever was accepted before. -/
theorem load_fails_iff_length_mismatch (self : VectorFileReader) (lines : List (List Nat))
    (hsizes : ∀ e ∈ lines.filterMap parseLine, e.data.length < 2 ^ 31) :
    ((self.loadFromFile (some lines)).1 = false ↔
      ∃ e0 ∈ (lines.filterMap parseLine).head?, ∃ e ∈ lines.filterMap parseLine,
        e.data.length ≠ e0.data.length) ∧
    ((self.loadFromFile (some lines)).1 = false →
      (self.loadFromFile (some lines)).2.getNumLines = 0 ∧
      (self.loadFromFile (some lines)).2.getNumElements = 0 ∧
      (self.loadFromFile (some lines)).2.getVectors = []) := by
  constructor
  · rw [loadFromFile_flag]
    have h := (loadLoop_init lines hsizes).1
    constructor
    · intro hf
      by_contra hcon
      have : (VectorFileReader.loadLoop lines
          { numLines := 0, numElements := -1, vectors := [] }).1 = true := by
        rw [h]
        intro e0 h0 e he
        by_contra hne
        exact hcon ⟨e0, h0, e, he, hne⟩
      rw [this] at hf
      cases hf
    · rintro ⟨e0, h0, e, he, hne⟩
      cases hres : (VectorFileReader.loadLoop lines
          { numLines := 0, numElements := -1, vectors := [] }).1 with
      | false => rfl
      | true => exact absurd (h.mp hres e0 h0 e he) hne
  · intro hf
    rw [loadFromFile_failed self lines hf]
    exact ⟨rfl, rfl, rfl⟩

/-- C23: the reader after a successful load. For a file with fewer than `2^31` accepted
lines of fewer than `2^31` values each (the counts that fit the `int`s of the reader), if
`loadFromFile` returns `true`, then the stored entries are exactly the accepted lines in
file order, every entry has `getNumElements()` values, `getNumElements()` is the number of
values of the first accepted line (0 when no line was accepted), and `getNumLines()` is
the number of entries. -/
theorem load_success_entries (self : VectorFileReader) (lines : List (List Nat))
    (hsizes : ∀ e ∈ lines.filterMap parseLine, e.data.length < 2 ^ 31)
    (hcount : (lines.filterMap parseLine).length < 2 ^ 31)
    (hok : (self.loadFromFile (some lines)).1 = true) :
    (self.loadFromFile (some lines)).2.getVectors = lines.filterMap parseLine ∧
    (∀ e ∈ (self.loadFromFile (some lines)).2.getVectors,
      (e.data.length : Int) = (self.loadFromFile (some lines)).2.getNumElements) ∧
    (self.loadFromFile (some lines)).2.getNumElements
      = (match (lines.filterMap parseLine).head? with
          | some e0 => (e0.data.length : Int)
          | none => 0) ∧
    (self.loadFromFile (some lines)).2.getNumLines
      = ((self.loadFromFile (some lines)).2.getVectors.length : Int) := by
  obtain ⟨hv, hn, he⟩ := loadFromFile_succeeded self lines hok
  have hflag := hok
  rw [loadFromFile_flag] at hflag
  obtain ⟨hall, hnum⟩ := loadLoop_init lines hsizes
  have hall' := hall.mp hflag
  have hnum' := hnum hflag
  rw [toInt32_of_lt _ hcount] at hn he
  have hget : (self.loadFromFile (some lines)).2.getNumElements
      = (match (lines.filterMap parseLine).head? with
          | some e0 => (e0.data.length : Int)
          | none => 0) := by
    unfold VectorFileReader.getNumElements
    rw [he]
    cases hentries : lines.filterMap parseLine with
    | nil => simp
    | cons e0 t =>
      rw [hentries] at hnum'
      have := hnum' e0 (by simp)
      rw [this]
      simp only [List.length_cons, List.head?_cons]
      rw [if_neg (by omega), if_neg (by omega)]
  refine ⟨hv, ?_, hget, ?_⟩
  · intro e hmem
    rw [hget]
    have hmem' : e ∈ lines.filterMap parseLine := by
      rw [← hv]
      exact hmem
    cases hentries : lines.filterMap parseLine with
    | nil =>
      rw [hentries] at hmem'
      cases hmem'
    | cons e0 t =>
      rw [hentries] at hall' hmem'
      simp only [List.head?_cons]
      rw [hall' e0 (by simp) e hmem']
  · show (self.loadFromFile (some lines)).2.numLines
      = ((self.loadFromFile (some lines)).2.vectors.length : Int)
    rw [hn, hv]

/-- C26: load idempotence. For every file that can be opened, the flag returned by
`loadFromFile` and the reader it leaves (entries, counts) are the same whatever reader it
is called on, so two readers in any prior states end in the same state, a second load by
the same reader repeats the first, and the objects built from the entries (label,
resolution, data) are the same. -/
theorem load_independent_of_prior_state (s1 s2 : VectorFileReader)
    (lines : List (List Nat)) :
    s1.loadFromFile (some lines) = s2.loadFromFile (some lines) ∧
    (s1.loadFromFile (some lines)).2.loadFromFile (some lines) = s1.loadFromFile (some lines) ∧
    (s1.loadFromFile (some lines)).2.getVectors = (s2.loadFromFile (some lines)).2.getVectors ∧
    (s1.loadFromFile (some lines)).2.createVectorTComplexObject
      = (s2.loadFromFile (some lines)).2.createVectorTComplexObject :=
  ⟨rfl, rfl, rfl, rfl⟩

/-! ### The loader on sample files -/

theorem parseLine_of_raw (line : List Nat) (p : List Nat × Int × List RawDouble)
    (h : parseLineRaw line = some p) :
    parseLine line
      = some { label := p.1, resolution := p.2.1, data := p.2.2.map RawDouble.value } := by
  unfold parseLine
  rw [h]
  rfl

theorem parseLine_of_raw_none (line : List Nat) (h : parseLineRaw line = none) :
    parseLine line = none := by
  unfold parseLine
  rw [h]
  rfl

theorem value_wholeRaw (n : Nat) : (wholeRaw n).value = (n : ℚ) := by
  simp [wholeRaw, RawDouble.value, RawDouble.scale]

set_option exponentiation.threshold 2000 in
theorem mismatchedLines_entries :
    mismatchedLines.filterMap parseLine
      = [{ label := [97], resolution := 0, data := [1, 2] },
         { label := [98], resolution := 0, data := [1, 2, 3] }] := by
  have h1 : parseLineRaw (bytesOf "a 0 1 2") = some ([97], 0, [wholeRaw 1, wholeRaw 2]) := by
    decide
  have h2 : parseLineRaw (bytesOf "b 0 1 2 3")
      = some ([98], 0, [wholeRaw 1, wholeRaw 2, wholeRaw 3]) := by decide
  simp only [mismatchedLines, List.filterMap_cons, List.filterMap_nil,
    parseLine_of_raw _ _ h1, parseLine_of_raw _ _ h2, List.map_cons, List.map_nil,
    value_wholeRaw, Nat.cast_one, Nat.cast_ofNat]

set_option exponentiation.threshold 2000 in
theorem testLoadLines_entries :
    testLoadLines.filterMap parseLine
      = [{ label := [105, 109, 103, 49], resolution := 0, data := [1, 2, 3, 4, 5] },
         { label := [105, 109, 103, 50], resolution := 0, data := [5 / 2, 0, 10, 4, 5] },
         { label := [105, 109, 103, 51], resolution := 0, data := [5, 4, 3, 2, 1] },
         { label := [105, 109, 103, 52], resolution := 0, data := [0, 0, 0, 0, 0] }] := by
  have h1 : parseLineRaw (bytesOf "img1 0 1 2 3 4 5") = some ([105, 109, 103, 49], 0,
      [wholeRaw 1, wholeRaw 2, wholeRaw 3, wholeRaw 4, wholeRaw 5]) := by decide
  have h2 : parseLineRaw (bytesOf "") = none := by decide
  have h3 : parseLineRaw (bytesOf "img2 0 2.5 0 1e1 4 5") = some ([105, 109, 103, 50], 0,
      [⟨false, 25, 1, false, 0⟩, wholeRaw 0, ⟨false, 1, 0, false, 1⟩, wholeRaw 4,
        wholeRaw 5]) := by decide
  have h4 : parseLineRaw (bytesOf "bad line") = none := by decide
  have h5 : parseLineRaw (bytesOf "img3 0 5 4 3 2 1") = some ([105, 109, 103, 51], 0,
      [wholeRaw 5, wholeRaw 4, wholeRaw 3, wholeRaw 2, wholeRaw 1]) := by decide
  have h6 : parseLineRaw (bytesOf "img4 0 0 0 0 0 0") = some ([105, 109, 103, 52], 0,
      [wholeRaw 0, wholeRaw 0, wholeRaw 0, wholeRaw 0, wholeRaw 0]) := by decide
  have v1 : RawDouble.value ⟨false, 25, 1, false, 0⟩ = 5 / 2 := by
    simp [RawDouble.value, RawDouble.scale]
    norm_num
  have v2 : RawDouble.value ⟨false, 1, 0, false, 1⟩ = 10 := by
    simp [RawDouble.value, RawDouble.scale]
  simp only [testLoadLines, List.filterMap_cons, List.filterMap_nil,
    parseLine_of_raw _ _ h1, parseLine_of_raw_none _ h2, parseLine_of_raw _ _ h3,
    parseLine_of_raw_none _ h4, parseLine_of_raw _ _ h5, parseLine_of_raw _ _ h6,
    List.map_cons, List.map_nil, value_wholeRaw, v1, v2, Nat.cast_one, Nat.cast_ofNat,
    Nat.cast_zero]

set_option exponentiation.threshold 2000 in
theorem lineAtResolutionThree_entry :
    parseLine lineAtResolutionThree
      = some { label := [105, 109, 103], resolution := 3, data := [1, 2] } := by
  have h1 : parseLineRaw lineAtResolutionThree
      = some ([105, 109, 103], 3, [wholeRaw 1, wholeRaw 2]) := by decide
  simp only [parseLine_of_raw _ _ h1, List.map_cons, List.map_nil, value_wholeRaw,
    Nat.cast_one, Nat.cast_ofNat]

set_option exponentiation.threshold 2000 in
theorem lineWithDash_entry :
    parseLine lineWithDash = some { label := [97], resolution := 0, data := [1] } := by
  have h1 : parseLineRaw lineWithDash = some ([97], 0, [⟨false, 10, 1, false, 0⟩]) := by
    decide
  have v1 : RawDouble.value ⟨false, 10, 1, false, 0⟩ = 1 := by
    simp [RawDouble.value, RawDouble.scale]
  simp only [parseLine_of_raw _ _ h1, List.map_cons, List.map_nil, v1]

set_option exponentiation.threshold 2000 in
theorem lineWithFraction_entry :
    parseLine lineWithFraction
      = some { label := [97], resolution := 1, data := [1 / 2, 2] } := by
  have h1 : parseLineRaw lineWithFraction
      = some ([97], 1, [⟨false, 5, 1, false, 0⟩, ⟨false, 20, 1, false, 0⟩]) := by decide
  have v1 : RawDouble.value ⟨false, 5, 1, false, 0⟩ = 1 / 2 := by
    simp [RawDouble.value, RawDouble.scale]
    norm_num
  have v2 : RawDouble.value ⟨false, 20, 1, false, 0⟩ = 2 := by
    simp [RawDouble.value, RawDouble.scale]
    norm_num
  simp only [parseLine_of_raw _ _ h1, List.map_cons, List.map_nil, v1, v2]

set_option exponentiation.threshold 2000 in
theorem parseLine_sample_skips :
    parseLine (bytesOf "a 0 1.0 abc") = none ∧ parseLine (bytesOf "a 0 1.0 - ") = none ∧
    parseLine (bytesOf "a 0 1.0 -x") = none ∧ parseLine (bytesOf "a x 1.0") = none ∧
    parseLine (bytesOf "a") = none ∧ parseLine (bytesOf " \t ") = none ∧
    parseLine (bytesOf "") = none :=
  ⟨parseLine_of_raw_none _ (by decide), parseLine_of_raw_none _ (by decide),
    parseLine_of_raw_none _ (by decide), parseLine_of_raw_none _ (by decide),
    parseLine_of_raw_none _ (by decide), parseLine_of_raw_none _ (by decide),
    parseLine_of_raw_none _ (by decide)⟩

/-- The objects built after a successful load carry the label, resolution and data of the
accepted lines, in order. -/
theorem objects_of_load (self : VectorFileReader) (lines : List (List Nat))
    (hok : (self.loadFromFile (some lines)).1 = true) :
    (self.loadFromFile (some lines)).2.createVectorTComplexObject
      = (lines.filterMap parseLine).map fun entry =>
          TComplexObject.create (entry.label.takeWhile fun b => b != 0) entry.resolution
            entry.data := by
  unfold VectorFileReader.createVectorTComplexObject
  rw [(loadFromFile_succeeded self lines hok).1]

/-- A load succeeds when every accepted line has as many values as the first. -/
theorem load_succeeds_of_equal_lengths (self : VectorFileReader) (lines : List (List Nat))
    (hsizes : ∀ e ∈ lines.filterMap parseLine, e.data.length < 2 ^ 31)
    (hall : ∀ e0 ∈ (lines.filterMap parseLine).head?, ∀ e ∈ lines.filterMap parseLine,
      e.data.length = e0.data.length) :
    (self.loadFromFile (some lines)).1 = true := by
  rw [loadFromFile_flag]
  exact (loadLoop_init lines hsizes).1.mpr hall

/-- C22 at a file of two data lines, with two and with three values: the load fails and
leaves the reader empty. -/
theorem load_fails_iff_length_mismatch_witness :
    (∀ e ∈ mismatchedLines.filterMap parseLine, e.data.length < 2 ^ 31) ∧
    (VectorFileReader.new.loadFromFile (some mismatchedLines)).1 = false ∧
    (VectorFileReader.new.loadFromFile (some mismatchedLines)).2.getNumLines = 0 ∧
    (VectorFileReader.new.loadFromFile (some mismatchedLines)).2.getNumElements = 0 ∧
    (VectorFileReader.new.loadFromFile (some mismatchedLines)).2.getVectors = [] :=
  have hsizes : ∀ e ∈ mismatchedLines.filterMap parseLine, e.data.length < 2 ^ 31 := by
    rw [mismatchedLines_entries]
    intro e he
    simp only [List.mem_cons, List.mem_singleton, List.not_mem_nil, or_false] at he
    rcases he with rfl | rfl <;> simp
  have hbad : ∃ e0 ∈ (mismatchedLines.filterMap parseLine).head?,
      ∃ e ∈ mismatchedLines.filterMap parseLine, e.data.length ≠ e0.data.length := by
    rw [mismatchedLines_entries]
    exact ⟨_, rfl, _, List.mem_cons_of_mem _ (List.mem_cons_self _ _), by simp⟩
  have hfail := (load_fails_iff_length_mismatch VectorFileReader.new mismatchedLines
    hsizes).1.mpr hbad
  ⟨hsizes, hfail,
    (load_fails_iff_length_mismatch VectorFileReader.new mismatchedLines hsizes).2 hfail⟩

theorem testLoadLines_sizes :
    (∀ e ∈ testLoadLines.filterMap parseLine, e.data.length < 2 ^ 31) ∧
    (testLoadLines.filterMap parseLine).length < 2 ^ 31 ∧
    ∀ e0 ∈ (testLoadLines.filterMap parseLine).head?,
      ∀ e ∈ testLoadLines.filterMap parseLine, e.data.length = e0.data.length := by
  rw [testLoadLines_entries]
  refine ⟨?_, by simp, ?_⟩
  · intro e he
    simp only [List.mem_cons, List.mem_singleton, List.not_mem_nil, or_false] at he
    rcases he with rfl | rfl | rfl | rfl <;> simp
  · intro e0 h0 e he
    simp only [List.head?_cons, Option.mem_def, Option.some.injEq] at h0
    subst h0
    simp only [List.mem_cons, List.mem_singleton, List.not_mem_nil, or_false] at he
    rcases he with rfl | rfl | rfl | rfl <;> rfl

/-- C23 at a file of six lines, four of them data lines of five values: four entries and
five elements, the figures that the unit test of the reader expects of its file. -/
theorem load_success_entries_witness :
    (∀ e ∈ testLoadLines.filterMap parseLine, e.data.length < 2 ^ 31) ∧
    (testLoadLines.filterMap parseLine).length < 2 ^ 31 ∧
    (VectorFileReader.new.loadFromFile (some testLoadLines)).1 = true ∧
    (VectorFileReader.new.loadFromFile (some testLoadLines)).2.getVectors
      = testLoadLines.filterMap parseLine ∧
    (VectorFileReader.new.loadFromFile (some testLoadLines)).2.getNumElements = 5 ∧
    (VectorFileReader.new.loadFromFile (some testLoadLines)).2.getNumLines = 4 :=
  have hok := load_succeeds_of_equal_lengths VectorFileReader.new testLoadLines
    testLoadLines_sizes.1 testLoadLines_sizes.2.2
  have h := load_success_entries VectorFileReader.new testLoadLines testLoadLines_sizes.1
    testLoadLines_sizes.2.1 hok
  ⟨testLoadLines_sizes.1, testLoadLines_sizes.2.1, hok, h.1,
    by rw [h.2.2.1, testLoadLines_entries]; rfl,
    by rw [h.2.2.2, h.1, testLoadLines_entries]; rfl⟩

theorem lineAtResolutionThree_entries :
    [lineAtResolutionThree].filterMap parseLine
      = [{ label := [105, 109, 103], resolution := 3, data := [1, 2] }] := by
  simp only [List.filterMap_cons, List.filterMap_nil, lineAtResolutionThree_entry]

theorem lineAtResolutionThree_sizes :
    (∀ e ∈ [lineAtResolutionThree].filterMap parseLine, e.data.length < 2 ^ 31) ∧
    ∀ e0 ∈ ([lineAtResolutionThree].filterMap parseLine).head?,
      ∀ e ∈ [lineAtResolutionThree].filterMap parseLine,
        e.data.length = e0.data.length := by
  rw [lineAtResolutionThree_entries]
  refine ⟨?_, ?_⟩
  · intro e he
    simp only [List.mem_singleton] at he
    subst he
    simp
  · intro e0 h0 e he
    simp only [List.head?_cons, Option.mem_def, Option.some.injEq] at h0
    simp only [List.mem_singleton] at he
    rw [he, ← h0]

/-- C24 as stated fails: the loader has no check of the resolution. The file with the one
line `img 3 1 2` loads successfully, and the object built from it has resolution 3. -/
theorem load_keeps_resolution_three :
    (VectorFileReader.new.loadFromFile (some [lineAtResolutionThree])).1 = true ∧
    (VectorFileReader.new.loadFromFile (some [lineAtResolutionThree])).2.createVectorTComplexObject
      = [TComplexObject.create [105, 109, 103] 3 [1, 2]] ∧
    ¬ ∀ o ∈ (VectorFileReader.new.loadFromFile
        (some [lineAtResolutionThree])).2.createVectorTComplexObject, o.Resolution = 0 := by
  have hok := load_succeeds_of_equal_lengths VectorFileReader.new [lineAtResolutionThree]
    lineAtResolutionThree_sizes.1 lineAtResolutionThree_sizes.2
  have hobj : (VectorFileReader.new.loadFromFile
      (some [lineAtResolutionThree])).2.createVectorTComplexObject
      = [TComplexObject.create [105, 109, 103] 3 [1, 2]] := by
    rw [objects_of_load _ _ hok, lineAtResolutionThree_entries]
    rfl
  refine ⟨hok, hobj, ?_⟩
  rw [hobj]
  intro h
  have := h _ (List.mem_singleton_self _)
  exact absurd this (by decide)

/-- C24, as the code has it: the loader does not examine the resolution field. A file
whose accepted lines all have as many values as the first one (fewer than `2^31` each)
loads successfully whatever the resolution fields are, and the objects of the loaded
dataset carry, in order, the resolutions and the data of their lines. -/
theorem loaded_objects_keep_line_resolution (self : VectorFileReader)
    (lines : List (List Nat))
    (hsizes : ∀ e ∈ lines.filterMap parseLine, e.data.length < 2 ^ 31)
    (hall : ∀ e0 ∈ (lines.filterMap parseLine).head?, ∀ e ∈ lines.filterMap parseLine,
      e.data.length = e0.data.length) :
    (self.loadFromFile (some lines)).1 = true ∧
    (self.loadFromFile (some lines)).2.createVectorTComplexObject.map
        TComplexObject.Resolution
      = (lines.filterMap parseLine).map VectorEntry.resolution ∧
    (self.loadFromFile (some lines)).2.createVectorTComplexObject.map TComplexObject.Data
      = (lines.filterMap parseLine).map VectorEntry.data := by
  have hok := load_succeeds_of_equal_lengths self lines hsizes hall
  refine ⟨hok, ?_, ?_⟩
  · rw [objects_of_load self lines hok, List.map_map]
    rfl
  · rw [objects_of_load self lines hok, List.map_map]
    rfl

/-- C24 at the file with the one line `img 3 1 2`. -/
theorem loaded_objects_keep_line_resolution_witness :
    (∀ e ∈ [lineAtResolutionThree].filterMap parseLine, e.data.length < 2 ^ 31) ∧
    (∀ e0 ∈ ([lineAtResolutionThree].filterMap parseLine).head?,
      ∀ e ∈ [lineAtResolutionThree].filterMap parseLine,
        e.data.length = e0.data.length) ∧
    (VectorFileReader.new.loadFromFile (some [lineAtResolutionThree])).1 = true ∧
    (VectorFileReader.new.loadFromFile
        (some [lineAtResolutionThree])).2.createVectorTComplexObject.map
        TComplexObject.Resolution
      = ([lineAtResolutionThree].filterMap parseLine).map VectorEntry.resolution :=
  have h := loaded_objects_keep_line_resolution VectorFileReader.new [lineAtResolutionThree]
    lineAtResolutionThree_sizes.1 lineAtResolutionThree_sizes.2
  ⟨lineAtResolutionThree_sizes.1, lineAtResolutionThree_sizes.2, h.1, h.2.1⟩

/-- A line that is empty or all white space is skipped. -/
theorem parseLine_blank (line : List Nat)
    (h : line.isEmpty = true ∨ line.all isSpaceByte = true) : parseLine line = none := by
  apply parseLine_of_raw_none
  unfold parseLineRaw
  rw [if_pos]
  rcases h with h | h
  · rw [h]; rfl
  · rw [h]; simp

/-- C25 at a line whose last token is a lone minus sign. The line `a 0 1.0 -` has a label,
an integer, one value and a further token that is not a number; the extraction of that
token fails at the end of the line, so both `eofbit` and `failbit` are set, the test
`!ss.eof() && ss.fail()` is false, and the line is accepted with the one value, and
loaded. The same token followed by a blank, or a token such as `abc`, makes the line
skipped. The line `a 1.5 2.0`, whose second token is not an integer, is accepted as well,
with resolution 1 and the values 0.5 and 2. -/
theorem line_with_trailing_sign_accepted :
    parseLine lineWithDash = some { label := [97], resolution := 0, data := [1] } ∧
    (VectorFileReader.new.loadFromFile (some [lineWithDash])).1 = true ∧
    (VectorFileReader.new.loadFromFile (some [lineWithDash])).2.getVectors
      = [{ label := [97], resolution := 0, data := [1] }] ∧
    parseLine (bytesOf "a 0 1.0 - ") = none ∧
    parseLine (bytesOf "a 0 1.0 abc") = none ∧
    parseLine lineWithFraction
      = some { label := [97], resolution := 1, data := [1 / 2, 2] } := by
  have hentries : [lineWithDash].filterMap parseLine
      = [{ label := [97], resolution := 0, data := [1] }] := by
    simp only [List.filterMap_cons, List.filterMap_nil, lineWithDash_entry]
  have hok : (VectorFileReader.new.loadFromFile (some [lineWithDash])).1 = true := by
    apply load_succeeds_of_equal_lengths
    · rw [hentries]
      intro e he
      simp only [List.mem_singleton] at he
      subst he
      simp
    · rw [hentries]
      intro e0 h0 e he
      simp only [List.head?_cons, Option.mem_def, Option.some.injEq] at h0
      simp only [List.mem_singleton] at he
      rw [he, ← h0]
  refine ⟨lineWithDash_entry, hok, ?_, parseLine_sample_skips.2.1, parseLine_sample_skips.1,
    lineWithFraction_entry⟩
  show (VectorFileReader.new.loadFromFile (some [lineWithDash])).2.vectors = _
  rw [(loadFromFile_succeeded _ _ hok).1, hentries]

/-! ## Sequential scan -/

/-- The two distance functions agree on every pair of objects and every counter. -/
theorem GetDistance2_eq_calculate (c : Nat) (q o : TComplexObject) :
    GetDistance2 c q o = calculateComplexObjectDistance q o c := by
  by_cases hlen : q.Data.length = o.Data.length
  · by_cases hres : q.Resolution = o.Resolution
    · rw [GetDistance2_same_resolution c q o hres hlen,
        calculateComplexObjectDistance_same_resolution c q o hres hlen]
    · cases hcomp : dataCompression q.Clone (o.Resolution - q.Resolution) with
      | error e =>
        rw [GetDistance2_transform_error c q o e hres hlen hcomp,
          calculateComplexObjectDistance_transform_error c q o e hres hlen hcomp]
      | ok o' =>
        by_cases hres' : o'.Resolution = o.Resolution
        · have hlen' : o'.Data.length = o.Data.length := by
            rw [dataCompression_length_of_ok _ _ _ hcomp]
            exact hlen
          rw [GetDistance2_clone_path c q o o' hres hlen hcomp hres' hlen',
            calculateComplexObjectDistance_clone_path c q o o' hres hlen hcomp hres' hlen']
        · rw [GetDistance2_unreached c q o o' hres hlen hcomp hres',
            calculateComplexObjectDistance_unreached c q o o' hres hlen hcomp hres']
  · rw [GetDistance2_size_mismatch c q o hlen,
      calculateComplexObjectDistance_size_mismatch c q o hlen]

/-- The outcome of the distance function does not depend on the counter, and the counter
goes up by one exactly when a value is returned. -/
theorem calculate_counter_free (c : Nat) (q o : TComplexObject) :
    calculateComplexObjectDistance q o c
      = ((calculateComplexObjectDistance q o 0).1,
          c + if (calculateComplexObjectDistance q o 0).1.toBool then 1 else 0) := by
  by_cases hlen : q.Data.length = o.Data.length
  · by_cases hres : q.Resolution = o.Resolution
    · rw [calculateComplexObjectDistance_same_resolution c q o hres hlen,
        calculateComplexObjectDistance_same_resolution 0 q o hres hlen]
      split_ifs <;> first | rfl | (exfalso; simp_all [Except.toBool])
    · cases hcomp : dataCompression q.Clone (o.Resolution - q.Resolution) with
      | error e =>
        rw [calculateComplexObjectDistance_transform_error c q o e hres hlen hcomp,
          calculateComplexObjectDistance_transform_error 0 q o e hres hlen hcomp]
        rfl
      | ok o' =>
        by_cases hres' : o'.Resolution = o.Resolution
        · have hlen' : o'.Data.length = o.Data.length := by
            rw [dataCompression_length_of_ok _ _ _ hcomp]
            exact hlen
          rw [calculateComplexObjectDistance_clone_path c q o o' hres hlen hcomp hres' hlen',
            calculateComplexObjectDistance_clone_path 0 q o o' hres hlen hcomp hres' hlen']
          split_ifs <;> first | rfl | (exfalso; simp_all [Except.toBool])
        · rw [calculateComplexObjectDistance_unreached c q o o' hres hlen hcomp hres',
            calculateComplexObjectDistance_unreached 0 q o o' hres hlen hcomp hres']
          rfl
  · rw [calculateComplexObjectDistance_size_mismatch c q o hlen,
      calculateComplexObjectDistance_size_mismatch 0 q o hlen]
    rfl

/-- For a query whose resolution is not negative, or whose data is empty, the distance
function stays inside the vectors: it returns a value or throws. -/
theorem calculate_defined (c : Nat) (q o : TComplexObject)
    (hq : 0 ≤ q.Resolution ∨ q.Data = []) :
    (calculateComplexObjectDistance q o c).1 ≠ .error .outOfBounds := by
  by_cases hlen : q.Data.length = o.Data.length
  · by_cases hres : q.Resolution = o.Resolution
    · rw [calculateComplexObjectDistance_same_resolution c q o hres hlen]
      split_ifs <;> exact fun h => by cases h
    · obtain ⟨o', hcomp, hlen'⟩ := dataCompression_length q.Clone
        (o.Resolution - q.Resolution) (by
          rcases hq with h | h
          · exact Or.inl h
          · exact Or.inr (Or.inr h))
      have hlen'' : o'.Data.length = o.Data.length := by
        rw [hlen']
        exact hlen
      by_cases hres' : o'.Resolution = o.Resolution
      · rw [calculateComplexObjectDistance_clone_path c q o o' hres hlen hcomp hres' hlen'']
        split_ifs <;> exact fun h => by cases h
      · rw [calculateComplexObjectDistance_unreached c q o o' hres hlen hcomp hres']
        exact fun h => by cases h
  · rw [calculateComplexObjectDistance_size_mismatch c q o hlen]
    exact fun h => by cases h

/-- One pass of the loop of `sequentialRangeSearch` when the evaluation stays inside the
vectors. -/
theorem rangeSearchStep_defined (q : TComplexObject) (r : ℚ) (acc : List TComplexObject)
    (c : Nat) (o : TComplexObject)
    (ho : (calculateComplexObjectDistance q o 0).1 ≠ .error .outOfBounds) :
    rangeSearchStep q r (acc, c) o
      = .ok (acc ++ ([o].filter fun o =>
            match (calculateComplexObjectDistance q o 0).1 with
            | .ok distance => decide (distance ≤ r)
            | .error _ => false).map TComplexObject.copy,
          c + if (calculateComplexObjectDistance q o 0).1.toBool then 1 else 0) := by
  unfold rangeSearchStep
  simp only []
  rw [calculate_counter_free c q o]
  cases hval : (calculateComplexObjectDistance q o 0).1 with
  | ok d =>
    simp only [Except.toBool, if_true, List.filter_cons, List.filter_nil, hval]
    by_cases hd : d ≤ r <;> simp [hd]
  | error e =>
    rw [hval] at ho
    have hne : e ≠ .outOfBounds := fun h => ho (by rw [h])
    simp only [Except.toBool, Bool.false_eq_true, if_false, Nat.add_zero, List.filter_cons,
      List.filter_nil, hval, List.map_nil, List.append_nil]

/-- The loop of `sequentialRangeSearch` from any state, when no evaluation leaves a
vector: the objects within the radius are appended, and the counter goes up by the number
of objects whose evaluation returns a value. -/
theorem sequentialRangeSearch_loop (q : TComplexObject) (r : ℚ) :
    ∀ (dataset : List TComplexObject) (acc : List TComplexObject) (c : Nat),
      (∀ o ∈ dataset, (calculateComplexObjectDistance q o 0).1 ≠ .error .outOfBounds) →
      dataset.foldlM (rangeSearchStep q r) (acc, c)
      = .ok (acc ++ (dataset.filter fun o =>
            match (calculateComplexObjectDistance q o 0).1 with
            | .ok distance => decide (distance ≤ r)
            | .error _ => false).map TComplexObject.copy,
          c + dataset.countP fun o => (calculateComplexObjectDistance q o 0).1.toBool) := by
  intro dataset
  induction dataset with
  | nil =>
    intro acc c _
    simp only [List.foldlM_nil, List.filter_nil, List.map_nil, List.append_nil,
      List.countP_nil, Nat.add_zero]
    rfl
  | cons o t ih =>
    intro acc c hdef
    have ho := hdef o (List.mem_cons_self _ _)
    have ht : ∀ x ∈ t, (calculateComplexObjectDistance q x 0).1 ≠ .error .outOfBounds :=
      fun x hx => hdef x (List.mem_cons_of_mem _ hx)
    rw [List.foldlM_cons, rangeSearchStep_defined q r acc c o ho, except_ok_bind,
      ih _ _ ht, List.countP_cons]
    congr 2
    · rw [List.append_assoc, ← List.map_append, ← List.filter_append]
      rfl
    · omega

/-- `sequentialRangeSearch` for a query that keeps every evaluation inside the vectors:
the copies of the objects within the radius, and the counter raised by the number of
objects whose evaluation returns a value. -/
theorem sequentialRangeSearch_defined (dataset : List TComplexObject) (q : TComplexObject)
    (r : ℚ) (c : Nat)
    (hdef : ∀ o ∈ dataset, (calculateComplexObjectDistance q o 0).1 ≠ .error .outOfBounds) :
    sequentialRangeSearch dataset q r c
      = .ok ((dataset.filter fun o =>
            match (calculateComplexObjectDistance q o 0).1 with
            | .ok distance => decide (distance ≤ r)
            | .error _ => false).map TComplexObject.copy,
          c + dataset.countP fun o => (calculateComplexObjectDistance q o 0).1.toBool) := by
  unfold sequentialRangeSearch
  rw [sequentialRangeSearch_loop q r dataset [] c hdef, List.nil_append]

/-- The query loop of the scan from any totals, for queries that keep every evaluation
inside the vectors: the distance total goes up, for each query, by the number of objects
of the file whose evaluation returns a value. -/
theorem scanQueries_loop (rep : DoubleRep) (file : Option (List Nat)) (P : Nat) (r : ℚ) :
    ∀ (Q : List TComplexObject) (st : ScanTotals),
      (∀ q ∈ Q, 0 ≤ q.Resolution) →
      ∃ totals, Q.foldlM (scanStep rep file P r) st = .ok totals ∧
        totals.totalDistanceCalculations = st.totalDistanceCalculations +
          (Q.map fun q => (readComplexObjectsFromPagedFile rep file P).1.countP fun o =>
            (calculateComplexObjectDistance q o 0).1.toBool).sum ∧
        totals.pagesReadTotal
          = st.pagesReadTotal + Q.length * (readComplexObjectsFromPagedFile rep file P).2 := by
  intro Q
  induction Q with
  | nil =>
    intro st _
    exact ⟨st, rfl, by simp, by simp⟩
  | cons q t ih =>
    intro st hq
    have hdef : ∀ o ∈ (readComplexObjectsFromPagedFile rep file P).1,
        (calculateComplexObjectDistance q o 0).1 ≠ .error .outOfBounds :=
      fun o _ => calculate_defined 0 q o (Or.inl (hq q (List.mem_cons_self _ _)))
    rw [List.foldlM_cons]
    unfold scanStep
    simp only []
    rw [sequentialRangeSearch_defined _ q r _ hdef]
    simp only []
    rw [except_ok_bind]
    obtain ⟨totals, hrun, h1, h2⟩ := ih _ (fun x hx => hq x (List.mem_cons_of_mem _ hx))
    refine ⟨totals, hrun, ?_, ?_⟩
    · rw [h1, List.map_cons, List.sum_cons]
      exact Nat.add_assoc _ _ _
    · rw [h2, List.length_cons, Nat.add_mul, Nat.one_mul]
      show st.pagesReadTotal + (readComplexObjectsFromPagedFile rep file P).2 + _ = _
      omega

theorem countP_eq_length_of_all {α : Type} (p : α → Bool) (l : List α)
    (h : ∀ x ∈ l, p x = true) : l.countP p = l.length :=
  List.countP_eq_length.mpr h

theorem sum_map_const (Q : List TComplexObject) (f : TComplexObject → Nat) (n : Nat)
    (h : ∀ q ∈ Q, f q = n) : (Q.map f).sum = Q.length * n := by
  induction Q with
  | nil => simp
  | cons q t ih =>
    rw [List.map_cons, List.sum_cons, h q (List.mem_cons_self _ _),
      ih (fun x hx => h x (List.mem_cons_of_mem _ hx)), List.length_cons, Nat.add_mul,
      Nat.one_mul]
    omega

/-! ## The scan on datasets that the paged file gives back -/

/-- The distance functions read the resolution and the data of their second argument
only: a clone of it gives the same outcome. -/
theorem calculate_clone_right (c : Nat) (q o : TComplexObject) :
    calculateComplexObjectDistance q o.Clone c = calculateComplexObjectDistance q o c :=
  rfl

/-- The query loop of the scan from any totals, over a file that gives the objects `D`,
for queries none of whose evaluations against `D` leaves its vectors: the distance total
goes up, for each query, by the number of objects whose evaluation returns a value. -/
theorem scanQueries_loop_defined (rep : DoubleRep) (file : Option (List Nat)) (P : Nat)
    (r : ℚ) :
    ∀ (Q : List TComplexObject) (st : ScanTotals),
      (∀ q ∈ Q, ∀ o ∈ (readComplexObjectsFromPagedFile rep file P).1,
        (calculateComplexObjectDistance q o 0).1 ≠ .error .outOfBounds) →
      ∃ totals, Q.foldlM (scanStep rep file P r) st = .ok totals ∧
        totals.totalDistanceCalculations = st.totalDistanceCalculations +
          (Q.map fun q => (readComplexObjectsFromPagedFile rep file P).1.countP fun o =>
            (calculateComplexObjectDistance q o 0).1.toBool).sum := by
  intro Q
  induction Q with
  | nil =>
    intro st _
    exact ⟨st, rfl, by simp⟩
  | cons q t ih =>
    intro st hq
    have hdef := hq q (List.mem_cons_self _ _)
    rw [List.foldlM_cons]
    unfold scanStep
    simp only []
    rw [sequentialRangeSearch_defined _ q r _ hdef]
    simp only []
    rw [except_ok_bind]
    obtain ⟨totals, hrun, h1⟩ := ih _ (fun x hx => hq x (List.mem_cons_of_mem _ hx))
    refine ⟨totals, hrun, ?_⟩
    rw [h1, List.map_cons, List.sum_cons]
    exact Nat.add_assoc _ _ _

theorem countP_map_clone (q : TComplexObject) (D : List TComplexObject) :
    ((D.map TComplexObject.Clone).countP fun o =>
        (calculateComplexObjectDistance q o 0).1.toBool)
      = D.countP fun o => (calculateComplexObjectDistance q o 0).1.toBool := by
  rw [List.countP_map]
  rfl

/-- The dataset of three objects without data values fits pages of 48 bytes and is given
back by the paged file. -/
theorem datasetNoData_ok : ∀ o ∈ datasetNoData,
    o.GetSerializedSize ≤ 48 ∧ o.Storable wholeRep ∧ o.CacheCoherent wholeRep ∧
      ¬ o.LooksLikePadding := by
  intro o ho
  simp only [datasetNoData, List.mem_cons, List.mem_singleton, List.not_mem_nil,
    or_false] at ho
  rcases ho with h | h | h <;> subst h
  all_goals
    refine ⟨by decide, ⟨by decide, by decide, by decide, fun x hx => by cases hx⟩,
      create_coherent _ _ _ _, ?_⟩
    intro hp
    have := hp.2.1
    cases this

/-- C27 as stated fails on a pair whose evaluation throws: for the dataset of the one
object `objA` (three elements) and the query `obj_short` (one element) the evaluation
throws the size error, `sequentialRangeSearch` catches it, and the counter stays at 0
while the dataset has one object. It fails as well where the paged file does not give the
dataset back: the default-constructed object, written to a page of 64 bytes, is read as
padding, and the object `("a", 1, {})` of 21 bytes leaves no file of pages of 20 bytes;
in both cases the query loop evaluates nothing and its total is 0, while the dataset has
one object whose distance from the query is a value. -/
theorem scan_does_not_count_failed_evaluation :
    sequentialRangeSearch [objA] obj_short 10 0 = .ok ([], 0) ∧ [objA].length = 1 ∧
    calculateComplexObjectDistance TComplexObject.default TComplexObject.default 0
      = (.ok 0, 1) ∧
    scanQueries wholeRep (writeComplexObjectsToPagedFile wholeRep [TComplexObject.default] 64)
        64 [TComplexObject.default] 0
      = .ok { totalDistanceCalculations := 0, totalFoundObjects := 0, pagesReadTotal := 1 } ∧
    calculateComplexObjectDistance (TComplexObject.create [97] 1 [])
        (TComplexObject.create [97] 1 []) 0 = (.ok 0, 1) ∧
    scanQueries wholeRep
        (writeComplexObjectsToPagedFile wholeRep [TComplexObject.create [97] 1 []] 20)
        20 [TComplexObject.create [97] 1 []] 0
      = .ok { totalDistanceCalculations := 0, totalFoundObjects := 0, pagesReadTotal := 0 } := by
  have hval : (calculateComplexObjectDistance obj_short objA 0).1 = .error .sizeMismatch := by
    rw [calculateComplexObjectDistance_size_mismatch 0 obj_short objA (by decide)]
  have hr1 : readComplexObjectsFromPagedFile wholeRep
      (writeComplexObjectsToPagedFile wholeRep [TComplexObject.default] 64) 64 = ([], 1) := by
    decide
  have hr2 : readComplexObjectsFromPagedFile wholeRep
      (writeComplexObjectsToPagedFile wholeRep [TComplexObject.create [97] 1 []] 20) 20
      = ([], 0) := by
    decide
  refine ⟨?_, rfl, ?_, ?_, ?_, ?_⟩
  · rw [sequentialRangeSearch_defined [objA] obj_short 10 0 (by
      intro o ho
      rw [List.mem_singleton.mp ho, hval]
      exact fun h => by cases h)]
    simp [List.filter_cons, List.countP_cons, hval, Except.toBool]
  · rw [calculateComplexObjectDistance_same_resolution 0 _ _ rfl rfl]
    rfl
  · show List.foldlM (scanStep wholeRep _ 64 0) _ [TComplexObject.default] = _
    rw [List.foldlM_cons]
    unfold scanStep
    rw [hr1]
    rfl
  · rw [calculateComplexObjectDistance_same_resolution 0 _ _ rfl rfl]
    rfl
  · show List.foldlM (scanStep wholeRep _ 20 0) _ [TComplexObject.create [97] 1 []] = _
    rw [List.foldlM_cons]
    unfold scanStep
    rw [hr2]
    rfl

/-- C27, as the code has it: the scan counts the evaluations that return a value. For a
dataset and a query none of whose evaluations leaves its vectors, `sequentialRangeSearch`
returns and raises the distance counter by the number of objects of the dataset for which
the distance function returns a value, at most `|D|`; a pair whose evaluation throws is
caught and not counted. For a dataset `D` that the paged file gives back (a page size
that is a `size_t`, objects that fit a page, with fields of their C++ types and current
caches, none of them read as padding) and a batch `Q` none of whose evaluations against
`D` leaves its vectors, the total of the query loop over the file written from `D` is the
sum of these numbers over the queries. When the evaluation returns a value for every
pair, the total is `|Q| * |D|`, and for a non-empty batch `avg_dist_calc` is `|D|`. -/
theorem scan_counts_returned_distances (rep : DoubleRep) (P : Nat)
    (D Q : List TComplexObject) (r : ℚ) (hP : P < 2 ^ 64)
    (hD : ∀ o ∈ D, o.GetSerializedSize ≤ P ∧ o.Storable rep ∧ o.CacheCoherent rep ∧
      ¬ o.LooksLikePadding)
    (hdef : ∀ q ∈ Q, ∀ o ∈ D,
      (calculateComplexObjectDistance q o 0).1 ≠ .error .outOfBounds) :
    (∀ (dataset : List TComplexObject) (q : TComplexObject) (c : Nat),
      (∀ o ∈ dataset, (calculateComplexObjectDistance q o 0).1 ≠ .error .outOfBounds) →
      ∃ found, sequentialRangeSearch dataset q r c
          = .ok (found, c + dataset.countP fun o =>
              (calculateComplexObjectDistance q o 0).1.toBool) ∧
        (dataset.countP fun o => (calculateComplexObjectDistance q o 0).1.toBool)
          ≤ dataset.length ∧
        ((∀ o ∈ dataset, (calculateComplexObjectDistance q o 0).1.toBool = true) →
          sequentialRangeSearch dataset q r c = .ok (found, c + dataset.length))) ∧
    ∃ totals, scanQueries rep (writeComplexObjectsToPagedFile rep D P) P Q r = .ok totals ∧
      totals.totalDistanceCalculations
        = (Q.map fun q => D.countP fun o =>
            (calculateComplexObjectDistance q o 0).1.toBool).sum ∧
      ((∀ q ∈ Q, ∀ o ∈ D, (calculateComplexObjectDistance q o 0).1.toBool = true) →
        totals.totalDistanceCalculations = Q.length * D.length ∧
        (Q ≠ [] → avgDistCalc totals Q = (D.length : ℚ))) := by
  constructor
  · intro dataset q c hdefd
    refine ⟨_, sequentialRangeSearch_defined dataset q r c hdefd, List.countP_le_length _, ?_⟩
    intro hall
    rw [sequentialRangeSearch_defined dataset q r c hdefd,
      countP_eq_length_of_all _ _ hall]
  · obtain ⟨pgs, _, _, hread⟩ := read_write_pages rep P D hP hD
    have hloaded : (readComplexObjectsFromPagedFile rep
        (writeComplexObjectsToPagedFile rep D P) P).1 = D.map TComplexObject.Clone := by
      rw [hread]
    obtain ⟨totals, hrun, h1⟩ := scanQueries_loop_defined rep
      (writeComplexObjectsToPagedFile rep D P) P r Q
      { totalDistanceCalculations := 0, totalFoundObjects := 0, pagesReadTotal := 0 }
      (by
        intro q hq o ho
        rw [hloaded] at ho
        obtain ⟨o', ho', hclone⟩ := List.mem_map.mp ho
        rw [← hclone, calculate_clone_right]
        exact hdef q hq o' ho')
    have hsum : totals.totalDistanceCalculations
        = (Q.map fun q => D.countP fun o =>
            (calculateComplexObjectDistance q o 0).1.toBool).sum := by
      rw [h1, hloaded]
      show 0 + _ = _
      rw [Nat.zero_add]
      congr 1
      exact List.map_congr_left fun q _ => countP_map_clone q D
    refine ⟨totals, hrun, hsum, ?_⟩
    intro hall
    have htotal : totals.totalDistanceCalculations = Q.length * D.length := by
      rw [hsum]
      exact sum_map_const Q _ _ fun q hmem => countP_eq_length_of_all _ _ (hall q hmem)
    refine ⟨htotal, ?_⟩
    intro hne
    unfold avgDistCalc
    rw [htotal]
    have hlen : (Q.length : ℚ) ≠ 0 := by
      have : 0 < Q.length := List.length_pos.mpr hne
      exact Nat.cast_ne_zero.mpr (by omega)
    push_cast
    field_simp

theorem read_datasetNoDataPages :
    (readComplexObjectsFromPagedFile wholeRep (some datasetNoDataPages) 48).1
      = datasetNoData.map TComplexObject.Clone := by
  decide

/-- The distance function on two objects with empty data: 0 at equal resolutions, the
resolution error otherwise. -/
theorem calculate_of_empty (c : Nat) (q o : TComplexObject) (hq : q.Data = [])
    (ho : o.Data = []) :
    calculateComplexObjectDistance q o c
      = if q.Resolution = o.Resolution then (.ok 0, c + 1)
        else (.error .resolutionMismatch, c) := by
  have hlen : q.Data.length = o.Data.length := by rw [hq, ho]
  by_cases hres : q.Resolution = o.Resolution
  · rw [if_pos hres, calculateComplexObjectDistance_same_resolution c q o hres hlen,
      if_pos (by rw [ho]; rfl)]
  · rw [if_neg hres]
    have hcomp := dataCompression_of_empty q.Clone (o.Resolution - q.Resolution)
      (by omega) hq
    exact calculateComplexObjectDistance_unreached c q o _ hres hlen hcomp hres

/-- C27 at the three objects `("a", 1, {})`, `("bc", 2, {})`, `("d", 3, {})` in pages of
48 bytes and the one query `("E1", 2, {})`: the evaluation returns a value for the second
object only, and the total is 1 while the dataset has three objects. -/
theorem scan_counts_returned_distances_witness :
    (48 : Nat) < 2 ^ 64 ∧
    (∀ o ∈ datasetNoData, o.GetSerializedSize ≤ 48 ∧ o.Storable wholeRep ∧
      o.CacheCoherent wholeRep ∧ ¬ o.LooksLikePadding) ∧
    (∀ q ∈ [obj_empty1], ∀ o ∈ datasetNoData,
      (calculateComplexObjectDistance q o 0).1 ≠ .error .outOfBounds) ∧
    datasetNoData.length = 3 ∧
    ∃ totals,
      scanQueries wholeRep (writeComplexObjectsToPagedFile wholeRep datasetNoData 48) 48
        [obj_empty1] 0 = .ok totals ∧
      totals.totalDistanceCalculations = 1 := by
  have hdef : ∀ q ∈ [obj_empty1], ∀ o ∈ datasetNoData,
      (calculateComplexObjectDistance q o 0).1 ≠ .error .outOfBounds := by
    intro q hmem o _
    rw [List.mem_singleton.mp hmem]
    exact calculate_defined 0 obj_empty1 o (Or.inr rfl)
  obtain ⟨totals, hrun, htotal, _⟩ :=
    (scan_counts_returned_distances wholeRep 48 datasetNoData [obj_empty1] 0 (by norm_num)
      datasetNoData_ok hdef).2
  refine ⟨by norm_num, datasetNoData_ok, hdef, rfl, totals, hrun, ?_⟩
  rw [htotal]
  simp only [datasetNoData, List.map_cons, List.map_nil, List.sum_cons, List.sum_nil,
    List.countP_cons, List.countP_nil,
    calculate_of_empty 0 obj_empty1 (TComplexObject.create [97] 1 []) rfl rfl,
    calculate_of_empty 0 obj_empty1 (TComplexObject.create [98, 99] 2 []) rfl rfl,
    calculate_of_empty 0 obj_empty1 (TComplexObject.create [100] 3 []) rfl rfl]
  rfl

/-! ## Scan and tree -/

theorem fields_copy (o : TComplexObject) : o.copy.fields = o.fields := rfl

/-- The condition of the modelled tree query is the condition of the scan. -/
theorem tree_condition_eq_scan (q : TComplexObject) (r : ℚ) :
    (fun o => match (GetDistance 0 q o).1 with
      | .ok distance => decide (distance ≤ r)
      | .error _ => false)
    = fun o => match (calculateComplexObjectDistance q o 0).1 with
      | .ok distance => decide (distance ≤ r)
      | .error _ => false := by
  funext o
  show (match (GetDistance2 0 q o).1 with
    | .ok distance => decide (distance ≤ r)
    | .error _ => false) = _
  rw [GetDistance2_eq_calculate]

/-- The scan over the written file against the modelled tree query, for a dataset that the
paged file gives back whole and a query none of whose evaluations against the dataset
leaves its vectors: the scan finds the copies of what the tree query returns. -/
theorem scan_eq_tree (rep : DoubleRep) (P : Nat) (D : List TComplexObject)
    (q : TComplexObject) (r : ℚ) (c : Nat) (hP : P < 2 ^ 64)
    (hD : ∀ o ∈ D, o.GetSerializedSize ≤ P ∧ o.Storable rep ∧ o.CacheCoherent rep ∧
      ¬ o.LooksLikePadding)
    (hdef : ∀ o ∈ D, (calculateComplexObjectDistance q o 0).1 ≠ .error .outOfBounds) :
    ∃ n, sequentialRangeSearch
        (readComplexObjectsFromPagedFile rep (writeComplexObjectsToPagedFile rep D P) P).1
        q r c
      = .ok ((treeRangeQuery D q r).map TComplexObject.copy, n) := by
  obtain ⟨pgs, _, _, hread⟩ := read_write_pages rep P D hP hD
  rw [hread]
  have hdefd : ∀ o ∈ D.map TComplexObject.Clone,
      (calculateComplexObjectDistance q o 0).1 ≠ .error .outOfBounds := by
    intro o ho
    obtain ⟨o', ho', hclone⟩ := List.mem_map.mp ho
    rw [← hclone, calculate_clone_right]
    exact hdef o' ho'
  refine ⟨c + (D.map TComplexObject.Clone).countP fun o =>
    (calculateComplexObjectDistance q o 0).1.toBool, ?_⟩
  show sequentialRangeSearch (D.map TComplexObject.Clone) q r c = _
  rw [sequentialRangeSearch_defined _ q r c hdefd]
  unfold treeRangeQuery
  rw [tree_condition_eq_scan]

/-- C30 as stated fails where the paged file does not give the dataset back. The object
`("a", 1, {})` has 21 bytes: with pages of 20 bytes the writer leaves no file and the scan
finds nothing, while a tree query with the object itself and radius 0 returns it. The
default-constructed object is written to a page of 64 bytes as twenty zero bytes, which
the reader takes for padding: the scan finds nothing, the tree query returns the
object. -/
theorem scan_misses_objects_of_tree :
    writeComplexObjectsToPagedFile wholeRep [TComplexObject.create [97] 1 []] 20 = none ∧
    sequentialRangeSearch
        (readComplexObjectsFromPagedFile wholeRep
          (writeComplexObjectsToPagedFile wholeRep [TComplexObject.create [97] 1 []] 20) 20).1
        (TComplexObject.create [97] 1 []) 0 0 = .ok ([], 0) ∧
    treeRangeQuery [TComplexObject.create [97] 1 []] (TComplexObject.create [97] 1 []) 0
      = [TComplexObject.create [97] 1 []] ∧
    sequentialRangeSearch
        (readComplexObjectsFromPagedFile wholeRep
          (writeComplexObjectsToPagedFile wholeRep [TComplexObject.default] 64) 64).1
        TComplexObject.default 0 0 = .ok ([], 0) ∧
    treeRangeQuery [TComplexObject.default] TComplexObject.default 0
      = [TComplexObject.default] := by
  have hw : writeComplexObjectsToPagedFile wholeRep [TComplexObject.create [97] 1 []] 20
      = none := by decide
  have hr : (readComplexObjectsFromPagedFile wholeRep
      (writeComplexObjectsToPagedFile wholeRep [TComplexObject.default] 64) 64).1 = [] := by
    decide
  have htree : ∀ o : TComplexObject, o.Data = [] → o.Serialized = none →
      treeRangeQuery [o] o 0 = [o] := by
    intro o hdata hser
    unfold treeRangeQuery
    have hclone : o.Clone = o := by
      cases o
      simp only [TComplexObject.Clone, TComplexObject.create] at hser ⊢
      rw [hser]
    rw [tree_condition_eq_scan, List.map_cons, List.map_nil, hclone, List.filter_cons,
      calculate_of_empty 0 o o hdata hdata, if_pos rfl]
    simp only [le_refl, decide_True, if_true, List.filter_nil]
  refine ⟨hw, ?_, htree _ rfl rfl, ?_, htree _ rfl rfl⟩
  · rw [hw]
    rfl
  · rw [hr]
    rfl

/-- C30, for the datasets that the paged file gives back: scan and tree contract. For a
page size `P` (a `size_t`), a dataset whose objects all fit the page (with fields of their
C++ types and current caches) and none of which has resolution 0, an empty label and empty
data, a query none of whose distance evaluations against the dataset leaves its vectors
(each returns a value or throws) and any radius, the sequential scan over the paged file
written from the dataset returns, and the objects it finds are, up to order, those that a
range query by the contract of the tree returns on the clones of the dataset: the same
labels, resolutions and data. -/
theorem scan_matches_tree_contract (rep : DoubleRep) (P : Nat) (D : List TComplexObject)
    (q : TComplexObject) (r : ℚ) (hP : P < 2 ^ 64)
    (hD : ∀ o ∈ D, o.GetSerializedSize ≤ P ∧ o.Storable rep ∧ o.CacheCoherent rep ∧
      ¬ o.LooksLikePadding)
    (hdef : ∀ o ∈ D, (calculateComplexObjectDistance q o 0).1 ≠ .error .outOfBounds) :
    ∃ (found : List TComplexObject) (n : Nat),
      sequentialRangeSearch
          (readComplexObjectsFromPagedFile rep (writeComplexObjectsToPagedFile rep D P) P).1
          q r 0
        = .ok (found, n) ∧
      (found.map TComplexObject.fields).Perm
        ((treeRangeQuery D q r).map TComplexObject.fields) := by
  obtain ⟨n, hrun⟩ := scan_eq_tree rep P D q r 0 hP hD hdef
  refine ⟨_, n, hrun, ?_⟩
  rw [List.map_map]
  exact List.Perm.of_eq rfl

/-- C30 at the scenario: the three objects of 39 bytes, pages of 64 bytes, and the query
`("q", 0, [0, 0])` with radius 10. -/
theorem scan_matches_tree_contract_witness :
    (64 : Nat) < 2 ^ 64 ∧
    (∀ o ∈ scenarioDataset, o.GetSerializedSize ≤ 64 ∧ o.Storable wholeRep ∧
      o.CacheCoherent wholeRep ∧ ¬ o.LooksLikePadding) ∧
    (∀ o ∈ scenarioDataset,
      (calculateComplexObjectDistance flatQ o 0).1 ≠ .error .outOfBounds) ∧
    ∃ (found : List TComplexObject) (n : Nat),
      sequentialRangeSearch
          (readComplexObjectsFromPagedFile wholeRep
            (writeComplexObjectsToPagedFile wholeRep scenarioDataset 64) 64).1
          flatQ 10 0
        = .ok (found, n) ∧
      (found.map TComplexObject.fields).Perm
        ((treeRangeQuery scenarioDataset flatQ 10).map TComplexObject.fields) :=
  ⟨by norm_num, scenarioDataset_ok,
    fun o _ => calculate_defined 0 flatQ o (Or.inl (by decide)),
    scan_matches_tree_contract wholeRep 64 scenarioDataset flatQ 10 (by norm_num)
      scenarioDataset_ok fun o _ => calculate_defined 0 flatQ o (Or.inl (by decide))⟩

/-! ## Number of compression steps from resolution 0 -/

/-- When `2^v` is the largest power of two that divides `N`, the approximation length
`N / 2^v` is odd. -/
theorem div_pow_odd (N v : Nat) (hv : 2 ^ v ∣ N) (hv' : ¬ 2 ^ (v + 1) ∣ N) :
    (N / 2 ^ v) % 2 = 1 := by
  obtain ⟨t, ht⟩ := hv
  have hpos : 0 < 2 ^ v := Nat.two_pow_pos v
  rw [ht, Nat.mul_div_cancel_left t hpos]
  rcases Nat.mod_two_eq_zero_or_one t with h | h
  · exfalso
    apply hv'
    obtain ⟨s, hs⟩ := Nat.dvd_of_mod_eq_zero h
    exact ⟨s, by rw [ht, hs, pow_succ, Nat.mul_assoc]⟩
  · exact h

/-- The compression loop from resolution 0 on `N > 0` elements, `2^v` being the largest
power of two that divides `N`: a call for `n` levels applies `min n v` steps. -/
theorem DoCompressionLoop_from_zero (n v : Nat) (o : TComplexObject) (buf : List ℚ)
    (h0 : o.Resolution = 0) (hN : 0 < o.Data.length) (hb : buf.length = o.Data.length)
    (hv : 2 ^ v ∣ o.Data.length) (hv' : ¬ 2 ^ (v + 1) ∣ o.Data.length) :
    DoCompressionLoop n o buf = .ok (compressStep^[min n v] o) := by
  obtain ⟨m, hm, hrun, hsteps, hstop⟩ := DoCompressionLoop_total n o buf (by omega) hb
  have happrox : ∀ j : Nat, approxSizeAt o.Data.length (o.Resolution + j)
      = o.Data.length / 2 ^ j := by
    intro j
    rw [approxSizeAt_of_nonneg _ _ (by omega), h0]
    congr 2
    omega
  have hodd := div_pow_odd o.Data.length v hv hv'
  have hle : m ≤ v := by
    by_contra hlt
    have h := (hsteps v (by omega)).2
    rw [happrox] at h
    omega
  have hmin : m = min n v := by
    by_cases hmn : m < n
    · have hnot := hstop hmn
      rw [happrox] at hnot
      by_cases hmv : m < v
      · exfalso
        apply hnot
        exact div_pow_even o.Data.length m hN
          (Nat.dvd_trans (Nat.pow_dvd_pow 2 (by omega)) hv)
      · omega
    · omega
  rw [hrun, hmin]

/-- C31: the number of Haar steps from resolution 0. For an object at resolution 0 with
`N > 0` data elements, a level count `k > 0` and `v` the largest exponent with `2^v`
dividing `N`, `dataCompression(k)` returns, having applied exactly `min(k, v)` steps, and
the final resolution is `min(k, v)`. After `v` steps the approximation length `N / 2^v`
is odd, and every further call for a positive number of levels returns the object
unchanged. -/
theorem compression_applies_min_levels (o : TComplexObject) (k : Int) (v : Nat)
    (h0 : o.Resolution = 0) (hne : o.Data ≠ []) (hk : 0 < k)
    (hv : 2 ^ v ∣ o.Data.length) (hv' : ¬ 2 ^ (v + 1) ∣ o.Data.length) :
    dataCompression o k = .ok (compressStep^[min k.toNat v] o.InvalidateSerializedBuffer) ∧
    (compressStep^[min k.toNat v] o.InvalidateSerializedBuffer).Resolution = min k v ∧
    approxSizeAt o.Data.length v % 2 = 1 ∧
    ∀ j : Int, 0 < j →
      dataCompression (compressStep^[v] o.InvalidateSerializedBuffer) j
        = .ok (compressStep^[v] o.InvalidateSerializedBuffer) := by
  have hN : 0 < o.Data.length := List.length_pos.mpr hne
  have hodd := div_pow_odd o.Data.length v hv hv'
  have happrox : approxSizeAt o.Data.length v = o.Data.length / 2 ^ v := by
    rw [approxSizeAt_of_nonneg _ _ (by omega)]
    rfl
  refine ⟨?_, ?_, by rw [happrox]; exact hodd, ?_⟩
  · obtain ⟨n, hn⟩ : ∃ n : ℕ, k = ((n + 1 : ℕ) : ℤ) := ⟨k.toNat - 1, by omega⟩
    rw [hn, dataCompression_pos o (n + 1) (by omega) hne, Int.toNat_ofNat]
    exact DoCompressionLoop_from_zero (n + 1) v o.InvalidateSerializedBuffer _ h0 hN
      (List.length_replicate _ _) hv hv'
  · rw [(compressStep_iterate_facts _ _).1]
    show o.Resolution + _ = _
    rw [h0]
    omega
  · intro j hj
    obtain ⟨hres, hlen, _, hser⟩ := compressStep_iterate_facts v o.InvalidateSerializedBuffer
    have hres' : (compressStep^[v] o.InvalidateSerializedBuffer).Resolution = v := by
      rw [hres]
      show o.Resolution + _ = _
      rw [h0]
      omega
    have hlen' : (compressStep^[v] o.InvalidateSerializedBuffer).Data.length
        = o.Data.length := hlen
    have hne' : (compressStep^[v] o.InvalidateSerializedBuffer).Data ≠ [] :=
      List.length_pos.mp (by rw [hlen']; exact hN)
    have hinv : (compressStep^[v] o.InvalidateSerializedBuffer).InvalidateSerializedBuffer
        = compressStep^[v] o.InvalidateSerializedBuffer := by
      have hs : (compressStep^[v] o.InvalidateSerializedBuffer).Serialized = none := hser
      cases hx : compressStep^[v] o.InvalidateSerializedBuffer
      rw [hx] at hs
      simp only [TComplexObject.InvalidateSerializedBuffer] at hs ⊢
      rw [hs]
    obtain ⟨n, hn⟩ : ∃ n : ℕ, j = ((n + 1 : ℕ) : ℤ) := ⟨j.toNat - 1, by omega⟩
    rw [hn, dataCompression_pos _ (n + 1) (by omega) hne', hinv]
    show DoCompressionLoop (n + 1) _ _ = _
    unfold DoCompressionLoop
    simp only [hres', hlen', happrox]
    by_cases h1 : o.Data.length / 2 ^ v ≤ 1
    · rw [if_pos h1]
    · rw [if_neg h1, if_pos (show o.Data.length / 2 ^ v % 2 ≠ 0 by omega)]

/-- C31 at the Haar scenario: four elements (`v = 2`) and three requested levels give
resolution 2. -/
theorem compression_applies_min_levels_witness :
    scenarioS1.Resolution = 0 ∧ scenarioS1.Data ≠ [] ∧ (0 : Int) < 3 ∧
    2 ^ 2 ∣ scenarioS1.Data.length ∧ ¬ 2 ^ (2 + 1) ∣ scenarioS1.Data.length ∧
    dataCompression scenarioS1 3
      = .ok (compressStep^[min (3 : Int).toNat 2] scenarioS1.InvalidateSerializedBuffer) ∧
    (compressStep^[min (3 : Int).toNat 2] scenarioS1.InvalidateSerializedBuffer).Resolution
      = min 3 2 :=
  have h := compression_applies_min_levels scenarioS1 3 2 rfl (by decide) (by decide)
    (by decide) (by decide)
  ⟨rfl, by decide, by decide, by decide, by decide, h.1, h.2.1⟩

/-! ## Indices of the compression loop -/

/-- `DoCompression` from a resolution that is not negative returns an object: no access
of its loops leaves the vectors. -/
theorem DoCompression_defined (o : TComplexObject) (l : Int) (hr : 0 ≤ o.Resolution) :
    ∃ m : Nat, DoCompression o l = .ok (compressStep^[m] o) := by
  unfold DoCompression
  by_cases hl : l ≤ 0
  · exact ⟨0, by rw [if_pos hl]; rfl⟩
  · rw [if_neg hl]
    by_cases he : o.Data.isEmpty = true
    · exact ⟨0, by rw [if_pos he]; rfl⟩
    · rw [if_neg he]
      obtain ⟨m, _, hrun, _, _⟩ := DoCompressionLoop_total l.toNat o
        (List.replicate o.Data.length 0) hr (List.length_replicate _ _)
      exact ⟨m, hrun⟩

/-- The accesses of the model are checked: a read or a write at an index returns a value
exactly when the index is inside the vector. -/
theorem access_ok_iff (v : List ℚ) (i : Nat) (x : ℚ) :
    ((∃ y, readAt v i = .ok y) ↔ i < v.length) ∧
    ((∃ w, writeAt v i x = .ok w) ↔ i < v.length) := by
  constructor
  · constructor
    · rintro ⟨y, hy⟩
      by_contra hlt
      have hnone : v[i]? = none := List.getElem?_eq_none (by omega)
      simp [readAt, hnone] at hy
    · intro hlt
      exact ⟨_, readAt_of_lt v i hlt⟩
  · constructor
    · rintro ⟨w, hw⟩
      by_contra hlt
      simp [writeAt, hlt] at hw
    · intro hlt
      exact ⟨_, writeAt_of_lt v i x hlt⟩

/-- C36: the compression loop stays inside its vectors. For an object of `N` elements
whose resolution is not negative and every level count (a positive one runs the loop),
`DoCompression` (and `dataCompression`, which calls it) returns an object, of the same
length `N`. At every
resolution `r` the loop can be at, with approximation length `A`, the indices `2i`,
`2i + 1` read from `Data` and `i`, `i + A/2` written to the buffer for `i < A/2` are
below `N`, the copy loop runs over `A ≤ i < N`, and both loops of a pass succeed on any
data vector and buffer of `N` elements. -/
theorem compression_stays_in_bounds (o : TComplexObject) (l : Int)
    (hr : 0 ≤ o.Resolution) :
    (∃ o', DoCompression o l = .ok o' ∧ o'.Data.length = o.Data.length) ∧
    (∃ o', dataCompression o l = .ok o' ∧ o'.Data.length = o.Data.length) ∧
    ∀ r : Int, o.Resolution ≤ r →
      (∀ i : Nat, i < approxSizeAt o.Data.length r / 2 →
        2 * i < o.Data.length ∧ 2 * i + 1 < o.Data.length ∧ i < o.Data.length ∧
        i + approxSizeAt o.Data.length r / 2 < o.Data.length) ∧
      (approxSizeAt o.Data.length r % 2 = 0 →
        ∀ d buf : List ℚ, d.length = o.Data.length → buf.length = o.Data.length →
          ∃ t t', compressPairs d (approxSizeAt o.Data.length r / 2) buf = .ok t ∧
            copyTail d (approxSizeAt o.Data.length r) t = .ok t' ∧
            t'.length = o.Data.length) := by
  refine ⟨?_, dataCompression_length o l (Or.inl hr), ?_⟩
  · obtain ⟨m, hm⟩ := DoCompression_defined o l hr
    exact ⟨_, hm, (compressStep_iterate_facts m o).2.1⟩
  · intro r hor
    have hA : approxSizeAt o.Data.length r ≤ o.Data.length :=
      approxSizeAt_le _ _ (by omega)
    refine ⟨fun i hi => by omega, ?_⟩
    intro heven d buf hd hb
    obtain ⟨t, ht, htlen, _⟩ := compressPairs_spec d buf
      (approxSizeAt o.Data.length r / 2) (by omega) (by omega)
    obtain ⟨t', ht', htlen', _⟩ := copyTail_spec d t (approxSizeAt o.Data.length r)
      (by omega)
    exact ⟨t, t', ht, ht', by omega⟩

/-- C36 at the Haar scenario: four elements at resolution 0, three levels requested. -/
theorem compression_stays_in_bounds_witness :
    0 ≤ scenarioS1.Resolution ∧
    (∃ o', DoCompression scenarioS1 3 = .ok o' ∧
      o'.Data.length = scenarioS1.Data.length) ∧
    (∃ o', dataCompression scenarioS1 3 = .ok o' ∧
      o'.Data.length = scenarioS1.Data.length) :=
  have h := compression_stays_in_bounds scenarioS1 3 (by decide)
  ⟨by decide, h.1, h.2.1⟩

/-! ## Decompression -/

/-- `DoDecompression` returns an object whatever the object and the level count. -/
theorem DoDecompression_defined (o : TComplexObject) (l : Int) :
    ∃ m : Nat, DoDecompression o l = .ok (decompressStep^[m] o) := by
  unfold DoDecompression
  by_cases hl : l ≤ 0
  · exact ⟨0, by rw [if_pos hl]; rfl⟩
  · rw [if_neg hl]
    by_cases he : o.Data.isEmpty = true ∨ o.Resolution = 0
    · exact ⟨0, by rw [if_pos he]; rfl⟩
    · rw [if_neg he]
      have hne : o.Data ≠ [] := by
        intro h
        apply he
        left
        rw [h]
        rfl
      obtain ⟨m, _, hrun, _, _⟩ := DoDecompressionLoop_total l.toNat o
        (List.replicate o.Data.length 0) (List.length_pos.mpr hne)
        (List.length_replicate _ _)
      exact ⟨m, hrun⟩

/-- C37: decompression never fails. For every object, whatever its resolution and its
data, and every negative level count, `dataCompression` returns an object: the cache is
dropped and `m` decompression steps are applied, `m` at most the number of levels asked
for. None of the three errors of `DoDecompression` is the outcome. In a pass that the
guards of the loop let through (approximation length `A ≤ N / 2`), the indices `i + A`
and `2i + 1` for `i < A` are below `N`, and the reconstruction loop and the copy loop
succeed on any data vector and buffer of `N` elements. -/
theorem decompression_never_fails (o : TComplexObject) (l : Int) (hl : l < 0) :
    (∃ m : Nat, (m : Int) ≤ -l ∧
      dataCompression o l = .ok (decompressStep^[m] o.InvalidateSerializedBuffer)) ∧
    dataCompression o l ≠ .error .detailOutOfBounds ∧
    dataCompression o l ≠ .error .writeOutOfBounds ∧
    dataCompression o l ≠ .error .copyOutOfBounds ∧
    ∀ A : Nat, A ≤ o.Data.length / 2 →
      (∀ i : Nat, i < A → i + A < o.Data.length ∧ 2 * i + 1 < o.Data.length) ∧
      ∀ d buf : List ℚ, d.length = o.Data.length → buf.length = o.Data.length →
        (reconstructPairs d A buf >>= fun t => copyTailChecked d (A * 2) t)
          = .ok (haarInverse d A) := by
  obtain ⟨m, _, hdown⟩ := dataCompression_steps o l (by omega) (Or.inr (Or.inl hl))
  obtain ⟨hm, _, hrun⟩ := hdown hl
  refine ⟨⟨m, hm, hrun⟩, ?_, ?_, ?_, ?_⟩
  · rw [hrun]
    exact fun h => by cases h
  · rw [hrun]
    exact fun h => by cases h
  · rw [hrun]
    exact fun h => by cases h
  · intro A hA
    refine ⟨fun i hi => by omega, ?_⟩
    intro d buf hd hb
    exact decompress_body d buf A (by omega) (by omega)

/-- C37 at an object below resolution zero: two levels of decompression asked of
`("o", -1, [1, 2])`. -/
theorem decompression_never_fails_witness :
    (-2 : Int) < 0 ∧
    ∃ m : Nat, (m : Int) ≤ -(-2) ∧
      dataCompression objectBelowZero (-2)
        = .ok (decompressStep^[m] objectBelowZero.InvalidateSerializedBuffer) :=
  ⟨by decide, (decompression_never_fails objectBelowZero (-2) (by decide)).1⟩

/-! ## The two distance functions -/

/-- C34: the two distance implementations agree. For every pair of objects and any
values of the two counters, `GetDistance2` of the evaluator and
`calculateComplexObjectDistance` of the scan either both return the same value, each
raising its counter by one, or both fail in the same way, each leaving its counter as it
was; on one counter value the two functions are equal. -/
theorem distance_implementations_agree (c1 c2 : Nat) (q o : TComplexObject) :
    ((∃ v, GetDistance2 c1 q o = (.ok v, c1 + 1) ∧
        calculateComplexObjectDistance q o c2 = (.ok v, c2 + 1)) ∨
     (∃ e, GetDistance2 c1 q o = (.error e, c1) ∧
        calculateComplexObjectDistance q o c2 = (.error e, c2))) ∧
    calculateComplexObjectDistance q o c1 = GetDistance2 c1 q o ∧
    GetDistance c1 q o = GetDistance2 c1 q o := by
  refine ⟨?_, (GetDistance2_eq_calculate c1 q o).symm, rfl⟩
  have h2 := calculate_counter_free c2 q o
  rcases GetDistance2_counter c1 q o with ⟨v, hv⟩ | ⟨e, he⟩
  · left
    refine ⟨v, hv, ?_⟩
    rw [GetDistance2_eq_calculate, calculate_counter_free c1 q o] at hv
    have h0 : (calculateComplexObjectDistance q o 0).1 = .ok v := congrArg Prod.fst hv
    rw [h2, h0]
    rfl
  · right
    refine ⟨e, he, ?_⟩
    rw [GetDistance2_eq_calculate, calculate_counter_free c1 q o] at he
    have h0 : (calculateComplexObjectDistance q o 0).1 = .error e := congrArg Prod.fst he
    rw [h2, h0]
    rfl

/-! ## The distance at one resolution as a pseudometric -/

/-- The range search for a query that keeps every evaluation inside the vectors (a
resolution that is not negative, or no data): the call returns the copies of the objects
of the dataset whose distance from the query is returned and is at most the radius, each
once and in the order of the dataset; an object whose evaluation throws is left out and
the search goes on. -/
theorem sequentialRangeSearch_spec (dataset : List TComplexObject) (q : TComplexObject)
    (r : ℚ) (c : Nat) (hq : 0 ≤ q.Resolution ∨ q.Data = []) :
    sequentialRangeSearch dataset q r c
      = .ok ((dataset.filter fun o =>
            match (calculateComplexObjectDistance q o 0).1 with
            | .ok distance => decide (distance ≤ r)
            | .error _ => false).map TComplexObject.copy,
          c + dataset.countP fun o => (calculateComplexObjectDistance q o 0).1.toBool) :=
  sequentialRangeSearch_defined dataset q r c fun o _ => calculate_defined 0 q o hq

/-- C32 at a query below resolution zero. The query `("q", -2, [1, 2])` has distance 0
to the object `("p", -2, [1, 2])`, at its own resolution, so the claim has the search over
`[("o", -1, [1, 2]), ("p", -2, [1, 2])]` return the second object. The evaluation against
the first object compresses a clone of the query by one level from resolution `-2`, which
writes outside the temporary buffer: the search does not skip the object, it is
undefined. -/
theorem range_search_undefined_below_zero :
    calculateComplexObjectDistance queryBelowZero (TComplexObject.create [112] (-2) [1, 2]) 0
      = (.ok 0, 1) ∧
    calculateComplexObjectDistance queryBelowZero objectBelowZero 0
      = (.error .outOfBounds, 0) ∧
    sequentialRangeSearch [objectBelowZero, TComplexObject.create [112] (-2) [1, 2]]
      queryBelowZero 10 0 = .error .outOfBounds := by
  have h1 : calculateComplexObjectDistance queryBelowZero objectBelowZero 0
      = (.error .outOfBounds, 0) :=
    (distance_below_zero 0 queryBelowZero objectBelowZero (by decide) (by decide) rfl
      (fun h => by cases h)).2.2
  refine ⟨?_, h1, ?_⟩
  · rw [calculateComplexObjectDistance_same_resolution 0 queryBelowZero
      (TComplexObject.create [112] (-2) [1, 2]) rfl rfl]
    simp [TComplexObject.create, queryBelowZero, l1Upto_self]
  · show List.foldlM (rangeSearchStep queryBelowZero 10) ([], 0)
      [objectBelowZero, TComplexObject.create [112] (-2) [1, 2]] = _
    rw [List.foldlM_cons]
    have hstep : rangeSearchStep queryBelowZero 10 ([], 0) objectBelowZero
        = .error .outOfBounds := by
      unfold rangeSearchStep
      rw [h1]
    rw [hstep]
    rfl

/-! ## Distance calls and their operands -/

theorem GetDistance2_sections (c : Nat) (q o : TComplexObject) :
    GetDistance2 c q o
      = match (if q.Resolution ≠ o.Resolution then
            if q.Clone.Data.length ≠ o.Data.length then .error .sizeMismatch
            else
              match dataCompression q.Clone (o.Resolution - q.Resolution) with
              | .error e => .error e
              | .ok q' =>
                if q'.Resolution ≠ o.Resolution then .error .resolutionMismatch
                else .ok q'.Data
          else if q.Data.length ≠ o.Data.length then .error .sizeMismatch
          else .ok q.Data : Except Error (List ℚ)) with
        | .error e => (.error e, c)
        | .ok data1 => approximationDistance sumOfDiffLoop c o.Resolution data1 o.Data :=
  rfl

theorem calculate_sections (c : Nat) (q o : TComplexObject) :
    calculateComplexObjectDistance q o c
      = match (if q.Resolution ≠ o.Resolution then
            if q.Clone.Data.length ≠ o.Data.length then .error .sizeMismatch
            else
              match dataCompression q.Clone (o.Resolution - q.Resolution) with
              | .error e => .error e
              | .ok q' =>
                if q'.Resolution ≠ o.Resolution then .error .resolutionMismatch
                else .ok q'.Data
          else if q.Data.length ≠ o.Data.length then .error .sizeMismatch
          else .ok q.Data : Except Error (List ℚ)) with
        | .error e => (.error e, c)
        | .ok data1 =>
          approximationDistance sumOfDiffLoopChecked c o.Resolution data1 o.Data :=
  rfl

theorem objectAt_append_new (store : List TComplexObject) (x : TComplexObject) :
    objectAt (store ++ [x]) store.length = x := by
  simp [objectAt, List.getD_eq_getElem?_getD]

theorem objectAt_append_old (store : List TComplexObject) (x : TComplexObject) (p : Nat)
    (hp : p < store.length) : objectAt (store ++ [x]) p = objectAt store p := by
  simp [objectAt, List.getD_eq_getElem?_getD, List.getElem?_append_left hp]

theorem objectAt_set_new (store : List TComplexObject) (x y : TComplexObject) :
    objectAt ((store ++ [x]).set store.length y) store.length = y := by
  simp [objectAt, List.getD_eq_getElem?_getD]

theorem objectAt_set_old (store : List TComplexObject) (x y : TComplexObject) (p : Nat)
    (hp : p < store.length) :
    objectAt ((store ++ [x]).set store.length y) p = objectAt store p := by
  have hne : store.length ≠ p := by omega
  simp [objectAt, List.getD_eq_getElem?_getD, List.getElem?_set_ne hne,
    List.getElem?_append_left hp]

theorem eraseIdx_append_new (store : List TComplexObject) (x : TComplexObject) :
    (store ++ [x]).eraseIdx store.length = store := by
  rw [List.eraseIdx_append_of_length_le (le_refl _)]
  simp

theorem eraseIdx_set_new (store : List TComplexObject) (x y : TComplexObject) :
    ((store ++ [x]).set store.length y).eraseIdx store.length = store := by
  have h : (store ++ [x]).set store.length y = store ++ [y] := by
    rw [List.set_append_right _ _ (le_refl _)]
    simp
  rw [h, eraseIdx_append_new]

/-- A distance call on objects in memory against the two sections on the objects
themselves: the call is undefined exactly when the outcome on the objects is the access
outside a vector, and otherwise it has that outcome and leaves the memory as it was. -/
theorem distanceCallAt_sections (sumLoop : List ℚ → List ℚ → Nat → Except Error ℚ)
    (store : List TComplexObject) (c p1 p2 : Nat)
    (h1 : p1 < store.length) (h2 : p2 < store.length) :
    distanceCallAt sumLoop store c p1 p2
      = endOfCall
          (match (if (objectAt store p1).Resolution ≠ (objectAt store p2).Resolution then
              if (objectAt store p1).Clone.Data.length ≠ (objectAt store p2).Data.length then
                .error .sizeMismatch
              else
                match dataCompression (objectAt store p1).Clone
                    ((objectAt store p2).Resolution - (objectAt store p1).Resolution) with
                | .error e => .error e
                | .ok q' =>
                  if q'.Resolution ≠ (objectAt store p2).Resolution then
                    .error .resolutionMismatch
                  else .ok q'.Data
            else if (objectAt store p1).Data.length ≠ (objectAt store p2).Data.length then
              .error .sizeMismatch
            else .ok (objectAt store p1).Data : Except Error (List ℚ)) with
          | .error e => (.error e, c)
          | .ok data1 =>
            approximationDistance sumLoop c (objectAt store p2).Resolution data1
              (objectAt store p2).Data)
          store := by
  unfold distanceCallAt
  rw [if_pos ⟨h1, h2⟩]
  simp only [objectAt_append_new, objectAt_append_old _ _ p2 h2, objectAt_set_new,
    objectAt_set_old _ _ _ p2 h2, eraseIdx_append_new, eraseIdx_set_new]
  by_cases hres : (objectAt store p1).Resolution ≠ (objectAt store p2).Resolution
  · rw [if_pos hres, if_pos hres]
    by_cases hlen : (objectAt store p1).Clone.Data.length ≠ (objectAt store p2).Data.length
    · rw [if_pos hlen, if_pos hlen]
      rfl
    · rw [if_neg hlen, if_neg hlen]
      cases hcomp : dataCompression (objectAt store p1).Clone
          ((objectAt store p2).Resolution - (objectAt store p1).Resolution) with
      | error e =>
        cases e <;> rfl
      | ok q' =>
        simp only []
        by_cases hq : q'.Resolution ≠ (objectAt store p2).Resolution
        · rw [if_pos hq, if_pos hq]
          rfl
        · rw [if_neg hq, if_neg hq]
  · rw [if_neg hres, if_neg hres]
    by_cases hlen : (objectAt store p1).Data.length ≠ (objectAt store p2).Data.length
    · rw [if_pos hlen, if_pos hlen]
      rfl
    · rw [if_neg hlen, if_neg hlen]

/-- `GetDistance2` on objects in memory: undefined exactly when the function on the two
objects runs into an access outside a vector; otherwise the outcome is that of the
function and the memory is left as it was. -/
theorem GetDistance2At_eq (store : List TComplexObject) (c p1 p2 : Nat)
    (h1 : p1 < store.length) (h2 : p2 < store.length) :
    GetDistance2At store c p1 p2
      = endOfCall (GetDistance2 c (objectAt store p1) (objectAt store p2)) store := by
  rw [GetDistance2_sections]
  exact distanceCallAt_sections sumOfDiffLoop store c p1 p2 h1 h2

/-- `calculateComplexObjectDistance` on objects in memory, as `GetDistance2At_eq`. -/
theorem calculateComplexObjectDistanceAt_eq (store : List TComplexObject) (c p1 p2 : Nat)
    (h1 : p1 < store.length) (h2 : p2 < store.length) :
    calculateComplexObjectDistanceAt store p1 p2 c
      = endOfCall (calculateComplexObjectDistance (objectAt store p1) (objectAt store p2) c)
          store := by
  rw [calculate_sections]
  exact distanceCallAt_sections sumOfDiffLoopChecked store c p1 p2 h1 h2

/-- A distance call that has an outcome, a value or an exception, leaves the memory as
it was: both operands with their labels, resolutions, data and caches, and no clone. A
query whose resolution is not negative, or that has no data, gives such a call. -/
theorem distance_call_frame (store : List TComplexObject) (c p1 p2 : Nat)
    (h1 : p1 < store.length) (h2 : p2 < store.length) :
    (∀ out store', GetDistance2At store c p1 p2 = some (out, store') →
      store' = store ∧ out = GetDistance2 c (objectAt store p1) (objectAt store p2)) ∧
    (∀ out store', calculateComplexObjectDistanceAt store p1 p2 c = some (out, store') →
      store' = store ∧
      out = calculateComplexObjectDistance (objectAt store p1) (objectAt store p2) c) ∧
    (0 ≤ (objectAt store p1).Resolution ∨ (objectAt store p1).Data = [] →
      GetDistance2At store c p1 p2
        = some (GetDistance2 c (objectAt store p1) (objectAt store p2), store) ∧
      calculateComplexObjectDistanceAt store p1 p2 c
        = some (calculateComplexObjectDistance (objectAt store p1) (objectAt store p2) c,
            store)) := by
  have hend : ∀ (outcome : Except Error ℚ × Nat) out store',
      endOfCall outcome store = some (out, store') → store' = store ∧ out = outcome := by
    intro outcome out store' h
    unfold endOfCall at h
    split at h
    · cases h
    · cases h
      exact ⟨rfl, rfl⟩
  have hdefd : ∀ outcome : Except Error ℚ × Nat, outcome.1 ≠ .error .outOfBounds →
      endOfCall outcome store = some (outcome, store) := by
    intro outcome hne
    unfold endOfCall
    split
    · rename_i h
      exact absurd h hne
    · rfl
  refine ⟨?_, ?_, ?_⟩
  · intro out store' h
    rw [GetDistance2At_eq store c p1 p2 h1 h2] at h
    exact hend _ _ _ h
  · intro out store' h
    rw [calculateComplexObjectDistanceAt_eq store c p1 p2 h1 h2] at h
    exact hend _ _ _ h
  · intro hq
    have hc := calculate_defined c (objectAt store p1) (objectAt store p2) hq
    rw [GetDistance2At_eq store c p1 p2 h1 h2,
      calculateComplexObjectDistanceAt_eq store c p1 p2 h1 h2]
    exact ⟨hdefd _ (by rw [GetDistance2_eq_calculate]; exact hc), hdefd _ hc⟩

/-- C33 at a query below resolution zero. With `("q", -2, [1, 2])` and
`("o", -1, [1, 2])` in memory, the call compresses the clone of the query by one level
from resolution `-2`: the loop of `DoCompression` writes outside the temporary buffer of
two elements, which leaves no state defined, for the clone and for the operands. Neither
function has an outcome after which the operands could be compared with what they
were. -/
theorem distance_call_undefined_below_zero :
    dataCompression (objectAt [queryBelowZero, objectBelowZero] 0).Clone
        ((objectAt [queryBelowZero, objectBelowZero] 1).Resolution
          - (objectAt [queryBelowZero, objectBelowZero] 0).Resolution)
      = .error .outOfBounds ∧
    GetDistance2At [queryBelowZero, objectBelowZero] 0 0 1 = none ∧
    calculateComplexObjectDistanceAt [queryBelowZero, objectBelowZero] 0 1 0 = none := by
  have h := distance_below_zero 0 queryBelowZero objectBelowZero (by decide) (by decide) rfl
    (fun h => by cases h)
  refine ⟨h.1, ?_, ?_⟩
  · rw [GetDistance2At_eq _ 0 0 1 (by decide) (by decide)]
    show endOfCall (GetDistance2 0 queryBelowZero objectBelowZero) _ = none
    rw [h.2.1]
    rfl
  · rw [calculateComplexObjectDistanceAt_eq _ 0 0 1 (by decide) (by decide)]
    show endOfCall (calculateComplexObjectDistance queryBelowZero objectBelowZero 0) _ = none
    rw [h.2.2]
    rfl

/-! ## The object after `Unserialize` -/

/-- The outcomes of `Unserialize` and the object each leaves. The cache is dropped in
every case. A call announced with fewer than 20 bytes throws before any field is written.
Every later failure comes after the resolution has been overwritten with the value at
the start of the buffer; the failure of the size check of the variable fields leaves
label and data as they were. -/
theorem Unserialize_cases (rep : DoubleRep) (self : TComplexObject) (data : List Nat)
    (datasize : Nat) :
    (TComplexObject.Unserialize rep self data datasize).2.Serialized = none ∧
    ((datasize < 20 ∧
        TComplexObject.Unserialize rep self data datasize
          = (.error .insufficientFixed, { self with Serialized := none })) ∨
      (20 ≤ datasize ∧
        (TComplexObject.Unserialize rep self data datasize).1 = .error .outOfBounds) ∨
      (20 ≤ datasize ∧ 20 ≤ data.length ∧
        TComplexObject.Unserialize rep self data datasize
          = (.error .insufficientVariable,
              { self with Serialized := none, Resolution := decodeInt (data.take 4) })) ∨
      (20 ≤ datasize ∧ 20 ≤ data.length ∧
        ((TComplexObject.Unserialize rep self data datasize).1 = .error .lengthError ∨
          (TComplexObject.Unserialize rep self data datasize).1
            = .error .insufficientDataVector ∨
          (TComplexObject.Unserialize rep self data datasize).1 = .ok ()) ∧
        (TComplexObject.Unserialize rep self data datasize).2.Resolution
          = decodeInt (data.take 4))) := by
  unfold TComplexObject.Unserialize
  simp only []
  by_cases h20 : datasize < 4 + 8 * 2
  · rw [if_pos h20]
    exact ⟨rfl, Or.inl ⟨by omega, rfl⟩⟩
  · rw [if_neg h20]
    by_cases hb : 20 ≤ data.length
    · have r0 : readBytes data 0 4 = some (data.take 4) := by
        unfold readBytes; rw [if_pos (by omega)]; rfl
      have r4 : readBytes data 4 8 = some ((data.drop 4).take 8) := by
        unfold readBytes; rw [if_pos (by omega)]
      have r12 : readBytes data 12 8 = some ((data.drop 12).take 8) := by
        unfold readBytes; rw [if_pos (by omega)]
      rw [r0, r4, r12]
      simp only []
      generalize fromBytesLE ((data.drop 12).take 8) = L
      generalize fromBytesLE ((data.drop 4).take 8) = D
      by_cases c1 : datasize - (4 + 8 * 2) < (L + D * 8 % 2 ^ 64) % 2 ^ 64
      · rw [if_pos c1]
        exact ⟨rfl, Or.inr (Or.inr (Or.inl ⟨by omega, hb, rfl⟩))⟩
      · rw [if_neg c1]
        cases hlab : (if L > 0 then readBytes data (4 + 8 * 2) L else some []) with
        | none => exact ⟨rfl, Or.inr (Or.inl ⟨by omega, rfl⟩)⟩
        | some label =>
          simp only []
          by_cases c2 : D * 8 ≥ 2 ^ 64
          · rw [if_pos c2]
            exact ⟨rfl, Or.inr (Or.inr (Or.inr ⟨by omega, hb, Or.inl rfl, rfl⟩))⟩
          · rw [if_neg c2]
            by_cases c3 : D > 0
            · rw [if_pos c3]
              split_ifs <;> (try split) <;> first
                | exact ⟨rfl, Or.inr (Or.inr (Or.inr
                    ⟨by omega, hb, Or.inr (Or.inl rfl), rfl⟩))⟩
                | exact ⟨rfl, Or.inr (Or.inl ⟨by omega, rfl⟩)⟩
                | exact ⟨rfl, Or.inr (Or.inr (Or.inr
                    ⟨by omega, hb, Or.inr (Or.inr rfl), rfl⟩))⟩
            · rw [if_neg c3]
              exact ⟨rfl, Or.inr (Or.inr (Or.inr ⟨by omega, hb, Or.inr (Or.inr rfl), rfl⟩))⟩
    · have r0 : readBytes data 12 8 = none := by
        unfold readBytes; rw [if_neg (by omega)]
      rw [r0]
      refine ⟨?_, Or.inr (Or.inl ⟨by omega, ?_⟩)⟩
      · split
        · rename_i heq1 heq2 heq3
          cases heq3
        · rfl
      · split
        · rename_i heq1 heq2 heq3
          cases heq3
        · rfl

/-- C39 as stated fails: `Unserialize` writes the fields as it reads them. The object
`obj_orig`, at resolution 55, is asked to read a buffer of 20 bytes whose header has
resolution 7 and declares one data element: the call throws at the size check of the
variable fields, after `Resolution` has been overwritten, and leaves the object at
resolution 7. -/
theorem unserialize_failure_changes_resolution :
    (TComplexObject.Unserialize wholeRep obj_orig headerWithoutData 20).1
      = .error .insufficientVariable ∧
    (TComplexObject.Unserialize wholeRep obj_orig headerWithoutData 20).2.Resolution = 7 ∧
    obj_orig.Resolution = 55 := by
  refine ⟨rfl, rfl, rfl⟩

/-- C39, as the code has it: the object after a failed `Unserialize`. A call that fails
has dropped the cache. It fails at the check of the fixed fields exactly when fewer than
20 bytes are announced, and then resolution, label and data are what they were. A call
that fails later, otherwise than by a read outside the buffer, leaves the object with
the resolution found at the start of the buffer; when it fails at the size check of the
variable fields, label and data are still what they were. -/
theorem unserialize_failure_state (rep : DoubleRep) (self : TComplexObject)
    (data : List Nat) (datasize : Nat) (e : Error)
    (hfail : (TComplexObject.Unserialize rep self data datasize).1 = .error e) :
    (TComplexObject.Unserialize rep self data datasize).2.Serialized = none ∧
    (e = .insufficientFixed ↔ datasize < 20) ∧
    (datasize < 20 →
      (TComplexObject.Unserialize rep self data datasize).2.fields = self.fields) ∧
    (20 ≤ datasize → e ≠ .outOfBounds →
      (TComplexObject.Unserialize rep self data datasize).2.Resolution
        = decodeInt (data.take 4)) ∧
    (e = .insufficientVariable →
      (TComplexObject.Unserialize rep self data datasize).2.Label = self.Label ∧
      (TComplexObject.Unserialize rep self data datasize).2.Data = self.Data) := by
  obtain ⟨hser, hcases⟩ := Unserialize_cases rep self data datasize
  refine ⟨hser, ?_⟩
  rcases hcases with ⟨hlt, h⟩ | ⟨hge, h⟩ | ⟨hge, _, h⟩ | ⟨hge, _, h, hres⟩
  · rw [h] at hfail ⊢
    cases hfail
    exact ⟨⟨fun _ => hlt, fun _ => rfl⟩, fun _ => rfl, fun h20 => absurd hlt (by omega),
      fun h => by cases h⟩
  · rw [h] at hfail
    cases hfail
    exact ⟨⟨fun h => (by cases h), fun h => absurd h (by omega)⟩,
      fun h => absurd h (by omega), fun _ hne => absurd rfl hne, fun h => by cases h⟩
  · rw [h] at hfail ⊢
    cases hfail
    exact ⟨⟨fun h => (by cases h), fun h => absurd h (by omega)⟩,
      fun h => absurd h (by omega), fun _ _ => rfl, fun _ => ⟨rfl, rfl⟩⟩
  · refine ⟨⟨?_, fun h => absurd h (by omega)⟩, fun h => absurd h (by omega),
      fun _ _ => hres, ?_⟩
    · intro he
      subst he
      rcases h with h | h | h <;> rw [h] at hfail <;> cases hfail
    · intro he
      subst he
      rcases h with h | h | h <;> rw [h] at hfail <;> cases hfail

/-- C39 at a buffer of three bytes: the call fails at the first check and the fields of
the object of the unit test are what they were. -/
theorem unserialize_failure_state_witness :
    (TComplexObject.Unserialize wholeRep obj_orig [1, 2, 3] 3).1 = .error .insufficientFixed ∧
    (TComplexObject.Unserialize wholeRep obj_orig [1, 2, 3] 3).2.Serialized = none ∧
    (TComplexObject.Unserialize wholeRep obj_orig [1, 2, 3] 3).2.fields = obj_orig.fields :=
  have h := unserialize_failure_state wholeRep obj_orig [1, 2, 3] 3 .insufficientFixed rfl
  ⟨rfl, h.1, h.2.2.1 (by decide)⟩

/-! ## Cache coherence -/

/-- The only failure of `dataCompression` is an access outside a vector. -/
theorem dataCompression_error (o : TComplexObject) (l : Int) (e : Error)
    (h : dataCompression o l = .error e) : e = .outOfBounds := by
  by_cases hdef : 0 ≤ o.Resolution ∨ l ≤ 0 ∨ o.Data = []
  · obtain ⟨o', hok, _⟩ := dataCompression_length o l hdef
    rw [hok] at h
    cases h
  · have hfail := dataCompression_below_zero o l (by omega) (by omega)
      (fun he => hdef (Or.inr (Or.inr he)))
    rw [hfail] at h
    cases h
    rfl

theorem decompressStep_iterate_cache (m : Nat) (o : TComplexObject) :
    (decompressStep^[m] o).Serialized = o.Serialized := by
  induction m generalizing o with
  | zero => rfl
  | succ n ih =>
    rw [Function.iterate_succ_apply, ih]
    rfl

/-- The object that `dataCompression` returns has no cache, unless the level count is 0,
in which case it is the object itself. -/
theorem dataCompression_cache (o o' : TComplexObject) (l : Int)
    (h : dataCompression o l = .ok o') : (l = 0 ∧ o' = o) ∨ o'.Serialized = none := by
  by_cases hl : l = 0
  · left
    subst hl
    exact ⟨rfl, by cases h; rfl⟩
  · right
    by_cases hdef : 0 ≤ o.Resolution ∨ l < 0 ∨ o.Data = []
    · obtain ⟨m, hup, hdown⟩ := dataCompression_steps o l hl hdef
      rcases lt_or_gt_of_ne hl with hneg | hpos
      · rw [(hdown hneg).2.2] at h
        cases h
        rw [decompressStep_iterate_cache]
        rfl
      · rw [(hup hpos).2] at h
        cases h
        rw [(compressStep_iterate_facts m _).2.2.2]
        rfl
    · have hfail := dataCompression_below_zero o l (by omega) (by omega)
        (fun he => hdef (Or.inr (Or.inr he)))
      rw [hfail] at h
      cases h

theorem coherent_of_no_cache (rep : DoubleRep) (o : TComplexObject)
    (h : o.Serialized = none) : o.CacheCoherent rep := by
  intro buf hb
  rw [h] at hb
  cases hb

/-- `Serialize` keeps the fields and leaves a cache that is current, if the cache it
found was. -/
theorem Serialize_coherent (rep : DoubleRep) (o : TComplexObject) (hc : o.CacheCoherent rep) :
    (o.Serialize rep).1.CacheCoherent rep ∧ (o.Serialize rep).1.fields = o.fields ∧
      (o.Serialize rep).1.Serialized = some (o.serializedBytes rep) := by
  unfold TComplexObject.Serialize
  cases h : o.Serialized with
  | none =>
    refine ⟨?_, rfl, rfl⟩
    intro buf hb
    cases hb
    rfl
  | some buf =>
    refine ⟨hc, rfl, ?_⟩
    show o.Serialized = _
    rw [h, hc buf h]

/-- Every operation keeps the cache current. -/
theorem applyOp_coherent (rep : DoubleRep) (o o' : TComplexObject) (op : ObjectOp)
    (hc : o.CacheCoherent rep) (h : applyOp rep o op = some o') : o'.CacheCoherent rep := by
  cases op with
  | assign other =>
    cases h
    exact coherent_of_no_cache rep _ rfl
  | assignSelf =>
    cases h
    exact hc
  | serialize =>
    cases h
    exact (Serialize_coherent rep o hc).1
  | getResolutionSerial data =>
    simp only [applyOp, TComplexObject.GetResolutionSerial] at h
    cases hr : readBytes data 0 4 with
    | none =>
      rw [hr] at h
      cases h
    | some bs =>
      rw [hr] at h
      cases h
      exact coherent_of_no_cache rep _ rfl
  | unserialize data datasize =>
    have hser := (Unserialize_cases rep o data datasize).1
    simp only [applyOp] at h
    split at h
    · cases h
    · rename_i x y heq
      cases h
      rw [heq] at hser
      exact coherent_of_no_cache rep _ hser
  | dataCompression l =>
    simp only [applyOp] at h
    cases hd : dataCompression o l with
    | error e =>
      rw [hd] at h
      cases h
    | ok x =>
      rw [hd] at h
      cases h
      rcases dataCompression_cache o _ l hd with ⟨_, heq⟩ | hnone
      · rw [heq]
        exact hc
      · exact coherent_of_no_cache rep _ hnone

theorem applyOps_coherent (rep : DoubleRep) (ops : List ObjectOp) :
    ∀ (o o' : TComplexObject), o.CacheCoherent rep → applyOps rep o ops = some o' →
      o'.CacheCoherent rep := by
  induction ops with
  | nil =>
    intro o o' hc h
    cases h
    exact hc
  | cons op ops ih =>
    intro o o' hc h
    unfold applyOps at h
    cases hop : applyOp rep o op with
    | none =>
      rw [hop] at h
      cases h
    | some x =>
      rw [hop] at h
      exact ih x o' (applyOp_coherent rep o x op hc hop) h

/-- C38: cache coherence of `Serialize`. An object is built by a constructor, which
leaves no cache (the default constructor, the copy constructor and `Clone` build
`create` of some label, resolution and data), and then goes through any sequence of
assignments, `Serialize`, `GetResolutionSerial`, `Unserialize` and `dataCompression`
calls, each of them defined; an `Unserialize` that throws counts with the state it
leaves. In the state reached, the cached buffer is absent or is the encoding of the
current resolution, label and data, and `Serialize` returns that encoding, keeps the
fields and leaves the encoding as the cache. -/
theorem serialize_cache_coherent (rep : DoubleRep) (label : List Nat) (resolution : Int)
    (data : List ℚ) (ops : List ObjectOp) (o : TComplexObject)
    (h : applyOps rep (TComplexObject.create label resolution data) ops = some o) :
    (o.Serialized = none ∨ o.Serialized = some (o.serializedBytes rep)) ∧
    (o.Serialize rep).2 = o.serializedBytes rep ∧
    (o.Serialize rep).1.fields = o.fields ∧
    (o.Serialize rep).1.Serialized = some (o.serializedBytes rep) ∧
    TComplexObject.default = TComplexObject.create [] 0 [] ∧
    (∀ other : TComplexObject,
      other.copy = TComplexObject.create other.Label other.Resolution other.Data ∧
      other.Clone = TComplexObject.create other.Label other.Resolution other.Data) := by
  have hc : o.CacheCoherent rep :=
    applyOps_coherent rep ops _ o (create_coherent rep label resolution data) h
  have hs := Serialize_coherent rep o hc
  refine ⟨?_, Serialize_snd rep o hc, hs.2.1, hs.2.2, rfl, fun _ => ⟨rfl, rfl⟩⟩
  cases hser : o.Serialized with
  | none => exact Or.inl rfl
  | some buf => exact Or.inr (by rw [hc buf hser])

/-- C38 at a sequence on the object `("a", 1, {})`: `Serialize`, two levels of
compression, an `Unserialize` that throws after it has set the resolution to 7, and
`Serialize` again. The cache at the end is the encoding of `("a", 7, {})`. -/
theorem serialize_cache_coherent_witness :
    applyOps wholeRep (TComplexObject.create [97] 1 [])
        [.serialize, .dataCompression 2, .unserialize headerWithoutData 20, .serialize]
      = some { Label := [97], Resolution := 7, Data := [],
               Serialized := some ([7, 0, 0, 0] ++ List.replicate 8 0
                 ++ [1, 0, 0, 0, 0, 0, 0, 0] ++ [97]) } ∧
    (({ Label := [97], Resolution := 7, Data := [],
        Serialized := some ([7, 0, 0, 0] ++ List.replicate 8 0
          ++ [1, 0, 0, 0, 0, 0, 0, 0] ++ [97]) } : TComplexObject).Serialize wholeRep).2
      = TComplexObject.serializedBytes wholeRep
          { Label := [97], Resolution := 7, Data := [],
            Serialized := some ([7, 0, 0, 0] ++ List.replicate 8 0
              ++ [1, 0, 0, 0, 0, 0, 0, 0] ++ [97]) } :=
  ⟨rfl, (serialize_cache_coherent wholeRep [97] 1 []
    [.serialize, .dataCompression 2, .unserialize headerWithoutData 20, .serialize] _ rfl).2.1⟩

/-! ## The reader on arbitrary files -/

/-- One pass of the inner loop of the reader at a cursor `idx`, whatever the number of
passes still allowed: either the pass ends the page, or it goes on to the next record,
and then the record lies inside the page buffer, has at least twenty bytes, and the
object is what `Unserialize` makes of it. -/
theorem readPageLoop_step (rep : DoubleRep) (pb : List Nat) (P : Nat) (hP : P < 2 ^ 64)
    (hpb : pb.length = P) (idx : Nat) :
    (∀ (fuel : Nat) (loaded : List TComplexObject),
      readPageLoop rep pb P (fuel + 1) idx loaded = (loaded, max idx P)) ∨
    ∃ n obj, 20 ≤ n ∧ idx + n ≤ P ∧
      TComplexObject.Unserialize rep TComplexObject.default (pb.drop idx) n = (.ok (), obj) ∧
      ∀ (fuel : Nat) (loaded : List TComplexObject),
        readPageLoop rep pb P (fuel + 1) idx loaded
          = readPageLoop rep pb P fuel (idx + n) (loaded ++ [obj]) := by
  by_cases hidx : idx < P
  · have hmax : max idx P = P := by omega
    rw [hmax]
    by_cases hfit : idx + (4 + 2 * 8) > P
    · left
      intro fuel loaded
      rw [readPageLoop]
      simp only []
      rw [if_neg (not_not.mpr hidx), if_pos hfit]
    · by_cases hpad : decodeInt ((pb.drop idx).take 4) = 0 ∧
          (4 + 2 * 8 + fromBytesLE ((pb.drop (idx + 4 + 8)).take 8)
            + fromBytesLE ((pb.drop (idx + 4)).take 8) * 8 % 2 ^ 64) % 2 ^ 64 = 4 + 2 * 8
      · left
        intro fuel loaded
        rw [readPageLoop]
        simp only []
        rw [if_neg (not_not.mpr hidx), if_neg hfit, if_pos hpad]
      · by_cases hin : (idx + (4 + 2 * 8 + fromBytesLE ((pb.drop (idx + 4 + 8)).take 8)
            + fromBytesLE ((pb.drop (idx + 4)).take 8) * 8 % 2 ^ 64) % 2 ^ 64) % 2 ^ 64 ≤ P
        · cases hU : TComplexObject.Unserialize rep TComplexObject.default (pb.drop idx)
              ((4 + 2 * 8 + fromBytesLE ((pb.drop (idx + 4 + 8)).take 8)
                + fromBytesLE ((pb.drop (idx + 4)).take 8) * 8 % 2 ^ 64) % 2 ^ 64) with
          | mk u obj =>
            cases u with
            | error e =>
              left
              intro fuel loaded
              rw [readPageLoop]
              simp only []
              rw [if_neg (not_not.mpr hidx), if_neg hfit, if_neg hpad, if_pos hin, hU]
            | ok u =>
              right
              have hok : (TComplexObject.Unserialize rep TComplexObject.default
                  (pb.drop idx) ((4 + 2 * 8 + fromBytesLE ((pb.drop (idx + 4 + 8)).take 8)
                    + fromBytesLE ((pb.drop (idx + 4)).take 8) * 8 % 2 ^ 64) % 2 ^ 64)).1
                  = .ok () := by
                rw [hU]
              obtain ⟨h20, hlen⟩ := Unserialize_ok_bounds rep _ _ _ hok
              rw [List.drop_drop, List.drop_drop, List.length_drop, hpb] at hlen
              have e1 : idx + 12 = idx + 4 + 8 := by omega
              rw [e1] at hlen
              refine ⟨(4 + 2 * 8 + fromBytesLE ((pb.drop (idx + 4 + 8)).take 8)
                + fromBytesLE ((pb.drop (idx + 4)).take 8) * 8 % 2 ^ 64) % 2 ^ 64, obj,
                h20, ?_, hU, ?_⟩
              · generalize fromBytesLE ((pb.drop (idx + 4 + 8)).take 8) = L at *
                generalize fromBytesLE ((pb.drop (idx + 4)).take 8) = D at *
                have hD : D * 8 % 2 ^ 64 = D * 8 := Nat.mod_eq_of_lt (by omega)
                have hE : (4 + 2 * 8 + L + D * 8) % 2 ^ 64 = 4 + 2 * 8 + L + D * 8 :=
                  Nat.mod_eq_of_lt (by omega)
                rw [hD, hE]
                omega
              · intro fuel loaded
                rw [readPageLoop]
                simp only []
                rw [if_neg (not_not.mpr hidx), if_neg hfit, if_neg hpad, if_pos hin, hU]
                simp only []
                congr 1
                generalize fromBytesLE ((pb.drop (idx + 4 + 8)).take 8) = L at *
                generalize fromBytesLE ((pb.drop (idx + 4)).take 8) = D at *
                have hD : D * 8 % 2 ^ 64 = D * 8 := Nat.mod_eq_of_lt (by omega)
                have hE : (4 + 2 * 8 + L + D * 8) % 2 ^ 64 = 4 + 2 * 8 + L + D * 8 :=
                  Nat.mod_eq_of_lt (by omega)
                rw [hD, hE]
                exact Nat.mod_eq_of_lt (by omega)
        · left
          intro fuel loaded
          rw [readPageLoop]
          simp only []
          rw [if_neg (not_not.mpr hidx), if_neg hfit, if_neg hpad, if_neg hin]
  · left
    intro fuel loaded
    have hmax : max idx P = idx := by omega
    rw [hmax, readPageLoop]
    simp only []
    rw [if_pos hidx]

/-- The inner loop of the reader on a page buffer of `P` bytes, allowed `fuel` passes with
`20 * fuel` reaching from the cursor to the page end: the loop ends by itself, with the
cursor at or past the page end, and more passes allowed change nothing. Every object it
adds is decoded from a record inside the page buffer. -/
theorem readPageLoop_run (rep : DoubleRep) (pb : List Nat) (P : Nat) (hP : P < 2 ^ 64)
    (hpb : pb.length = P) :
    ∀ (fuel idx : Nat), P ≤ idx + 20 * fuel →
      ∃ (extra : List TComplexObject) (idx' : Nat), P ≤ idx' ∧
        (∀ o ∈ extra, DecodedIn rep pb o) ∧
        ∀ (more : Nat) (loaded : List TComplexObject),
          readPageLoop rep pb P (fuel + more) idx loaded = (loaded ++ extra, idx') := by
  intro fuel
  induction fuel with
  | zero =>
    intro idx h
    refine ⟨[], idx, by omega, fun o ho => (by cases ho), ?_⟩
    intro more loaded
    rw [List.append_nil, Nat.zero_add]
    cases more with
    | zero => rfl
    | succ m =>
      rcases readPageLoop_step rep pb P hP hpb idx with hstop | ⟨n, obj, hn, hfit, _, _⟩
      · rw [hstop m loaded]
        congr 1
        omega
      · omega
  | succ f ih =>
    intro idx h
    rcases readPageLoop_step rep pb P hP hpb idx with hstop | ⟨n, obj, hn, hfit, hU, hgo⟩
    · refine ⟨[], max idx P, by omega, fun o ho => (by cases ho), ?_⟩
      intro more loaded
      rw [List.append_nil, Nat.add_right_comm, hstop (f + more) loaded]
    · obtain ⟨extra, idx', hidx', hdec, hrun⟩ := ih (idx + n) (by omega)
      refine ⟨obj :: extra, idx', hidx', ?_, ?_⟩
      · intro o ho
        rcases List.mem_cons.mp ho with h1 | h1
        · rw [h1]
          exact ⟨idx, n, by omega, hU⟩
        · exact hdec o h1
      · intro more loaded
        rw [Nat.add_right_comm, hgo (f + more) loaded, hrun more (loaded ++ [obj]),
          List.append_assoc]
        rfl

theorem filePage_succ (file : List Nat) (P k : Nat) :
    filePage (file.drop P) P k = filePage file P (k + 1) := by
  unfold filePage
  rw [List.drop_drop]
  congr 2
  rw [Nat.add_mul, Nat.one_mul, Nat.add_comm]

/-- The outer loop of the reader on any file, from a page end: with more passes allowed
than the file has bytes the loop ends by itself, at the end of the file, and more passes
allowed change nothing. When the length of the file is a multiple of `P`, every object
added is decoded from a record inside one page of the file. -/
theorem readLoop_run (rep : DoubleRep) (P : Nat) (hP0 : 0 < P) (hP : P < 2 ^ 64) :
    ∀ (fuel : Nat) (inFile pb : List Nat) (idx : Nat),
      pb.length = P → P ≤ idx → inFile.length < fuel →
      ∃ extra : List TComplexObject,
        (P ∣ inFile.length →
          ∀ o ∈ extra, ∃ k, k * P < inFile.length ∧ DecodedIn rep (filePage inFile P k) o) ∧
        ∀ (more cnt : Nat) (loaded : List TComplexObject),
          readLoop rep P (fuel + more) inFile pb idx cnt loaded
            = (loaded ++ extra, cnt + (inFile.length + P - 1) / P) := by
  intro fuel
  induction fuel with
  | zero => intro inFile pb idx _ _ h; omega
  | succ f ih =>
    intro inFile pb idx hpb hidx hlen
    by_cases hemp : inFile.length = 0
    · refine ⟨[], fun _ o ho => (by cases ho), ?_⟩
      intro more cnt loaded
      rw [Nat.add_right_comm, readLoop]
      simp only []
      rw [if_pos hidx, List.length_take, if_pos (by omega), hemp, List.append_nil]
      have : (0 + P - 1) / P = 0 := Nat.div_eq_of_lt (by omega)
      rw [this, Nat.add_zero]
    · have hbuf : (inFile.take P ++ pb.drop (inFile.take P).length).length = P := by
        rw [List.length_append, List.length_take, List.length_drop, hpb]
        omega
      obtain ⟨e1, idx1, hidx1, hdec1, hrun1⟩ := readPageLoop_run rep _ P hP hbuf (P + 1) 0
        (by omega)
      obtain ⟨e2, hdec2, hrun2⟩ := ih (inFile.drop P) _ idx1 hbuf hidx1
        (by rw [List.length_drop]; omega)
      refine ⟨e1 ++ e2, ?_, ?_⟩
      · intro hdiv o ho
        have hge : P ≤ inFile.length := Nat.le_of_dvd (by omega) hdiv
        rcases List.mem_append.mp ho with h1 | h1
        · refine ⟨0, by omega, ?_⟩
          have hpage : filePage inFile P 0 = inFile.take P ++ pb.drop (inFile.take P).length := by
            unfold filePage
            rw [Nat.zero_mul, List.drop_zero, List.length_take, Nat.min_eq_left hge,
              List.drop_of_length_le (by omega), List.append_nil]
          rw [hpage]
          exact hdec1 o h1
        · have hdiv' : P ∣ (inFile.drop P).length := by
            rw [List.length_drop]
            exact (Nat.dvd_sub' hdiv (dvd_refl P))
          obtain ⟨k, hk, hd⟩ := hdec2 hdiv' o h1
          rw [List.length_drop] at hk
          refine ⟨k + 1, ?_, ?_⟩
          · rw [Nat.add_mul, Nat.one_mul]
            omega
          · rw [← filePage_succ]
            exact hd
      · intro more cnt loaded
        rw [Nat.add_right_comm, readLoop]
        simp only []
        rw [if_pos hidx, if_neg (by rw [List.length_take]; omega)]
        have h1 := hrun1 0 loaded
        rw [Nat.add_zero] at h1
        rw [h1, hrun2 more (cnt + 1) (loaded ++ e1), List.append_assoc, List.length_drop]
        have harith : 1 + (inFile.length - P + P - 1) / P = (inFile.length + P - 1) / P := by
          by_cases hle : P ≤ inFile.length
          · have e1 : inFile.length + P - 1 = (inFile.length - 1) + P := by omega
            have e2 : inFile.length - P + P - 1 = inFile.length - 1 := by omega
            rw [e1, e2, Nat.add_div_right _ hP0]
            omega
          · have e1 : inFile.length - P + P - 1 = P - 1 := by omega
            have e2 : (P - 1) / P = 0 := Nat.div_eq_of_lt (by omega)
            have e3 : inFile.length + P - 1 = (inFile.length - 1) + P := by omega
            rw [e1, e2, e3, Nat.add_div_right _ hP0, Nat.div_eq_of_lt (by omega)]
        congr 1
        omega

/-- The reader on any file, for a page size that is a positive `size_t`: both loops end
by themselves (the bounds on the passes of the model are never what stops them, and
larger bounds give the same result), the reader returns, and it has read each page of
the file once, `⌈length / P⌉` reads in all. When the length of the file is a multiple of
`P`, every object returned is decoded from a record that lies inside one page of the
file. -/
theorem reader_run (rep : DoubleRep) (P : Nat) (hP0 : 0 < P) (hP : P < 2 ^ 64)
    (file : List Nat) :
    ∃ objs : List TComplexObject,
      readComplexObjectsFromPagedFile rep (some file) P
        = (objs, (file.length + P - 1) / P) ∧
      (∀ more : Nat,
        readLoop rep P (file.length + 1 + more) file (List.replicate P 0) P 0 []
          = (objs, (file.length + P - 1) / P)) ∧
      (P ∣ file.length →
        ∀ o ∈ objs, ∃ k, k * P < file.length ∧ DecodedIn rep (filePage file P k) o) := by
  obtain ⟨extra, hdec, hrun⟩ := readLoop_run rep P hP0 hP (file.length + 1) file
    (List.replicate P 0) P (List.length_replicate _ _) (Nat.le_refl _) (by omega)
  refine ⟨extra, ?_, ?_, hdec⟩
  · have h := hrun 0 0 []
    rw [Nat.add_zero, List.nil_append, Nat.zero_add] at h
    exact h
  · intro more
    have h := hrun more 0 []
    rw [List.nil_append, Nat.zero_add] at h
    exact h

/-- An object decoded from a record inside a page: the page has at least twenty bytes
from the offset on, and the resolution of the object is the `int` at the offset. -/
theorem DecodedIn_resolution (rep : DoubleRep) (page : List Nat) (o : TComplexObject)
    (h : DecodedIn rep page o) :
    ∃ off, off + 20 ≤ page.length ∧ o.Resolution = decodeInt ((page.drop off).take 4) := by
  obtain ⟨off, n, hle, hU⟩ := h
  have hok : (TComplexObject.Unserialize rep TComplexObject.default (page.drop off) n).1
      = .ok () := by rw [hU]
  obtain ⟨h20, _⟩ := Unserialize_ok_bounds rep _ _ _ hok
  refine ⟨off, by omega, ?_⟩
  obtain ⟨_, hcases⟩ := Unserialize_cases rep TComplexObject.default (page.drop off) n
  rw [hU] at hcases
  rcases hcases with ⟨hlt, _⟩ | ⟨_, h⟩ | ⟨_, _, h⟩ | ⟨_, _, _, hres⟩
  · omega
  · cases h
  · cases h
  · exact hres

/-- C40 at a file whose last page is short. The file has 22 bytes, the record of
`("a", 1, {})` and the byte 2, and is read in pages of 21 bytes. The reader ends after two
page reads. The second read brings one byte and leaves the other twenty bytes of the
buffer as the first page left them; the loop decodes the buffer and returns a second
object, `("a", 2, {})`, which is decoded from no record inside a page of the file: the
second page is the one byte. -/
theorem reader_decodes_stale_bytes :
    fileWithShortLastPage.length = 22 ∧
    filePage fileWithShortLastPage 21 1 = [2] ∧
    readComplexObjectsFromPagedFile wholeRep (some fileWithShortLastPage) 21
      = ([TComplexObject.create [97] 1 [], TComplexObject.create [97] 2 []], 2) ∧
    ∀ k, ¬ DecodedIn wholeRep (filePage fileWithShortLastPage 21 k)
      (TComplexObject.create [97] 2 []) := by
  refine ⟨rfl, rfl, by decide, ?_⟩
  intro k hdec
  obtain ⟨off, hlen, hres⟩ := DecodedIn_resolution wholeRep _ _ hdec
  have hk : k = 0 ∨ k = 1 ∨ 2 ≤ k := by omega
  rcases hk with h | h | h
  · subst h
    have hpage : filePage fileWithShortLastPage 21 0
        = [1, 0, 0, 0] ++ List.replicate 8 0 ++ [1, 0, 0, 0, 0, 0, 0, 0] ++ [97] := rfl
    rw [hpage] at hlen hres
    have hoff : off = 0 ∨ off = 1 := by
      simp only [List.length_append, List.length_cons, List.length_nil,
        List.length_replicate] at hlen
      omega
    rcases hoff with h0 | h0 <;> subst h0 <;> revert hres <;> decide
  · subst h
    have hpage : filePage fileWithShortLastPage 21 1 = [2] := rfl
    rw [hpage] at hlen
    simp only [List.length_cons, List.length_nil] at hlen
    omega
  · have hpage : filePage fileWithShortLastPage 21 k = [] := by
      unfold filePage
      rw [List.drop_of_length_le (by
        have : fileWithShortLastPage.length = 22 := rfl
        rw [this]
        omega)]
      rfl
    rw [hpage] at hlen
    simp only [List.length_nil] at hlen
    omega

/-! ## The distance to the own compression where a sum overflows -/

/-- Inside the range the operations on `IEEEDouble` are those on the rationals. -/
theorem IEEEDouble_finite_ops (x y : ℚ) :
    (|x + y| < 2 ^ 1024 - 2 ^ 970 →
      IEEEDouble.add (IEEEDouble.finite x) (IEEEDouble.finite y) = IEEEDouble.finite (x + y)) ∧
    (|x - y| < 2 ^ 1024 - 2 ^ 970 →
      IEEEDouble.sub (IEEEDouble.finite x) (IEEEDouble.finite y) = IEEEDouble.finite (x - y)) ∧
    IEEEDouble.half (IEEEDouble.finite x) = IEEEDouble.finite (x / 2) ∧
    IEEEDouble.abs (IEEEDouble.finite x) = IEEEDouble.finite |x| := by
  refine ⟨?_, ?_, rfl, rfl⟩
  · intro h
    show IEEEDouble.ofExact (x + y) = _
    unfold IEEEDouble.ofExact
    rw [if_neg (not_le.mpr h)]
  · intro h
    show IEEEDouble.ofExact (x - y) = _
    unfold IEEEDouble.ofExact
    rw [if_neg (not_le.mpr h)]

theorem add_hugePair :
    IEEEDouble.add (IEEEDouble.finite (2 ^ 1023)) (IEEEDouble.finite (2 ^ 1023))
      = IEEEDouble.infinite false := by
  unfold IEEEDouble.add IEEEDouble.ofExact
  norm_num

theorem sub_hugePair :
    IEEEDouble.sub (IEEEDouble.finite (2 ^ 1023)) (IEEEDouble.finite (2 ^ 1023))
      = IEEEDouble.finite 0 := by
  unfold IEEEDouble.sub IEEEDouble.ofExact
  norm_num

theorem compressPairsIEEE_hugePair :
    compressPairsIEEE hugePair.Data 1 [IEEEDouble.finite 0, IEEEDouble.finite 0]
      = .ok [IEEEDouble.infinite false, IEEEDouble.finite 0] := by
  simp [compressPairsIEEE, hugePair, List.range_succ, List.foldlM, readAtIEEE, writeAtIEEE,
    add_hugePair, sub_hugePair, IEEEDouble.half, bind, Except.bind, pure, Except.pure]

/-- One level of compression of `hugePair`: the average of the two elements is `+∞`. -/
theorem dataCompressionIEEE_hugePair :
    dataCompressionIEEE hugePair.Clone 1
      = .ok { Label := [113], Resolution := 1,
              Data := [IEEEDouble.infinite false, IEEEDouble.finite 0],
              Serialized := none } := by
  have happrox : approxSizeAt hugePair.Data.length hugePair.Resolution = 2 := by
    show approxSizeAt 2 0 = 2
    rw [approxSizeAt_of_nonneg 2 0 (le_refl 0)]
    rfl
  have hpairs : compressPairsIEEE hugePair.Data (2 / 2)
      (List.replicate hugePair.Data.length (IEEEDouble.finite 0))
      = .ok [IEEEDouble.infinite false, IEEEDouble.finite 0] := compressPairsIEEE_hugePair
  have hcopy : copyTailIEEE hugePair.Data 2
      [IEEEDouble.infinite false, IEEEDouble.finite 0]
      = .ok [IEEEDouble.infinite false, IEEEDouble.finite 0] := rfl
  have hstep : DoCompressionLoopIEEE 1 hugePair
      (List.replicate hugePair.Data.length (IEEEDouble.finite 0))
      = .ok { Label := [113], Resolution := 1,
              Data := [IEEEDouble.infinite false, IEEEDouble.finite 0],
              Serialized := none } := by
    rw [DoCompressionLoopIEEE]
    simp only [happrox, hpairs, hcopy, bind, Except.bind, DoCompressionLoopIEEE]
    simp [hugePair]
  have hrun : dataCompressionIEEE hugePair.Clone 1
      = DoCompressionLoopIEEE 1 hugePair
          (List.replicate hugePair.Data.length (IEEEDouble.finite 0)) := rfl
  rw [hrun, hstep]

theorem sumOfDiffLoopIEEE_infinite :
    sumOfDiffLoopIEEE [IEEEDouble.infinite false, IEEEDouble.finite 0]
      [IEEEDouble.infinite false, IEEEDouble.finite 0] 1 = .ok IEEEDouble.nan := by
  simp [sumOfDiffLoopIEEE, List.range_succ, List.foldlM, readAtIEEE, IEEEDouble.sub,
    IEEEDouble.abs, IEEEDouble.add, bind, Except.bind, pure, Except.pure]

/-- C9 as stated fails where a pair sum leaves the range of a `double`. The object
`hugePair` is at resolution 0 with two finite elements `2^1023` (the same happens with
`1e308`). One level of compression of a copy computes `(val1 + val2) / 2.0`, where the
sum is `+∞`, and gives `o = ("q", 1, {+∞, 0})`. In `GetDistance2(q, o)` the clone of `q`
is compressed to the same data, the loop computes `|+∞ - +∞|`, and the value returned is
NaN, not 0. -/
theorem distance_to_own_compression_overflows :
    hugePair.Resolution = 0 ∧ 2 ^ 1 ∣ hugePair.Data.length ∧
    dataCompressionIEEE hugePair.Clone 1
      = .ok { Label := [113], Resolution := 1,
              Data := [IEEEDouble.infinite false, IEEEDouble.finite 0],
              Serialized := none } ∧
    GetDistance2IEEE 0 hugePair
        { Label := [113], Resolution := 1,
          Data := [IEEEDouble.infinite false, IEEEDouble.finite 0], Serialized := none }
      = (.ok IEEEDouble.nan, 1) ∧
    IEEEDouble.nan ≠ IEEEDouble.finite 0 := by
  refine ⟨rfl, by decide, dataCompressionIEEE_hugePair, ?_, fun h => by cases h⟩
  have hcomp := dataCompressionIEEE_hugePair
  have hpow : pow2 1 = some 2 := by
    rw [pow2_of_range 1 (by norm_num) (by norm_num)]
    norm_num
  have hfloor : ⌊((2 : ℕ) : ℚ) / 2⌋₊ = 1 := by
    norm_num
  unfold GetDistance2IEEE
  simp only [hugePair, IEEEObject.Clone] at hcomp ⊢
  simp [hcomp, hpow, hfloor, sumOfDiffLoopIEEE_infinite]

end MetricIndex
